import Mathlib

/-! # CircuitSimulator: dense LU solver and forward-mode automatic differentiation

A shallow embedding of `Maths/DynamicMatrix.hpp` (`Matrix`, `LUPair`, `luPair`,
`leftDivide`) and `Maths/AutoDifferentiation.hpp` (`DiffVar` and its elementary
functions), together with the device-model test functions of `AutoDiffTest.cpp`.

Scalars are taken from an exact ordered field `K` instead of `double`, and `abs` is the
absolute value of `K`.  Division is the division of `K`, which Lean completes by
`x / 0 = 0`; the hypotheses `NoZeroPivot` and `Nonsingular` below single out the runs in
which no such division happens.  A `std::vector<T>` is modelled by the function from
index to stored value; loops are modelled by `forLoop`, which applies the loop body once
per index.  The functions of `<cmath>` are a parameter `CMath` of the model.
-/

/-- Square matrices of Mathlib indexed by `Fin n`; named here because `Matrix` below is
the simulator's own dense matrix type. -/
abbrev SqMat (n : Nat) (K : Type) : Type := Matrix (Fin n) (Fin n) K

namespace CircuitSim

/-! ## Loops -/

/-- State after the first `k` iterations of `for (i = lo; ; i++) s = body(i, s)`. -/
def forLoop {σ : Type} (body : Nat → σ → σ) (lo : Nat) : Nat → σ → σ
  | 0, s => s
  | k + 1, s => body (lo + k) (forLoop body lo k s)

/-- The loop `for (i = lo; i < hi; i++) s = body(i, s)`. -/
def forRange {σ : Type} (body : Nat → σ → σ) (lo hi : Nat) (s : σ) : σ :=
  forLoop body lo (hi - lo) s

/-- The effect of `std::swap(d[i], d[j])` on a buffer `d`. -/
def swapAt {α : Type} (d : Nat → α) (i j : Nat) : Nat → α :=
  Function.update (Function.update d i (d j)) j (d i)

/-! ## `Matrix` and `LUPair` (DynamicMatrix.hpp) -/

/-- The struct `Matrix<T>`: a row-major buffer `data` with `M` rows and `N` columns. -/
structure Matrix (K : Type) where
  data : Nat → K
  M : Nat
  N : Nat

/-- The struct `LUPair<T>`. -/
structure LUPair (K : Type) where
  l : Matrix K
  u : Matrix K
  p : Nat → Nat
  M : Nat

namespace Matrix

variable {K : Type}

/-- The constructor `Matrix(M, N, initialValue)`. -/
def mk0 (M N : Nat) (initialValue : K) : Matrix K :=
  { data := fun _ => initialValue, M := M, N := N }

/-- The accessor `operator()(m, n)`, reading `data[m * N + n]`. -/
def get (A : Matrix K) (m n : Nat) : K := A.data (m * A.N + n)

/-- The method `fill`. -/
def fill (A : Matrix K) (fillVal : K) : Matrix K :=
  { A with data := fun _ => fillVal }

/-- The method `rowAddition`: `data[dst * N + n] += scalingFactor * data[src * N + n]`
for every column `n`. -/
def rowAddition [Add K] [Mul K] (A : Matrix K) (destinationRow sourceRow : Nat)
    (scalingFactor : K) : Matrix K :=
  let body := fun (n : Nat) (d : Nat → K) =>
    Function.update d (destinationRow * A.N + n)
      (d (destinationRow * A.N + n) + scalingFactor * d (sourceRow * A.N + n))
  { A with data := forRange body 0 A.N A.data }

/-- The method `swapRows` (`std::swap_ranges` over the two rows). -/
def swapRows (A : Matrix K) (row1 row2 : Nat) : Matrix K :=
  let body := fun (n : Nat) (d : Nat → K) => swapAt d (row1 * A.N + n) (row2 * A.N + n)
  { A with data := forRange body 0 A.N A.data }

end Matrix

/-- The constructor `LUPair(M)`: `l(M, M, 0)`, `u(M, M)`, `p(M)`. -/
def LUPair.new {K : Type} [Zero K] (M : Nat) : LUPair K :=
  { l := Matrix.mk0 M M 0, u := Matrix.mk0 M M 0, p := fun _ => 0, M := M }

namespace Matrix

variable {K : Type} [LinearOrderedField K]

/-- First part of `luPair(dest)`: `dest.u = *this`, `dest.l.fill(0.0)`, then the loop
writing the unit diagonal of `l` and the identity into `p`. -/
def luInit (A : Matrix K) (dest : LUPair K) : LUPair K :=
  let dest := { dest with u := A }
  let dest := { dest with l := dest.l.fill 0 }
  forRange (fun n d =>
      { d with l := { d.l with data := Function.update d.l.data (n * A.N + n) 1 },
               p := Function.update d.p n n })
    0 A.N dest

/-- The search "find largest in column" of `luPair`: the pair `(largestRow, maxV)`
after scanning the rows `r + 1 .. M - 1` of column `r`. -/
def findPivot (A : Matrix K) (dest : LUPair K) (r : Nat) : Nat × K :=
  forRange (fun r2 (st : Nat × K) =>
      if abs (dest.u.data (r2 * A.N + r)) > st.2 then
        (r2, abs (dest.u.data (r2 * A.N + r)))
      else st)
    (r + 1) A.M (r, abs (dest.u.data (r * A.N + r)))

/-- Second part of iteration `r` of `luPair`: swap rows `r` and `largestRow` of `u`, the
entries `r` and `largestRow` of `p`, and the first `r` columns of those rows of `l`. -/
def luSwap (A : Matrix K) (r : Nat) (dest : LUPair K) : LUPair K :=
  let largestRow := (findPivot A dest r).1
  let dest := { dest with u := dest.u.swapRows r largestRow }
  let dest := { dest with p := swapAt dest.p r largestRow }
  let body := fun (n : Nat) (d : Nat → K) => swapAt d (r * A.N + n) (largestRow * A.N + n)
  { dest with l := { dest.l with data := forRange body 0 r dest.l.data } }

/-- Body of the "Gaussian elimination" loop of `luPair` for row `m` and pivot column `r`. -/
def luElimRow (A : Matrix K) (r m : Nat) (dest : LUPair K) : LUPair K :=
  let multiplier := dest.u.data (m * A.N + r) / dest.u.data (r * A.N + r)
  let dest := { dest with u := dest.u.rowAddition m r (-multiplier) }
  { dest with l := { dest.l with data := Function.update dest.l.data (m * A.N + r) multiplier } }

/-- The "Gaussian elimination" loop of iteration `r`: rows `m = r + 1 .. M - 1`. -/
def luElim (A : Matrix K) (r : Nat) (dest : LUPair K) : LUPair K :=
  forRange (luElimRow A r) (r + 1) A.M dest

/-- One iteration `r` of the outer loop of `luPair`. -/
def luStep (A : Matrix K) (r : Nat) (dest : LUPair K) : LUPair K :=
  luElim A r (luSwap A r dest)

/-- State of `dest` after the first `k` iterations of the outer loop of `luPair`. -/
def luAfter (A : Matrix K) (k : Nat) (dest : LUPair K) : LUPair K :=
  forLoop (luStep A) 0 k (luInit A dest)

/-- The method `luPair(dest)`: the outer loop runs for `r = 0 .. M - 2`. -/
def luPairInto (A : Matrix K) (dest : LUPair K) : LUPair K :=
  forRange (luStep A) 0 (A.M - 1) (luInit A dest)

/-- The method `luPair()`. -/
def luPair (A : Matrix K) : LUPair K :=
  luPairInto A (LUPair.new A.M)

/-- The divisor `dest.u.data[r * N + r]` used by the elimination of iteration `r`. -/
def pivot (A : Matrix K) (r : Nat) : K :=
  (luSwap A r (luAfter A r (LUPair.new A.M))).u.data (r * A.N + r)

/-- No iteration of `luPair` divides by a zero pivot. -/
def NoZeroPivot (A : Matrix K) : Prop :=
  ∀ r, r < A.M - 1 → pivot A r ≠ 0

/-- The three-buffer `leftDivide(rhs, lu, scratchSpace, destBegin, destEnd)`: returns the
final contents of `dest`. -/
def leftDivideWith (A : Matrix K) (rhs : Matrix K) (lu : LUPair K)
    (scratchSpace : Nat → K) (dest : Nat → K) : Nat → K :=
  let dest := forRange (fun m d => Function.update d m (rhs.data (lu.p m))) 0 A.M dest
  let scratchSpace := forRange (fun m sc =>
      let val := forRange (fun n v => v - sc n * lu.l.data (m * A.N + n)) 0 m (dest m)
      Function.update sc m (val / lu.l.data (m * A.N + m)))
    0 A.M scratchSpace
  forRange (fun m d =>
      let val := forRange
        (fun n v => v - d (A.M - n - 1) * lu.u.data ((A.M - m - 1) * A.N + A.N - n - 1))
        0 m (scratchSpace (A.M - m - 1))
      Function.update d (A.M - m - 1)
        (val / lu.u.data ((A.M - m - 1) * A.N + A.M - m - 1)))
    0 A.M dest

/-- The method `leftDivide(rhs)`: factor, then substitute into fresh `M x 1` buffers. -/
def leftDivide (A : Matrix K) (rhs : Matrix K) : Matrix K :=
  { data := leftDivideWith A rhs (luPair A) (fun _ => 0) (fun _ => 0), M := A.M, N := 1 }

end Matrix
namespace Matrix

variable {K : Type} [LinearOrderedField K]

/-- The `M x M` entries of a matrix as a Mathlib matrix. -/
def toSq (A : Matrix K) : SqMat A.M K := fun i j => A.get i j

/-- A square matrix is nonsingular when its determinant is nonzero. -/
def Nonsingular (A : Matrix K) : Prop := (toSq A).det ≠ 0

end Matrix

namespace Matrix

/-- The 2 x 2 matrix `myMat` of `test.cpp`, with rows `(1, 1)` and `(1, 2)`. -/
def myMat : Matrix ℚ :=
  { data := fun k => if k = 3 then 2 else 1, M := 2, N := 2 }

/-- A right-hand side for `myMat`: the column `(3, 5)`. -/
def myCol : Matrix ℚ :=
  { data := fun k => if k = 0 then 3 else 5, M := 2, N := 1 }

/-- The singular 2 x 2 matrix with rows `(1, 1)` and `(1, 1)`. -/
def onesMat : Matrix ℚ :=
  { data := fun _ => 1, M := 2, N := 2 }

end Matrix

namespace Matrix

variable {K : Type} [LinearOrderedField K]

/-- Invariant of the outer loop of `luPair` before iteration `k`: `p` is injective into
`0 .. M - 1`, `l` has unit diagonal, zeros above it and zeros below it in the columns
`≥ k`, `u` has zeros below the diagonal in the columns `< k`, and `l * u` is the
row-permuted input. -/
structure LUInv (A : Matrix K) (k : Nat) (lu : LUPair K) : Prop where
  uN : lu.u.N = A.N
  uM : lu.u.M = A.M
  lN : lu.l.N = A.M
  lM : lu.l.M = A.M
  pBound : ∀ i, i < A.M → lu.p i < A.M
  pInj : ∀ i, i < A.M → ∀ j, j < A.M → lu.p i = lu.p j → i = j
  lDiag : ∀ i, i < A.M → lu.l.data (i * A.N + i) = 1
  lOff : ∀ i, i < A.M → ∀ j, j < A.M → i ≠ j → (i < j ∨ k ≤ j) → lu.l.data (i * A.N + j) = 0
  uLow : ∀ i, i < A.M → ∀ j, j < A.M → j < k → j < i → lu.u.data (i * A.N + j) = 0
  prod : ∀ i, i < A.M → ∀ j, j < A.M →
    ∑ t in Finset.range A.M, lu.l.data (i * A.N + t) * lu.u.data (t * A.N + j) =
      A.data (lu.p i * A.N + j)

/-- Invariant of the elimination loop of iteration `r` before row `m` is processed. -/
structure ElimInv (A : Matrix K) (r m : Nat) (lu : LUPair K) : Prop where
  uN : lu.u.N = A.N
  uM : lu.u.M = A.M
  lN : lu.l.N = A.M
  lM : lu.l.M = A.M
  pBound : ∀ i, i < A.M → lu.p i < A.M
  pInj : ∀ i, i < A.M → ∀ j, j < A.M → lu.p i = lu.p j → i = j
  lDiag : ∀ i, i < A.M → lu.l.data (i * A.N + i) = 1
  lOff : ∀ i, i < A.M → ∀ j, j < A.M → i ≠ j → (i < j ∨ r + 1 ≤ j ∨ (j = r ∧ m ≤ i)) →
    lu.l.data (i * A.N + j) = 0
  uLow : ∀ i, i < A.M → ∀ j, j < A.M → j < i → (j < r ∨ (j = r ∧ i < m)) →
    lu.u.data (i * A.N + j) = 0
  prod : ∀ i, i < A.M → ∀ j, j < A.M →
    ∑ t in Finset.range A.M, lu.l.data (i * A.N + t) * lu.u.data (t * A.N + j) =
      A.data (lu.p i * A.N + j)
  zcol : lu.u.data (r * A.N + r) = 0 → ∀ i, m ≤ i → i < A.M → lu.u.data (i * A.N + r) = 0

end Matrix

/-! ## `DiffVar` (AutoDifferentiation.hpp) -/

/-- The functions of `<cmath>` called by the auto-differentiation header and by the device
models.  They belong to the C++ standard library, so the model takes them as a parameter. -/
structure CMath (K : Type) where
  sin : K → K
  cos : K → K
  tan : K → K
  sinh : K → K
  cosh : K → K
  tanh : K → K
  exp : K → K
  log : K → K
  pow : K → K → K

/-- The struct `DiffVar<ValType, NumVars>`: a value and `NumVars` partial derivatives. -/
structure DiffVar (K : Type) (N : Nat) where
  var : K
  diffVars : Fin N → K

namespace AutoDifferentiation

variable {K : Type} [Field K] {N : Nat}

/-- The converting constructor `DiffVar(const OtherValType &)`: the partials stay at their
default `{ 0 }`. -/
def ofScalar (other : K) : DiffVar K N :=
  { var := other, diffVars := fun _ => 0 }

/-- The accessor `operator[]`: position `0` is the value, position `i + 1` is partial `i`. -/
def index (u : DiffVar K N) (i : Fin (N + 1)) : K :=
  Fin.cases u.var u.diffVars i

/-- The member `operator+=(const ThisDiff &)`. -/
def addAssign (u rhs : DiffVar K N) : DiffVar K N :=
  { var := u.var + rhs.var, diffVars := fun i => u.diffVars i + rhs.diffVars i }

/-- The member `operator+=(const OtherValType &)`. -/
def addAssignScalar (u : DiffVar K N) (rhs : K) : DiffVar K N :=
  { var := u.var + rhs, diffVars := u.diffVars }

/-- The member `operator-=(const ThisDiff &)`. -/
def subAssign (u rhs : DiffVar K N) : DiffVar K N :=
  { var := u.var - rhs.var, diffVars := fun i => u.diffVars i - rhs.diffVars i }

/-- The member `operator-=(const OtherValType &)`. -/
def subAssignScalar (u : DiffVar K N) (rhs : K) : DiffVar K N :=
  { var := u.var - rhs, diffVars := u.diffVars }

/-- The member `operator-()`. -/
def neg (u : DiffVar K N) : DiffVar K N :=
  { var := -u.var, diffVars := fun i => -u.diffVars i }

/-- The member `operator*=(const ThisDiff &)`: the partials are updated from the old
value, then `var *= rhs.var`. -/
def mulAssign (u rhs : DiffVar K N) : DiffVar K N :=
  { var := u.var * rhs.var,
    diffVars := fun i => rhs.var * u.diffVars i + u.var * rhs.diffVars i }

/-- The member `operator*=(const OtherValType &)`. -/
def mulAssignScalar (u : DiffVar K N) (rhs : K) : DiffVar K N :=
  { var := u.var * rhs, diffVars := fun i => rhs * u.diffVars i }

/-- The member `operator/=(const ThisDiff &)`. -/
def divAssign (u rhs : DiffVar K N) : DiffVar K N :=
  { var := u.var / rhs.var,
    diffVars := fun i =>
      (rhs.var * u.diffVars i - u.var * rhs.diffVars i) / (rhs.var * rhs.var) }

/-- The member `operator/=(const OtherValType &)`. -/
def divAssignScalar (u : DiffVar K N) (rhs : K) : DiffVar K N :=
  { var := u.var / rhs, diffVars := fun i => u.diffVars i / rhs }

/-- The friend `operator+` on two `DiffVar`s: `lhs += rhs; return lhs`. -/
def add (lhs rhs : DiffVar K N) : DiffVar K N := addAssign lhs rhs

/-- The friend `operator+` on `DiffVar + scalar`: `lhs += rhs; return lhs`. -/
def addScalar (lhs : DiffVar K N) (rhs : K) : DiffVar K N := addAssignScalar lhs rhs

/-- The friend `operator+` on `scalar + DiffVar`: `rhs += lhs; return rhs`. -/
def scalarAdd (lhs : K) (rhs : DiffVar K N) : DiffVar K N := addAssignScalar rhs lhs

/-- The friend `operator-` on two `DiffVar`s: `lhs -= rhs; return lhs`. -/
def sub (lhs rhs : DiffVar K N) : DiffVar K N := subAssign lhs rhs

/-- The friend `operator-` on `DiffVar - scalar`: `lhs -= rhs; return lhs`. -/
def subScalar (lhs : DiffVar K N) (rhs : K) : DiffVar K N := subAssignScalar lhs rhs

/-- The friend `operator-` on `scalar - DiffVar`: `rhs -= lhs; return -rhs`. -/
def scalarSub (lhs : K) (rhs : DiffVar K N) : DiffVar K N := neg (subAssignScalar rhs lhs)

/-- The friend `operator*` on two `DiffVar`s: `lhs *= rhs; return lhs`. -/
def mul (lhs rhs : DiffVar K N) : DiffVar K N := mulAssign lhs rhs

/-- The friend `operator*` on `DiffVar * scalar`: `lhs *= rhs; return lhs`. -/
def mulScalar (lhs : DiffVar K N) (rhs : K) : DiffVar K N := mulAssignScalar lhs rhs

/-- The friend `operator*` on `scalar * DiffVar`: `rhs *= lhs; return rhs`. -/
def scalarMul (lhs : K) (rhs : DiffVar K N) : DiffVar K N := mulAssignScalar rhs lhs

/-- The friend `operator/` on `scalar / DiffVar`: the scalar is converted with
`static_cast< ThisDiff >`, then `lhsDiff /= rhs`. -/
def scalarDiv (lhs : K) (rhs : DiffVar K N) : DiffVar K N := divAssign (ofScalar lhs) rhs

/-- The friend `operator/` on `DiffVar / scalar`: `lhs /= rhs; return lhs`. -/
def divScalar (lhs : DiffVar K N) (rhs : K) : DiffVar K N := divAssignScalar lhs rhs

instance : Add (DiffVar K N) := ⟨add⟩
instance : HAdd (DiffVar K N) K (DiffVar K N) := ⟨addScalar⟩
instance : HAdd K (DiffVar K N) (DiffVar K N) := ⟨scalarAdd⟩
instance : Sub (DiffVar K N) := ⟨sub⟩
instance : HSub (DiffVar K N) K (DiffVar K N) := ⟨subScalar⟩
instance : HSub K (DiffVar K N) (DiffVar K N) := ⟨scalarSub⟩
instance : Neg (DiffVar K N) := ⟨neg⟩
instance : Mul (DiffVar K N) := ⟨mul⟩
instance : HMul (DiffVar K N) K (DiffVar K N) := ⟨mulScalar⟩
instance : HMul K (DiffVar K N) (DiffVar K N) := ⟨scalarMul⟩
instance : HDiv K (DiffVar K N) (DiffVar K N) := ⟨scalarDiv⟩
instance : HDiv (DiffVar K N) K (DiffVar K N) := ⟨divScalar⟩

/-- The function template `diffFunc`: value `func(arg.var)`, partials
`arg.diffVars[i] * deriv(arg.var)`. -/
def diffFunc (arg : DiffVar K N) (func deriv : K → K) : DiffVar K N :=
  let derivEval := deriv arg.var
  { var := func arg.var, diffVars := fun i => arg.diffVars i * derivEval }

/-- The overload `sin`. -/
def sin (F : CMath K) (arg : DiffVar K N) : DiffVar K N :=
  diffFunc arg (fun v => F.sin v) (fun v => F.cos v)

/-- The overload `cos`. -/
def cos (F : CMath K) (arg : DiffVar K N) : DiffVar K N :=
  diffFunc arg (fun v => F.cos v) (fun v => -F.sin v)

/-- The overload `tan`. -/
def tan (F : CMath K) (arg : DiffVar K N) : DiffVar K N :=
  diffFunc arg (fun v => F.tan v) (fun v => 1 / (F.cos v * F.cos v))

/-- The overload `sinh`. -/
def sinh (F : CMath K) (arg : DiffVar K N) : DiffVar K N :=
  diffFunc arg (fun v => F.sinh v) (fun v => F.cosh v)

/-- The overload `cosh`. -/
def cosh (F : CMath K) (arg : DiffVar K N) : DiffVar K N :=
  diffFunc arg (fun v => F.cosh v) (fun v => F.sinh v)

/-- The overload `tanh`. -/
def tanh (F : CMath K) (arg : DiffVar K N) : DiffVar K N :=
  diffFunc arg (fun v => F.tanh v) (fun v => 1 / (F.cosh v * F.cosh v))

/-- The overload `exp`. -/
def exp (F : CMath K) (arg : DiffVar K N) : DiffVar K N :=
  let derivEval := F.exp arg.var
  { var := derivEval, diffVars := fun i => arg.diffVars i * derivEval }

/-- The overload `pow(arg, exponent)` with a scalar exponent. -/
def pow (F : CMath K) (arg : DiffVar K N) (exponent : K) : DiffVar K N :=
  diffFunc arg (fun v => F.pow v exponent) (fun v => exponent * F.pow v (exponent - 1))

/-- The overload `pow(arg, exponent)` with a `DiffVar` exponent. -/
def powVar (F : CMath K) (arg exponent : DiffVar K N) : DiffVar K N :=
  let func := fun (v exponent : K) => F.pow v exponent
  let deriv := fun (f fPrime g gPrime : K) =>
    F.pow f (g - 1) * (g * fPrime + f * F.log f * gPrime)
  { var := func arg.var exponent.var,
    diffVars := fun i => deriv arg.var (arg.diffVars i) exponent.var (exponent.diffVars i) }

/-- The overload `sqrt`: the value is `std::pow(arg.var, 0.5)`. -/
def sqrt (F : CMath K) (arg : DiffVar K N) : DiffVar K N :=
  let funcResult := F.pow arg.var 0.5
  let derivEval := 0.5 / funcResult
  { var := funcResult, diffVars := fun i => arg.diffVars i * derivEval }

end AutoDifferentiation

/-! ## Device models (AutoDiffTest.cpp, BJT.hpp, NLCurrentSource.hpp) -/

/-- The struct `BJTResults<T>`. -/
structure BJTResults (K : Type) where
  g_ee : K
  g_ec : K
  g_ce : K
  g_cc : K
  I_e : K
  I_c : K

/-- The struct `TransistorTestResult<T>`. -/
structure TransistorTestResult (K : Type) where
  var : K
  diff1 : K
  diff2 : K

section Devices

variable {K : Type} [Field K]

open AutoDifferentiation

/-- The function `testBJTModelControl`: hand-derived Ebers-Moll quantities. -/
def testBJTModelControl (F : CMath K) (base_v_be base_v_bc : K) : BJTResults K :=
  let alpha_f : K := 0.99
  let alpha_r : K := 0.02
  let I_es : K := 2e-14
  let V_Te : K := 26e-3
  let I_cs : K := 99e-14
  let V_Tc : K := 26e-3
  let control_v_be := base_v_be
  let control_v_bc := base_v_bc
  let control_i_e := -I_es * (F.exp (control_v_be / V_Te) - 1) +
    alpha_r * I_cs * (F.exp (control_v_bc / V_Tc) - 1)
  let control_i_c := alpha_f * I_es * (F.exp (control_v_be / V_Te) - 1) -
    I_cs * (F.exp (control_v_bc / V_Tc) - 1)
  let control_g_ee := (I_es / V_Te) * F.exp (control_v_be / V_Te)
  let control_g_ec := alpha_r * (I_cs / V_Tc) * F.exp (control_v_bc / V_Tc)
  let control_g_ce := alpha_f * (I_es / V_Te) * F.exp (control_v_be / V_Te)
  let control_g_cc := (I_cs / V_Tc) * F.exp (control_v_bc / V_Tc)
  let control_I_e := control_i_e + control_g_ee * control_v_be - control_g_ec * control_v_bc
  let control_I_c := control_i_c - control_g_ce * control_v_be + control_g_cc * control_v_bc
  { g_ee := control_g_ee, g_ec := control_g_ec, g_ce := control_g_ce, g_cc := control_g_cc,
    I_e := control_I_e, I_c := control_I_c }

/-- The function `testBJTModelAutoDiff`: the same quantities read off `DiffVar<T, 2>`
evaluations of the emitter and collector currents. -/
def testBJTModelAutoDiff (F : CMath K) (base_v_be base_v_bc : K) : BJTResults K :=
  let alpha_f : K := 0.99
  let alpha_r : K := 0.02
  let I_es : K := 2e-14
  let V_Te : K := 26e-3
  let I_cs : K := 99e-14
  let V_Tc : K := 26e-3
  let ad_v_be : DiffVar K 2 := ⟨base_v_be, ![1, 0]⟩
  let ad_v_bc : DiffVar K 2 := ⟨base_v_bc, ![0, 1]⟩
  let ad_i_e : DiffVar K 2 := (-I_es) * (exp F (ad_v_be / V_Te) - (1 : K)) +
    (alpha_r * I_cs) * (exp F (ad_v_bc / V_Tc) - (1 : K))
  let ad_i_c : DiffVar K 2 := (alpha_f * I_es) * (exp F (ad_v_be / V_Te) - (1 : K)) -
    I_cs * (exp F (ad_v_bc / V_Tc) - (1 : K))
  let ad_g_ee := -index ad_i_e 1
  let ad_g_ec := index ad_i_e 2
  let ad_g_ce := index ad_i_c 1
  let ad_g_cc := -index ad_i_c 2
  let ad_I_e := index ad_i_e 0 + ad_g_ee * index ad_v_be 0 - ad_g_ec * index ad_v_bc 0
  let ad_I_c := index ad_i_c 0 - ad_g_ce * index ad_v_be 0 + ad_g_cc * index ad_v_bc 0
  { g_ee := ad_g_ee, g_ec := ad_g_ec, g_ce := ad_g_ce, g_cc := ad_g_cc,
    I_e := ad_I_e, I_c := ad_I_c }

/-- The Norton quantities computed by `BJTN::addNonLinearStampTo` from the (already
clamped) junction voltages, with the default members `alpha_f = 0.99`, `alpha_r = 0.02`. -/
def BJTN.nortonValues (F : CMath K) (v_be v_bc : K) : BJTResults K :=
  let alpha_f : K := 0.99
  let alpha_r : K := 0.02
  let I_es : K := 2e-14
  let V_Te : K := 26e-3
  let I_cs : K := 99e-14
  let V_Tc : K := 26e-3
  let i_e := -I_es * (F.exp (v_be / V_Te) - 1) + alpha_r * I_cs * (F.exp (v_bc / V_Tc) - 1)
  let i_c := alpha_f * I_es * (F.exp (v_be / V_Te) - 1) - I_cs * (F.exp (v_bc / V_Tc) - 1)
  let g_ee := (I_es / V_Te) * F.exp (v_be / V_Te)
  let g_ec := alpha_r * (I_cs / V_Tc) * F.exp (v_bc / V_Tc)
  let g_ce := alpha_f * (I_es / V_Te) * F.exp (v_be / V_Te)
  let g_cc := (I_cs / V_Tc) * F.exp (v_bc / V_Tc)
  let I_e := i_e + g_ee * v_be - g_ec * v_bc
  let I_c := i_c - g_ce * v_be + g_cc * v_bc
  { g_ee := g_ee, g_ec := g_ec, g_ce := g_ce, g_cc := g_cc, I_e := I_e, I_c := I_c }

/-- The local `Vgst` of `transistorTestControl`. -/
def transistorVgst (V_gs V_ds : K) : K :=
  let beta0 : K := 0.42
  let gamma : K := 0.0005
  let Vto : K := -2.4
  let beta := beta0
  V_gs - (1 + beta * beta) * Vto + gamma * V_ds

/-- The local `Veff` of `transistorTestControl`, the effective voltage. -/
def transistorVeff (F : CMath K) (V_gs V_ds : K) : K :=
  let delta : K := 0.3
  let Vgst := transistorVgst V_gs V_ds
  0.5 * (Vgst + F.pow (F.pow Vgst 2 + delta * delta) 0.5)

/-- The function `transistorTestControl`: closed-form COBRA drain current and its two
partial derivatives. -/
def transistorTestControl (F : CMath K) (V_gs_in V_ds_in : K) : TransistorTestResult K :=
  let alpha : K := 1.3
  let beta0 : K := 0.42
  let gamma : K := 0.0005
  let delta : K := 0.3
  let xi : K := 0.06
  let lambda : K := 1.5
  let mu : K := 0.0
  let zeta : K := 0.18
  let V_gs := V_gs_in
  let V_ds := V_ds_in
  let beta := beta0
  let Vgst := transistorVgst V_gs V_ds
  let Veff := transistorVeff F V_gs V_ds
  let power := lambda / (1 + mu * F.pow V_ds 2 + xi * Veff)
  let area := alpha * V_ds * (1 + zeta * Veff)
  let f1 := F.tanh area
  let Ids_lim := beta * F.pow Veff power
  let Idrain := Ids_lim * f1
  let dVeff_dVgs := 0.5 * (1 + Vgst * F.pow (Vgst * Vgst + delta * delta) (-0.5))
  let dpower_dVgs := -lambda * xi * dVeff_dVgs * F.pow (power / lambda) 2
  let df_dVgs := F.pow (1 / F.cosh area) 2 * alpha * V_ds * zeta * dVeff_dVgs
  let diff1 := Idrain * (power * (dVeff_dVgs / Veff) + F.log Veff * dpower_dVgs) +
    Ids_lim * df_dVgs
  let dVeff_dVds := 0.5 * (gamma + F.pow (Vgst * Vgst + delta * delta) (-0.5) * Vgst * gamma)
  let dpower_dVds := -lambda * (2 * mu * V_ds + xi * dVeff_dVds) * F.pow (power / lambda) 2
  let df_dVds := F.pow (1 / F.cosh area) 2 * alpha * (1 + zeta * (V_ds * dVeff_dVds + Veff))
  let diff2 := Idrain * (power * (dVeff_dVds / Veff) + F.log Veff * dpower_dVds) +
    Ids_lim * df_dVds
  { var := Idrain, diff1 := diff1, diff2 := diff2 }

/-- The function `transistorTestAudoDiff`: the COBRA drain current evaluated on
`DiffVar<T, 2>`. -/
def transistorTestAudoDiff (F : CMath K) (V_gs_in V_ds_in : K) : DiffVar K 2 :=
  let alpha : K := 1.3
  let beta0 : K := 0.42
  let gamma : K := 0.0005
  let delta : K := 0.3
  let xi : K := 0.06
  let lambda : K := 1.5
  let mu : K := 0.0
  let zeta : K := 0.18
  let Vto : K := -2.4
  let V_gs : DiffVar K 2 := ⟨V_gs_in, ![1, 0]⟩
  let V_ds : DiffVar K 2 := ⟨V_ds_in, ![0, 1]⟩
  let beta := beta0
  let Vgst : DiffVar K 2 := V_gs - (1 + beta * beta) * Vto + gamma * V_ds
  let Veff : DiffVar K 2 := (0.5 : K) * (Vgst + sqrt F (pow F Vgst 2 + delta * delta))
  let power : DiffVar K 2 := lambda / ((1 : K) + mu * pow F V_ds 2 + xi * Veff)
  let area : DiffVar K 2 := alpha * V_ds * ((1 : K) + zeta * Veff)
  let f1 := tanh F area
  let Ids_lim : DiffVar K 2 := beta * powVar F Veff power
  Ids_lim * f1

/-- The drain-current expression `Idrain` of `NLCurrentSource::addNonLinearStampTo`, from
the controlling voltages `r1` and `r2`. -/
def NLCurrentSource.Idrain (F : CMath K) (r1 r2 : K) : DiffVar K 2 :=
  let alpha : K := 1.3
  let beta0 : K := 0.42
  let gamma : K := 0.0005
  let delta : K := 0.3
  let xi : K := 0.06
  let lambda : K := 1.5
  let mu : K := 0.0
  let zeta : K := 0.18
  let Vto : K := -2.4
  let V_gs : DiffVar K 2 := ⟨r1, ![1, 0]⟩
  let V_ds : DiffVar K 2 := ⟨r2, ![0, 1]⟩
  let beta := beta0
  let Vgst : DiffVar K 2 := V_gs - (1 + beta * beta) * Vto + gamma * V_ds
  let Veff : DiffVar K 2 := (0.5 : K) * (Vgst + sqrt F (pow F Vgst 2 + delta * delta))
  let power : DiffVar K 2 := lambda / ((1 : K) + mu * pow F V_ds 2 + xi * Veff)
  let area : DiffVar K 2 := alpha * V_ds * ((1 : K) + zeta * Veff)
  let f1 := tanh F area
  let Ids_lim : DiffVar K 2 := beta * powVar F Veff power
  let Idrain := Ids_lim * f1
  Idrain

end Devices

/-- The laws of exponentiation that `std::pow` obeys in exact arithmetic and that relate
the two ways the transistor test writes its powers. -/
structure PowLaws {K : Type} [LinearOrderedField K] (F : CMath K) : Prop where
  pow_one : ∀ x, F.pow x 1 = x
  pow_two : ∀ x, F.pow x 2 = x * x
  pow_neg : ∀ x y, 0 < x → F.pow x (-y) = 1 / F.pow x y
  pow_sub_one : ∀ x y, 0 < x → F.pow x (y - 1) = F.pow x y / x


/-! ## `Stamp` (Component.hpp) -/

namespace Matrix

variable {K : Type} [LinearOrderedField K]

/-- The update `A(m, n) += v` through `operator()(m, n)`. -/
def addAt (A : Matrix K) (m n : Nat) (v : K) : Matrix K :=
  { A with data := Function.update A.data (m * A.N + n) (A.data (m * A.N + n) + v) }

/-- The method `add(rhs, dest)`: `dest.data[m * N + n] = data[m * N + n] + rhs.data[m * N + n]`
for every row `m` and column `n`.  `Stamp::add` passes the receiver itself as `dest`; every
index is read before its only write, so reading the receiver's original data gives the same
result. -/
def add (A rhs dest : Matrix K) : Matrix K :=
  let body := fun (m n : Nat) (d : Nat → K) =>
    Function.update d (m * A.N + n) (A.data (m * A.N + n) + rhs.data (m * A.N + n))
  { dest with data := forRange (fun m d => forRange (body m) 0 A.N d) 0 A.M dest.data }

end Matrix

/-- The struct `Stamp<T>`: the MNA matrix `G` and source vector `s`. -/
structure Stamp (K : Type) where
  sizeG_A : Nat
  sizeG_D : Nat
  G : Matrix K
  s : Matrix K

namespace Stamp

variable {K : Type} [LinearOrderedField K]

/-- The constructor `Stamp(sizeG_A, sizeG_D)`. -/
def new (sizeG_A sizeG_D : Nat) : Stamp K :=
  { sizeG_A := sizeG_A, sizeG_D := sizeG_D,
    G := Matrix.mk0 (sizeG_A + sizeG_D) (sizeG_A + sizeG_D) 0,
    s := Matrix.mk0 (sizeG_A + sizeG_D) 1 0 }

/-- The method `clear`. -/
def clear (st : Stamp K) : Stamp K :=
  { st with G := st.G.fill 0, s := st.s.fill 0 }

/-- The method `add(rhs)`: `G.add(rhs.G, G); s.add(rhs.s, s)`. -/
def add (st rhs : Stamp K) : Stamp K :=
  { st with G := st.G.add rhs.G st.G, s := st.s.add rhs.s st.s }

/-- The statement `stamp.G(m, n) += v`. -/
def addG (st : Stamp K) (m n : Nat) (v : K) : Stamp K :=
  { st with G := st.G.addAt m n v }

/-- The statement `stamp.s(m, 0) += v`. -/
def addS (st : Stamp K) (m : Nat) (v : K) : Stamp K :=
  { st with s := st.s.addAt m 0 v }

end Stamp

/-! ## Linear elements (Resistor.hpp, CurrentSource.hpp, VoltageSource.hpp, Capacitor.hpp,
Inductor.hpp) -/

section Elements

variable {K : Type} [LinearOrderedField K]

/-- The branch voltage read by every two-terminal element:
`u = 0; if (n1) u = sol(n1 - 1, col); if (n2) u -= sol(n2 - 1, col);`. -/
def branchVoltage (solutionMatrix : Matrix K) (n1 n2 col : Nat) : K :=
  let u : K := 0
  let u := if n1 ≠ 0 then solutionMatrix.get (n1 - 1) col else u
  let u := if n2 ≠ 0 then u - solutionMatrix.get (n2 - 1) col else u
  u

/-- The struct `Resistor<T>`. -/
structure Resistor (K : Type) where
  value : K
  n1 : Nat
  n2 : Nat
  currentIndex : Nat
  group1 : Bool

/-- The method `Resistor::addStaticStampTo`. -/
def Resistor.addStaticStampTo (r : Resistor K) (stamp : Stamp K) : Stamp K :=
  let n1p := r.n1 - 1
  let n2p := r.n2 - 1
  let currentIndexp := r.currentIndex - 1
  if r.group1 then
    let conductance := 1 / r.value
    let stamp := if r.n1 ≠ 0 then stamp.addG n1p n1p conductance else stamp
    let stamp := if r.n2 ≠ 0 then stamp.addG n2p n2p conductance else stamp
    let stamp := if r.n1 ≠ 0 ∧ r.n2 ≠ 0 then
        (stamp.addG n1p n2p (-conductance)).addG n2p n1p (-conductance)
      else stamp
    stamp
  else
    let stamp := if r.n1 ≠ 0 then
        (stamp.addG n1p (stamp.sizeG_A + currentIndexp) 1).addG
          (stamp.sizeG_A + currentIndexp) n1p 1
      else stamp
    let stamp := if r.n2 ≠ 0 then
        (stamp.addG n2p (stamp.sizeG_A + currentIndexp) (-1)).addG
          (stamp.sizeG_A + currentIndexp) n2p (-1)
      else stamp
    stamp.addG (stamp.sizeG_A + currentIndexp) (stamp.sizeG_A + currentIndexp) (-r.value)

/-- The struct `CurrentSource<T>`. -/
structure CurrentSource (K : Type) where
  value : K
  n1 : Nat
  n2 : Nat

/-- The method `CurrentSource::addStaticStampTo`. -/
def CurrentSource.addStaticStampTo (c : CurrentSource K) (stamp : Stamp K) : Stamp K :=
  let n1p := c.n1 - 1
  let n2p := c.n2 - 1
  let stamp := if c.n1 ≠ 0 then stamp.addS n1p (-c.value) else stamp
  let stamp := if c.n2 ≠ 0 then stamp.addS n2p c.value else stamp
  stamp

/-- The struct `VoltageSource<T>`. -/
structure VoltageSource (K : Type) where
  value : K
  n1 : Nat
  n2 : Nat
  currentIndex : Nat

/-- The method `VoltageSource::addStaticStampTo`. -/
def VoltageSource.addStaticStampTo (v : VoltageSource K) (stamp : Stamp K) : Stamp K :=
  let n1p := v.n1 - 1
  let n2p := v.n2 - 1
  let currentIndexp := v.currentIndex - 1
  let stamp := if v.n1 ≠ 0 then
      (stamp.addG n1p (stamp.sizeG_A + currentIndexp) 1).addG
        (stamp.sizeG_A + currentIndexp) n1p 1
    else stamp
  let stamp := if v.n2 ≠ 0 then
      (stamp.addG n2p (stamp.sizeG_A + currentIndexp) (-1)).addG
        (stamp.sizeG_A + currentIndexp) n2p (-1)
    else stamp
  stamp.addS (stamp.sizeG_A + currentIndexp) v.value

/-- The struct `Capacitor<T>`; a new capacitor has `lastCurrent = 0` and
`trapezoidalRule = true`. -/
structure Capacitor (K : Type) where
  value : K
  n1 : Nat
  n2 : Nat
  lastCurrent : K
  trapezoidalRule : Bool

/-- The method `Capacitor::addDynamicStampTo`. -/
def Capacitor.addDynamicStampTo (c : Capacitor K) (stamp : Stamp K)
    (solutionMatrix : Matrix K) (currentSolutionIndex : Nat) (timestep : K) : Stamp K :=
  let n1p := c.n1 - 1
  let n2p := c.n2 - 1
  let u0 := branchVoltage solutionMatrix c.n1 c.n2 (currentSolutionIndex - 1)
  let G_eq := if c.trapezoidalRule then 2 * c.value / timestep else c.value / timestep
  let I_eq := if c.trapezoidalRule then c.lastCurrent + G_eq * u0
    else c.value * u0 / timestep
  let stamp := if c.n1 ≠ 0 then (stamp.addG n1p n1p G_eq).addS n1p I_eq else stamp
  let stamp := if c.n2 ≠ 0 then (stamp.addG n2p n2p G_eq).addS n2p (-I_eq) else stamp
  let stamp := if c.n1 ≠ 0 ∧ c.n2 ≠ 0 then
      (stamp.addG n1p n2p (-G_eq)).addG n2p n1p (-G_eq)
    else stamp
  stamp

/-- The method `Capacitor::updateStoredState`. -/
def Capacitor.updateStoredState (c : Capacitor K) (solutionMatrix : Matrix K)
    (currentSolutionIndex : Nat) (timestep : K) (_sizeG_A : Nat) : Capacitor K :=
  if c.trapezoidalRule then
    let u0 := branchVoltage solutionMatrix c.n1 c.n2 (currentSolutionIndex - 1)
    let u1 := branchVoltage solutionMatrix c.n1 c.n2 currentSolutionIndex
    let G_eq := 2 * c.value / timestep
    { c with lastCurrent := G_eq * u1 - (c.lastCurrent + G_eq * u0) }
  else c

/-- The method `Capacitor::addDCAnalysisStampTo`: an open circuit with a small
self-conductance. -/
def Capacitor.addDCAnalysisStampTo (c : Capacitor K) (stamp : Stamp K)
    (_solutionVector : Matrix K) (_numCurrents : Nat) : Stamp K :=
  let stamp := if 0 < c.n1 then stamp.addG (c.n1 - 1) (c.n1 - 1) 1e-9 else stamp
  let stamp := if 0 < c.n2 then stamp.addG (c.n2 - 1) (c.n2 - 1) 1e-9 else stamp
  stamp

/-- The struct `Inductor<T>`; a new inductor has `lastCurrent = 0` and
`trapezoidalRule = true`, and `addToElements` gives it `dcCurrentIndex >= 1`. -/
structure Inductor (K : Type) where
  value : K
  n1 : Nat
  n2 : Nat
  lastCurrent : K
  dcCurrentIndex : Nat
  trapezoidalRule : Bool

/-- The method `Inductor::addDynamicStampTo`. -/
def Inductor.addDynamicStampTo (l : Inductor K) (stamp : Stamp K)
    (solutionMatrix : Matrix K) (currentSolutionIndex : Nat) (timestep : K) : Stamp K :=
  let n1p := l.n1 - 1
  let n2p := l.n2 - 1
  let u0 := branchVoltage solutionMatrix l.n1 l.n2 (currentSolutionIndex - 1)
  let G_eq := if l.trapezoidalRule then timestep / (2 * l.value) else timestep / timestep
  let I_eq := if l.trapezoidalRule then l.lastCurrent + G_eq * u0 else l.lastCurrent
  let stamp := if l.n1 ≠ 0 then (stamp.addG n1p n1p G_eq).addS n1p (-I_eq) else stamp
  let stamp := if l.n2 ≠ 0 then (stamp.addG n2p n2p G_eq).addS n2p I_eq else stamp
  let stamp := if l.n1 ≠ 0 ∧ l.n2 ≠ 0 then
      (stamp.addG n1p n2p (-G_eq)).addG n2p n1p (-G_eq)
    else stamp
  stamp

/-- The method `Inductor::updateStoredState`. -/
def Inductor.updateStoredState (l : Inductor K) (solutionMatrix : Matrix K)
    (currentSolutionIndex : Nat) (timestep : K) (_sizeG_A : Nat) : Inductor K :=
  let u0 := branchVoltage solutionMatrix l.n1 l.n2 (currentSolutionIndex - 1)
  let u1 := branchVoltage solutionMatrix l.n1 l.n2 currentSolutionIndex
  if l.trapezoidalRule then
    let G_eq := timestep / (2 * l.value)
    { l with lastCurrent := G_eq * u1 + (l.lastCurrent + G_eq * u0) }
  else
    let G_eq := timestep / l.value
    { l with lastCurrent := G_eq * u1 + l.lastCurrent }

/-- The method `Inductor::updateDCStoredState`. -/
def Inductor.updateDCStoredState (l : Inductor K) (solutionVector : Matrix K)
    (sizeG_A numCurrents : Nat) : Inductor K :=
  { l with lastCurrent := solutionVector.get (sizeG_A + numCurrents + l.dcCurrentIndex - 1) 0 }

/-- The method `Inductor::addDCAnalysisStampTo`: a short circuit through the inductor's
DC-only current unknown. -/
def Inductor.addDCAnalysisStampTo (l : Inductor K) (stamp : Stamp K)
    (_solutionVector : Matrix K) (numCurrents : Nat) : Stamp K :=
  let n1p := l.n1 - 1
  let n2p := l.n2 - 1
  let dcCurrentIndexp := l.dcCurrentIndex - 1
  let stamp := if 0 < l.n1 then
      (stamp.addG n1p (stamp.sizeG_A + numCurrents + dcCurrentIndexp) 1).addG
        (stamp.sizeG_A + numCurrents + dcCurrentIndexp) n1p 1
    else stamp
  let stamp := if 0 < l.n2 then
      (stamp.addG n2p (stamp.sizeG_A + numCurrents + dcCurrentIndexp) (-1)).addG
        (stamp.sizeG_A + numCurrents + dcCurrentIndexp) n2p (-1)
    else stamp
  stamp

end Elements

/-- A stamping operation is additive when it keeps the sizes of the stamp and its effect on
the buffers of `G` and `s` is to add what it writes into the cleared stamp. -/
def Stamp.Additive {K : Type} [LinearOrderedField K] (f : Stamp K → Stamp K) : Prop :=
  ∀ S : Stamp K,
    (f S).sizeG_A = S.sizeG_A ∧ (f S).sizeG_D = S.sizeG_D ∧
    (f S).G.M = S.G.M ∧ (f S).G.N = S.G.N ∧ (f S).s.M = S.s.M ∧ (f S).s.N = S.s.N ∧
    (∀ k, (f S).G.data k = S.G.data k + (f S.clear).G.data k) ∧
    (∀ k, (f S).s.data k = S.s.data k + (f S.clear).s.data k)

/-! ## Non-linear elements (Diode.hpp, BJT.hpp, NLNMOS.hpp, NLCapacitor.hpp,
NLCurrentSource.hpp) -/

section NonLinearElements

variable {K : Type} [LinearOrderedField K]

/-- The body of the base-class methods `Component::addNonLinearStampTo` and
`Component::addDCAnalysisStampTo`: `throw std::exception("not implemented")`. -/
def Component.notImplemented : Except String (Stamp K) :=
  Except.error "not implemented"

/-- The struct `Diode<T>`; the member `V_crit` is a field of the model. -/
structure Diode (K : Type) where
  n1 : Nat
  n2 : Nat
  V_crit : K

/-- The constant member `Diode::I_sat`. -/
def Diode.I_sat : K := 2.52e-9

/-- The constant member `Diode::V_T`. -/
def Diode.V_T : K := 25.8563e-3

/-- The constant member `Diode::eta`. -/
def Diode.eta : K := 2

/-- The junction voltage of `Diode::addNonLinearStampTo` after `v = std::min(V_crit, v)`. -/
def Diode.clampedVoltage (d : Diode K) (solutionMatrix : Matrix K)
    (currentSolutionIndex : Nat) : K :=
  let v := branchVoltage solutionMatrix d.n1 d.n2 currentSolutionIndex
  min d.V_crit v

/-- The method `Diode::addNonLinearStampTo`. -/
def Diode.addNonLinearStampTo (F : CMath K) (d : Diode K) (stamp : Stamp K)
    (solutionMatrix : Matrix K) (currentSolutionIndex : Nat) (_timestep : K) : Stamp K :=
  let n1p := d.n1 - 1
  let n2p := d.n2 - 1
  let v := d.clampedVoltage solutionMatrix currentSolutionIndex
  let G_eq := (Diode.I_sat / (Diode.eta * Diode.V_T)) * F.exp (v / (Diode.eta * Diode.V_T))
  let I_eq := Diode.I_sat * (F.exp (v / (Diode.eta * Diode.V_T)) - 1) - G_eq * v
  let stamp := if 0 < d.n1 then (stamp.addG n1p n1p G_eq).addS n1p (-I_eq) else stamp
  let stamp := if 0 < d.n2 then (stamp.addG n2p n2p G_eq).addS n2p I_eq else stamp
  let stamp := if 0 < d.n1 ∧ 0 < d.n2 then
      (stamp.addG n1p n2p (-G_eq)).addG n2p n1p (-G_eq)
    else stamp
  stamp

/-- The method `Diode::addDCAnalysisStampTo`. -/
def Diode.addDCAnalysisStampTo (F : CMath K) (d : Diode K) (stamp : Stamp K)
    (solutionVector : Matrix K) (_numCurrents : Nat) : Except String (Stamp K) :=
  Except.ok (d.addNonLinearStampTo F stamp solutionVector 0 0)

/-- The structs `BJTN<T>` and `BJTP<T>` have the same members; `alpha_f`, `alpha_r` and the
four constants keep their initial values, the critical voltages are fields of the model. -/
structure BJT (K : Type) where
  c : Nat
  b : Nat
  e : Nat
  V_bc_crit : K
  V_be_crit : K

/-- The junction voltages `(v_be, v_bc)` read by `BJTN::addNonLinearStampTo` and
`BJTP::addNonLinearStampTo` before clamping. -/
def BJT.junctionVoltages (q : BJT K) (solutionMatrix : Matrix K)
    (currentSolutionIndex : Nat) : K × K :=
  let bp := q.b - 1
  let cp := q.c - 1
  let ep := q.e - 1
  let v_be : K := 0
  let v_bc : K := 0
  let v_be := if 0 < q.b then solutionMatrix.get bp currentSolutionIndex else v_be
  let v_bc := if 0 < q.b then solutionMatrix.get bp currentSolutionIndex else v_bc
  let v_be := if 0 < q.e then v_be - solutionMatrix.get ep currentSolutionIndex else v_be
  let v_bc := if 0 < q.c then v_bc - solutionMatrix.get cp currentSolutionIndex else v_bc
  (v_be, v_bc)

/-- The junction voltages of `BJTN::addNonLinearStampTo` after
`v = std::min(V_crit, v)`. -/
def BJTN.clampedVoltages (q : BJT K) (solutionMatrix : Matrix K)
    (currentSolutionIndex : Nat) : K × K :=
  let v := q.junctionVoltages solutionMatrix currentSolutionIndex
  (min q.V_be_crit v.1, min q.V_bc_crit v.2)

/-- The method `BJTN::addNonLinearStampTo`. -/
def BJTN.addNonLinearStampTo (F : CMath K) (q : BJT K) (stamp : Stamp K)
    (solutionMatrix : Matrix K) (currentSolutionIndex : Nat) (_timestep : K) : Stamp K :=
  let bp := q.b - 1
  let cp := q.c - 1
  let ep := q.e - 1
  let v := BJTN.clampedVoltages q solutionMatrix currentSolutionIndex
  let r := BJTN.nortonValues F v.1 v.2
  let stamp := if 0 < q.e then
      let stamp := (stamp.addG ep ep r.g_ee).addS ep (-r.I_e)
      let stamp := if 0 < q.c then stamp.addG ep cp (-r.g_ec) else stamp
      let stamp := if 0 < q.b then stamp.addG ep bp (r.g_ec - r.g_ee) else stamp
      stamp
    else stamp
  let stamp := if 0 < q.c then
      let stamp := (stamp.addG cp cp r.g_cc).addS cp (-r.I_c)
      let stamp := if 0 < q.e then stamp.addG cp ep (-r.g_ce) else stamp
      let stamp := if 0 < q.b then stamp.addG cp bp (r.g_ce - r.g_cc) else stamp
      stamp
    else stamp
  let stamp := if 0 < q.b then
      let stamp := (stamp.addG bp bp (r.g_cc + r.g_ee - r.g_ce - r.g_ec)).addS bp
        (r.I_e + r.I_c)
      let stamp := if 0 < q.e then stamp.addG bp ep (r.g_ce - r.g_ee) else stamp
      let stamp := if 0 < q.c then stamp.addG bp cp (r.g_ec - r.g_cc) else stamp
      stamp
    else stamp
  stamp

/-- The method `BJTN::addDCAnalysisStampTo`. -/
def BJTN.addDCAnalysisStampTo (F : CMath K) (q : BJT K) (stamp : Stamp K)
    (solutionVector : Matrix K) (_numCurrents : Nat) : Except String (Stamp K) :=
  Except.ok (BJTN.addNonLinearStampTo F q stamp solutionVector 0 0)

/-- The junction voltages of `BJTP::addNonLinearStampTo` after
`v = std::max(-V_crit, v)`. -/
def BJTP.clampedVoltages (q : BJT K) (solutionMatrix : Matrix K)
    (currentSolutionIndex : Nat) : K × K :=
  let v := q.junctionVoltages solutionMatrix currentSolutionIndex
  (max (-q.V_be_crit) v.1, max (-q.V_bc_crit) v.2)

/-- The method `BJTP::addNonLinearStampTo`. -/
def BJTP.addNonLinearStampTo (F : CMath K) (q : BJT K) (stamp : Stamp K)
    (solutionMatrix : Matrix K) (currentSolutionIndex : Nat) (_timestep : K) : Stamp K :=
  let alpha_f : K := 0.99
  let alpha_r : K := 0.02
  let I_es : K := 2e-14
  let V_Te : K := 26e-3
  let I_cs : K := 99e-14
  let V_Tc : K := 26e-3
  let bp := q.b - 1
  let cp := q.c - 1
  let ep := q.e - 1
  let v := BJTP.clampedVoltages q solutionMatrix currentSolutionIndex
  let v_be := v.1
  let v_bc := v.2
  let i_F := I_cs * (F.exp (-v_bc / V_Tc) - 1)
  let i_R := I_es * (F.exp (-v_be / V_Te) - 1)
  let di_F := -(I_cs / V_Tc) * F.exp (-v_bc / V_Tc)
  let di_R := -(I_es / V_Te) * F.exp (-v_be / V_Te)
  let i_e := i_R - alpha_f * i_F
  let i_b := (alpha_f - 1) * i_F + (alpha_r - 1) * i_R
  let i_c := i_F - alpha_r * i_R
  let g_ee := di_F
  let g_ec := -alpha_r * di_R
  let g_ce := -alpha_f * di_F
  let g_cc := di_R
  let g_be := (alpha_r - 1) * di_R
  let g_bc := (alpha_f - 1) * di_F
  let I_e := i_e - g_ee * v_be - g_ec * v_bc
  let I_c := i_c - g_ce * v_be - g_cc * v_bc
  let I_b := i_b - g_be * v_be - g_bc * v_bc
  let stamp := if 0 < q.e then
      let stamp := (stamp.addG ep ep (-g_ee)).addS ep (-I_e)
      let stamp := if 0 < q.c then stamp.addG ep cp (-g_ec) else stamp
      let stamp := if 0 < q.b then stamp.addG ep bp (g_ec + g_ee) else stamp
      stamp
    else stamp
  let stamp := if 0 < q.c then
      let stamp := (stamp.addG cp cp (-g_cc)).addS cp (-I_c)
      let stamp := if 0 < q.e then stamp.addG cp ep (-g_ce) else stamp
      let stamp := if 0 < q.b then stamp.addG cp bp (g_ce + g_cc) else stamp
      stamp
    else stamp
  let stamp := if 0 < q.b then
      let stamp := (stamp.addG bp bp (g_be + g_bc)).addS bp (-I_b)
      let stamp := if 0 < q.e then stamp.addG bp ep (-g_be) else stamp
      let stamp := if 0 < q.c then stamp.addG bp cp (-g_bc) else stamp
      stamp
    else stamp
  stamp

/-- The method `BJTP::addDCAnalysisStampTo`. -/
def BJTP.addDCAnalysisStampTo (F : CMath K) (q : BJT K) (stamp : Stamp K)
    (solutionVector : Matrix K) (_numCurrents : Nat) : Except String (Stamp K) :=
  Except.ok (BJTP.addNonLinearStampTo F q stamp solutionVector 0 0)

/-- The struct `NLNMOS<T>`: terminals and the stored state; the eight model constants and
`beta_DS`, `alpha_DS` are `const` members. -/
structure NLNMOS (K : Type) where
  d : Nat
  g : Nat
  s : Nat
  u_gd_last : K
  u_gs_last : K
  i_gd_last : K
  i_gs_last : K
  C_GD_last : K
  C_GS_last : K

/-- The method `NLNMOS::addNonLinearStampTo`. -/
def NLNMOS.addNonLinearStampTo (F : CMath K) (m : NLNMOS K) (stamp : Stamp K)
    (solutionMatrix : Matrix K) (currentSolutionIndex : Nat) (timestep : K) : Stamp K :=
  let C_GSp : K := 0.01
  let C_GSo : K := 0.5
  let P_S10 : K := 0
  let P_S11 : K := 0.5
  let C_GDp : K := 0.5
  let C_GDo : K := 1
  let P_D10 : K := -1
  let P_D11 : K := 0.4
  let beta_DS : K := 1.3
  let alpha_DS : K := 0.42
  let gp := m.g - 1
  let dp := m.d - 1
  let sp := m.s - 1
  let u_gs : K := 0
  let u_gd : K := 0
  let u_gs := if 0 < m.g then solutionMatrix.get gp currentSolutionIndex else u_gs
  let u_gd := if 0 < m.g then solutionMatrix.get gp currentSolutionIndex else u_gd
  let u_gs := if 0 < m.s then u_gs - solutionMatrix.get sp currentSolutionIndex else u_gs
  let u_gd := if 0 < m.d then u_gd - solutionMatrix.get dp currentSolutionIndex else u_gd
  let C_GD := C_GDp + C_GDo * (1.0 + F.tanh (P_D10 + P_D11 * u_gd))
  let C_GS := C_GSp + C_GSo * (1.0 + F.tanh (P_S10 + P_S11 * u_gs))
  let dC_GD := C_GDo * P_D11 / F.pow (F.cosh (P_D10 + P_D11 * u_gd)) 2
  let dC_GS := C_GSo * P_S11 / F.pow (F.cosh (P_S10 + P_S11 * u_gs)) 2
  let i_ds := beta_DS * F.tanh (alpha_DS * (u_gs - u_gd))
  let di_ds_d := -beta_DS * alpha_DS / F.pow (F.cosh (alpha_DS * (u_gs - u_gd))) 2
  let di_ds_s := beta_DS * alpha_DS / F.pow (F.cosh (alpha_DS * (u_gs - u_gd))) 2
  let i_gd := C_GD * (2.0 * (u_gd - m.u_gd_last) / timestep - m.i_gd_last / m.C_GD_last)
  let i_gs := C_GS * (2.0 * (u_gs - m.u_gs_last) / timestep - m.i_gs_last / m.C_GS_last)
  let i_d := -i_gd + i_ds
  let i_s := -i_gs - i_ds
  let i_g := i_gs + i_gd
  let di_gd := dC_GD * (2.0 * (u_gd - m.u_gd_last) / timestep - m.i_gd_last / m.C_GD_last) +
    2.0 * C_GD / timestep
  let di_gs := dC_GS * (2.0 * (u_gs - m.u_gs_last) / timestep - m.i_gs_last / m.C_GS_last) +
    2.0 * C_GS / timestep
  let g_dd := -di_gd + di_ds_d
  let g_sd := -di_ds_d
  let g_gd := di_gd
  let g_ds := di_ds_d
  let g_ss := -di_gs - di_ds_s
  let g_gs := di_gs
  let I_d := i_d - g_dd * u_gd - g_ds * u_gs
  let I_s := i_s - g_sd * u_gd - g_ss * u_gs
  let I_g := i_g - g_gd * u_gd - g_gs * u_gs
  let stamp := if 0 < m.d then
      let stamp := (stamp.addG dp dp (-g_dd)).addS dp (-I_d)
      let stamp := if 0 < m.s then stamp.addG dp sp (-g_ds) else stamp
      let stamp := if 0 < m.g then stamp.addG dp gp (g_dd + g_ds) else stamp
      stamp
    else stamp
  let stamp := if 0 < m.s then
      let stamp := (stamp.addG sp sp (-g_ss)).addS sp (-I_s)
      let stamp := if 0 < m.d then stamp.addG sp dp (-g_sd) else stamp
      let stamp := if 0 < m.g then stamp.addG sp gp (g_sd + g_ss) else stamp
      stamp
    else stamp
  let stamp := if 0 < m.g then
      let stamp := (stamp.addG gp gp (g_gd + g_gs)).addS gp (-I_g)
      let stamp := if 0 < m.d then stamp.addG gp dp (-g_gd) else stamp
      let stamp := if 0 < m.s then stamp.addG gp sp (-g_gs) else stamp
      stamp
    else stamp
  stamp

/-- The method `addDCAnalysisStampTo` of an `NLNMOS`: the class does not override it, so
the call runs `Component::addDCAnalysisStampTo`. -/
def NLNMOS.addDCAnalysisStampTo (_F : CMath K) (_m : NLNMOS K) (_stamp : Stamp K)
    (_solutionVector : Matrix K) (_numCurrents : Nat) : Except String (Stamp K) :=
  Component.notImplemented

/-- The struct `NLCurrentSource<T>`. -/
structure NLCurrentSource (K : Type) where
  n1 : Nat
  n2 : Nat
  r1_pos : Nat
  r1_neg : Nat
  r2_pos : Nat
  r2_neg : Nat

/-- The method `NLCurrentSource::addNonLinearStampTo`. -/
def NLCurrentSource.addNonLinearStampTo (F : CMath K) (c : NLCurrentSource K)
    (stamp : Stamp K) (solutionMatrix : Matrix K) (currentSolutionIndex : Nat)
    (_timestep : K) : Stamp K :=
  let n1p := c.n1 - 1
  let n2p := c.n2 - 1
  let r1p_pos := c.r1_pos - 1
  let r1p_neg := c.r1_neg - 1
  let r2p_pos := c.r2_pos - 1
  let r2p_neg := c.r2_neg - 1
  let r1 : K := 0
  let r2 : K := 0
  let r1 := if 0 < c.r1_pos then solutionMatrix.get r1p_pos currentSolutionIndex else r1
  let r1 := if 0 < c.r1_neg then r1 - solutionMatrix.get r1p_neg currentSolutionIndex else r1
  let r2 := if 0 < c.r2_pos then solutionMatrix.get r2p_pos currentSolutionIndex else r2
  let r2 := if 0 < c.r2_neg then r2 - solutionMatrix.get r2p_neg currentSolutionIndex else r2
  let Idrain := NLCurrentSource.Idrain F r1 r2
  let d0 := AutoDifferentiation.index Idrain 0
  let d1 := AutoDifferentiation.index Idrain 1
  let d2 := AutoDifferentiation.index Idrain 2
  let I_ds := d0 - d1 * r1 - d2 * r2
  let stamp := if 0 < c.n1 then
      let stamp := stamp.addS n1p (-I_ds)
      let stamp := if 0 < c.r1_pos then stamp.addG n1p r1p_pos d1 else stamp
      let stamp := if 0 < c.r1_neg then stamp.addG n1p r1p_neg (-d1) else stamp
      let stamp := if 0 < c.r2_pos then stamp.addG n1p r2p_pos d2 else stamp
      let stamp := if 0 < c.r2_neg then stamp.addG n1p r2p_neg (-d2) else stamp
      stamp
    else stamp
  let stamp := if 0 < c.n2 then
      let stamp := stamp.addS n2p I_ds
      let stamp := if 0 < c.r1_pos then stamp.addG n2p r1p_pos (-d1) else stamp
      let stamp := if 0 < c.r1_neg then stamp.addG n2p r1p_neg d1 else stamp
      let stamp := if 0 < c.r2_pos then stamp.addG n2p r2p_pos (-d2) else stamp
      let stamp := if 0 < c.r2_neg then stamp.addG n2p r2p_neg d2 else stamp
      stamp
    else stamp
  stamp

/-- The method `NLCurrentSource::addDCAnalysisStampTo`. -/
def NLCurrentSource.addDCAnalysisStampTo (F : CMath K) (c : NLCurrentSource K)
    (stamp : Stamp K) (solutionVector : Matrix K) (_numCurrents : Nat) :
    Except String (Stamp K) :=
  Except.ok (c.addNonLinearStampTo F stamp solutionVector 0 0)

/-- The struct `NLCapacitor<T>`. -/
structure NLCapacitor (K : Type) where
  n1 : Nat
  n2 : Nat
  C_p : K
  C_o : K
  P_10 : K
  P_11 : K
  u_last : K
  i_last : K
  C_last : K

/-- The local `C` of `NLCapacitor::addNonLinearStampTo`: the capacitance at voltage `u`. -/
def NLCapacitor.C (F : CMath K) (c : NLCapacitor K) (u : K) : K :=
  c.C_p + c.C_o * (1.0 + F.tanh (c.P_10 + c.P_11 * u))

/-- The local `dC` of `NLCapacitor::addNonLinearStampTo`. -/
def NLCapacitor.dC (F : CMath K) (c : NLCapacitor K) (u : K) : K :=
  c.C_o * c.P_11 / F.pow (F.cosh (c.P_10 + c.P_11 * u)) 2

/-- The local `i` of `NLCapacitor::addNonLinearStampTo`: the current at voltage `u`. -/
def NLCapacitor.i (F : CMath K) (c : NLCapacitor K) (timestep u : K) : K :=
  c.C F u * (2.0 * (u - c.u_last) / timestep - c.i_last / c.C_last)

/-- The local `di` (also `G_eq`) of `NLCapacitor::addNonLinearStampTo`. -/
def NLCapacitor.di (F : CMath K) (c : NLCapacitor K) (timestep u : K) : K :=
  c.dC F u * (2.0 * (u - c.u_last) / timestep - c.i_last / c.C_last) +
    2.0 * c.C F u / timestep

/-- The method `NLCapacitor::addNonLinearStampTo`. -/
def NLCapacitor.addNonLinearStampTo (F : CMath K) (c : NLCapacitor K) (stamp : Stamp K)
    (solutionMatrix : Matrix K) (currentSolutionIndex : Nat) (timestep : K) : Stamp K :=
  let n1p := c.n1 - 1
  let n2p := c.n2 - 1
  let u : K := 0
  let u := if 0 < c.n1 then solutionMatrix.get n1p currentSolutionIndex else u
  let u := if 0 < c.n2 then u - solutionMatrix.get n2p currentSolutionIndex else u
  let i := c.i F timestep u
  let di := c.di F timestep u
  let G_eq := di
  let I_eq := -G_eq * u + i
  let stamp := if 0 < c.n1 then
      let stamp := (stamp.addG n1p n1p G_eq).addS n1p (-I_eq)
      let stamp := if 0 < c.n2 then stamp.addG n1p n2p (-G_eq) else stamp
      stamp
    else stamp
  let stamp := if 0 < c.n2 then
      let stamp := (stamp.addG n2p n2p G_eq).addS n2p I_eq
      let stamp := if 0 < c.n1 then stamp.addG n2p n1p (-G_eq) else stamp
      stamp
    else stamp
  stamp

end NonLinearElements

/-! ## One stamping call of one element -/

/-- A stamping call: an element together with the arguments of the stamp method that is
run on it (all arguments but the stamp itself). -/
inductive ElementStamp (K : Type) where
  | resistorStatic (r : Resistor K)
  | currentSourceStatic (c : CurrentSource K)
  | voltageSourceStatic (v : VoltageSource K)
  | capacitorDynamic (c : Capacitor K) (solutionMatrix : Matrix K)
      (currentSolutionIndex : Nat) (timestep : K)
  | capacitorDC (c : Capacitor K) (solutionVector : Matrix K) (numCurrents : Nat)
  | inductorDynamic (l : Inductor K) (solutionMatrix : Matrix K)
      (currentSolutionIndex : Nat) (timestep : K)
  | inductorDC (l : Inductor K) (solutionVector : Matrix K) (numCurrents : Nat)
  | diodeNonLinear (F : CMath K) (d : Diode K) (solutionMatrix : Matrix K)
      (currentSolutionIndex : Nat) (timestep : K)
  | bjtnNonLinear (F : CMath K) (q : BJT K) (solutionMatrix : Matrix K)
      (currentSolutionIndex : Nat) (timestep : K)
  | bjtpNonLinear (F : CMath K) (q : BJT K) (solutionMatrix : Matrix K)
      (currentSolutionIndex : Nat) (timestep : K)

/-- Running the stamping call on a stamp. -/
def ElementStamp.apply {K : Type} [LinearOrderedField K] :
    ElementStamp K → Stamp K → Stamp K
  | .resistorStatic r, stamp => r.addStaticStampTo stamp
  | .currentSourceStatic c, stamp => c.addStaticStampTo stamp
  | .voltageSourceStatic v, stamp => v.addStaticStampTo stamp
  | .capacitorDynamic c sol n dt, stamp => c.addDynamicStampTo stamp sol n dt
  | .capacitorDC c sol numCurrents, stamp => c.addDCAnalysisStampTo stamp sol numCurrents
  | .inductorDynamic l sol n dt, stamp => l.addDynamicStampTo stamp sol n dt
  | .inductorDC l sol numCurrents, stamp => l.addDCAnalysisStampTo stamp sol numCurrents
  | .diodeNonLinear F d sol n dt, stamp => d.addNonLinearStampTo F stamp sol n dt
  | .bjtnNonLinear F q sol n dt, stamp => BJTN.addNonLinearStampTo F q stamp sol n dt
  | .bjtpNonLinear F q sol n dt, stamp => BJTP.addNonLinearStampTo F q stamp sol n dt

/-! ## The state of one capacitor over the time steps -/

/-- The capacitor after the time steps `1 .. n` of `SimulationEnvironment::simulate`:
every step `k` ends with `updateTimeStep`, which runs
`updateStoredState(solutionMat, k, timestep, sizeG_A)` on the capacitor. -/
def Capacitor.afterSteps {K : Type} [LinearOrderedField K] (c : Capacitor K)
    (solutionMatrix : Matrix K) (timestep : K) (sizeG_A : Nat) : Nat → Capacitor K
  | 0 => c
  | n + 1 => (Capacitor.afterSteps c solutionMatrix timestep sizeG_A n).updateStoredState
      solutionMatrix (n + 1) timestep sizeG_A

/-! ## Example inputs -/

/-- A solution matrix with one row and four columns holding the ramp `u(n) = n`. -/
def rampSol : Matrix ℚ := { data := fun k => (k : ℚ), M := 1, N := 4 }

/-- A new capacitor of value `1` from node `1` to ground. -/
def unitCapacitor : Capacitor ℚ :=
  { value := 1, n1 := 1, n2 := 0, lastCurrent := 0, trapezoidalRule := true }

/-- A new inductor of value `1` from node `1` to ground, with the first DC current. -/
def unitInductor : Inductor ℚ :=
  { value := 1, n1 := 1, n2 := 0, lastCurrent := 0, dcCurrentIndex := 1,
    trapezoidalRule := true }

/-! ## `Component` and the registry `CircuitElements` (Component.hpp, CircuitElements.hpp) -/

/-- The class `Component<T>`: an object with its data members (`state`) and its virtual
methods, each taking the members as first argument.  The two updating methods return the
new members; the two methods whose base-class body throws return an `Except`. -/
structure Component (K : Type) where
  State : Type
  state : State
  staticImpl : State → Stamp K → Stamp K
  dynamicImpl : State → Stamp K → Matrix K → Nat → K → Stamp K
  nonLinearImpl : State → Stamp K → Matrix K → Nat → K → Except String (Stamp K)
  updateImpl : State → Matrix K → Nat → K → Nat → State
  dcImpl : State → Stamp K → Matrix K → Nat → Except String (Stamp K)
  dcUpdateImpl : State → Matrix K → Nat → Nat → State

namespace Component

variable {K : Type} [LinearOrderedField K]

/-- The virtual call `addStaticStampTo(destination)`. -/
def addStaticStampTo (c : Component K) (destination : Stamp K) : Stamp K :=
  c.staticImpl c.state destination

/-- The virtual call `addDynamicStampTo(destination, solutionMatrix, index, timestep)`. -/
def addDynamicStampTo (c : Component K) (destination : Stamp K) (solutionMatrix : Matrix K)
    (currentSolutionIndex : Nat) (timestep : K) : Stamp K :=
  c.dynamicImpl c.state destination solutionMatrix currentSolutionIndex timestep

/-- The virtual call `addNonLinearStampTo(destination, solutionMatrix, index, timestep)`. -/
def addNonLinearStampTo (c : Component K) (destination : Stamp K)
    (solutionMatrix : Matrix K) (currentSolutionIndex : Nat) (timestep : K) :
    Except String (Stamp K) :=
  c.nonLinearImpl c.state destination solutionMatrix currentSolutionIndex timestep

/-- The virtual call `updateStoredState(solutionMatrix, index, timestep, sizeG_A)`. -/
def updateStoredState (c : Component K) (solutionMatrix : Matrix K)
    (currentSolutionIndex : Nat) (timestep : K) (sizeG_A : Nat) : Component K :=
  { c with state := c.updateImpl c.state solutionMatrix currentSolutionIndex timestep sizeG_A }

/-- The virtual call `addDCAnalysisStampTo(destination, solutionVector, numCurrents)`. -/
def addDCAnalysisStampTo (c : Component K) (destination : Stamp K)
    (solutionVector : Matrix K) (numCurrents : Nat) : Except String (Stamp K) :=
  c.dcImpl c.state destination solutionVector numCurrents

/-- The virtual call `updateDCStoredState(solutionVector, sizeG_A, numCurrents)`. -/
def updateDCStoredState (c : Component K) (solutionVector : Matrix K)
    (sizeG_A numCurrents : Nat) : Component K :=
  { c with state := c.dcUpdateImpl c.state solutionVector sizeG_A numCurrents }

/-- The base class itself: empty static, dynamic and update methods, throwing non-linear
and DC stamp methods. -/
def base : Component K :=
  { State := Unit, state := (),
    staticImpl := fun _ destination => destination,
    dynamicImpl := fun _ destination _ _ _ => destination,
    nonLinearImpl := fun _ _ _ _ _ => Component.notImplemented,
    updateImpl := fun s _ _ _ _ => s,
    dcImpl := fun _ _ _ _ => Component.notImplemented,
    dcUpdateImpl := fun s _ _ _ => s }

end Component

section ConcreteComponents

variable {K : Type} [LinearOrderedField K]

/-- A `Resistor` as a `Component`: it overrides the static and the DC stamp. -/
def Resistor.toComponent (r : Resistor K) : Component K :=
  { State := Resistor K, state := r,
    staticImpl := fun r destination => r.addStaticStampTo destination,
    dynamicImpl := fun _ destination _ _ _ => destination,
    nonLinearImpl := fun _ _ _ _ _ => Component.notImplemented,
    updateImpl := fun r _ _ _ _ => r,
    dcImpl := fun r destination _ _ => Except.ok (r.addStaticStampTo destination),
    dcUpdateImpl := fun r _ _ _ => r }

/-- A `CurrentSource` as a `Component`: it overrides the static and the DC stamp. -/
def CurrentSource.toComponent (c : CurrentSource K) : Component K :=
  { State := CurrentSource K, state := c,
    staticImpl := fun c destination => c.addStaticStampTo destination,
    dynamicImpl := fun _ destination _ _ _ => destination,
    nonLinearImpl := fun _ _ _ _ _ => Component.notImplemented,
    updateImpl := fun c _ _ _ _ => c,
    dcImpl := fun c destination _ _ => Except.ok (c.addStaticStampTo destination),
    dcUpdateImpl := fun c _ _ _ => c }

/-- A `VoltageSource` as a `Component`: it overrides the static and the DC stamp. -/
def VoltageSource.toComponent (v : VoltageSource K) : Component K :=
  { State := VoltageSource K, state := v,
    staticImpl := fun v destination => v.addStaticStampTo destination,
    dynamicImpl := fun _ destination _ _ _ => destination,
    nonLinearImpl := fun _ _ _ _ _ => Component.notImplemented,
    updateImpl := fun v _ _ _ _ => v,
    dcImpl := fun v destination _ _ => Except.ok (v.addStaticStampTo destination),
    dcUpdateImpl := fun v _ _ _ => v }

/-- A `Capacitor` as a `Component`: it overrides the dynamic stamp, the state update and
the DC stamp. -/
def Capacitor.toComponent (c : Capacitor K) : Component K :=
  { State := Capacitor K, state := c,
    staticImpl := fun _ destination => destination,
    dynamicImpl := fun c destination sol n dt => c.addDynamicStampTo destination sol n dt,
    nonLinearImpl := fun _ _ _ _ _ => Component.notImplemented,
    updateImpl := fun c sol n dt sizeG_A => c.updateStoredState sol n dt sizeG_A,
    dcImpl := fun c destination sol numCurrents =>
      Except.ok (c.addDCAnalysisStampTo destination sol numCurrents),
    dcUpdateImpl := fun c _ _ _ => c }

/-- An `Inductor` as a `Component`: it overrides the dynamic stamp, both state updates and
the DC stamp. -/
def Inductor.toComponent (l : Inductor K) : Component K :=
  { State := Inductor K, state := l,
    staticImpl := fun _ destination => destination,
    dynamicImpl := fun l destination sol n dt => l.addDynamicStampTo destination sol n dt,
    nonLinearImpl := fun _ _ _ _ _ => Component.notImplemented,
    updateImpl := fun l sol n dt sizeG_A => l.updateStoredState sol n dt sizeG_A,
    dcImpl := fun l destination sol numCurrents =>
      Except.ok (l.addDCAnalysisStampTo destination sol numCurrents),
    dcUpdateImpl := fun l sol sizeG_A numCurrents =>
      l.updateDCStoredState sol sizeG_A numCurrents }

/-- A `Diode` as a `Component`: it overrides the non-linear stamp, the (empty) state
update and the DC stamp. -/
def Diode.toComponent (F : CMath K) (d : Diode K) : Component K :=
  { State := Diode K, state := d,
    staticImpl := fun _ destination => destination,
    dynamicImpl := fun _ destination _ _ _ => destination,
    nonLinearImpl := fun d destination sol n dt =>
      Except.ok (d.addNonLinearStampTo F destination sol n dt),
    updateImpl := fun d _ _ _ _ => d,
    dcImpl := fun d destination sol numCurrents =>
      d.addDCAnalysisStampTo F destination sol numCurrents,
    dcUpdateImpl := fun d _ _ _ => d }

/-- A `BJTN` as a `Component`. -/
def BJTN.toComponent (F : CMath K) (q : BJT K) : Component K :=
  { State := BJT K, state := q,
    staticImpl := fun _ destination => destination,
    dynamicImpl := fun _ destination _ _ _ => destination,
    nonLinearImpl := fun q destination sol n dt =>
      Except.ok (BJTN.addNonLinearStampTo F q destination sol n dt),
    updateImpl := fun q _ _ _ _ => q,
    dcImpl := fun q destination sol numCurrents =>
      BJTN.addDCAnalysisStampTo F q destination sol numCurrents,
    dcUpdateImpl := fun q _ _ _ => q }

/-- A `BJTP` as a `Component`. -/
def BJTP.toComponent (F : CMath K) (q : BJT K) : Component K :=
  { State := BJT K, state := q,
    staticImpl := fun _ destination => destination,
    dynamicImpl := fun _ destination _ _ _ => destination,
    nonLinearImpl := fun q destination sol n dt =>
      Except.ok (BJTP.addNonLinearStampTo F q destination sol n dt),
    updateImpl := fun q _ _ _ _ => q,
    dcImpl := fun q destination sol numCurrents =>
      BJTP.addDCAnalysisStampTo F q destination sol numCurrents,
    dcUpdateImpl := fun q _ _ _ => q }

end ConcreteComponents

/-- The struct `CircuitElements<T>`: the four cached stamps, the three element lists and
the three freshness flags. -/
structure CircuitElements (K : Type) where
  staticStamp : Stamp K
  dynamicStamp : Stamp K
  nonLinearStamp : Stamp K
  dcStamp : Stamp K
  staticElements : List (Component K)
  dynamicElements : List (Component K)
  nonLinearElements : List (Component K)
  staticStampIsFresh : Bool
  dynamicStampIsFresh : Bool
  nonLinearStampIsFresh : Bool

namespace Stamp

variable {K : Type} [LinearOrderedField K]

/-- The loop `for (component : elements) stamp.addStaticStamp(component)`. -/
def addStaticStamps (stamp : Stamp K) (elements : List (Component K)) : Stamp K :=
  elements.foldl (fun st c => c.addStaticStampTo st) stamp

/-- The loop `for (component : elements) stamp.addDynamicStamp(component, ...)`. -/
def addDynamicStamps (stamp : Stamp K) (elements : List (Component K))
    (solutionMatrix : Matrix K) (currentSolutionIndex : Nat) (timestep : K) : Stamp K :=
  elements.foldl
    (fun st c => c.addDynamicStampTo st solutionMatrix currentSolutionIndex timestep) stamp

/-- The loop `for (component : elements) stamp.addNonLinearStamp(component, ...)`; the
first exception ends the loop. -/
def addNonLinearStamps (solutionMatrix : Matrix K) (currentSolutionIndex : Nat)
    (timestep : K) : List (Component K) → Stamp K → Except String (Stamp K)
  | [], stamp => Except.ok stamp
  | c :: cs, stamp =>
    match c.addNonLinearStampTo stamp solutionMatrix currentSolutionIndex timestep with
    | Except.error e => Except.error e
    | Except.ok stamp => addNonLinearStamps solutionMatrix currentSolutionIndex timestep
        cs stamp

end Stamp

namespace CircuitElements

variable {K : Type} [LinearOrderedField K]

/-- The constructor `CircuitElements(numNodes, numCurrents, numDCCurrents)`. -/
def new (numNodes numCurrents numDCCurrents : Nat) : CircuitElements K :=
  { staticStamp := Stamp.new numNodes numCurrents,
    dynamicStamp := Stamp.new numNodes numCurrents,
    nonLinearStamp := Stamp.new numNodes numCurrents,
    dcStamp := Stamp.new numNodes (numCurrents + numDCCurrents),
    staticElements := [], dynamicElements := [], nonLinearElements := [],
    staticStampIsFresh := false, dynamicStampIsFresh := false,
    nonLinearStampIsFresh := false }

/-- The method `generateStaticStamp`. -/
def generateStaticStamp (ce : CircuitElements K) : CircuitElements K :=
  let staticStamp := ce.staticStamp.clear
  let staticStamp := staticStamp.addStaticStamps ce.staticElements
  let staticStamp := staticStamp.addStaticStamps ce.dynamicElements
  let staticStamp := staticStamp.addStaticStamps ce.nonLinearElements
  { ce with staticStamp := staticStamp, staticStampIsFresh := true }

/-- The method `generateDynamicStamp`. -/
def generateDynamicStamp (ce : CircuitElements K) (solutionMatrix : Matrix K)
    (currentSolutionIndex : Nat) (timestep : K) : CircuitElements K :=
  let ce := if !ce.staticStampIsFresh then ce.generateStaticStamp else ce
  let dynamicStamp := ce.staticStamp
  let dynamicStamp := dynamicStamp.addDynamicStamps ce.dynamicElements solutionMatrix
    currentSolutionIndex timestep
  let dynamicStamp := dynamicStamp.addDynamicStamps ce.nonLinearElements solutionMatrix
    currentSolutionIndex timestep
  { ce with dynamicStamp := dynamicStamp, dynamicStampIsFresh := true }

/-- The method `generateNonLinearStamp`; the stamp it returns a reference to is the
member `nonLinearStamp` of the result. -/
def generateNonLinearStamp (ce : CircuitElements K) (solutionMatrix : Matrix K)
    (currentSolutionIndex : Nat) (timestep : K) : Except String (CircuitElements K) :=
  let ce := if !ce.dynamicStampIsFresh then
      ce.generateDynamicStamp solutionMatrix currentSolutionIndex timestep
    else ce
  match Stamp.addNonLinearStamps solutionMatrix currentSolutionIndex timestep
      ce.nonLinearElements ce.dynamicStamp with
  | Except.error e => Except.error e
  | Except.ok nonLinearStamp =>
    Except.ok { ce with nonLinearStamp := nonLinearStamp, nonLinearStampIsFresh := true }

/-- The method `updateTimeStep`. -/
def updateTimeStep (ce : CircuitElements K) (solutionMatrix : Matrix K)
    (currentSolutionIndex : Nat) (timestep : K) : CircuitElements K :=
  { ce with
    dynamicStampIsFresh := false
    nonLinearStampIsFresh := false
    dynamicElements := ce.dynamicElements.map (fun c =>
      c.updateStoredState solutionMatrix currentSolutionIndex timestep
        ce.staticStamp.sizeG_A)
    nonLinearElements := ce.nonLinearElements.map (fun c =>
      c.updateStoredState solutionMatrix currentSolutionIndex timestep
        ce.staticStamp.sizeG_A) }

/-- The static layer of the specification: onto a zero stamp, the static contribution of
every element of the registry. -/
def staticLayer (ce : CircuitElements K) : Stamp K :=
  ce.staticStamp.clear.addStaticStamps
    (ce.staticElements ++ ce.dynamicElements ++ ce.nonLinearElements)

/-- The dynamic layer of the specification: onto the static layer, the dynamic
contribution of every dynamic and every non-linear element. -/
def dynamicLayer (ce : CircuitElements K) (solutionMatrix : Matrix K)
    (currentSolutionIndex : Nat) (timestep : K) : Stamp K :=
  ce.staticLayer.addDynamicStamps (ce.dynamicElements ++ ce.nonLinearElements)
    solutionMatrix currentSolutionIndex timestep

/-- The uncached assembly of the specification: onto the dynamic layer, the non-linear
contribution of every non-linear element. -/
def uncachedNonLinearStamp (ce : CircuitElements K) (solutionMatrix : Matrix K)
    (currentSolutionIndex : Nat) (timestep : K) : Except String (Stamp K) :=
  Stamp.addNonLinearStamps solutionMatrix currentSolutionIndex timestep
    ce.nonLinearElements (ce.dynamicLayer solutionMatrix currentSolutionIndex timestep)

end CircuitElements

/-! ## The transient loop (Simulator.hpp) -/

namespace Matrix

variable {K : Type} [LinearOrderedField K]

/-- The assignment `A(m, n) = v` through `operator()(m, n)`. -/
def setAt (A : Matrix K) (m n : Nat) (v : K) : Matrix K :=
  { A with data := Function.update A.data (m * A.N + n) v }

/-- The contents of `scratchSpace` after
`leftDivide(rhs, lu, scratchSpace, destBegin, destEnd)`: the permutation loop and the
forward substitution are the writes to it. -/
def leftDivideScratch (A : Matrix K) (rhs : Matrix K) (lu : LUPair K)
    (scratchSpace : Nat → K) (dest : Nat → K) : Nat → K :=
  let dest := forRange (fun m d => Function.update d m (rhs.data (lu.p m))) 0 A.M dest
  forRange (fun m sc =>
      let val := forRange (fun n v => v - sc n * lu.l.data (m * A.N + n)) 0 m (dest m)
      Function.update sc m (val / lu.l.data (m * A.N + m)))
    0 A.M scratchSpace

end Matrix

/-- The members of `SimulationEnvironment` that `simulate` uses. -/
structure SimulationEnvironment (K : Type) where
  steps : Nat
  timestep : K
  elements : CircuitElements K
  luPair : LUPair K
  scratchSpace : Matrix K
  solutionMat : Matrix K

namespace SimulationEnvironment

variable {K : Type} [LinearOrderedField K]

/-- One pass of the body of the Newton-Raphson loop of `simulate`, up to and including
the copy of `tempSoln` into column `n`: the new environment, the new `tempSoln` and
`maxDiff`. -/
def newtonIteration (env : SimulationEnvironment K) (tempSoln : Matrix K) (n : Nat) :
    Except String (SimulationEnvironment K × Matrix K × K) :=
  match env.elements.generateNonLinearStamp env.solutionMat n env.timestep with
  | Except.error e => Except.error e
  | Except.ok elements =>
    let stamp := elements.nonLinearStamp
    let luPair := stamp.G.luPairInto env.luPair
    let scratchSpace := { env.scratchSpace with
      data := stamp.G.leftDivideScratch stamp.s luPair env.scratchSpace.data tempSoln.data }
    let tempSoln := { tempSoln with
      data := stamp.G.leftDivideWith stamp.s luPair env.scratchSpace.data tempSoln.data }
    let maxDiff := forRange
      (fun k (maxDiff : K) => max maxDiff (abs (env.solutionMat.get k n - tempSoln.get k 0)))
      0 env.solutionMat.M 0
    let solutionMat := forRange (fun k (sm : Matrix K) => sm.setAt k n (tempSoln.get k 0))
      0 env.solutionMat.M env.solutionMat
    Except.ok ({ env with elements := elements, luPair := luPair,
                          scratchSpace := scratchSpace, solutionMat := solutionMat },
      tempSoln, maxDiff)

/-- The Newton-Raphson loop `for (nr = 0; nr < maxNR; nr++)` of `simulate` with `fuel`
passes left: a pass with `maxDiff < convergedThreshold` ends the loop, any other pass
clears `nonLinearStampIsFresh`. -/
def newtonLoop (n : Nat) :
    Nat → SimulationEnvironment K → Matrix K →
      Except String (SimulationEnvironment K × Matrix K)
  | 0, env, tempSoln => Except.ok (env, tempSoln)
  | fuel + 1, env, tempSoln =>
    match env.newtonIteration tempSoln n with
    | Except.error e => Except.error e
    | Except.ok (env, tempSoln, maxDiff) =>
      if maxDiff < 1e-12 then Except.ok (env, tempSoln)
      else newtonLoop n fuel
        { env with elements := { env.elements with nonLinearStampIsFresh := false } }
        tempSoln

/-- The body of the time loop of `simulate` for the step `n`: the Newton-Raphson loop
with `maxNR = 32`, then `updateTimeStep`, then the reset of `staticStampIsFresh` after
the first step. -/
def simulateStep (env : SimulationEnvironment K) (tempSoln : Matrix K) (n : Nat) :
    Except String (SimulationEnvironment K × Matrix K) :=
  match newtonLoop n 32 env tempSoln with
  | Except.error e => Except.error e
  | Except.ok (env, tempSoln) =>
    let elements := env.elements.updateTimeStep env.solutionMat n env.timestep
    let elements := if n = 1 then { elements with staticStampIsFresh := false }
      else elements
    Except.ok ({ env with elements := elements }, tempSoln)

end SimulationEnvironment

/-! ## Example registry -/

/-- A registry of size `1 + 0` with one resistor, one capacitor and one diode between
node `1` and ground; over the rationals the identity stands in for the elementary
functions. -/
def exampleElements : CircuitElements ℚ :=
  { (CircuitElements.new 1 0 0 : CircuitElements ℚ) with
    staticElements := [Resistor.toComponent (Resistor.mk 1 1 0 0 true)]
    dynamicElements := [Capacitor.toComponent unitCapacitor]
    nonLinearElements :=
      [Diode.toComponent (CMath.mk id id id id id id id id (fun x _ => x)) (Diode.mk 1 0 1)] }

/-- An environment with four time steps around `exampleElements`. -/
def exampleEnvironment : SimulationEnvironment ℚ :=
  { steps := 4, timestep := 1, elements := exampleElements, luPair := LUPair.new 1,
    scratchSpace := Matrix.mk0 1 1 0, solutionMat := Matrix.mk0 1 4 0 }

/-! ## Runs of the Newton-Raphson loop -/

/-- The passes of the Newton-Raphson loop of `simulate` as a relation:
`NewtonRun n j env tempSoln env1 temp1 maxDiff` says that `j` passes of the loop body,
started in `env` and `tempSoln`, were made, that each pass before the last one had
`maxDiff` not below `convergedThreshold` (so that it cleared `nonLinearStampIsFresh` and
the loop went on), and that the last pass produced `env1`, `temp1` and `maxDiff`. -/
inductive SimulationEnvironment.NewtonRun {K : Type} [LinearOrderedField K] (n : Nat) :
    Nat → SimulationEnvironment K → Matrix K → SimulationEnvironment K → Matrix K → K → Prop
  | last (env : SimulationEnvironment K) (tempSoln : Matrix K)
      (env1 : SimulationEnvironment K) (temp1 : Matrix K) (maxDiff : K)
      (h : env.newtonIteration tempSoln n = Except.ok (env1, temp1, maxDiff)) :
      NewtonRun n 1 env tempSoln env1 temp1 maxDiff
  | next (j : Nat) (env : SimulationEnvironment K) (tempSoln : Matrix K)
      (env1 : SimulationEnvironment K) (temp1 : Matrix K) (maxDiff : K)
      (env2 : SimulationEnvironment K) (temp2 : Matrix K) (maxDiff2 : K)
      (h : env.newtonIteration tempSoln n = Except.ok (env1, temp1, maxDiff))
      (hnot : ¬ maxDiff < 1e-12)
      (hrest : NewtonRun n j
        { env1 with elements := { env1.elements with nonLinearStampIsFresh := false } }
        temp1 env2 temp2 maxDiff2) :
      NewtonRun n (j + 1) env tempSoln env2 temp2 maxDiff2

/-! ## The DC operating point (CircuitElements.hpp, Simulator.hpp) -/

/-- The loop `for (component : elements) stamp.addDCAnalysisStamp(component, ...)`; the
first exception ends the loop. -/
def Stamp.addDCAnalysisStamps {K : Type} [LinearOrderedField K] (solutionVector : Matrix K)
    (numCurrents : Nat) : List (Component K) → Stamp K → Except String (Stamp K)
  | [], stamp => Except.ok stamp
  | c :: cs, stamp =>
    match c.addDCAnalysisStampTo stamp solutionVector numCurrents with
    | Except.error e => Except.error e
    | Except.ok stamp => Stamp.addDCAnalysisStamps solutionVector numCurrents cs stamp

namespace CircuitElements

variable {K : Type} [LinearOrderedField K]

/-- The method `generateDCStamp`; the stamp it returns a reference to is the member
`dcStamp` of the result. -/
def generateDCStamp (ce : CircuitElements K) (solutionVector : Matrix K)
    (numCurrents : Nat) : Except String (CircuitElements K) :=
  let dcStamp := ce.dcStamp.clear
  match Stamp.addDCAnalysisStamps solutionVector numCurrents ce.staticElements dcStamp with
  | Except.error e => Except.error e
  | Except.ok dcStamp =>
    match Stamp.addDCAnalysisStamps solutionVector numCurrents ce.dynamicElements
        dcStamp with
    | Except.error e => Except.error e
    | Except.ok dcStamp =>
      match Stamp.addDCAnalysisStamps solutionVector numCurrents ce.nonLinearElements
          dcStamp with
      | Except.error e => Except.error e
      | Except.ok dcStamp => Except.ok { ce with dcStamp := dcStamp }

/-- The method `updateDCStoredState`. -/
def updateDCStoredState (ce : CircuitElements K) (solutionVector : Matrix K)
    (numCurrents : Nat) : CircuitElements K :=
  { ce with
    staticElements := ce.staticElements.map (fun c =>
      c.updateDCStoredState solutionVector ce.dcStamp.sizeG_A numCurrents)
    dynamicElements := ce.dynamicElements.map (fun c =>
      c.updateDCStoredState solutionVector ce.dcStamp.sizeG_A numCurrents)
    nonLinearElements := ce.nonLinearElements.map (fun c =>
      c.updateDCStoredState solutionVector ce.dcStamp.sizeG_A numCurrents) }

end CircuitElements

/-- The variables of the loop of `setDCOpPoint`: the registry and the three locals
`luPair`, `scratchSpace` and `dcSoln`. -/
structure DCState (K : Type) where
  elements : CircuitElements K
  luPair : LUPair K
  scratchSpace : Matrix K
  dcSoln : Matrix K

namespace SimulationEnvironment

variable {K : Type} [LinearOrderedField K]

/-- One pass of the loop of `setDCOpPoint`: `generateDCStamp`, `luPair`, `leftDivide`. -/
def dcIteration (numCurrents : Nat) (st : DCState K) : Except String (DCState K) :=
  match st.elements.generateDCStamp st.dcSoln numCurrents with
  | Except.error e => Except.error e
  | Except.ok elements =>
    let stamp := elements.dcStamp
    let luPair := stamp.G.luPairInto st.luPair
    let scratchSpace := { st.scratchSpace with
      data := stamp.G.leftDivideScratch stamp.s luPair st.scratchSpace.data st.dcSoln.data }
    let dcSoln := { st.dcSoln with
      data := stamp.G.leftDivideWith stamp.s luPair st.scratchSpace.data st.dcSoln.data }
    Except.ok { elements := elements, luPair := luPair, scratchSpace := scratchSpace,
                dcSoln := dcSoln }

/-- The loop `for (nr = 0; nr < count; nr++)` of `setDCOpPoint`, which has no exit other
than its bound. -/
def dcLoop (numCurrents : Nat) : Nat → DCState K → Except String (DCState K)
  | 0, st => Except.ok st
  | count + 1, st =>
    match dcIteration numCurrents st with
    | Except.error e => Except.error e
    | Except.ok st => dcLoop numCurrents count st

/-- The method `setDCOpPoint`; `numCurrents` and `numDCCurrents` are the members of that
name.  The locals `scratchSpace` and `luPair` hide the members of the same name, which
the method therefore leaves unchanged. -/
def setDCOpPoint (env : SimulationEnvironment K) (numCurrents numDCCurrents : Nat) :
    Except String (SimulationEnvironment K) :=
  let dcSoln : Matrix K := Matrix.mk0 (env.solutionMat.M + numDCCurrents) 1 0
  let scratchSpace : Matrix K := Matrix.mk0 (env.solutionMat.M + numDCCurrents) 1 0
  let luPair : LUPair K := LUPair.new (env.solutionMat.M + numDCCurrents)
  match dcLoop numCurrents 35
      { elements := env.elements, luPair := luPair, scratchSpace := scratchSpace,
        dcSoln := dcSoln } with
  | Except.error e => Except.error e
  | Except.ok st =>
    let solutionMat := forRange (fun k (sm : Matrix K) => sm.setAt k 0 (st.dcSoln.get k 0))
      0 env.solutionMat.M env.solutionMat
    let elements := st.elements.updateDCStoredState st.dcSoln numCurrents
    Except.ok { env with elements := elements, solutionMat := solutionMat }

/-- The passes of the loop of `setDCOpPoint` as a relation: `DCRun numCurrents j st st1`
says that `j` passes started in `st` end in `st1`. -/
inductive DCRun (numCurrents : Nat) : Nat → DCState K → DCState K → Prop
  | done (st : DCState K) : DCRun numCurrents 0 st st
  | pass (j : Nat) (st st1 st2 : DCState K)
      (h : dcIteration numCurrents st = Except.ok st1)
      (hrest : DCRun numCurrents j st1 st2) : DCRun numCurrents (j + 1) st st2

end SimulationEnvironment

/-! ## The DTIR S-parameter block (SParameterBlock.hpp) -/

/-- The struct `SParameterPort<T>`. -/
structure SParameterPort (K : Type) where
  positive : Nat
  negative : Nat
  current : Nat
  R : K
  beta : K
  s0 : List K

/-- The struct `SParamLengthOffset`. -/
structure SParamLengthOffset where
  length : Nat
  offset : Nat

/-- The struct `SParameterSequence<T>`; the vectors are lists, an index past the end
reads a zero entry. -/
structure SParameterSequence (K : Type) where
  _data : List K
  _time : List K
  sParamLengthOffset : List SParamLengthOffset
  numPorts : Nat

/-- The struct `ForceCausal::CausalData<T>`. -/
structure CausalData (K : Type) where
  tau : K
  Ts : K
  data : List K

namespace SParameterSequence

variable {K : Type} [LinearOrderedField K]

/-- The accessor `length(a, b)`. -/
def length (s : SParameterSequence K) (a b : Nat) : Nat :=
  (s.sParamLengthOffset.getD (a * s.numPorts + b) ⟨0, 0⟩).length

/-- The accessor `offset(a, b)`. -/
def offset (s : SParameterSequence K) (a b : Nat) : Nat :=
  (s.sParamLengthOffset.getD (a * s.numPorts + b) ⟨0, 0⟩).offset

/-- The accessor `data(a, b, n)`. -/
def data (s : SParameterSequence K) (a b n : Nat) : K :=
  s._data.getD (s.offset a b + n) 0

/-- The accessor `time(a, b, n)`. -/
def time (s : SParameterSequence K) (a b n : Nat) : K :=
  s._time.getD (s.offset a b + n) 0

/-- The assignment `offset(a, b) = v`. -/
def setOffset (s : SParameterSequence K) (a b v : Nat) : SParameterSequence K :=
  let entry := s.sParamLengthOffset.getD (a * s.numPorts + b) ⟨0, 0⟩
  let entry := { entry with offset := v }
  { s with sParamLengthOffset := s.sParamLengthOffset.set (a * s.numPorts + b) entry }

/-- The assignment `length(a, b) = v`. -/
def setLength (s : SParameterSequence K) (a b v : Nat) : SParameterSequence K :=
  let entry := s.sParamLengthOffset.getD (a * s.numPorts + b) ⟨0, 0⟩
  let entry := { entry with length := v }
  { s with sParamLengthOffset := s.sParamLengthOffset.set (a * s.numPorts + b) entry }

/-- The local `thresholdToKeep` of `SParameterBlock::readInTouchstoneFile` for one port
pair: it starts at `1`, takes the maximum with every `|entry|` and is then multiplied by
`fracMaxToKeep`. -/
def thresholdToKeep (causal : CausalData K) (fracMaxToKeep : K) : K :=
  let thresholdToKeep : K := 1
  let thresholdToKeep := causal.data.foldl
    (fun thresholdToKeep entry => max (abs entry) thresholdToKeep) thresholdToKeep
  thresholdToKeep * fracMaxToKeep

/-- The pruning of `SParameterBlock::readInTouchstoneFile` for the port pair `(a, b)`,
from the result `causal` of `forceCausal` up to the assignment of `length(a, b)`. -/
def appendPruned (s : SParameterSequence K) (a b : Nat) (causal : CausalData K)
    (fracMaxToKeep : K) : SParameterSequence K :=
  let thresholdToKeep := SParameterSequence.thresholdToKeep causal fracMaxToKeep
  let s := s.setOffset a b s._data.length
  let s := forRange (fun n (s : SParameterSequence K) =>
      if n = 0 ∨ abs (causal.data.getD n 0) > thresholdToKeep then
        { s with
          _data := s._data ++ [causal.data.getD n 0]
          _time := s._time ++ [if n = 0 then 0 else (n : K) * causal.Ts - causal.tau] }
      else s)
    0 causal.data.length s
  s.setLength a b (s._data.length - s.offset a b)

end SParameterSequence

/-- The struct `SParameterBlock<T>`. -/
structure SParameterBlock (K : Type) where
  port : List (SParameterPort K)
  s : SParameterSequence K
  z_ref : K
  fracMaxToKeep : K

namespace SParameterBlock

variable {K : Type} [LinearOrderedField K]

/-- The access `port[p]`; an index past the end reads a zero port. -/
def portAt (blk : SParameterBlock K) (p : Nat) : SParameterPort K :=
  blk.port.getD p ⟨0, 0, 0, 0, 0, []⟩

/-- The method `aWaveConvValue`; `static_cast<size_t>` of the positive `index` is its
integer part. -/
def aWaveConvValue [FloorRing K] (blk : SParameterBlock K) (portIndex : Nat)
    (solutionMatrix : Matrix K) (n : Nat) (sTimePoint simulationTimestep : K)
    (sizeG_A : Nat) : K :=
  let kprime := sTimePoint / simulationTimestep
  let index := (n : K) - kprime
  if index ≤ 0 then 0
  else
    let floor := Nat.floor index
    if floor ≤ 0 ∨ floor + 1 ≥ n then 0
    else
      let mix := index - (floor : K)
      let upp0 : K := 0
      let low0 : K := 0
      let upp1 : K := 0
      let low1 : K := 0
      let upp0 := if (blk.portAt portIndex).positive ≠ 0 then
          solutionMatrix.get ((blk.portAt portIndex).positive - 1) (floor + 1) else upp0
      let low0 := if (blk.portAt portIndex).positive ≠ 0 then
          solutionMatrix.get ((blk.portAt portIndex).positive - 1) floor else low0
      let upp1 := if (blk.portAt portIndex).negative ≠ 0 then
          solutionMatrix.get ((blk.portAt portIndex).negative - 1) (floor + 1) else upp1
      let low1 := if (blk.portAt portIndex).negative ≠ 0 then
          solutionMatrix.get ((blk.portAt portIndex).negative - 1) floor else low1
      let upp2 := solutionMatrix.get (sizeG_A + (blk.portAt portIndex).current - 1) (floor + 1)
      let low2 := solutionMatrix.get (sizeG_A + (blk.portAt portIndex).current - 1) floor
      (upp0 - low0) * mix + low0 - (upp1 - low1) * mix - low1 +
        ((upp2 - low2) * mix + low2) * blk.z_ref

/-- The controlled-source part of the body of `addStaticStampTo` for the ports `p` and
`c`. -/
def staticCross (blk : SParameterBlock K) (p c : Nat) (stamp : Stamp K) : Stamp K :=
  let curr := (blk.portAt p).current - 1
  if c ≠ p then
    let alpha := (blk.portAt p).beta * (blk.portAt p).s0.getD c 0
    let stamp := if (blk.portAt c).positive ≠ 0 then
        stamp.addG (stamp.sizeG_A + curr) ((blk.portAt c).positive - 1) (-alpha)
      else stamp
    let stamp := if (blk.portAt c).negative ≠ 0 then
        stamp.addG (stamp.sizeG_A + curr) ((blk.portAt c).negative - 1) alpha
      else stamp
    stamp.addG (stamp.sizeG_A + curr) (stamp.sizeG_A + (blk.portAt c).current - 1)
      (-blk.z_ref * alpha)
  else stamp

/-- The method `SParameterBlock::addStaticStampTo`. -/
def addStaticStampTo (blk : SParameterBlock K) (stamp : Stamp K) : Stamp K :=
  forRange (fun p (stamp : Stamp K) =>
      let np := (blk.portAt p).positive - 1
      let nn := (blk.portAt p).negative - 1
      let curr := (blk.portAt p).current - 1
      let stamp := stamp.addG (stamp.sizeG_A + curr) (stamp.sizeG_A + curr)
        (-(blk.portAt p).R)
      let stamp := if (blk.portAt p).positive ≠ 0 then
          (stamp.addG (stamp.sizeG_A + curr) np 1).addG np (stamp.sizeG_A + curr) 1
        else stamp
      let stamp := if (blk.portAt p).negative ≠ 0 then
          (stamp.addG (stamp.sizeG_A + curr) nn (-1)).addG nn (stamp.sizeG_A + curr) (-1)
        else stamp
      forRange (fun c stamp => blk.staticCross p c stamp) 0 blk.port.length stamp)
    0 blk.port.length stamp

/-- The sum `sum_k s.data(p, c, k)` over `k < s.length(p, c)` computed by the loops of
`addDCAnalysisStampTo`. -/
def dataSum (blk : SParameterBlock K) (p c : Nat) : K :=
  forRange (fun k (acc : K) => acc + blk.s.data p c k) 0 (blk.s.length p c) 0

/-- The local `Rprime` of `addDCAnalysisStampTo` for the port `p`. -/
def Rprime (blk : SParameterBlock K) (p : Nat) : K :=
  let sppSum := blk.dataSum p p
  (blk.portAt p).beta * blk.z_ref * (1 + sppSum) / (1 - (blk.portAt p).beta * sppSum)

/-- The controlled-source part of the body of `addDCAnalysisStampTo` for the ports `p`
and `c`. -/
def dcCross (blk : SParameterBlock K) (p c : Nat) (stamp : Stamp K) : Stamp K :=
  let curr := (blk.portAt p).current - 1
  let sppSum := blk.dataSum p p
  if c ≠ p then
    let alpha := (blk.portAt p).beta * (blk.portAt p).s0.getD c 0
    let alphaPrime := blk.dataSum p c
    let alphaPrime := (blk.portAt p).beta * alphaPrime
    let alphaPrime := alphaPrime + alpha
    let alphaPrime := alphaPrime / (1 - (blk.portAt p).beta * sppSum)
    let stamp := if (blk.portAt c).positive ≠ 0 then
        stamp.addG (stamp.sizeG_A + curr) ((blk.portAt c).positive - 1) (-alphaPrime)
      else stamp
    let stamp := if (blk.portAt c).negative ≠ 0 then
        stamp.addG (stamp.sizeG_A + curr) ((blk.portAt c).negative - 1) alphaPrime
      else stamp
    stamp.addG (stamp.sizeG_A + curr) (stamp.sizeG_A + (blk.portAt c).current - 1)
      (-blk.z_ref * alphaPrime)
  else stamp

/-- The method `SParameterBlock::addDCAnalysisStampTo`. -/
def addDCAnalysisStampTo (blk : SParameterBlock K) (stamp : Stamp K)
    (_solutionVector : Matrix K) (_numCurrents : Nat) : Stamp K :=
  forRange (fun p (stamp : Stamp K) =>
      let np := (blk.portAt p).positive - 1
      let nn := (blk.portAt p).negative - 1
      let curr := (blk.portAt p).current - 1
      let Rprime := blk.Rprime p
      let stamp := stamp.addG (stamp.sizeG_A + curr) (stamp.sizeG_A + curr) Rprime
      let stamp := if (blk.portAt p).positive ≠ 0 then
          (stamp.addG (stamp.sizeG_A + curr) np 1).addG np (stamp.sizeG_A + curr) 1
        else stamp
      let stamp := if (blk.portAt p).negative ≠ 0 then
          (stamp.addG (stamp.sizeG_A + curr) nn (-1)).addG nn (stamp.sizeG_A + curr) (-1)
        else stamp
      forRange (fun c stamp => blk.dcCross p c stamp) 0 blk.port.length stamp)
    0 blk.port.length stamp

end SParameterBlock

/-! ## Example S-parameter inputs -/

/-- An impulse response of length two, `h = (1/2, 2/5)`. -/
def exampleCausal : CausalData ℚ := { tau := 0, Ts := 1, data := [1 / 2, 2 / 5] }

/-- An impulse response of length two, `h = (2, 1)`, whose second entry is half of the
largest magnitude. -/
def exampleCausalTie : CausalData ℚ := { tau := 0, Ts := 1, data := [2, 1] }

/-- An empty sequence store for one port. -/
def emptySequence : SParameterSequence ℚ :=
  { _data := [], _time := [], sParamLengthOffset := [⟨0, 0⟩], numPorts := 1 }

/-- A one-port block between node `1` and ground with current unknown `1`,
`beta = 1`, `R = 50`, `z_ref = 50` and the one-entry sequence `s(0, 0, .) = (0)`. -/
def onePortBlock : SParameterBlock ℚ :=
  { port := [{ positive := 1, negative := 0, current := 1, R := 50, beta := 1, s0 := [0] }],
    s := { _data := [0], _time := [0], sParamLengthOffset := [⟨1, 0⟩], numPorts := 1 },
    z_ref := 50, fracMaxToKeep := 0 }

/-- A solution matrix with two rows and six columns, every entry `2`. -/
def constSol : Matrix ℚ := Matrix.mk0 2 6 2

/-! ## `std::complex`, the discrete Fourier transforms (dft.hpp) and the causality
enforcement (ForceCausal.hpp) -/

/-- The type `std::complex<T>`: real and imaginary part. -/
@[ext]
structure StdComplex (K : Type) where
  re : K
  im : K

namespace StdComplex

variable {K : Type} [LinearOrderedField K]

instance : Zero (StdComplex K) := ⟨⟨0, 0⟩⟩

instance : One (StdComplex K) := ⟨⟨1, 0⟩⟩

/-- The operator `+` of two complex numbers. -/
instance : Add (StdComplex K) := ⟨fun a b => ⟨a.re + b.re, a.im + b.im⟩⟩

instance : Neg (StdComplex K) := ⟨fun a => ⟨-a.re, -a.im⟩⟩

/-- The operator `-` of two complex numbers. -/
instance : Sub (StdComplex K) := ⟨fun a b => ⟨a.re - b.re, a.im - b.im⟩⟩

/-- The operator `*` of two complex numbers. -/
instance : Mul (StdComplex K) :=
  ⟨fun a b => ⟨a.re * b.re - a.im * b.im, a.re * b.im + a.im * b.re⟩⟩

/-- The conversion of a real number to `std::complex<T>`. -/
def ofReal (x : K) : StdComplex K := ⟨x, 0⟩

/-- The operator `*` of a real and a complex number. -/
def smulReal (x : K) (z : StdComplex K) : StdComplex K := ⟨x * z.re, x * z.im⟩

/-- The operator `-` of a complex and a real number. -/
def subReal (z : StdComplex K) (x : K) : StdComplex K := ⟨z.re - x, z.im⟩

/-- The operator `+=` of a complex number with a real number. -/
def addReal (z : StdComplex K) (x : K) : StdComplex K := ⟨z.re + x, z.im⟩

/-- The operators `/=` and `/` of a complex number by a real number. -/
def divReal (z : StdComplex K) (x : K) : StdComplex K := ⟨z.re / x, z.im / x⟩

/-- The function `std::conj`. -/
def conj (z : StdComplex K) : StdComplex K := ⟨z.re, -z.im⟩

/-- The function `std::exp` of a complex number. -/
def exp (F : CMath K) (z : StdComplex K) : StdComplex K :=
  ⟨F.exp z.re * F.cos z.im, F.exp z.re * F.sin z.im⟩

instance : CommRing (StdComplex K) where
  add_assoc a b c := by
    ext
    · exact add_assoc a.re b.re c.re
    · exact add_assoc a.im b.im c.im
  zero_add a := by
    ext
    · exact zero_add a.re
    · exact zero_add a.im
  add_zero a := by
    ext
    · exact add_zero a.re
    · exact add_zero a.im
  add_comm a b := by
    ext
    · exact add_comm a.re b.re
    · exact add_comm a.im b.im
  neg_add_cancel a := by
    ext
    · exact neg_add_cancel a.re
    · exact neg_add_cancel a.im
  sub_eq_add_neg a b := by
    ext
    · exact sub_eq_add_neg a.re b.re
    · exact sub_eq_add_neg a.im b.im
  nsmul := nsmulRec
  zsmul := zsmulRec
  left_distrib a b c := by
    ext
    · show a.re * (b.re + c.re) - a.im * (b.im + c.im) =
        a.re * b.re - a.im * b.im + (a.re * c.re - a.im * c.im)
      ring
    · show a.re * (b.im + c.im) + a.im * (b.re + c.re) =
        a.re * b.im + a.im * b.re + (a.re * c.im + a.im * c.re)
      ring
  right_distrib a b c := by
    ext
    · show (a.re + b.re) * c.re - (a.im + b.im) * c.im =
        a.re * c.re - a.im * c.im + (b.re * c.re - b.im * c.im)
      ring
    · show (a.re + b.re) * c.im + (a.im + b.im) * c.re =
        a.re * c.im + a.im * c.re + (b.re * c.im + b.im * c.re)
      ring
  zero_mul a := by
    ext
    · show (0 : K) * a.re - 0 * a.im = 0
      ring
    · show (0 : K) * a.im + 0 * a.re = 0
      ring
  mul_zero a := by
    ext
    · show a.re * (0 : K) - a.im * 0 = 0
      ring
    · show a.re * (0 : K) + a.im * 0 = 0
      ring
  mul_assoc a b c := by
    ext
    · show (a.re * b.re - a.im * b.im) * c.re - (a.re * b.im + a.im * b.re) * c.im =
        a.re * (b.re * c.re - b.im * c.im) - a.im * (b.re * c.im + b.im * c.re)
      ring
    · show (a.re * b.re - a.im * b.im) * c.im + (a.re * b.im + a.im * b.re) * c.re =
        a.re * (b.re * c.im + b.im * c.re) + a.im * (b.re * c.re - b.im * c.im)
      ring
  one_mul a := by
    ext
    · show (1 : K) * a.re - 0 * a.im = a.re
      ring
    · show (1 : K) * a.im + 0 * a.re = a.im
      ring
  mul_one a := by
    ext
    · show a.re * (1 : K) - a.im * 0 = a.re
      ring
    · show a.re * (0 : K) + a.im * 1 = a.im
      ring
  mul_comm a b := by
    ext
    · show a.re * b.re - a.im * b.im = b.re * a.re - b.im * a.im
      ring
    · show a.re * b.im + a.im * b.re = b.re * a.im + b.im * a.re
      ring

end StdComplex

/-- The type `std::vector<T>` of the transforms: its size and its entries. -/
structure StdVector (T : Type) where
  size : Nat
  data : Nat → T

/-- The member `back()`. -/
def StdVector.back {T : Type} (v : StdVector T) : T := v.data (v.size - 1)

/-- The expression `v[i]` of `std::vector<T>::operator[]`, read: the entry `i` when `i` is
below the size; for an index outside the vector the behaviour of the program is
undefined, and the value is `none`. -/
def StdVector.read {T : Type} (v : StdVector T) (i : Nat) : Option T :=
  if i < v.size then some (v.data i) else none

/-- The assignment `v[i] = x`: the vector with the entry `i` replaced when `i` is below
the size, and `none` for an index outside the vector. -/
def StdVector.write {T : Type} (v : StdVector T) (i : Nat) (x : T) : Option (StdVector T) :=
  if i < v.size then some { v with data := Function.update v.data i x } else none

/-- The conversion of an `int` to `size_t`. -/
def sizeOfInt (d : Int) : Nat := (d % 2 ^ 64).toNat

/-- The conversion of a `size_t` to `int`. -/
def intOfSize (x : Nat) : Int :=
  let r : Nat := x % 2 ^ 32
  if r < 2 ^ 31 then (r : Int) else (r : Int) - 2 ^ 32

/-- The negation `-d` of an `int`: the value of `int` congruent to `-d` modulo `2 ^ 32`
(the negation of the least `int` is the least `int`). -/
def negInt (d : Int) : Int := intOfSize (sizeOfInt (-d))

/-- The expression `1 << stride` as an operand of a `size_t` addition: the shift is made
in `int`, whose value is the one congruent to `2 ^ stride` modulo `2 ^ 32`, and the `int`
is converted to `size_t`.  (A shift by 32 or more is undefined in C++.) -/
def oneShl (stride : Nat) : Nat := sizeOfInt (intOfSize (2 ^ stride))

section Transforms

variable {K : Type} [LinearOrderedField K]

/-- The function `nthRootOfUnity(int numerator, size_t denominator)`; `pi` is
`std::numbers::pi`. -/
def nthRootOfUnity (F : CMath K) (pi : K) (numerator : Int) (denominator : Nat) :
    StdComplex K :=
  StdComplex.exp F ⟨0, -2 * pi * (numerator : K) / (denominator : K)⟩

/-- The function `dft`; the product `k * n` of two `size_t` is passed as `int`. -/
def dft (F : CMath K) (pi : K) (inputData : StdVector K) : StdVector (StdComplex K) :=
  let length := inputData.size
  let toRet : Nat → StdComplex K := fun _ => ⟨0, 0⟩
  let toRet := forRange (fun k toRet =>
      forRange (fun n (toRet : Nat → StdComplex K) =>
          Function.update toRet k (toRet k + StdComplex.smulReal (inputData.data n)
            (nthRootOfUnity F pi (intOfSize (k * n % 2 ^ 64)) length)))
        0 length toRet)
    0 length toRet
  { size := length, data := toRet }

/-- The function `idft`; the product `k * n` is converted to `int` and negated in `int`. -/
def idft (F : CMath K) (pi : K) (inputData : StdVector (StdComplex K)) :
    StdVector (StdComplex K) :=
  let length := inputData.size
  let toRet : Nat → StdComplex K := fun _ => ⟨0, 0⟩
  let toRet := forRange (fun n toRet =>
      let toRet := forRange (fun k (toRet : Nat → StdComplex K) =>
          Function.update toRet n (toRet n + inputData.data k *
            nthRootOfUnity F pi (negInt (intOfSize (k * n % 2 ^ 64))) length))
        0 length toRet
      Function.update toRet n (StdComplex.divReal (toRet n) (length : K)))
    0 length toRet
  { size := length, data := toRet }

/-- The function `_fftHelperRadix2<T, Iter, U, dir>`: each of the two iterators `result`
and `scratch` is a vector and a position in it, `conv` is the conversion of an input entry
to `std::complex<U>`, and the pair returned holds the vectors of `result` and of `scratch`
after the call.  Every access to `inputData`, `result` and `scratch` is checked against
the size of the vector, and the value is `none` as soon as one access is outside.  The
offsets `offset + (1 << stride)` are sums in `size_t` with the shift made in `int`. -/
def _fftHelperRadix2 {T : Type} [Add T] [Sub T] (conv : T → StdComplex K) (dir : Int)
    (F : CMath K) (pi : K) (inputData : StdVector T)
    (result : StdVector (StdComplex K)) (rpos : Nat)
    (scratch : StdVector (StdComplex K)) (spos : Nat)
    (offset stride : Nat) : Option (StdVector (StdComplex K) × StdVector (StdComplex K)) :=
  if 2 < inputData.size >>> stride then
    (_fftHelperRadix2 conv dir F pi inputData scratch spos result rpos offset
      (stride + 1)).bind fun first =>
    (_fftHelperRadix2 conv dir F pi inputData
      first.1 (spos + (inputData.size >>> stride) / 2)
      first.2 (rpos + (inputData.size >>> stride) / 2)
      ((offset + oneShl stride) % 2 ^ 64) (stride + 1)).bind fun second =>
    let scratch := second.1
    let result := second.2
    (forRange (fun i (result : Option (StdVector (StdComplex K))) =>
        result.bind fun result =>
        (scratch.read (spos + i)).bind fun a =>
        (scratch.read (spos + (i + (inputData.size >>> stride) / 2))).bind fun b =>
        (result.write (rpos + i)
          (a + nthRootOfUnity F pi (intOfSize (sizeOfInt dir * i % 2 ^ 64))
            (inputData.size >>> stride) * b)).bind fun result =>
        (scratch.read (spos + i)).bind fun a =>
        (scratch.read (spos + (i + (inputData.size >>> stride) / 2))).bind fun b =>
        result.write (rpos + (i + (inputData.size >>> stride) / 2))
          (a - nthRootOfUnity F pi (intOfSize (sizeOfInt dir * i % 2 ^ 64))
            (inputData.size >>> stride) * b))
      0 ((inputData.size >>> stride) / 2) (some result)).map fun result =>
    (result, scratch)
  else
    (inputData.read offset).bind fun x0 =>
    (inputData.read ((offset + oneShl stride) % 2 ^ 64)).bind fun x1 =>
    (result.write (rpos + 0) (conv (x0 + x1))).bind fun result =>
    (inputData.read offset).bind fun x0 =>
    (inputData.read ((offset + oneShl stride) % 2 ^ 64)).bind fun x1 =>
    (result.write (rpos + 1) (conv (x0 - x1))).map fun result =>
    (result, scratch)
termination_by inputData.size >>> stride
decreasing_by
  all_goals
    simp_wf
    rw [Nat.shiftRight_succ]
    omega

/-- The function `fft`: two vectors of zeros of the size of the input, the call of the
helper, and the vector `result`. -/
def fft (F : CMath K) (pi : K) (inputData : StdVector K) :
    Option (StdVector (StdComplex K)) :=
  let result : StdVector (StdComplex K) := { size := inputData.size, data := fun _ => ⟨0, 0⟩ }
  let scratch : StdVector (StdComplex K) := { size := inputData.size, data := fun _ => ⟨0, 0⟩ }
  (_fftHelperRadix2 StdComplex.ofReal 1 F pi inputData result 0 scratch 0 0 0).map fun r =>
  r.1

/-- The function `ifft`: as `fft` with `dir = -1`, followed by the division of every entry
of `result` by `result.size()`. -/
def ifft (F : CMath K) (pi : K) (inputData : StdVector (StdComplex K)) :
    Option (StdVector (StdComplex K)) :=
  let result : StdVector (StdComplex K) := { size := inputData.size, data := fun _ => ⟨0, 0⟩ }
  let scratch : StdVector (StdComplex K) := { size := inputData.size, data := fun _ => ⟨0, 0⟩ }
  (_fftHelperRadix2 (fun z => z) (-1) F pi inputData result 0 scratch 0 0 0).map fun r =>
  let result := r.1
  { result with
    data := forRange (fun i (data : Nat → StdComplex K) =>
        Function.update data i (StdComplex.divReal (data i) (result.size : K)))
      0 result.size result.data }

end Transforms

/-- The laws of `std::exp`, `std::cos`, `std::sin`, `std::tan` and `std::numbers::pi` in
exact arithmetic that the transforms rely on. -/
structure TrigLaws {K : Type} [LinearOrderedField K] (F : CMath K) (pi : K) : Prop where
  exp_zero : F.exp 0 = 1
  cos_add : ∀ x y, F.cos (x + y) = F.cos x * F.cos y - F.sin x * F.sin y
  sin_add : ∀ x y, F.sin (x + y) = F.sin x * F.cos y + F.cos x * F.sin y
  cos_neg : ∀ x, F.cos (-x) = F.cos x
  sin_neg : ∀ x, F.sin (-x) = -F.sin x
  tan_eq : ∀ x, F.tan x = F.sin x / F.cos x
  pi_ne_zero : pi ≠ 0
  unit_iff : ∀ x, (F.cos x = 1 ∧ F.sin x = 0) ↔ ∃ n : Int, x = 2 * pi * (n : K)

/-- The difference of two `size_t` values, which wraps modulo `2 ^ 64`. -/
def sizeSub (a b : Nat) : Nat := (a % 2 ^ 64 + 2 ^ 64 - b % 2 ^ 64) % 2 ^ 64

namespace ForceCausal

variable {T : Type} [LinearOrderedField T]

/-- The function `ForceCausal::F`. -/
def F (Fm : CMath T) (pi : T) (freq : StdVector T) (data : StdVector (StdComplex T))
    (tau k : T) (n : Nat) : StdComplex T :=
  StdComplex.subReal (data.data n) k *
    StdComplex.exp Fm ⟨0, -2 * pi * freq.data n * tau⟩

/-- The function `ForceCausal::K`. -/
def K (Fm : CMath T) (pi : T) (freq : StdVector T) (data : StdVector (StdComplex T))
    (tau : T) : T :=
  data.back.re - data.back.im / Fm.tan (2 * pi * freq.back * tau)

/-- The function `ForceCausal::f0`. -/
def f0 (Fm : CMath T) (pi : T) (freq : StdVector T) (data : StdVector (StdComplex T))
    (tau : T) : T :=
  let toRet : StdComplex T := ⟨0, 0⟩
  let k := K Fm pi freq data tau
  let toRet := forRange (fun i (toRet : StdComplex T) =>
      StdComplex.addReal toRet (2 * (F Fm pi freq data tau k i).re))
    1 (sizeSub freq.size 1) toRet
  let toRet := toRet + F Fm pi freq data tau k 0
  let toRet := StdComplex.addReal toRet (F Fm pi freq data tau k (sizeSub freq.size 1)).re
  let toRet := StdComplex.smulReal (1e3 / ((sizeSub (2 * freq.size) 2 : Nat) : T)) toRet
  toRet.re

/-- The loop of `ForceCausal::getTau`, with the iterations that remain. -/
def getTauLoop (Fm : CMath T) (pi : T) (freq : StdVector T)
    (data : StdVector (StdComplex T)) (tol step : T) : Nat → T → T
  | 0, currentGuess => currentGuess
  | fuel + 1, currentGuess =>
    let f0Curr := f0 Fm pi freq data currentGuess
    if f0Curr * f0Curr < tol then currentGuess
    else
      let diff := (f0 Fm pi freq data (currentGuess + step) - f0Curr) / step
      getTauLoop Fm pi freq data tol step fuel (currentGuess - f0Curr / diff)

/-- The function `ForceCausal::getTau`; the defaults are `tol = 1e-7`, `maxIter = 30` and
`step = 1e-8`. -/
def getTau (Fm : CMath T) (pi : T) (freq : StdVector T) (data : StdVector (StdComplex T))
    (tol : T) (maxIter : Nat) (step : T) : T :=
  getTauLoop Fm pi freq data tol step maxIter 1e-8

end ForceCausal

section ForceCausalMain

variable {K : Type} [LinearOrderedField K]

/-- The function `forceCausal`. -/
def forceCausal (Fm : CMath K) (pi : K) (freq : StdVector K)
    (data : StdVector (StdComplex K)) : CausalData K :=
  let size := sizeSub (2 * freq.size) 2
  let toRetData : List K := List.replicate size 0
  let Ts : K := 1 / ((size : K) * (freq.data 1 - freq.data 0))
  let hermitianData : Nat → StdComplex K := fun _ => ⟨0, 0⟩
  let k : K := 0
  let branch : K × K × (Nat → StdComplex K) :=
    if abs data.back.im < 1e-5 then
      let hermitianData := forRange (fun i (h : Nat → StdComplex K) =>
          Function.update h i (data.data i)) 0 (sizeSub freq.size 1) hermitianData
      let hermitianData := forRange (fun i (h : Nat → StdComplex K) =>
          Function.update h (sizeSub size i) (StdComplex.conj (data.data i)))
        1 freq.size hermitianData
      (0, k, hermitianData)
    else
      let tau := ForceCausal.getTau Fm pi freq data 1e-7 30 1e-8
      let k := ForceCausal.K Fm pi freq data tau
      let hermitianData := forRange (fun i (h : Nat → StdComplex K) =>
          Function.update h i (ForceCausal.F Fm pi freq data tau k i))
        0 (sizeSub freq.size 1) hermitianData
      let hermitianData := forRange (fun i (h : Nat → StdComplex K) =>
          Function.update h (sizeSub size i)
            (StdComplex.conj (ForceCausal.F Fm pi freq data tau k i)))
        1 freq.size hermitianData
      (tau, k, hermitianData)
  let tau := branch.1
  let k := branch.2.1
  let hermitianData := branch.2.2
  let idftVal := idft Fm pi { size := size, data := hermitianData }
  let toRetData := forRange (fun i (d : List K) => d.set i (idftVal.data i).re)
    0 idftVal.size toRetData
  let toRetData := if abs data.back.im ≥ 1e-5 then toRetData.set 0 k else toRetData
  { tau := tau, Ts := Ts, data := toRetData }

end ForceCausalMain

/-! ## The constructor tail and the time loop of `simulate` (Simulator.hpp) -/

/-- The method `CircuitElements::setNewStampSize`. -/
def CircuitElements.setNewStampSize {K : Type} [LinearOrderedField K]
    (ce : CircuitElements K) (numNodes numCurrents numDCCurrents : Nat) :
    CircuitElements K :=
  { ce with
    staticStamp := Stamp.new numNodes numCurrents
    dynamicStamp := Stamp.new numNodes numCurrents
    nonLinearStamp := Stamp.new numNodes numCurrents
    dcStamp := Stamp.new numNodes (numCurrents + numDCCurrents)
    staticStampIsFresh := false
    dynamicStampIsFresh := false
    nonLinearStampIsFresh := false }

namespace SimulationEnvironment

variable {K : Type} [LinearOrderedField K]

/-- The end of the constructor of `SimulationEnvironment`, after the netlist has been
read into `elements`, `numNodes`, `numCurrents`, `numDCCurrents`, `steps`, `timestep`
and `performDCAnalysis`: the stamps and the matrices are sized and, unless the netlist
has the directive `.nodc`, `setDCOpPoint` runs. -/
def construct (elements : CircuitElements K) (numNodes numCurrents numDCCurrents : Nat)
    (steps : Nat) (timestep : K) (performDCAnalysis : Bool) :
    Except String (SimulationEnvironment K) :=
  let elements := elements.setNewStampSize numNodes numCurrents numDCCurrents
  let sizeMat := elements.staticStamp.G.M
  let env : SimulationEnvironment K :=
    { steps := steps, timestep := timestep, elements := elements,
      luPair := LUPair.new sizeMat, scratchSpace := Matrix.mk0 sizeMat 1 0,
      solutionMat := Matrix.mk0 sizeMat steps 0 }
  if performDCAnalysis then env.setDCOpPoint numCurrents numDCCurrents
  else Except.ok env

/-- The time loop `for (n = ...; n < steps; n++)` of `simulate` with `count` steps left,
the next of which is the step `n`. -/
def simulateLoop :
    Nat → Nat → SimulationEnvironment K → Matrix K →
      Except String (SimulationEnvironment K × Matrix K)
  | 0, _, env, tempSoln => Except.ok (env, tempSoln)
  | count + 1, n, env, tempSoln =>
    match env.simulateStep tempSoln n with
    | Except.error e => Except.error e
    | Except.ok (env, tempSoln) => simulateLoop count (n + 1) env tempSoln

/-- The method `simulate`, up to the end of the time loop. -/
def simulate (env : SimulationEnvironment K) : Except String (SimulationEnvironment K) :=
  let tempSoln : Matrix K := Matrix.mk0 env.solutionMat.M 1 0
  match simulateLoop (env.steps - 1) 1 env tempSoln with
  | Except.error e => Except.error e
  | Except.ok (env, _) => Except.ok env

end SimulationEnvironment

section ExampleCircuits

variable {K : Type} [LinearOrderedField K]

/-- The registry read from the netlist `V 1 0 V`, `R1 1 2 r1`, `R2 2 0 r2`. -/
def dividerElements (V r1 r2 : K) : CircuitElements K :=
  { (CircuitElements.new 0 0 0 : CircuitElements K) with
    staticElements := [VoltageSource.toComponent (VoltageSource.mk V 1 0 1),
      Resistor.toComponent (Resistor.mk r1 1 2 0 true),
      Resistor.toComponent (Resistor.mk r2 2 0 0 true)] }

/-- The environment constructed from the divider netlist with the directive `.nodc`:
two nodes and one source current. -/
def dividerEnvironment (V r1 r2 : K) (steps : Nat) (timestep : K) :
    Except String (SimulationEnvironment K) :=
  SimulationEnvironment.construct (dividerElements V r1 r2) 2 1 0 steps timestep false

/-- The registry read from the netlist `V 1 0 V`, `R 1 2 r`, `C 2 0 c`. -/
def rcElements (V r c : K) : CircuitElements K :=
  { (CircuitElements.new 0 0 0 : CircuitElements K) with
    staticElements := [VoltageSource.toComponent (VoltageSource.mk V 1 0 1),
      Resistor.toComponent (Resistor.mk r 1 2 0 true)]
    dynamicElements := [Capacitor.toComponent (Capacitor.mk c 2 0 0 true)] }

/-- The environment constructed from the netlist `V 1 0 1`, `R 1 2 1000`, `C 2 0 1e-6`,
`.transient(0,5e-3,1e-6)`, with or without the directive `.nodc`: two nodes, one source
current, `steps = (5e-3 - 0) / 1e-6 = 5000`. -/
def rcEnvironment (performDCAnalysis : Bool) : Except String (SimulationEnvironment K) :=
  SimulationEnvironment.construct (rcElements 1 1000 1e-6) 2 1 0 5000 1e-6
    performDCAnalysis

end ExampleCircuits

/-- The state of the stamp caches of a registry without non-linear elements, relative to
a zero stamp `Z`, the static stamp `S` of its elements onto `Z`, and a dynamic stamp `D`:
a stamp flagged fresh is the one named. -/
structure StampCache {K : Type} [LinearOrderedField K] (ce : CircuitElements K)
    (Z S D : Stamp K) : Prop where
  nonLinear : ce.nonLinearElements = []
  clear : ce.staticStamp.clear = Z
  genStatic : Z.addStaticStamps (ce.staticElements ++ ce.dynamicElements) = S
  clearStatic : S.clear = Z
  static : ce.staticStampIsFresh = true → ce.staticStamp = S
  dynamic : ce.dynamicStampIsFresh = true → ce.dynamicStamp = D

/-- The stamp of a source of value `V` at node 1 with its current as third unknown, a
conductance `g` between the nodes 1 and 2, and a conductance `h` and a source current
`I` at node 2. -/
structure SeriesStamp {K : Type} [LinearOrderedField K] (D : Stamp K) (g h I V : K) :
    Prop where
  GM : D.G.M = 3
  GN : D.G.N = 3
  g0 : D.G.data 0 = g
  g1 : D.G.data 1 = -g
  g2 : D.G.data 2 = 1
  g3 : D.G.data 3 = -g
  g4 : D.G.data 4 = g + h
  g5 : D.G.data 5 = 0
  g6 : D.G.data 6 = 1
  g7 : D.G.data 7 = 0
  g8 : D.G.data 8 = 0
  s0 : D.s.data 0 = 0
  s1 : D.s.data 1 = I
  s2 : D.s.data 2 = V

/-- The facts that every pass of the Newton-Raphson loop of the step `n` keeps, for an
environment of three unknowns without non-linear elements that started the step as
`env0`: the caches, the element lists, the sizes and every column other than `n`. -/
structure SeriesInv {K : Type} [LinearOrderedField K] (env0 env : SimulationEnvironment K)
    (tempSoln : Matrix K) (n : Nat) (Z S D : Stamp K) : Prop where
  cache : StampCache env.elements Z S D
  staticElements : env.elements.staticElements = env0.elements.staticElements
  dynamicElements : env.elements.dynamicElements = env0.elements.dynamicElements
  steps : env.steps = env0.steps
  timestep : env.timestep = env0.timestep
  lN : env.luPair.l.N = 3
  lM : env.luPair.l.M = 3
  solM : env.solutionMat.M = 3
  solN : env.solutionMat.N = env0.solutionMat.N
  tempN : tempSoln.N = 1
  frame : ∀ k j, j < env0.solutionMat.N → j ≠ n →
    env.solutionMat.get k j = env0.solutionMat.get k j

/-- A stamp of two nodes and one current: `G` is `3 x 3` and `s` is `3 x 1`. -/
structure ThreeUnknowns {K : Type} [LinearOrderedField K] (st : Stamp K) : Prop where
  sizeA : st.sizeG_A = 2
  sizeD : st.sizeG_D = 1
  GM : st.G.M = 3
  GN : st.G.N = 3
  sM : st.s.M = 3
  sN : st.s.N = 1

/-- The environment of the circuit `V 1 0 V`, `R 1 2 r`, `C 2 0 c` when `simulate`
starts: the registry as read, stamps of three unknowns that are not flagged fresh, and
matrices of three rows. -/
structure RCStart {K : Type} [LinearOrderedField K] (env0 : SimulationEnvironment K)
    (V r c dt : K) (steps : Nat) : Prop where
  stepsEq : env0.steps = steps
  timestepEq : env0.timestep = dt
  staticElements : env0.elements.staticElements = (rcElements V r c).staticElements
  dynamicElements : env0.elements.dynamicElements = (rcElements V r c).dynamicElements
  nonLinearElements : env0.elements.nonLinearElements = []
  staticStamp : ThreeUnknowns env0.elements.staticStamp
  staticStampIsFresh : env0.elements.staticStampIsFresh = false
  dynamicStampIsFresh : env0.elements.dynamicStampIsFresh = false
  lN : env0.luPair.l.N = 3
  lM : env0.luPair.l.M = 3
  solM : env0.solutionMat.M = 3
  solN : env0.solutionMat.N = steps

/-! ## The states of the stamp caches (CircuitElements.hpp, Simulator.hpp) -/

/-- The registries that the program reaches once the stamps are sized: `setNewStampSize`
runs on the registry read from the netlist, then come the methods of the registry and the
two flag writes of the time loop of `simulate`, `elements.nonLinearStampIsFresh = false`
at the end of a pass that has not converged and `elements.staticStampIsFresh = false`,
the statement that follows `updateTimeStep` in the first step.  When an element throws in
`generateNonLinearStamp`, the registry is left as it was after the regeneration of the
dynamic stamp, with a partly assembled non-linear stamp. -/
inductive CircuitElements.Reachable {K : Type} [LinearOrderedField K] :
    CircuitElements K → Prop
  | setNewStampSize (ce : CircuitElements K) (numNodes numCurrents numDCCurrents : Nat) :
      Reachable (ce.setNewStampSize numNodes numCurrents numDCCurrents)
  | generateStaticStamp (ce : CircuitElements K) (h : Reachable ce) :
      Reachable ce.generateStaticStamp
  | generateDynamicStamp (ce : CircuitElements K) (sol : Matrix K) (n : Nat) (dt : K)
      (h : Reachable ce) : Reachable (ce.generateDynamicStamp sol n dt)
  | generateNonLinearStamp (ce ce1 : CircuitElements K) (sol : Matrix K) (n : Nat) (dt : K)
      (h : Reachable ce) (hok : ce.generateNonLinearStamp sol n dt = Except.ok ce1) :
      Reachable ce1
  | generateNonLinearStampThrows (ce : CircuitElements K) (sol : Matrix K) (n : Nat)
      (dt : K) (e : String) (partlyAssembled : Stamp K) (h : Reachable ce)
      (herr : ce.generateNonLinearStamp sol n dt = Except.error e) :
      Reachable
        { (if !ce.dynamicStampIsFresh then ce.generateDynamicStamp sol n dt else ce) with
          nonLinearStamp := partlyAssembled }
  | updateTimeStep (ce : CircuitElements K) (sol : Matrix K) (n : Nat) (dt : K)
      (h : Reachable ce) : Reachable (ce.updateTimeStep sol n dt)
  | generateDCStamp (ce ce1 : CircuitElements K) (sol : Matrix K) (numCurrents : Nat)
      (h : Reachable ce) (hok : ce.generateDCStamp sol numCurrents = Except.ok ce1) :
      Reachable ce1
  | updateDCStoredState (ce : CircuitElements K) (sol : Matrix K) (numCurrents : Nat)
      (h : Reachable ce) : Reachable (ce.updateDCStoredState sol numCurrents)
  | clearNonLinearFlag (ce : CircuitElements K) (h : Reachable ce) :
      Reachable { ce with nonLinearStampIsFresh := false }
  | clearStaticFlag (ce : CircuitElements K) (sol : Matrix K) (n : Nat) (dt : K)
      (h : Reachable ce) :
      Reachable { ce.updateTimeStep sol n dt with staticStampIsFresh := false }

/-! ## The size of the multipliers of `luPair` -/

/-- Every entry of `l` has modulus at most one. -/
def Matrix.LBound {K : Type} [LinearOrderedField K] (A : Matrix K) (lu : LUPair K) : Prop :=
  ∀ i, i < A.M → ∀ j, j < A.M → abs (lu.l.data (i * A.N + j)) ≤ 1

/-! ## Reading a resistor from the netlist (ElementsRegexBuilder.cpp, Resistor.hpp) -/

/-- The pattern that `generateRegex(indentifier, simplifiedMatching, startAnchor,
endAnchor)` builds and hands to the constructor of `std::regex`. -/
def generateRegex (indentifier simplifiedMatching : String) (startAnchor endAnchor : Bool) :
    String :=
  let spaceRegex := "\\s"
  let startAnchorRegex := "^"
  let endAnchorRegex := "\\s?$"
  let optionalSpaceRegex := "\\s?"
  let charRegex := "(.)"
  let size_tRegex := "(\\d+?)"
  let emptyWordRegex := "(.*?)"
  let wordRegex := "(.+?)"
  let optionalCharRegex := "(?:\\s(.))?"
  let optionalWordRegex := "(?:\\s(.+?))?"
  let optionalSize_tRegex := "(?:\\s(\\d+?))?"
  let built := ""
  let built := if startAnchor then built ++ startAnchorRegex else built
  let built := built ++ (indentifier ++ emptyWordRegex)
  let option := false
  let st := simplifiedMatching.toList.foldl
    (fun (st : String × Bool) (letter : Char) =>
      let built := st.1
      let option := st.2
      if letter = 'n' then
        if option then (built ++ optionalSize_tRegex, option)
        else ((built ++ spaceRegex) ++ size_tRegex, option)
      else if letter = 'w' then
        if option then (built ++ optionalWordRegex, option)
        else ((built ++ spaceRegex) ++ wordRegex, option)
      else if letter = 'c' then
        if option then (built ++ optionalCharRegex, option)
        else ((built ++ spaceRegex) ++ charRegex, option)
      else if letter = 's' then
        if option then (built ++ optionalSpaceRegex, option)
        else (built ++ spaceRegex, option)
      else if letter = '?' then (built, true)
      else (built, option))
    (built, option)
  let built := st.1
  let built := if endAnchor then built ++ endAnchorRegex else built
  built

/-- The functions of the C++ standard library that `addToElements` calls.
`regex_match line pattern` is the list of sub-matches that
`std::regex_match(line, matches, std::regex(pattern))` leaves in `matches`: one entry for
the whole match and one for each capture group when the line matches, no entry when it
does not.  The three conversions return `none` where the C++ functions throw. -/
structure StdLib (K : Type) where
  regex_match : String → String → List String
  stoi : String → Option Nat
  stoull : String → Option Nat
  stod : String → Option K

/-- The call `matches.str(n)`: the sub-match `n`, the empty string for `n >= size()`. -/
def smatchStr (smatch : List String) (n : Nat) : String := smatch.getD n ""

/-- The static method `Resistor::addToElements(line, elements, numNodes, numCurrents,
numDCCurrents)`: the new registry and the new values of the three counters, `none` when
a conversion throws. -/
def Resistor.addToElements {K : Type} [LinearOrderedField K] (lib : StdLib K)
    (line : String) (elements : CircuitElements K)
    (numNodes numCurrents numDCCurrents : Nat) :
    Option (CircuitElements K × Nat × Nat × Nat) :=
  let resistorRegex := generateRegex "R" "n n w ? c" true true
  let resistor : Resistor K :=
    { value := 0, n1 := 0, n2 := 0, currentIndex := 0, group1 := true }
  let smatch := lib.regex_match line resistorRegex
  match lib.stoi (smatchStr smatch 2) with
  | none => none
  | some n1 =>
    let resistor := { resistor with n1 := n1 }
    match lib.stoi (smatchStr smatch 3) with
    | none => none
    | some n2 =>
      let resistor := { resistor with n2 := n2 }
      match lib.stoull (smatchStr smatch 2) with
      | none => none
      | some m1 =>
        let numNodes := max numNodes m1
        match lib.stoull (smatchStr smatch 3) with
        | none => none
        | some m2 =>
          let numNodes := max numNodes m2
          match lib.stod (smatchStr smatch 4) with
          | none => none
          | some value =>
            let resistor := { resistor with value := value }
            let st : Resistor K × Nat :=
              if smatch.length < 6 ∧ smatchStr smatch 5 ≠ "" then
                ({ resistor with group1 := false, currentIndex := numCurrents + 1 },
                  numCurrents + 1)
              else ({ resistor with group1 := true }, numCurrents)
            let resistor := st.1
            let numCurrents := st.2
            let elements := { elements with
              staticElements := elements.staticElements ++ [Resistor.toComponent resistor] }
            some (elements, numNodes, numCurrents, numDCCurrents)

/-- The value of a string of decimal digits, `none` for any other string. -/
def digitsValue : List Char → Nat → Option Nat
  | [], acc => some acc
  | c :: cs, acc =>
    if c.isDigit then digitsValue cs (10 * acc + (c.toNat - 48)) else none

/-- A library for the netlist line `R1 1 2 1000 g`: the sub-matches are those of the line
against the resistor pattern, and the conversions read strings of decimal digits. -/
def groupLineLib : StdLib ℚ :=
  { regex_match := fun _ _ => ["R1 1 2 1000 g", "1", "1", "2", "1000", "g"],
    stoi := fun s => if s = "" then none else digitsValue s.toList 0,
    stoull := fun s => if s = "" then none else digitsValue s.toList 0,
    stod := fun s => if s = "" then none else (digitsValue s.toList 0).map (fun v => (v : ℚ)) }

/-! ## An environment without non-linear elements -/

/-- The environment `exampleEnvironment` without its diode: one resistor and one
capacitor between node `1` and ground. -/
def linearEnvironment : SimulationEnvironment ℚ :=
  { exampleEnvironment with
    elements := { exampleElements with nonLinearElements := [] } }

/-! ## The memory accesses of `_fftHelperRadix2` (dft.hpp) -/

/-- One access, by its index, to the vector `inputData` or to one of the vectors `result`
and `scratch` of `fft`; the three vectors have the size of the input. -/
inductive FFTAccess where
  | input (i : Nat)
  | result (i : Nat)
  | scratch (i : Nat)

/-- The index of an access. -/
def FFTAccess.index : FFTAccess → Nat
  | FFTAccess.input i => i
  | FFTAccess.result i => i
  | FFTAccess.scratch i => i

/-- An iterator of type `Iter`: it points into the vector `result` of `fft` or into the
vector `scratch` of `fft`, at the position `pos`. -/
structure FFTIter where
  intoResult : Bool
  pos : Nat

/-- The iterator `it + k`. -/
def FFTIter.add (it : FFTIter) (k : Nat) : FFTIter := { it with pos := it.pos + k }

/-- The access `it[i]`. -/
def FFTIter.deref (it : FFTIter) (i : Nat) : FFTAccess :=
  if it.intoResult then FFTAccess.result (it.pos + i) else FFTAccess.scratch (it.pos + i)

/-- The accesses that `_fftHelperRadix2(inputData, result, scratch, offset, stride)`
makes, in the order of the statements, for an input of `size` entries: in the loop the
reads of `scratch[i]` and `scratch[i + len / 2]` and the write of `result[i]`, then the
two reads again and the write of `result[i + len / 2]`; in the base case the reads of
`inputData[offset]` and `inputData[offset + (1 << stride)]` and the write of
`result[0]`, then the two reads again and the write of `result[1]`. -/
def _fftHelperRadix2Accesses (size : Nat) (result scratch : FFTIter) (offset stride : Nat) :
    List FFTAccess :=
  if 2 < size >>> stride then
    let first := _fftHelperRadix2Accesses size scratch result offset (stride + 1)
    let second := _fftHelperRadix2Accesses size
      (scratch.add ((size >>> stride) / 2)) (result.add ((size >>> stride) / 2))
      ((offset + oneShl stride) % 2 ^ 64) (stride + 1)
    let loop := forRange (fun i (acc : List FFTAccess) =>
        acc ++ [scratch.deref i, scratch.deref (i + (size >>> stride) / 2), result.deref i,
          scratch.deref i, scratch.deref (i + (size >>> stride) / 2),
          result.deref (i + (size >>> stride) / 2)])
      0 ((size >>> stride) / 2) []
    first ++ (second ++ loop)
  else
    [FFTAccess.input offset, FFTAccess.input ((offset + oneShl stride) % 2 ^ 64),
      result.deref 0,
      FFTAccess.input offset, FFTAccess.input ((offset + oneShl stride) % 2 ^ 64),
      result.deref 1]
termination_by size >>> stride
decreasing_by
  all_goals
    simp_wf
    rw [Nat.shiftRight_succ]
    omega

/-- The accesses of `fft` and of `ifft` in their call
`_fftHelperRadix2(inputData, result.begin(), scratch.begin(), 0, 0)`. -/
def fftAccesses (size : Nat) : List FFTAccess :=
  _fftHelperRadix2Accesses size ⟨true, 0⟩ ⟨false, 0⟩ 0 0

/-! ## The division of `std::complex` -/

namespace StdComplex

variable {K : Type} [LinearOrderedField K]

/-- The reciprocal `1 / z`. -/
instance : Inv (StdComplex K) :=
  ⟨fun z => ⟨z.re / (z.re * z.re + z.im * z.im), -z.im / (z.re * z.re + z.im * z.im)⟩⟩

/-- The operator `/` of two complex numbers. -/
instance : Div (StdComplex K) :=
  ⟨fun a b => ⟨(a.re * b.re + a.im * b.im) / (b.re * b.re + b.im * b.im),
    (a.im * b.re - a.re * b.im) / (b.re * b.re + b.im * b.im)⟩⟩

/-- With its division, `std::complex` over an ordered field is a field. -/
instance : Field (StdComplex K) where
  inv := Inv.inv
  div := Div.div
  div_eq_mul_inv a b := by
    ext
    · show (a.re * b.re + a.im * b.im) / (b.re * b.re + b.im * b.im) =
        a.re * (b.re / (b.re * b.re + b.im * b.im)) -
          a.im * (-b.im / (b.re * b.re + b.im * b.im))
      ring
    · show (a.im * b.re - a.re * b.im) / (b.re * b.re + b.im * b.im) =
        a.re * (-b.im / (b.re * b.re + b.im * b.im)) +
          a.im * (b.re / (b.re * b.re + b.im * b.im))
      ring
  exists_pair_ne := ⟨0, 1, fun h => zero_ne_one (congrArg StdComplex.re h)⟩
  mul_inv_cancel a ha := by
    have hn : a.re * a.re + a.im * a.im ≠ 0 := by
      intro h
      have h1 : a.re = 0 := by nlinarith [mul_self_nonneg a.re, mul_self_nonneg a.im]
      have h2 : a.im = 0 := by nlinarith [mul_self_nonneg a.re, mul_self_nonneg a.im]
      exact ha (by ext <;> assumption)
    ext
    · show a.re * (a.re / (a.re * a.re + a.im * a.im)) -
        a.im * (-a.im / (a.re * a.re + a.im * a.im)) = 1
      field_simp
    · show a.re * (-a.im / (a.re * a.re + a.im * a.im)) +
        a.im * (a.re / (a.re * a.re + a.im * a.im)) = 0
      field_simp
      ring
  inv_zero := by
    ext
    · show (0 : K) / (0 * 0 + 0 * 0) = 0
      simp
    · show -(0 : K) / (0 * 0 + 0 * 0) = 0
      simp
  nnqsmul := _
  nnqsmul_def := fun _ _ => rfl
  qsmul := _
  qsmul_def := fun _ _ => rfl

/-- The natural numbers embed into `std::complex` over an ordered field. -/
instance : CharZero (StdComplex K) :=
  ⟨fun m n h => by
    have key : ∀ k : Nat, ((k : StdComplex K)).re = (k : K) := by
      intro k
      induction k with
      | zero =>
        rw [Nat.cast_zero, Nat.cast_zero]
        rfl
      | succ k ih =>
        rw [Nat.cast_succ, Nat.cast_succ]
        show ((k : StdComplex K)).re + 1 = (k : K) + 1
        rw [ih]
    have h2 : ((m : StdComplex K)).re = ((n : StdComplex K)).re := congrArg StdComplex.re h
    rw [key, key] at h2
    exact Nat.cast_injective h2⟩

end StdComplex

/-! ## The vector-fitted S-parameter block (SParameterBlockVF.hpp)

A real operand of a mixed operator of `std::complex` (`1.0 - ea`, `pole * timestep`,
`lambda_p * awave_p(...)`) is converted with `StdComplex.ofReal`. -/

/-- The struct `SParamVFDataFrom<T>`; a vector is given by its entries. -/
structure SParamVFDataFrom (K : Type) where
  numPoles : Nat
  pole : Nat → StdComplex K
  residue : Nat → StdComplex K
  remainder : StdComplex K
  lambda_p : Nat → StdComplex K
  mu_p : Nat → StdComplex K
  nu_p : Nat → StdComplex K
  exp_alpha : Nat → StdComplex K
  lambda : StdComplex K
  mu : StdComplex K
  nu : StdComplex K
  x : Nat → StdComplex K

/-- The struct `SParameterPortVF<T>`; the member `from` is `from_` here. -/
structure SParameterPortVF (K : Type) where
  positive : Nat
  negative : Nat
  current : Nat
  beta : StdComplex K
  alpha : Nat → StdComplex K
  R : StdComplex K
  from_ : Nat → SParamVFDataFrom K

/-- The data members of the struct `SParameterBlockVF<T>`. -/
structure SParameterBlockVF (K : Type) where
  port : Nat → SParameterPortVF K
  numPorts : Nat
  firstOrder : Bool
  z_ref : K

namespace SParameterBlockVF

variable {K : Type} [LinearOrderedField K]

/-- An assignment to members of `port[p]`: the port `p` becomes `f` of itself. -/
def modifyPort (blk : SParameterBlockVF K) (p : Nat)
    (f : SParameterPortVF K → SParameterPortVF K) : SParameterBlockVF K :=
  { blk with port := Function.update blk.port p (f (blk.port p)) }

/-- An assignment to members of `port[p].from[c]`: that record becomes `f` of itself. -/
def modifyFrom (blk : SParameterBlockVF K) (p c : Nat)
    (f : SParamVFDataFrom K → SParamVFDataFrom K) : SParameterBlockVF K :=
  blk.modifyPort p (fun pt =>
    { pt with from_ := Function.update pt.from_ c (f (pt.from_ c)) })

/-- The method `awave_p`; `sqrt` is `std::sqrt`. -/
def awave_p (sqrt : K → K) (blk : SParameterBlockVF K) (p : Nat) (solutionMatrix : Matrix K)
    (currentSolutionIndex sizeG_A : Nat) : K :=
  let np := (blk.port p).positive - 1
  let nn := (blk.port p).negative - 1
  let curr := (blk.port p).current - 1
  let n := currentSolutionIndex
  let toRet : K := 0
  let toRet := if (blk.port p).positive ≠ 0 then toRet + solutionMatrix.get np n else toRet
  let toRet := if (blk.port p).negative ≠ 0 then toRet + -solutionMatrix.get nn n else toRet
  (toRet + solutionMatrix.get (sizeG_A + curr) n * blk.z_ref) / (2 * sqrt blk.z_ref)

/-- The method `setConstants`. -/
def setConstants (blk : SParameterBlockVF K) (_timestep : K) : SParameterBlockVF K :=
  forRange (fun p blk =>
      let blk := blk.modifyPort p (fun pt =>
        { pt with beta := StdComplex.ofReal 1 - (pt.from_ p).lambda - (pt.from_ p).remainder })
      let blk := blk.modifyPort p (fun pt => { pt with beta := StdComplex.ofReal 1 / pt.beta })
      let blk := blk.modifyPort p (fun pt =>
        { pt with R := StdComplex.ofReal 1 + (pt.from_ p).lambda + (pt.from_ p).remainder })
      let blk := blk.modifyPort p (fun pt =>
        { pt with R := StdComplex.ofReal blk.z_ref * pt.R * pt.beta })
      forRange (fun c blk =>
          if c = p then
            blk.modifyPort p (fun pt => { pt with alpha := Function.update pt.alpha c 0 })
          else
            let blk := blk.modifyPort p (fun pt =>
              { pt with
                alpha := Function.update pt.alpha c
                  ((pt.from_ c).lambda + (pt.from_ c).remainder) })
            blk.modifyPort p (fun pt =>
              { pt with alpha := Function.update pt.alpha c (pt.alpha c * pt.beta) }))
        0 blk.numPorts blk)
    0 blk.numPorts blk

/-- The value that `setFirstOrder` assigns to `lambda_p[rho]`, for the pole, the residue
and the timestep. -/
def firstOrderLambda (F : CMath K) (pole residue : StdComplex K) (timestep : K) :
    StdComplex K :=
  let a := pole * StdComplex.ofReal timestep
  let ea := StdComplex.exp F a;
  -(residue / pole) * (StdComplex.ofReal 1 + (StdComplex.ofReal 1 - ea) / a)

/-- The value that `setFirstOrder` assigns to `mu_p[rho]`. -/
def firstOrderMu (F : CMath K) (pole residue : StdComplex K) (timestep : K) :
    StdComplex K :=
  let a := pole * StdComplex.ofReal timestep
  let ea := StdComplex.exp F a;
  -(residue / pole) * ((ea - StdComplex.ofReal 1) / a - ea)

/-- The body of the loop over `rho` of `setFirstOrder`, on the record
`port[p].from[c]`. -/
def firstOrderPole (F : CMath K) (timestep : K) (rho : Nat) (fr : SParamVFDataFrom K) :
    SParamVFDataFrom K :=
  let fr := { fr with
    lambda_p := Function.update fr.lambda_p rho
      (firstOrderLambda F (fr.pole rho) (fr.residue rho) timestep) }
  let fr := { fr with lambda := fr.lambda + fr.lambda_p rho }
  let fr := { fr with
    mu_p := Function.update fr.mu_p rho
      (firstOrderMu F (fr.pole rho) (fr.residue rho) timestep) }
  let fr := { fr with mu := fr.mu + fr.mu_p rho }
  { fr with nu_p := Function.update fr.nu_p rho 0 }

/-- The method `setFirstOrder`. -/
def setFirstOrder (F : CMath K) (blk : SParameterBlockVF K) (timestep : K) :
    SParameterBlockVF K :=
  let blk := { blk with firstOrder := true }
  let blk := forRange (fun p blk =>
      forRange (fun c blk =>
          let blk := blk.modifyFrom p c (fun fr => { fr with lambda := 0, mu := 0, nu := 0 })
          forRange (fun rho blk => blk.modifyFrom p c (firstOrderPole F timestep rho))
            0 ((blk.port p).from_ c).numPoles blk)
        0 blk.numPorts blk)
    0 blk.numPorts blk
  blk.setConstants timestep

/-- The value that `setSecondOrder` assigns to `lambda_p[rho]`. -/
def secondOrderLambda (F : CMath K) (pole residue : StdComplex K) (timestep : K) :
    StdComplex K :=
  let a := pole * StdComplex.ofReal timestep
  let ea := StdComplex.exp F a;
  -(residue / pole) * ((StdComplex.ofReal 1 - ea) / (a * a) +
    (StdComplex.ofReal 3 - ea) / (StdComplex.ofReal 2 * a) + StdComplex.ofReal 1)

/-- The value that `setSecondOrder` assigns to `mu_p[rho]`. -/
def secondOrderMu (F : CMath K) (pole residue : StdComplex K) (timestep : K) :
    StdComplex K :=
  let a := pole * StdComplex.ofReal timestep
  let ea := StdComplex.exp F a;
  -(residue / pole) * (StdComplex.ofReal (-2) * (StdComplex.ofReal 1 - ea) / (a * a) -
    StdComplex.ofReal 2 / a - ea)

/-- The value that `setSecondOrder` assigns to `nu_p[rho]`. -/
def secondOrderNu (F : CMath K) (pole residue : StdComplex K) (timestep : K) :
    StdComplex K :=
  let a := pole * StdComplex.ofReal timestep
  let ea := StdComplex.exp F a;
  -(residue / pole) * ((StdComplex.ofReal 1 - ea) / (a * a) +
    (StdComplex.ofReal 1 + ea) / (StdComplex.ofReal 2 * a))

/-- The body of the loop over `rho` of `setSecondOrder`, on the record
`port[p].from[c]`. -/
def secondOrderPole (F : CMath K) (timestep : K) (rho : Nat) (fr : SParamVFDataFrom K) :
    SParamVFDataFrom K :=
  let fr := { fr with
    lambda_p := Function.update fr.lambda_p rho
      (secondOrderLambda F (fr.pole rho) (fr.residue rho) timestep) }
  let fr := { fr with lambda := fr.lambda + fr.lambda_p rho }
  let fr := { fr with
    mu_p := Function.update fr.mu_p rho
      (secondOrderMu F (fr.pole rho) (fr.residue rho) timestep) }
  let fr := { fr with mu := fr.mu + fr.mu_p rho }
  let fr := { fr with
    nu_p := Function.update fr.nu_p rho
      (secondOrderNu F (fr.pole rho) (fr.residue rho) timestep) }
  { fr with nu := fr.nu + fr.nu_p rho }

/-- The method `setSecondOrder`. -/
def setSecondOrder (F : CMath K) (blk : SParameterBlockVF K) (timestep : K) :
    SParameterBlockVF K :=
  let blk := { blk with firstOrder := false }
  let blk := forRange (fun p blk =>
      forRange (fun c blk =>
          let blk := blk.modifyFrom p c (fun fr => { fr with lambda := 0, mu := 0, nu := 0 })
          forRange (fun rho blk => blk.modifyFrom p c (secondOrderPole F timestep rho))
            0 ((blk.port p).from_ c).numPoles blk)
        0 blk.numPorts blk)
    0 blk.numPorts blk
  blk.setConstants timestep

/-- The method `setTimestep`; the choice between `setFirstOrder` and `setSecondOrder`
stands inside the loop over `p`. -/
def setTimestep (F : CMath K) (blk : SParameterBlockVF K) (timestep : K) :
    SParameterBlockVF K :=
  forRange (fun p blk =>
      let blk := forRange (fun c blk =>
          forRange (fun rho blk =>
              blk.modifyFrom p c (fun fr =>
                { fr with
                  exp_alpha := Function.update fr.exp_alpha rho
                    (StdComplex.exp F (fr.pole rho * StdComplex.ofReal timestep)) }))
            0 ((blk.port p).from_ c).numPoles blk)
        0 blk.numPorts blk
      if blk.firstOrder then blk.setFirstOrder F timestep
      else blk.setSecondOrder F timestep)
    0 blk.numPorts blk

/-- The body of the loop over `rho` of `updateStoredState`, for the port `p` and the
port `c`. -/
def updatePass (sqrt : K → K) (solutionMatrix : Matrix K) (currentSolutionIndex : Nat)
    (sizeG_A : Nat) (p c rho : Nat) (blk : SParameterBlockVF K) : SParameterBlockVF K :=
  let blk := blk.modifyFrom p c (fun fr =>
    { fr with
      x := Function.update fr.x rho
        (fr.x rho * fr.exp_alpha rho +
          fr.lambda_p rho * StdComplex.ofReal
            (blk.awave_p sqrt c solutionMatrix currentSolutionIndex sizeG_A) +
          fr.mu_p rho * StdComplex.ofReal
            (blk.awave_p sqrt c solutionMatrix (currentSolutionIndex - 1) sizeG_A)) })
  if !blk.firstOrder then
    blk.modifyFrom p c (fun fr =>
      { fr with
        x := Function.update fr.x rho
          (fr.x rho + fr.nu_p rho * StdComplex.ofReal
            (blk.awave_p sqrt c solutionMatrix (currentSolutionIndex - 2) sizeG_A)) })
  else blk

/-- The method `updateStoredState`. -/
def updateStoredState (sqrt : K → K) (F : CMath K) (blk : SParameterBlockVF K)
    (solutionMatrix : Matrix K) (currentSolutionIndex : Nat) (timestep : K)
    (sizeG_A : Nat) : SParameterBlockVF K :=
  let blk := forRange (fun p blk =>
      forRange (fun c blk =>
          forRange (updatePass sqrt solutionMatrix currentSolutionIndex sizeG_A p c)
            0 ((blk.port p).from_ c).numPoles blk)
        0 blk.numPorts blk)
    0 blk.numPorts blk
  if blk.firstOrder && decide (1 ≤ currentSolutionIndex) then blk.setSecondOrder F timestep
  else blk

/-- The block after the time steps `1 .. n` of `simulate`: the constructor of the
environment calls `setTimestep` on every element and every step `k` ends with
`updateStoredState(solutionMat, k, timestep, sizeG_A)`. -/
def afterSteps (sqrt : K → K) (F : CMath K) (blk : SParameterBlockVF K)
    (solutionMatrix : Matrix K) (timestep : K) (sizeG_A : Nat) : Nat → SParameterBlockVF K
  | 0 => blk.setTimestep F timestep
  | n + 1 => (afterSteps sqrt F blk solutionMatrix timestep sizeG_A n).updateStoredState
      sqrt F solutionMatrix (n + 1) timestep sizeG_A

/-- The block with the circuit data of `blk` (the number of ports, the reference
impedance and the three indices of every port), the flag `fo`, the constants `beta`,
`alpha` and `R` of the ports `ps` and the records `fs p c` as `port[p].from[c]`: the
methods of the block change nothing else. -/
def reshape (blk : SParameterBlockVF K) (fo : Bool) (ps : Nat → SParameterPortVF K)
    (fs : Nat → Nat → SParamVFDataFrom K) : SParameterBlockVF K :=
  { port := fun p =>
      { positive := (blk.port p).positive, negative := (blk.port p).negative,
        current := (blk.port p).current, beta := (ps p).beta, alpha := (ps p).alpha,
        R := (ps p).R, from_ := fs p },
    numPorts := blk.numPorts, firstOrder := fo, z_ref := blk.z_ref }

/-- The effect of `setFirstOrder` on one record `port[p].from[c]`: the three sums are
reset and the loop over `rho` runs. -/
def firstOrderFrom (F : CMath K) (timestep : K) (fr : SParamVFDataFrom K) :
    SParamVFDataFrom K :=
  forRange (firstOrderPole F timestep) 0 fr.numPoles { fr with lambda := 0, mu := 0, nu := 0 }

/-- The effect of `setSecondOrder` on one record `port[p].from[c]`. -/
def secondOrderFrom (F : CMath K) (timestep : K) (fr : SParamVFDataFrom K) :
    SParamVFDataFrom K :=
  forRange (secondOrderPole F timestep) 0 fr.numPoles { fr with lambda := 0, mu := 0, nu := 0 }

/-- The body of the loop over `rho` of `updateStoredState`, on the record
`port[p].from[c]`, for the flag `firstOrder` and the values `a0`, `a1`, `a2` of
`awave_p(c, ...)` at the columns `n`, `n - 1` and `n - 2`. -/
def updatePole (firstOrder : Bool) (a0 a1 a2 : K) (rho : Nat) (fr : SParamVFDataFrom K) :
    SParamVFDataFrom K :=
  let fr := { fr with
    x := Function.update fr.x rho
      (fr.x rho * fr.exp_alpha rho + fr.lambda_p rho * StdComplex.ofReal a0 +
        fr.mu_p rho * StdComplex.ofReal a1) }
  if !firstOrder then
    { fr with x := Function.update fr.x rho (fr.x rho + fr.nu_p rho * StdComplex.ofReal a2) }
  else fr

/-- The effect of the loops of `updateStoredState` on one record `port[p].from[c]`. -/
def updateFrom (firstOrder : Bool) (a0 a1 a2 : K) (fr : SParamVFDataFrom K) :
    SParamVFDataFrom K :=
  forRange (updatePole firstOrder a0 a1 a2) 0 fr.numPoles fr

/-- The effect of the loops over `c` and `rho` of `setTimestep` on one record
`port[p].from[c]`. -/
def timestepFrom (F : CMath K) (timestep : K) (fr : SParamVFDataFrom K) :
    SParamVFDataFrom K :=
  forRange (fun rho (fr : SParamVFDataFrom K) =>
      { fr with
        exp_alpha := Function.update fr.exp_alpha rho
          (StdComplex.exp F (fr.pole rho * StdComplex.ofReal timestep)) })
    0 fr.numPoles fr

/-- The records `port[p].from[c]` of a block. -/
def froms (blk : SParameterBlockVF K) : Nat → Nat → SParamVFDataFrom K :=
  fun p c => (blk.port p).from_ c

end SParameterBlockVF

/-- A block with one port between node 1 and ground and one pole `-1` of residue `1`,
as `readInPRR` leaves it: of first order, with the weights and the pole state at zero. -/
def exampleVF : SParameterBlockVF ℚ :=
  { port := fun _ =>
      { positive := 1, negative := 0, current := 1, beta := 0, alpha := fun _ => 0, R := 0,
        from_ := fun _ =>
          { numPoles := 1, pole := fun _ => ⟨-1, 0⟩, residue := fun _ => ⟨1, 0⟩,
            remainder := 0, lambda_p := fun _ => 0, mu_p := fun _ => 0, nu_p := fun _ => 0,
            exp_alpha := fun _ => 0, lambda := 0, mu := 0, nu := 0, x := fun _ => 0 } },
    numPorts := 1, firstOrder := true, z_ref := 50 }

namespace Matrix

variable {K : Type} [LinearOrderedField K]

/-! ## Buffer lemmas -/

theorem idx_inj {N i j i' j' : Nat} (hj : j < N) (hj' : j' < N)
    (h : i * N + j = i' * N + j') : i = i' ∧ j = j' := by
  have hN : 0 < N := by omega
  have h1 : (i * N + j) / N = i := by
    rw [Nat.mul_comm, Nat.mul_add_div hN, Nat.div_eq_of_lt hj, Nat.add_zero]
  have h2 : (i' * N + j') / N = i' := by
    rw [Nat.mul_comm, Nat.mul_add_div hN, Nat.div_eq_of_lt hj', Nat.add_zero]
  have hi : i = i' := by rw [← h1, ← h2, h]
  subst hi
  exact ⟨rfl, by omega⟩

theorem idx_eq_iff {N i j i' j' : Nat} (hj : j < N) (hj' : j' < N) :
    i * N + j = i' * N + j' ↔ i = i' ∧ j = j' :=
  ⟨idx_inj hj hj', fun h => by rw [h.1, h.2]⟩

theorem swapAt_apply {α : Type} (d : Nat → α) (x y z : Nat) :
    swapAt d x y z = if z = y then d x else if z = x then d y else d z := by
  simp [swapAt, Function.update_apply]

theorem swapAt_eq_swap {α : Type} (d : Nat → α) (x y z : Nat) :
    swapAt d x y z = d (Equiv.swap x y z) := by
  rw [swapAt_apply, Equiv.swap_apply_def]
  split_ifs <;> simp_all

theorem swapLoop_apply {α : Type} (d0 : Nat → α) (N r q : Nat) (k : Nat)
    (hk : k ≤ N) (i j : Nat) (hj : j < N) :
    forLoop (fun n d => swapAt d (r * N + n) (q * N + n)) 0 k d0 (i * N + j) =
      if j < k then d0 (Equiv.swap r q i * N + j) else d0 (i * N + j) := by
  induction k generalizing i j with
  | zero => simp [forLoop]
  | succ k ih =>
    have hk' : k < N := by omega
    have ihr := ih (by omega) r k hk'
    have ihq := ih (by omega) q k hk'
    have ihi := ih (by omega) i j hj
    simp only [forLoop, Nat.zero_add]
    rw [swapAt_apply]
    simp only [idx_eq_iff hj hk', ihr, ihq, ihi, lt_irrefl, if_false, Equiv.swap_apply_def]
    by_cases hjk : j = k
    · subst hjk
      by_cases h1 : i = q
      · by_cases h2 : i = r
        · subst h1
          subst h2
          simp
        · subst h1
          have h3 : ¬ r = i := fun h => h2 h.symm
          simp [h2, h3]
      · by_cases h2 : i = r
        · subst h2
          simp [h1]
        · simp [h1, h2]
    · have : (j < k + 1) = (j < k) := by
        apply propext; omega
      simp [hjk, this]

theorem rowAddLoop_apply {K : Type} [Add K] [Mul K] (d0 : Nat → K) (N dst src : Nat) (c : K)
    (k : Nat) (hk : k ≤ N) (i j : Nat) (hj : j < N) :
    forLoop (fun n d => Function.update d (dst * N + n)
        (d (dst * N + n) + c * d (src * N + n))) 0 k d0 (i * N + j) =
      if i = dst ∧ j < k then d0 (i * N + j) + c * d0 (src * N + j) else d0 (i * N + j) := by
  induction k generalizing i j with
  | zero => simp [forLoop]
  | succ k ih =>
    have hk' : k < N := by omega
    have ihd := ih (by omega) dst k hk'
    have ihs := ih (by omega) src k hk'
    have ihi := ih (by omega) i j hj
    simp only [forLoop, Nat.zero_add, Function.update_apply]
    simp only [idx_eq_iff hj hk', ihd, ihs, ihi, lt_irrefl, and_false, if_false]
    by_cases hjk : j = k
    · subst hjk
      by_cases h1 : i = dst
      · simp [h1]
      · simp [h1]
    · have : (j < k + 1) = (j < k) := by
        apply propext; omega
      simp [hjk, this]

/-! ## Invariant of the outer loop of `luPair` -/

theorem luInit_loop (A : Matrix K) (dest : LUPair K) (k : Nat) (hk : k ≤ A.N) :
    let lu := forLoop (fun n (d : LUPair K) =>
      { d with l := { d.l with data := Function.update d.l.data (n * A.N + n) 1 },
               p := Function.update d.p n n }) 0 k dest
    lu.u = dest.u ∧ lu.l.N = dest.l.N ∧ lu.l.M = dest.l.M ∧ lu.M = dest.M ∧
    (∀ i j, i < A.N → j < A.N →
      lu.l.data (i * A.N + j) = if i = j ∧ i < k then 1 else dest.l.data (i * A.N + j)) ∧
    (∀ n, lu.p n = if n < k then n else dest.p n) := by
  induction k with
  | zero => simp [forLoop]
  | succ k ih =>
    obtain ⟨h1, h2, h3, h4, h5, h6⟩ := ih (by omega)
    have hk' : k < A.N := by omega
    simp only [forLoop, Nat.zero_add]
    refine ⟨h1, h2, h3, h4, ?_, ?_⟩
    · intro i j hi hj
      simp only [Function.update_apply, idx_eq_iff hj hk', h5 i j hi hj]
      by_cases hik : i = k
      · subst hik
        by_cases hij : i = j
        · subst hij; simp
        · have : ¬ j = i := fun h => hij h.symm
          simp [hij, this]
      · have : (i < k + 1) = (i < k) := by apply propext; omega
        simp [hik, this]
    · intro n
      simp only [Function.update_apply, h6 n]
      by_cases hnk : n = k
      · simp [hnk]
      · have : (n < k + 1) = (n < k) := by apply propext; omega
        simp [hnk, this]

theorem luInit_inv (A : Matrix K) (hsq : A.N = A.M) :
    LUInv A 0 (luInit A (LUPair.new A.M)) := by
  have h := luInit_loop A
    { (LUPair.new A.M : LUPair K) with u := A, l := (LUPair.new A.M : LUPair K).l.fill 0 }
    A.N (le_refl _)
  simp only [] at h
  obtain ⟨h1, h2, h3, h4, h5, h6⟩ := h
  have hl : ∀ i j, i < A.M → j < A.M →
      (luInit A (LUPair.new A.M)).l.data (i * A.N + j) = if i = j then 1 else 0 := by
    intro i j hi hj
    have := h5 i j (by omega) (by omega)
    simp only [luInit, forRange, Nat.sub_zero]
    rw [this]
    have hi' : i < A.N := by omega
    simp [hi', Matrix.fill]
  have hp : ∀ i, i < A.M → (luInit A (LUPair.new A.M)).p i = i := by
    intro i hi
    have := h6 i
    simp only [luInit, forRange, Nat.sub_zero]
    rw [this]
    have hi' : i < A.N := by omega
    simp [hi']
  have hu : (luInit A (LUPair.new A.M)).u = A := by
    simp only [luInit, forRange, Nat.sub_zero]
    exact h1
  constructor
  · rw [hu]
  · rw [hu]
  · simp only [luInit, forRange, Nat.sub_zero]; rw [h2]; rfl
  · simp only [luInit, forRange, Nat.sub_zero]; rw [h3]; rfl
  · intro i hi; rw [hp i hi]; exact hi
  · intro i hi j hj h; rw [hp i hi, hp j hj] at h; exact h
  · intro i hi; rw [hl i i hi hi]; simp
  · intro i hi j hj hij _; rw [hl i j hi hj]; simp [hij]
  · intro i _ j _ hjk _; omega
  · intro i hi j hj
    rw [hp i hi, hu]
    rw [Finset.sum_congr rfl (fun t ht => by
      rw [hl i t hi (Finset.mem_range.mp ht)])]
    simp [Finset.sum_ite_eq, hi]

theorem findPivot_loop (A : Matrix K) (dest : LUPair K) (r k : Nat) :
    let st := forLoop (fun r2 (st : Nat × K) =>
      if abs (dest.u.data (r2 * A.N + r)) > st.2 then
        (r2, abs (dest.u.data (r2 * A.N + r)))
      else st) (r + 1) k (r, abs (dest.u.data (r * A.N + r)))
    r ≤ st.1 ∧ st.1 ≤ r + k ∧ st.2 = abs (dest.u.data (st.1 * A.N + r)) ∧
      ∀ i, r ≤ i → i ≤ r + k → abs (dest.u.data (i * A.N + r)) ≤ st.2 := by
  induction k with
  | zero =>
    simp only [forLoop, Nat.add_zero, le_refl, true_and]
    intro i h1 h2
    have : i = r := by omega
    rw [this]
  | succ k ih =>
    obtain ⟨h1, h2, h3, h4⟩ := ih
    simp only [forLoop]
    split_ifs with hgt
    · refine ⟨by omega, by omega, rfl, ?_⟩
      intro i hi1 hi2
      by_cases hik : i = r + 1 + k
      · rw [hik]
      · exact le_trans (h4 i hi1 (by omega)) (le_of_lt hgt)
    · refine ⟨h1, by omega, h3, ?_⟩
      intro i hi1 hi2
      by_cases hik : i = r + 1 + k
      · rw [hik]; exact not_lt.mp hgt
      · exact h4 i hi1 (by omega)

theorem findPivot_spec (A : Matrix K) (dest : LUPair K) (r : Nat) (hr : r < A.M) :
    r ≤ (findPivot A dest r).1 ∧ (findPivot A dest r).1 < A.M ∧
      ∀ i, r ≤ i → i < A.M → abs (dest.u.data (i * A.N + r)) ≤
        abs (dest.u.data ((findPivot A dest r).1 * A.N + r)) := by
  have h := findPivot_loop A dest r (A.M - (r + 1))
  simp only [] at h
  obtain ⟨h1, h2, h3, h4⟩ := h
  refine ⟨h1, ?_, ?_⟩
  · unfold findPivot forRange; omega
  · intro i hi1 hi2
    have := h4 i hi1 (by omega)
    rw [h3] at this
    exact this

theorem luSwap_u (A : Matrix K) (r : Nat) (lu : LUPair K) (hN : lu.u.N = A.N)
    (i j : Nat) (hj : j < A.N) :
    (luSwap A r lu).u.data (i * A.N + j) =
      lu.u.data (Equiv.swap r (findPivot A lu r).1 i * A.N + j) := by
  simp only [luSwap, swapRows, forRange, Nat.sub_zero, hN]
  rw [swapLoop_apply _ _ _ _ _ (le_refl _) i j hj]
  simp [hj]

theorem luSwap_l (A : Matrix K) (r : Nat) (lu : LUPair K) (hr : r ≤ A.N)
    (i j : Nat) (hj : j < A.N) :
    (luSwap A r lu).l.data (i * A.N + j) =
      if j < r then lu.l.data (Equiv.swap r (findPivot A lu r).1 i * A.N + j)
      else lu.l.data (i * A.N + j) := by
  simp only [luSwap, forRange, Nat.sub_zero]
  rw [swapLoop_apply _ _ _ _ _ hr i j hj]

theorem luSwap_p (A : Matrix K) (r : Nat) (lu : LUPair K) (i : Nat) :
    (luSwap A r lu).p i = lu.p (Equiv.swap r (findPivot A lu r).1 i) := by
  simp only [luSwap]
  rw [swapAt_eq_swap]

theorem swap_lt {r q M i : Nat} (hr : r < M) (hq : q < M) (hi : i < M) :
    Equiv.swap r q i < M := by
  rw [Equiv.swap_apply_def]
  split_ifs <;> omega

theorem swap_ge {r q i : Nat} (hq : r ≤ q) (hi : r ≤ i) : r ≤ Equiv.swap r q i := by
  rw [Equiv.swap_apply_def]
  split_ifs <;> omega

theorem swap_low {r q i : Nat} (hq : r ≤ q) (hi : i < r) : Equiv.swap r q i = i := by
  rw [Equiv.swap_apply_def]
  have h1 : ¬ i = r := by omega
  have h2 : ¬ i = q := by omega
  simp [h1, h2]

theorem luSwap_inv (A : Matrix K) (hsq : A.N = A.M) (r : Nat) (hr : r < A.M)
    (lu : LUPair K) (h : LUInv A r lu) :
    LUInv A r (luSwap A r lu) ∧
      ∀ i, r ≤ i → i < A.M → abs ((luSwap A r lu).u.data (i * A.N + r)) ≤
        abs ((luSwap A r lu).u.data (r * A.N + r)) := by
  obtain ⟨hq1, hq2, hq3⟩ := findPivot_spec A lu r hr
  have hU : ∀ i j, j < A.M → (luSwap A r lu).u.data (i * A.N + j) =
      lu.u.data (Equiv.swap r (findPivot A lu r).1 i * A.N + j) :=
    fun i j hj => luSwap_u A r lu h.uN i j (by omega)
  have hL : ∀ i j, j < A.M → (luSwap A r lu).l.data (i * A.N + j) =
      if j < r then lu.l.data (Equiv.swap r (findPivot A lu r).1 i * A.N + j)
      else lu.l.data (i * A.N + j) :=
    fun i j hj => luSwap_l A r lu (by omega) i j (by omega)
  have hP := luSwap_p A r lu
  generalize (findPivot A lu r).1 = q at hq1 hq2 hq3 hU hL hP
  have hLL : ∀ i, i < A.M → ∀ t, t < A.M → (luSwap A r lu).l.data (i * A.N + t) =
      lu.l.data (Equiv.swap r q i * A.N + Equiv.swap r q t) := by
    intro i hi t ht
    rw [hL i t ht]
    by_cases htr : t < r
    · simp [htr, swap_low hq1 htr]
    · simp only [htr, if_false]
      have hst : r ≤ Equiv.swap r q t := swap_ge hq1 (by omega)
      have hsi := swap_lt hr hq2 hi
      have hst' := swap_lt hr hq2 ht
      by_cases hit : i = t
      · subst hit
        rw [h.lDiag i hi, h.lDiag _ hsi]
      · rw [h.lOff i hi t ht hit (Or.inr (by omega))]
        rw [h.lOff _ hsi _ hst' (fun e => hit ((Equiv.swap r q).injective e)) (Or.inr hst)]
  refine ⟨?_, ?_⟩
  · constructor
    · simp [luSwap, swapRows, h.uN]
    · simp [luSwap, swapRows, h.uM]
    · simp [luSwap, h.lN]
    · simp [luSwap, h.lM]
    · intro i hi
      rw [hP]
      exact h.pBound _ (swap_lt hr hq2 hi)
    · intro i hi j hj e
      rw [hP, hP] at e
      exact (Equiv.swap r q).injective
        (h.pInj _ (swap_lt hr hq2 hi) _ (swap_lt hr hq2 hj) e)
    · intro i hi
      rw [hLL i hi i hi, h.lDiag _ (swap_lt hr hq2 hi)]
    · intro i hi j hj hij hc
      rw [hL i j hj]
      by_cases hjr : j < r
      · simp only [hjr, if_true]
        have hir : i < r := by omega
        rw [swap_low hq1 hir]
        exact h.lOff i hi j hj hij (Or.inl (by omega))
      · simp only [hjr, if_false]
        exact h.lOff i hi j hj hij (Or.inr (by omega))
    · intro i hi j hj hjr hji
      rw [hU i j hj]
      refine h.uLow _ (swap_lt hr hq2 hi) j hj hjr ?_
      have := @swap_ge r q i hq1
      by_cases hir : r ≤ i
      · have := this hir; omega
      · rw [swap_low hq1 (by omega)]; exact hji
    · intro i hi j hj
      rw [hP, ← h.prod _ (swap_lt hr hq2 hi) j hj]
      rw [Finset.sum_congr rfl (fun t ht => by
        rw [hLL i hi t (Finset.mem_range.mp ht), hU t j hj])]
      refine Finset.sum_equiv (Equiv.swap r q) ?_ ?_
      · intro t
        simp only [Finset.mem_range]
        constructor
        · intro ht; exact swap_lt hr hq2 ht
        · intro ht
          have := swap_lt hr hq2 ht
          rwa [Equiv.swap_apply_self] at this
      · intro t _; rfl
  · intro i hi1 hi2
    rw [hU i r hr, hU r r hr, Equiv.swap_apply_left]
    have hsi := swap_lt hr hq2 hi2
    exact hq3 _ (swap_ge hq1 hi1) hsi

theorem luElimRow_u (A : Matrix K) (r m : Nat) (lu : LUPair K) (hN : lu.u.N = A.N)
    (i j : Nat) (hj : j < A.N) :
    (luElimRow A r m lu).u.data (i * A.N + j) =
      if i = m then lu.u.data (i * A.N + j) +
        -(lu.u.data (m * A.N + r) / lu.u.data (r * A.N + r)) * lu.u.data (r * A.N + j)
      else lu.u.data (i * A.N + j) := by
  simp only [luElimRow, rowAddition, forRange, Nat.sub_zero, hN]
  rw [rowAddLoop_apply _ _ _ _ _ _ (le_refl _) i j hj]
  simp [hj]

theorem luElimRow_l (A : Matrix K) (r m : Nat) (lu : LUPair K) (hr : r < A.N)
    (i j : Nat) (hj : j < A.N) :
    (luElimRow A r m lu).l.data (i * A.N + j) =
      if i = m ∧ j = r then lu.u.data (m * A.N + r) / lu.u.data (r * A.N + r)
      else lu.l.data (i * A.N + j) := by
  simp only [luElimRow, Function.update_apply, idx_eq_iff hj hr]

theorem elimInv_start (A : Matrix K) (r : Nat) (lu : LUPair K) (h : LUInv A r lu)
    (hmax : ∀ i, r ≤ i → i < A.M → abs (lu.u.data (i * A.N + r)) ≤
      abs (lu.u.data (r * A.N + r))) :
    ElimInv A r (r + 1) lu := by
  refine ⟨h.uN, h.uM, h.lN, h.lM, h.pBound, h.pInj, h.lDiag, ?_, ?_, h.prod, ?_⟩
  · intro i hi j hj hij hc
    refine h.lOff i hi j hj hij ?_
    rcases hc with hc | hc | hc
    · exact Or.inl hc
    · exact Or.inr (by omega)
    · exact Or.inr (by omega)
  · intro i hi j hj hji hc
    rcases hc with hc | hc
    · exact h.uLow i hi j hj hc hji
    · omega
  · intro h0 i hi1 hi2
    have := hmax i (by omega) hi2
    rw [h0, abs_zero] at this
    exact abs_eq_zero.mp (le_antisymm this (abs_nonneg _))

theorem elimInv_finish (A : Matrix K) (r : Nat) (lu : LUPair K)
    (h : ElimInv A r A.M lu) : LUInv A (r + 1) lu := by
  refine ⟨h.uN, h.uM, h.lN, h.lM, h.pBound, h.pInj, h.lDiag, ?_, ?_, h.prod⟩
  · intro i hi j hj hij hc
    refine h.lOff i hi j hj hij ?_
    rcases hc with hc | hc
    · exact Or.inl hc
    · exact Or.inr (Or.inl hc)
  · intro i hi j hj hjr hji
    refine h.uLow i hi j hj hji ?_
    by_cases hjr' : j < r
    · exact Or.inl hjr'
    · exact Or.inr ⟨by omega, hi⟩

theorem elimInv_step (A : Matrix K) (hsq : A.N = A.M) (r m : Nat) (hrm : r < m)
    (hm : m < A.M) (lu : LUPair K) (h : ElimInv A r m lu) :
    ElimInv A r (m + 1) (luElimRow A r m lu) := by
  have hr : r < A.M := by omega
  have hU : ∀ i j, j < A.M → (luElimRow A r m lu).u.data (i * A.N + j) =
      if i = m then lu.u.data (i * A.N + j) +
        -(lu.u.data (m * A.N + r) / lu.u.data (r * A.N + r)) * lu.u.data (r * A.N + j)
      else lu.u.data (i * A.N + j) :=
    fun i j hj => luElimRow_u A r m lu h.uN i j (by omega)
  have hL : ∀ i j, j < A.M → (luElimRow A r m lu).l.data (i * A.N + j) =
      if i = m ∧ j = r then lu.u.data (m * A.N + r) / lu.u.data (r * A.N + r)
      else lu.l.data (i * A.N + j) :=
    fun i j hj => luElimRow_l A r m lu (by omega) i j (by omega)
  have hP : (luElimRow A r m lu).p = lu.p := rfl
  obtain ⟨μ, hμ⟩ : ∃ μ, μ = lu.u.data (m * A.N + r) / lu.u.data (r * A.N + r) := ⟨_, rfl⟩
  rw [← hμ] at hU hL
  have hmu : lu.u.data (m * A.N + r) + -μ * lu.u.data (r * A.N + r) = 0 := by
    by_cases h0 : lu.u.data (r * A.N + r) = 0
    · rw [h.zcol h0 m (le_refl _) hm, h0]; simp
    · rw [hμ]; field_simp
  have hLmr : lu.l.data (m * A.N + r) = 0 :=
    h.lOff m hm r hr (by omega) (Or.inr (Or.inr ⟨rfl, le_refl _⟩))
  constructor
  · simp [luElimRow, rowAddition, h.uN]
  · simp [luElimRow, rowAddition, h.uM]
  · simp [luElimRow, h.lN]
  · simp [luElimRow, h.lM]
  · rw [hP]; exact h.pBound
  · rw [hP]; exact h.pInj
  · intro i hi
    rw [hL i i hi]
    have : ¬ (i = m ∧ i = r) := by omega
    simp only [this, if_false]
    exact h.lDiag i hi
  · intro i hi j hj hij hc
    rw [hL i j hj]
    have : ¬ (i = m ∧ j = r) := by omega
    simp only [this, if_false]
    refine h.lOff i hi j hj hij ?_
    rcases hc with hc | hc | hc
    · exact Or.inl hc
    · exact Or.inr (Or.inl hc)
    · exact Or.inr (Or.inr ⟨hc.1, by omega⟩)
  · intro i hi j hj hji hc
    rw [hU i j hj]
    by_cases him : i = m
    · subst him
      simp only [if_true]
      rcases hc with hc | hc
      · rw [h.uLow i hi j hj hji (Or.inl hc), h.uLow r hr j hj hc (Or.inl hc)]; simp
      · rw [hc.1]; exact hmu
    · simp only [him, if_false]
      refine h.uLow i hi j hj hji ?_
      rcases hc with hc | hc
      · exact Or.inl hc
      · exact Or.inr ⟨hc.1, by omega⟩
  · intro i hi j hj
    rw [hP, ← h.prod i hi j hj]
    have key : ∀ t, t ∈ Finset.range A.M →
        (luElimRow A r m lu).l.data (i * A.N + t) * (luElimRow A r m lu).u.data (t * A.N + j) =
          lu.l.data (i * A.N + t) * lu.u.data (t * A.N + j) +
            ((if t = r then (if i = m then μ * lu.u.data (r * A.N + j) else 0) else 0) +
             (if t = m then -(lu.l.data (i * A.N + m) * μ * lu.u.data (r * A.N + j)) else 0)) := by
      intro t ht
      have ht' := Finset.mem_range.mp ht
      rw [hL i t ht', hU t j hj]
      by_cases htm : t = m
      · subst htm
        have : ¬ t = r := by omega
        simp [this]; ring
      · by_cases htr : t = r
        · subst htr
          by_cases him : i = m
          · subst him
            simp [htm, hLmr]
          · simp [htm, him]
        · simp [htm, htr]
    rw [Finset.sum_congr rfl key, Finset.sum_add_distrib, Finset.sum_add_distrib,
      Finset.sum_ite_eq', Finset.sum_ite_eq']
    simp only [Finset.mem_range, hr, hm, if_true]
    by_cases him : i = m
    · subst him
      rw [h.lDiag i hi]; simp
    · rw [h.lOff i hi m hm him (Or.inr (Or.inl (by omega)))]; simp [him]
  · intro h0 i hi1 hi2
    have hrm' : ¬ r = m := by omega
    have him : ¬ i = m := by omega
    rw [hU r r hr] at h0
    simp only [hrm', if_false] at h0
    rw [hU i r hr]
    simp only [him, if_false]
    exact h.zcol h0 i (by omega) hi2

theorem luElim_loop (A : Matrix K) (hsq : A.N = A.M) (r : Nat) (lu : LUPair K)
    (h : ElimInv A r (r + 1) lu) (k : Nat) (hk : r + 1 + k ≤ A.M) :
    ElimInv A r (r + 1 + k) (forLoop (luElimRow A r) (r + 1) k lu) := by
  induction k with
  | zero => exact h
  | succ k ih =>
    have := elimInv_step A hsq r (r + 1 + k) (by omega) (by omega) _ (ih (by omega))
    exact this

theorem luStep_inv (A : Matrix K) (hsq : A.N = A.M) (r : Nat) (hr : r < A.M)
    (lu : LUPair K) (h : LUInv A r lu) : LUInv A (r + 1) (luStep A r lu) := by
  obtain ⟨h1, h2⟩ := luSwap_inv A hsq r hr lu h
  have h3 := elimInv_start A r _ h1 h2
  have h4 := luElim_loop A hsq r _ h3 (A.M - (r + 1)) (by omega)
  have e : r + 1 + (A.M - (r + 1)) = A.M := by omega
  rw [e] at h4
  exact elimInv_finish A r _ h4

theorem luAfter_inv (A : Matrix K) (hsq : A.N = A.M) (k : Nat) (hk : k ≤ A.M) :
    LUInv A k (luAfter A k (LUPair.new A.M)) := by
  induction k with
  | zero => exact luInit_inv A hsq
  | succ k ih =>
    have := luStep_inv A hsq k (by omega) _ (ih (by omega))
    simpa [luAfter, forLoop] using this

theorem luPair_eq_luAfter (A : Matrix K) :
    luPair A = luAfter A (A.M - 1) (LUPair.new A.M) := rfl

theorem luPair_inv (A : Matrix K) (hsq : A.N = A.M) :
    LUInv A (A.M - 1) (luPair A) := by
  rw [luPair_eq_luAfter]
  exact luAfter_inv A hsq _ (by omega)

/-! ## Forward and back substitution -/

theorem subLoop_eq {K : Type} [Field K] (f : Nat → K) (k : Nat) (v0 : K) :
    forLoop (fun n v => v - f n) 0 k v0 = v0 - ∑ n in Finset.range k, f n := by
  induction k with
  | zero => simp [forLoop]
  | succ k ih =>
    simp only [forLoop, Nat.zero_add, ih, Finset.sum_range_succ]
    ring

theorem permLoop_apply {K : Type} (g : Nat → K) (d0 : Nat → K) (k m : Nat) :
    forLoop (fun m d => Function.update d m (g m)) 0 k d0 m =
      if m < k then g m else d0 m := by
  induction k with
  | zero => simp [forLoop]
  | succ k ih =>
    simp only [forLoop, Nat.zero_add, Function.update_apply, ih]
    by_cases hmk : m = k
    · simp [hmk]
    · have : (m < k + 1) = (m < k) := by apply propext; omega
      simp [hmk, this]

/-- The forward-substitution loop of `leftDivide` on diagonal `dg` and strictly lower
part `lo`. -/
theorem forwardLoop_spec {K : Type} [Field K] (b : Nat → K) (lo : Nat → Nat → K)
    (dg : Nat → K) (sc0 : Nat → K) (k : Nat) (m : Nat) (hm : m < k) :
    forLoop (fun m sc =>
      Function.update sc m ((b m - ∑ n in Finset.range m, sc n * lo m n) / dg m)) 0 k sc0 m =
    (b m - ∑ n in Finset.range m, forLoop (fun m sc =>
      Function.update sc m ((b m - ∑ n in Finset.range m, sc n * lo m n) / dg m)) 0 k sc0 n *
        lo m n) / dg m := by
  induction k with
  | zero => omega
  | succ k ih =>
    simp only [forLoop, Nat.zero_add, Function.update_apply]
    by_cases hmk : m = k
    · subst hmk
      simp only [if_true]
      congr 2
      refine Finset.sum_congr rfl (fun n hn => ?_)
      have : ¬ n = m := by have := Finset.mem_range.mp hn; omega
      simp [this]
    · simp only [hmk, if_false]
      rw [ih (by omega)]
      congr 2
      refine Finset.sum_congr rfl (fun n hn => ?_)
      have : ¬ n = k := by have := Finset.mem_range.mp hn; omega
      simp [this]

/-- The back-substitution loop of `leftDivide`, rows `M - 1` down to `M - k`. -/
theorem backLoop_spec {K : Type} [Field K] (M : Nat) (y : Nat → K) (up : Nat → Nat → K)
    (dg : Nat → K) (d0 : Nat → K) (k : Nat) (hk : k ≤ M) (m : Nat) (hm : m < k) :
    forLoop (fun m d => Function.update d (M - m - 1)
        ((y (M - m - 1) - ∑ n in Finset.range m, d (M - n - 1) * up m n) /
          dg m)) 0 k d0 (M - m - 1) =
      (y (M - m - 1) - ∑ n in Finset.range m,
        forLoop (fun m d => Function.update d (M - m - 1)
          ((y (M - m - 1) - ∑ n in Finset.range m, d (M - n - 1) * up m n) /
            dg m)) 0 k d0 (M - n - 1) * up m n) / dg m := by
  induction k with
  | zero => omega
  | succ k ih =>
    simp only [forLoop, Nat.zero_add, Function.update_apply]
    by_cases hmk : m = k
    · subst hmk
      simp only [if_true]
      congr 2
      refine Finset.sum_congr rfl (fun n hn => ?_)
      have : ¬ M - n - 1 = M - m - 1 := by have := Finset.mem_range.mp hn; omega
      simp [this]
    · have h1 : ¬ M - m - 1 = M - k - 1 := by omega
      simp only [h1, if_false]
      rw [ih (by omega) (by omega)]
      congr 2
      refine Finset.sum_congr rfl (fun n hn => ?_)
      have : ¬ M - n - 1 = M - k - 1 := by have := Finset.mem_range.mp hn; omega
      simp [this]

theorem sum_range_lower {K : Type} [Field K] (f : Nat → K) (M m : Nat) (hm : m < M)
    (h0 : ∀ t, t < M → m < t → f t = 0) :
    ∑ t in Finset.range M, f t = ∑ t in Finset.range m, f t + f m := by
  rw [← Finset.sum_range_succ]
  symm
  apply Finset.sum_subset
  · intro t ht
    have := Finset.mem_range.mp ht
    exact Finset.mem_range.mpr (by omega)
  · intro t ht1 ht2
    have h1 := Finset.mem_range.mp ht1
    have h2 : ¬ t < m + 1 := fun h => ht2 (Finset.mem_range.mpr h)
    exact h0 t h1 (by omega)

theorem sum_range_upper {K : Type} [Field K] (f : Nat → K) (M i : Nat) (hi : i < M)
    (h0 : ∀ t, t < i → f t = 0) :
    ∑ t in Finset.range M, f t = f i + ∑ n in Finset.range (M - i - 1), f (M - n - 1) := by
  have e : M = (i + 1) + (M - i - 1) := by omega
  conv_lhs => rw [e]
  rw [Finset.sum_range_add, Finset.sum_range_succ]
  rw [Finset.sum_eq_zero (fun t ht => h0 t (Finset.mem_range.mp ht)), zero_add]
  congr 1
  rw [← Finset.sum_range_reflect]
  refine Finset.sum_congr rfl (fun n hn => ?_)
  have := Finset.mem_range.mp hn
  congr 1
  omega

/-- Forward then back substitution solves `L (U x) = P b` when `l` is unit lower
triangular and `u` is upper triangular with nonzero diagonal. -/
theorem leftDivideWith_spec (A rhs : Matrix K) (lu : LUPair K) (sc0 d0 : Nat → K)
    (hsq : A.N = A.M)
    (hL1 : ∀ i, i < A.M → lu.l.data (i * A.N + i) = 1)
    (hL0 : ∀ i, i < A.M → ∀ j, j < A.M → i < j → lu.l.data (i * A.N + j) = 0)
    (hU0 : ∀ i, i < A.M → ∀ j, j < A.M → j < i → lu.u.data (i * A.N + j) = 0)
    (hUd : ∀ i, i < A.M → lu.u.data (i * A.N + i) ≠ 0) :
    ∃ y : Nat → K,
      (∀ m, m < A.M → ∑ t in Finset.range A.M, lu.l.data (m * A.N + t) * y t =
        rhs.data (lu.p m)) ∧
      (∀ t, t < A.M → ∑ j in Finset.range A.M,
        lu.u.data (t * A.N + j) * leftDivideWith A rhs lu sc0 d0 j = y t) := by
  simp only [leftDivideWith, forRange, Nat.sub_zero, subLoop_eq]
  have hd1 := permLoop_apply (fun m => rhs.data (lu.p m)) d0 A.M
  generalize forLoop (fun m d => Function.update d m (rhs.data (lu.p m))) 0 A.M d0 = dest1
    at hd1 ⊢
  have hy := forwardLoop_spec dest1 (fun m n => lu.l.data (m * A.N + n))
    (fun m => lu.l.data (m * A.N + m)) sc0 A.M
  simp only [] at hy
  generalize forLoop (fun m sc => Function.update sc m
    ((dest1 m - ∑ n in Finset.range m, sc n * lu.l.data (m * A.N + n)) /
      lu.l.data (m * A.N + m))) 0 A.M sc0 = y at hy ⊢
  have hx := backLoop_spec A.M y
    (fun m n => lu.u.data ((A.M - m - 1) * A.N + A.N - n - 1))
    (fun m => lu.u.data ((A.M - m - 1) * A.N + A.M - m - 1)) dest1 A.M (le_refl _)
  simp only [] at hx
  generalize forLoop (fun m d => Function.update d (A.M - m - 1)
    ((y (A.M - m - 1) - ∑ n in Finset.range m,
        d (A.M - n - 1) * lu.u.data ((A.M - m - 1) * A.N + A.N - n - 1)) /
      lu.u.data ((A.M - m - 1) * A.N + A.M - m - 1))) 0 A.M dest1 = x at hx ⊢
  refine ⟨y, ?_, ?_⟩
  · intro m hm
    rw [sum_range_lower _ A.M m hm (fun t ht hmt => by rw [hL0 m hm t ht hmt, zero_mul])]
    rw [hL1 m hm, one_mul, hy m hm, hL1 m hm, div_one, hd1 m]
    simp only [hm, if_true]
    rw [Finset.sum_congr rfl (fun t _ => mul_comm (lu.l.data (m * A.N + t)) (y t))]
    ring
  · intro i hi
    rw [sum_range_upper _ A.M i hi (fun t ht => by rw [hU0 i hi t (by omega) ht, zero_mul])]
    have hxi := hx (A.M - i - 1) (by omega)
    have e1 : A.M - (A.M - i - 1) - 1 = i := by omega
    rw [e1] at hxi
    have e2 : i * A.N + A.M - (A.M - i - 1) - 1 = i * A.N + i := by omega
    rw [e2] at hxi
    have hne := hUd i hi
    rw [hxi]
    rw [mul_div_cancel₀ _ hne]
    have : ∑ n in Finset.range (A.M - i - 1),
        lu.u.data (i * A.N + (A.M - n - 1)) * x (A.M - n - 1) =
        ∑ n in Finset.range (A.M - i - 1),
          x (A.M - n - 1) * lu.u.data (i * A.N + A.N - n - 1) := by
      refine Finset.sum_congr rfl (fun n hn => ?_)
      have := Finset.mem_range.mp hn
      have e3 : i * A.N + A.N - n - 1 = i * A.N + (A.M - n - 1) := by omega
      rw [e3, mul_comm]
    rw [this]
    ring

/-! ## Pivots and the determinant -/

theorem luElim_rows_fixed (A : Matrix K) (r : Nat) (lu : LUPair K) (hN : lu.u.N = A.N)
    (k : Nat) :
    (forLoop (luElimRow A r) (r + 1) k lu).u.N = A.N ∧
      ∀ i, i ≤ r → ∀ j, j < A.N →
        (forLoop (luElimRow A r) (r + 1) k lu).u.data (i * A.N + j) =
          lu.u.data (i * A.N + j) := by
  induction k with
  | zero => exact ⟨hN, fun _ _ _ _ => rfl⟩
  | succ k ih =>
    obtain ⟨h1, h2⟩ := ih
    refine ⟨?_, ?_⟩
    · simp [forLoop, luElimRow, rowAddition, h1]
    · intro i hi j hj
      simp only [forLoop]
      rw [luElimRow_u A r _ _ h1 i j hj]
      have : ¬ i = r + 1 + k := by omega
      simp only [this, if_false]
      exact h2 i hi j hj

theorem luStep_rows_fixed (A : Matrix K) (r : Nat) (hr : r < A.M) (lu : LUPair K)
    (hN : lu.u.N = A.N) (i : Nat) (hi : i < r) (j : Nat) (hj : j < A.N) :
    (luStep A r lu).u.data (i * A.N + j) = lu.u.data (i * A.N + j) := by
  have hN' : (luSwap A r lu).u.N = A.N := by simp [luSwap, swapRows, hN]
  have h := (luElim_rows_fixed A r (luSwap A r lu) hN' (A.M - (r + 1))).2 i (by omega) j hj
  have h2 : (luStep A r lu).u.data (i * A.N + j) = (luSwap A r lu).u.data (i * A.N + j) := h
  rw [h2, luSwap_u A r lu hN i j hj, swap_low (findPivot_spec A lu r hr).1 hi]

theorem luAfter_row_fixed (A : Matrix K) (hsq : A.N = A.M) (r : Nat) (j : Nat) (hj : j < A.N)
    (k : Nat) (hk : r + 1 + k ≤ A.M) :
    (luAfter A (r + 1 + k) (LUPair.new A.M)).u.data (r * A.N + j) =
      (luSwap A r (luAfter A r (LUPair.new A.M))).u.data (r * A.N + j) := by
  induction k with
  | zero =>
    have hN := (luAfter_inv A hsq r (by omega)).uN
    have hN' : (luSwap A r (luAfter A r (LUPair.new A.M))).u.N = A.N := by
      simp [luSwap, swapRows, hN]
    have e : luAfter A (r + 1 + 0) (LUPair.new A.M) =
        luStep A r (luAfter A r (LUPair.new A.M)) := by
      simp [luAfter, forLoop]
    rw [e]
    exact (luElim_rows_fixed A r _ hN' (A.M - (r + 1))).2 r (le_refl _) j hj
  | succ k ih =>
    have hN := (luAfter_inv A hsq (r + 1 + k) (by omega)).uN
    have h := luStep_rows_fixed A (r + 1 + k) (by omega) _ hN r (by omega) j hj
    have e : luAfter A (r + 1 + (k + 1)) (LUPair.new A.M) =
        luStep A (r + 1 + k) (luAfter A (r + 1 + k) (LUPair.new A.M)) := by
      simp [luAfter, forLoop, ← Nat.add_assoc]
    rw [e, h]
    exact ih (by omega)

/-- The diagonal entry `u[r, r]` of the result is the divisor used in iteration `r`. -/
theorem luPair_diag_eq_pivot (A : Matrix K) (hsq : A.N = A.M) (r : Nat) (hr : r < A.M - 1) :
    (luPair A).u.data (r * A.N + r) = pivot A r := by
  rw [luPair_eq_luAfter]
  have e : A.M - 1 = r + 1 + (A.M - 1 - (r + 1)) := by omega
  rw [e]
  exact luAfter_row_fixed A hsq r r (by omega) _ (by omega)

theorem lu_det (A : Matrix K) (lu : LUPair K) (k : Nat)
    (hk : A.M - 1 ≤ k) (h : LUInv A k lu) :
    ∃ s : K, s ≠ 0 ∧ s * (toSq A).det = ∏ i : Fin A.M, lu.u.data (i.val * A.N + i.val) := by
  let Lm : SqMat A.M K := fun i j => lu.l.data (i.val * A.N + j.val)
  let Um : SqMat A.M K := fun i j => lu.u.data (i.val * A.N + j.val)
  let f : Fin A.M → Fin A.M := fun i => ⟨lu.p i.val, h.pBound i.val i.isLt⟩
  have hf : Function.Injective f := by
    intro a b hab
    have := congrArg Fin.val hab
    exact Fin.ext (h.pInj a.val a.isLt b.val b.isLt this)
  let σ : Equiv.Perm (Fin A.M) := Equiv.ofBijective f ⟨hf, Finite.surjective_of_injective hf⟩
  have hprod : (toSq A).submatrix σ id = Lm * Um := by
    ext i j
    rw [Matrix.mul_apply]
    have := h.prod i.val i.isLt j.val j.isLt
    rw [← Fin.sum_univ_eq_sum_range (fun t => lu.l.data (i.val * A.N + t) *
      lu.u.data (t * A.N + j.val)) A.M] at this
    rw [this]
    rfl
  have hL : Lm.det = 1 := by
    rw [Matrix.det_of_lowerTriangular Lm ?_]
    · exact Finset.prod_eq_one (fun i _ => h.lDiag i.val i.isLt)
    · intro i j hij
      have hij' : i < j := hij
      exact h.lOff i.val i.isLt j.val j.isLt (by omega) (Or.inl hij')
  have hU : Um.det = ∏ i : Fin A.M, lu.u.data (i.val * A.N + i.val) := by
    rw [Matrix.det_of_upperTriangular ?_]
    intro i j hij
    have hij' : j < i := hij
    have := i.isLt
    exact h.uLow i.val i.isLt j.val j.isLt (by omega) hij'
  refine ⟨((Equiv.Perm.sign σ : ℤˣ) : ℤ), ?_, ?_⟩
  · exact_mod_cast (Units.ne_zero (Equiv.Perm.sign σ))
  · rw [← Matrix.det_permute σ (toSq A), hprod, Matrix.det_mul, hL, one_mul, hU]

theorem luPair_get_l (A : Matrix K) (hsq : A.N = A.M) (i j : Nat) :
    (luPair A).l.get i j = (luPair A).l.data (i * A.N + j) := by
  unfold Matrix.get
  rw [(luPair_inv A hsq).lN, hsq]

theorem luPair_get_u (A : Matrix K) (hsq : A.N = A.M) (i j : Nat) :
    (luPair A).u.get i j = (luPair A).u.data (i * A.N + j) := by
  unfold Matrix.get
  rw [(luPair_inv A hsq).uN]

theorem luPair_p_surj (A : Matrix K) (hsq : A.N = A.M) (k : Nat) (hk : k < A.M) :
    ∃ i, i < A.M ∧ (luPair A).p i = k := by
  have h := luPair_inv A hsq
  let f : Fin A.M → Fin A.M := fun i => ⟨(luPair A).p i.val, h.pBound i.val i.isLt⟩
  have hf : Function.Injective f := by
    intro a b hab
    have := congrArg Fin.val hab
    exact Fin.ext (h.pInj a.val a.isLt b.val b.isLt this)
  obtain ⟨i, hi⟩ := Finite.surjective_of_injective hf ⟨k, hk⟩
  exact ⟨i.val, i.isLt, congrArg Fin.val hi⟩

theorem luPair_diag_ne_zero (A : Matrix K) (hsq : A.N = A.M) (hns : Nonsingular A)
    (i : Nat) (hi : i < A.M) : (luPair A).u.data (i * A.N + i) ≠ 0 := by
  obtain ⟨s, hs, hdet⟩ := lu_det A (luPair A) (A.M - 1) (le_refl _) (luPair_inv A hsq)
  have hne : s * (toSq A).det ≠ 0 := mul_ne_zero hs hns
  rw [hdet] at hne
  exact (Finset.prod_ne_zero_iff.mp hne) ⟨i, hi⟩ (Finset.mem_univ _)

theorem nonsingular_noZeroPivot (A : Matrix K) (hsq : A.N = A.M) (hns : Nonsingular A) :
    NoZeroPivot A := by
  intro r hr
  rw [← luPair_diag_eq_pivot A hsq r hr]
  exact luPair_diag_ne_zero A hsq hns r (by omega)


end Matrix

namespace Matrix

variable {K : Type} [LinearOrderedField K]

/-! ## Evaluation on the example matrices -/

theorem myMat_pivot : pivot myMat 0 = 1 := by
  simp [pivot, luSwap, luAfter, luInit, findPivot, forRange, forLoop, swapRows, swapAt,
    myMat, LUPair.new, Function.update_apply, Matrix.fill, Matrix.mk0]

theorem myMat_noZeroPivot : NoZeroPivot myMat := by
  intro r hr
  have : r = 0 := by simp [myMat] at hr; omega
  subst this
  rw [myMat_pivot]; norm_num

theorem myMat_nonsingular : Nonsingular myMat := by
  simp [Nonsingular, toSq, Matrix.det_fin_two, Matrix.get, myMat]
  norm_num

theorem onesMat_pivot : pivot onesMat 0 = 1 := by
  simp [pivot, luSwap, luAfter, luInit, findPivot, forRange, forLoop, swapRows, swapAt,
    onesMat, LUPair.new, Function.update_apply, Matrix.fill, Matrix.mk0]

theorem onesMat_noZeroPivot : NoZeroPivot onesMat := by
  intro r hr
  have : r = 0 := by simp [onesMat] at hr; omega
  subst this
  rw [onesMat_pivot]; norm_num

theorem onesMat_singular : ¬ Nonsingular onesMat := by
  simp [Nonsingular, toSq, Matrix.det_fin_two, Matrix.get, onesMat]

/-! ## Claims on `luPair` and `leftDivide` -/

/-- C1: for a square matrix `A` (with at least one row) on which `luPair` never divides
by a zero pivot, the returned triple satisfies `P * A = L * U`, where row `i` of `P * A`
is row `p[i]` of `A`. -/
theorem luPair_perm_mul_eq (A : Matrix K) (hsq : A.N = A.M) (hM : 0 < A.M)
    (hpiv : NoZeroPivot A) :
    ∀ i, i < A.M → ∀ j, j < A.M →
      ∑ t in Finset.range A.M, (luPair A).l.get i t * (luPair A).u.get t j =
        A.get ((luPair A).p i) j := by
  intro i hi j hj
  have h := (luPair_inv A hsq).prod i hi j hj
  simp only [luPair_get_l A hsq, luPair_get_u A hsq]
  exact h

theorem luPair_perm_mul_eq_witness :
    myMat.N = myMat.M ∧ 0 < myMat.M ∧ NoZeroPivot myMat ∧
      ∀ i, i < myMat.M → ∀ j, j < myMat.M →
        ∑ t in Finset.range myMat.M, (luPair myMat).l.get i t * (luPair myMat).u.get t j =
          myMat.get ((luPair myMat).p i) j :=
  ⟨rfl, by decide, myMat_noZeroPivot,
    luPair_perm_mul_eq myMat rfl (by decide) myMat_noZeroPivot⟩

/-- C2: for a square matrix `A` (with at least one row) on which `luPair` completes
without dividing by a zero pivot, `l` has ones on the diagonal and zeros above it, `u`
has zeros below the diagonal, and `p` is a permutation of `0 .. M - 1`. -/
theorem luPair_triangular (A : Matrix K) (hsq : A.N = A.M) (hM : 0 < A.M)
    (hpiv : NoZeroPivot A) :
    (∀ i, i < A.M → (luPair A).l.get i i = 1) ∧
    (∀ i, i < A.M → ∀ j, j < A.M → i < j → (luPair A).l.get i j = 0) ∧
    (∀ i, i < A.M → ∀ j, j < A.M → j < i → (luPair A).u.get i j = 0) ∧
    (∀ i, i < A.M → (luPair A).p i < A.M) ∧
    (∀ i, i < A.M → ∀ j, j < A.M → (luPair A).p i = (luPair A).p j → i = j) ∧
    (∀ k, k < A.M → ∃ i, i < A.M ∧ (luPair A).p i = k) := by
  have h := luPair_inv A hsq
  simp only [luPair_get_l A hsq, luPair_get_u A hsq]
  refine ⟨h.lDiag, ?_, ?_, h.pBound, h.pInj, luPair_p_surj A hsq⟩
  · intro i hi j hj hij
    exact h.lOff i hi j hj (by omega) (Or.inl hij)
  · intro i hi j hj hji
    exact h.uLow i hi j hj (by omega) hji

theorem luPair_triangular_witness :
    (∀ i, i < myMat.M → (luPair myMat).l.get i i = 1) ∧
    (∀ i, i < myMat.M → ∀ j, j < myMat.M → i < j → (luPair myMat).l.get i j = 0) ∧
    (∀ i, i < myMat.M → ∀ j, j < myMat.M → j < i → (luPair myMat).u.get i j = 0) ∧
    (∀ i, i < myMat.M → (luPair myMat).p i < myMat.M) ∧
    (∀ i, i < myMat.M → ∀ j, j < myMat.M →
      (luPair myMat).p i = (luPair myMat).p j → i = j) ∧
    (∀ k, k < myMat.M → ∃ i, i < myMat.M ∧ (luPair myMat).p i = k) :=
  luPair_triangular myMat rfl (by decide) myMat_noZeroPivot

/-- C3: for a nonsingular square matrix `A` and a column vector `b`, `luPair` and the two
substitutions of `leftDivide` never divide by zero, and `x = A.leftDivide(b)` satisfies
`A * x = b`. -/
theorem leftDivide_solves (A b : Matrix K) (hsq : A.N = A.M) (hM : 0 < A.M)
    (hb : b.N = 1) (hbM : b.M = A.M) (hns : Nonsingular A) :
    NoZeroPivot A ∧
    (∀ i, i < A.M → (luPair A).l.get i i ≠ 0 ∧ (luPair A).u.get i i ≠ 0) ∧
    ∀ i, i < A.M →
      ∑ j in Finset.range A.M, A.get i j * (leftDivide A b).get j 0 = b.get i 0 := by
  have h := luPair_inv A hsq
  have hd := luPair_diag_ne_zero A hsq hns
  refine ⟨nonsingular_noZeroPivot A hsq hns, ?_, ?_⟩
  · intro i hi
    rw [luPair_get_l A hsq, luPair_get_u A hsq, h.lDiag i hi]
    exact ⟨one_ne_zero, hd i hi⟩
  · intro i hi
    obtain ⟨y, hy1, hy2⟩ := leftDivideWith_spec A b (luPair A) (fun _ => 0) (fun _ => 0) hsq
      h.lDiag (fun i hi j hj hij => h.lOff i hi j hj (by omega) (Or.inl hij))
      (fun i hi j hj hji => h.uLow i hi j hj (by omega) hji) hd
    obtain ⟨m, hm, hpm⟩ := luPair_p_surj A hsq i hi
    have hx : ∀ j, (leftDivide A b).get j 0 =
        leftDivideWith A b (luPair A) (fun _ => 0) (fun _ => 0) j := by
      intro j; simp [leftDivide, Matrix.get]
    have hbi : b.get i 0 = b.data ((luPair A).p m) := by
      simp [Matrix.get, hb, hpm]
    rw [hbi, ← hy1 m hm]
    have hA : ∀ j, j < A.M → A.get i j =
        ∑ t in Finset.range A.M, (luPair A).l.data (m * A.N + t) *
          (luPair A).u.data (t * A.N + j) := by
      intro j hj
      rw [h.prod m hm j hj, hpm]; rfl
    have hL : ∀ j, j ∈ Finset.range A.M → A.get i j * (leftDivide A b).get j 0 =
        ∑ t in Finset.range A.M, (luPair A).l.data (m * A.N + t) *
          (luPair A).u.data (t * A.N + j) *
            leftDivideWith A b (luPair A) (fun _ => 0) (fun _ => 0) j := by
      intro j hj
      rw [hA j (Finset.mem_range.mp hj), hx j, Finset.sum_mul]
    have hR : ∀ t, t ∈ Finset.range A.M → (luPair A).l.data (m * A.N + t) * y t =
        ∑ j in Finset.range A.M, (luPair A).l.data (m * A.N + t) *
          (luPair A).u.data (t * A.N + j) *
            leftDivideWith A b (luPair A) (fun _ => 0) (fun _ => 0) j := by
      intro t ht
      rw [← hy2 t (Finset.mem_range.mp ht), Finset.mul_sum]
      exact Finset.sum_congr rfl (fun j _ => by ring)
    rw [Finset.sum_congr rfl hL, Finset.sum_congr rfl hR, Finset.sum_comm]

theorem leftDivide_solves_witness :
    Nonsingular myMat ∧ NoZeroPivot myMat ∧
    (∀ i, i < myMat.M → (luPair myMat).l.get i i ≠ 0 ∧ (luPair myMat).u.get i i ≠ 0) ∧
    ∀ i, i < myMat.M →
      ∑ j in Finset.range myMat.M, myMat.get i j * (leftDivide myMat myCol).get j 0 =
        myCol.get i 0 :=
  ⟨myMat_nonsingular, leftDivide_solves myMat myCol rfl (by decide) rfl rfl myMat_nonsingular⟩

/-- C4, as stated, fails: on the singular matrix with rows `(1, 1)` and `(1, 1)` the pivot
`u[1, 1]` is zero, and `luPair` returns the triple `l = (1, 0; 1, 1)`, `u = (1, 1; 0, 0)`,
`p = (0, 1)` instead of signalling an error. -/
theorem luPair_singular_returns :
    ¬ Nonsingular onesMat ∧ (luPair onesMat).u.get 1 1 = 0 ∧
    (luPair onesMat).u.get 0 0 = 1 ∧ (luPair onesMat).u.get 0 1 = 1 ∧
    (luPair onesMat).u.get 1 0 = 0 ∧
    (luPair onesMat).l.get 0 0 = 1 ∧ (luPair onesMat).l.get 0 1 = 0 ∧
    (luPair onesMat).l.get 1 0 = 1 ∧ (luPair onesMat).l.get 1 1 = 1 ∧
    (luPair onesMat).p 0 = 0 ∧ (luPair onesMat).p 1 = 1 := by
  refine ⟨onesMat_singular, ?_⟩
  simp [luPair, luPairInto, luStep, luElim, luElimRow, rowAddition, Matrix.get,
    luSwap, luInit, findPivot, forRange, forLoop, swapRows, swapAt,
    onesMat, LUPair.new, Function.update_apply, Matrix.fill, Matrix.mk0]

/-- C4, amended: `luPair` has no singularity test; when no zero pivot is divided in the
columns `0 .. M - 2` and `A` is singular, it returns a triple with `P * A = L * U` whose
last diagonal entry `u[M - 1, M - 1]` is zero. -/
theorem luPair_singular_last_pivot (A : Matrix K) (hsq : A.N = A.M) (hM : 0 < A.M)
    (hpiv : NoZeroPivot A) (hs : ¬ Nonsingular A) :
    (luPair A).u.get (A.M - 1) (A.M - 1) = 0 ∧
    ∀ i, i < A.M → ∀ j, j < A.M →
      ∑ t in Finset.range A.M, (luPair A).l.get i t * (luPair A).u.get t j =
        A.get ((luPair A).p i) j := by
  have h := luPair_inv A hsq
  refine ⟨?_, ?_⟩
  · obtain ⟨s, hs0, hdet⟩ := lu_det A (luPair A) (A.M - 1) (le_refl _) h
    have hz : (toSq A).det = 0 := not_not.mp hs
    rw [hz, mul_zero] at hdet
    obtain ⟨i, _, hi⟩ := Finset.prod_eq_zero_iff.mp hdet.symm
    rw [luPair_get_u A hsq]
    by_cases hlast : i.val = A.M - 1
    · rw [← hlast]; exact hi
    · have hlt : i.val < A.M - 1 := by have := i.isLt; omega
      rw [luPair_diag_eq_pivot A hsq i.val hlt] at hi
      exact absurd hi (hpiv i.val hlt)
  · intro i hi j hj
    simp only [luPair_get_l A hsq, luPair_get_u A hsq]
    exact h.prod i hi j hj

theorem luPair_singular_last_pivot_witness :
    NoZeroPivot onesMat ∧ ¬ Nonsingular onesMat ∧
    (luPair onesMat).u.get (onesMat.M - 1) (onesMat.M - 1) = 0 ∧
    ∀ i, i < onesMat.M → ∀ j, j < onesMat.M →
      ∑ t in Finset.range onesMat.M, (luPair onesMat).l.get i t * (luPair onesMat).u.get t j =
        onesMat.get ((luPair onesMat).p i) j :=
  ⟨onesMat_noZeroPivot, onesMat_singular,
    luPair_singular_last_pivot onesMat rfl (by decide) onesMat_noZeroPivot onesMat_singular⟩

end Matrix

namespace AutoDifferentiation

variable {K : Type} [LinearOrderedField K] {N : Nat}

/-- C5: `u * v` has value `u.var * v.var` and partials `v.var * u_i + u.var * v_i`; the
quotient built by `operator/=` has value `u.var / v.var` and partials
`(v.var * u_i - u.var * v_i) / v.var ^ 2`. -/
theorem mul_div_rules (u v : DiffVar K N) :
    (u * v).var = u.var * v.var ∧
    (∀ i, (u * v).diffVars i = v.var * u.diffVars i + u.var * v.diffVars i) ∧
    (∀ i : Fin N, index (u * v) i.succ = v.var * index u i.succ + u.var * index v i.succ) ∧
    (mulAssign u v = u * v) ∧
    (divAssign u v).var = u.var / v.var ∧
    (∀ i, (divAssign u v).diffVars i =
      (v.var * u.diffVars i - u.var * v.diffVars i) / v.var ^ 2) ∧
    (∀ i : Fin N, index (divAssign u v) i.succ =
      (v.var * index u i.succ - u.var * index v i.succ) / v.var ^ 2) := by
  refine ⟨rfl, fun _ => rfl, fun _ => rfl, rfl, rfl, fun i => ?_, fun i => ?_⟩
  · show (v.var * u.diffVars i - u.var * v.diffVars i) / (v.var * v.var) = _
    rw [pow_two]
  · show (v.var * u.diffVars i - u.var * v.diffVars i) / (v.var * v.var) = _
    rw [pow_two]; rfl

/-- C6: the mixed scalar/`DiffVar` operators act as if the scalar `c` were lifted to a
constant with zero partials: `c + u = u + c`, `c * u = u * c`, `c - u` has value
`c - u.var` and partials `-u_i`, and `c / u` has value `c / u.var` and partials
`-c * u_i / u.var ^ 2`. -/
theorem scalar_operators (c : K) (u : DiffVar K N) :
    (c + u = u + c) ∧ (c * u = u * c) ∧
    (c + u : DiffVar K N).var = (ofScalar c + u : DiffVar K N).var ∧
    (∀ i, (c + u : DiffVar K N).diffVars i = (ofScalar c + u : DiffVar K N).diffVars i) ∧
    (c * u : DiffVar K N).var = (ofScalar c * u : DiffVar K N).var ∧
    (∀ i, (c * u : DiffVar K N).diffVars i = (ofScalar c * u : DiffVar K N).diffVars i) ∧
    (c - u : DiffVar K N).var = c - u.var ∧
    (∀ i, (c - u : DiffVar K N).diffVars i = -u.diffVars i) ∧
    (c / u : DiffVar K N).var = c / u.var ∧
    (∀ i, (c / u : DiffVar K N).diffVars i = -c * u.diffVars i / u.var ^ 2) := by
  refine ⟨rfl, rfl, ?_, fun i => ?_, ?_, fun i => ?_, ?_, fun i => rfl, rfl, fun i => ?_⟩
  · show u.var + c = c + u.var
    ring
  · show u.diffVars i = 0 + u.diffVars i
    ring
  · show u.var * c = c * u.var
    ring
  · show c * u.diffVars i = u.var * 0 + c * u.diffVars i
    ring
  · show -(u.var - c) = c - u.var
    ring
  · show (u.var * 0 - c * u.diffVars i) / (u.var * u.var) = -c * u.diffVars i / u.var ^ 2
    rw [pow_two]; ring

/-- C7: each elementary overload `f` returns the value `f(u.var)` and the partials
`f'(u.var) * u_i`, with `f'` equal to `cos`, `-sin`, `1 / cos ^ 2`, `cosh`, `sinh`,
`1 / cosh ^ 2`, `exp`, `1 / (2 * sqrt)` and `k * v ^ (k - 1)` respectively; `sqrt` is
computed as `pow(v, 0.5)`. -/
theorem elementary_chain_rule (F : CMath K) (u : DiffVar K N) (k : K) :
    ((sin F u).var = F.sin u.var ∧ ∀ i, (sin F u).diffVars i = F.cos u.var * u.diffVars i) ∧
    ((cos F u).var = F.cos u.var ∧ ∀ i, (cos F u).diffVars i = -F.sin u.var * u.diffVars i) ∧
    ((tan F u).var = F.tan u.var ∧
      ∀ i, (tan F u).diffVars i = 1 / (F.cos u.var) ^ 2 * u.diffVars i) ∧
    ((sinh F u).var = F.sinh u.var ∧
      ∀ i, (sinh F u).diffVars i = F.cosh u.var * u.diffVars i) ∧
    ((cosh F u).var = F.cosh u.var ∧
      ∀ i, (cosh F u).diffVars i = F.sinh u.var * u.diffVars i) ∧
    ((tanh F u).var = F.tanh u.var ∧
      ∀ i, (tanh F u).diffVars i = 1 / (F.cosh u.var) ^ 2 * u.diffVars i) ∧
    ((exp F u).var = F.exp u.var ∧ ∀ i, (exp F u).diffVars i = F.exp u.var * u.diffVars i) ∧
    ((sqrt F u).var = F.pow u.var 0.5 ∧
      ∀ i, (sqrt F u).diffVars i = 1 / (2 * F.pow u.var 0.5) * u.diffVars i) ∧
    ((pow F u k).var = F.pow u.var k ∧
      ∀ i, (pow F u k).diffVars i = k * F.pow u.var (k - 1) * u.diffVars i) := by
  refine ⟨⟨rfl, fun i => ?_⟩, ⟨rfl, fun i => ?_⟩, ⟨rfl, fun i => ?_⟩, ⟨rfl, fun i => ?_⟩,
    ⟨rfl, fun i => ?_⟩, ⟨rfl, fun i => ?_⟩, ⟨rfl, fun i => ?_⟩, ⟨rfl, fun i => ?_⟩,
    ⟨rfl, fun i => ?_⟩⟩
  · show u.diffVars i * F.cos u.var = _
    ring
  · show u.diffVars i * -F.sin u.var = _
    ring
  · show u.diffVars i * (1 / (F.cos u.var * F.cos u.var)) = _
    rw [pow_two]; ring
  · show u.diffVars i * F.cosh u.var = _
    ring
  · show u.diffVars i * F.sinh u.var = _
    ring
  · show u.diffVars i * (1 / (F.cosh u.var * F.cosh u.var)) = _
    rw [pow_two]; ring
  · show u.diffVars i * F.exp u.var = _
    ring
  · show u.diffVars i * (0.5 / F.pow u.var 0.5) = _
    ring
  · show u.diffVars i * (k * F.pow u.var (k - 1)) = _
    ring

/-- C8: `pow(u, w)` with a `DiffVar` exponent has value `u.var ^ w.var` and partials
`u.var ^ (w.var - 1) * (w.var * u_i + u.var * ln(u.var) * w_i)`. -/
theorem pow_diffVar_rule (F : CMath K) (u w : DiffVar K N) :
    (powVar F u w).var = F.pow u.var w.var ∧
    ∀ i, (powVar F u w).diffVars i =
      F.pow u.var (w.var - 1) *
        (w.var * u.diffVars i + u.var * F.log u.var * w.diffVars i) :=
  ⟨rfl, fun _ => rfl⟩

end AutoDifferentiation

namespace AutoDifferentiation

variable {K : Type} [LinearOrderedField K] {N : Nat}

/-! ## Projections of the operators -/

theorem add_var (u v : DiffVar K N) : (u + v).var = u.var + v.var := rfl
theorem add_diffVars (u v : DiffVar K N) (i : Fin N) :
    (u + v).diffVars i = u.diffVars i + v.diffVars i := rfl
theorem addScalar_var (u : DiffVar K N) (c : K) : (u + c : DiffVar K N).var = u.var + c := rfl
theorem addScalar_diffVars (u : DiffVar K N) (c : K) (i : Fin N) :
    (u + c : DiffVar K N).diffVars i = u.diffVars i := rfl
theorem scalarAdd_var (c : K) (u : DiffVar K N) : (c + u : DiffVar K N).var = u.var + c := rfl
theorem scalarAdd_diffVars (c : K) (u : DiffVar K N) (i : Fin N) :
    (c + u : DiffVar K N).diffVars i = u.diffVars i := rfl
theorem sub_var (u v : DiffVar K N) : (u - v).var = u.var - v.var := rfl
theorem sub_diffVars (u v : DiffVar K N) (i : Fin N) :
    (u - v).diffVars i = u.diffVars i - v.diffVars i := rfl
theorem subScalar_var (u : DiffVar K N) (c : K) : (u - c : DiffVar K N).var = u.var - c := rfl
theorem subScalar_diffVars (u : DiffVar K N) (c : K) (i : Fin N) :
    (u - c : DiffVar K N).diffVars i = u.diffVars i := rfl
theorem mul_var (u v : DiffVar K N) : (u * v).var = u.var * v.var := rfl
theorem mul_diffVars (u v : DiffVar K N) (i : Fin N) :
    (u * v).diffVars i = v.var * u.diffVars i + u.var * v.diffVars i := rfl
theorem scalarMul_var (c : K) (u : DiffVar K N) : (c * u : DiffVar K N).var = u.var * c := rfl
theorem scalarMul_diffVars (c : K) (u : DiffVar K N) (i : Fin N) :
    (c * u : DiffVar K N).diffVars i = c * u.diffVars i := rfl
theorem scalarDiv_var (c : K) (u : DiffVar K N) : (c / u : DiffVar K N).var = c / u.var := rfl
theorem scalarDiv_diffVars (c : K) (u : DiffVar K N) (i : Fin N) :
    (c / u : DiffVar K N).diffVars i =
      (u.var * 0 - c * u.diffVars i) / (u.var * u.var) := rfl
theorem divScalar_var (u : DiffVar K N) (c : K) : (u / c : DiffVar K N).var = u.var / c := rfl
theorem divScalar_diffVars (u : DiffVar K N) (c : K) (i : Fin N) :
    (u / c : DiffVar K N).diffVars i = u.diffVars i / c := rfl
theorem exp_var (F : CMath K) (u : DiffVar K N) : (exp F u).var = F.exp u.var := rfl
theorem exp_diffVars (F : CMath K) (u : DiffVar K N) (i : Fin N) :
    (exp F u).diffVars i = u.diffVars i * F.exp u.var := rfl
theorem pow_var (F : CMath K) (u : DiffVar K N) (k : K) :
    (pow F u k).var = F.pow u.var k := rfl
theorem pow_diffVars (F : CMath K) (u : DiffVar K N) (k : K) (i : Fin N) :
    (pow F u k).diffVars i = u.diffVars i * (k * F.pow u.var (k - 1)) := rfl
theorem sqrt_var (F : CMath K) (u : DiffVar K N) : (sqrt F u).var = F.pow u.var 0.5 := rfl
theorem sqrt_diffVars (F : CMath K) (u : DiffVar K N) (i : Fin N) :
    (sqrt F u).diffVars i = u.diffVars i * (0.5 / F.pow u.var 0.5) := rfl
theorem tanh_var (F : CMath K) (u : DiffVar K N) : (tanh F u).var = F.tanh u.var := rfl
theorem tanh_diffVars (F : CMath K) (u : DiffVar K N) (i : Fin N) :
    (tanh F u).diffVars i = u.diffVars i * (1 / (F.cosh u.var * F.cosh u.var)) := rfl
theorem powVar_var (F : CMath K) (u w : DiffVar K N) :
    (powVar F u w).var = F.pow u.var w.var := rfl
theorem powVar_diffVars (F : CMath K) (u w : DiffVar K N) (i : Fin N) :
    (powVar F u w).diffVars i = F.pow u.var (w.var - 1) *
      (w.var * u.diffVars i + u.var * F.log u.var * w.diffVars i) := rfl
theorem index_zero {α : Type} (u : DiffVar α 2) : index u 0 = u.var := rfl
theorem index_one {α : Type} (u : DiffVar α 2) : index u 1 = u.diffVars 0 := rfl
theorem index_two {α : Type} (u : DiffVar α 2) : index u 2 = u.diffVars 1 := rfl

end AutoDifferentiation

section DeviceTheorems

variable {K : Type} [LinearOrderedField K]

open AutoDifferentiation

/-- C9: for all junction voltages the Ebers-Moll quantities `g_ee`, `g_ec`, `g_ce`, `g_cc`,
`I_e`, `I_c` read off the `DiffVar<T, 2>` evaluation equal the hand-derived closed forms
of `testBJTModelControl`, which are also the ones of `BJTN::addNonLinearStampTo`. -/
theorem bjt_autodiff_eq_control (F : CMath K) (v_be v_bc : K) :
    testBJTModelAutoDiff F v_be v_bc = testBJTModelControl F v_be v_bc ∧
    BJTN.nortonValues F v_be v_bc = testBJTModelControl F v_be v_bc := by
  refine ⟨?_, rfl⟩
  simp only [testBJTModelAutoDiff, testBJTModelControl, BJTResults.mk.injEq,
    index_zero, index_one, index_two, add_var, add_diffVars, sub_var, sub_diffVars,
    subScalar_var, subScalar_diffVars, scalarMul_var, scalarMul_diffVars,
    divScalar_var, divScalar_diffVars, exp_var, exp_diffVars,
    Matrix.cons_val_zero, Matrix.cons_val_one, Matrix.head_cons]
  refine ⟨?_, ?_, ?_, ?_, ?_, ?_⟩ <;> ring

theorem cobra_components (F : CMath K) (hF : PowLaws F) (V_gs V_ds : K)
    (hVeff : 0 < transistorVeff F V_gs V_ds) :
    (transistorTestAudoDiff F V_gs V_ds).var = (transistorTestControl F V_gs V_ds).var ∧
    index (transistorTestAudoDiff F V_gs V_ds) 1 = (transistorTestControl F V_gs V_ds).diff1 ∧
    index (transistorTestAudoDiff F V_gs V_ds) 2 = (transistorTestControl F V_gs V_ds).diff2 := by
  have h21 : (2 : K) - 1 = 1 := by norm_num
  simp only [transistorTestAudoDiff, transistorTestControl, transistorVeff, transistorVgst,
      index_zero, index_one, index_two, add_var, add_diffVars, sub_var, sub_diffVars,
      subScalar_var, subScalar_diffVars, scalarMul_var, scalarMul_diffVars,
      scalarAdd_var, scalarAdd_diffVars, addScalar_var, addScalar_diffVars,
      divScalar_var, divScalar_diffVars, scalarDiv_var, scalarDiv_diffVars,
      mul_var, mul_diffVars, pow_var, pow_diffVars, sqrt_var, sqrt_diffVars,
      tanh_var, tanh_diffVars, powVar_var, powVar_diffVars,
      Matrix.cons_val_zero, Matrix.cons_val_one, Matrix.head_cons, h21,
      hF.pow_two, hF.pow_one] at hVeff ⊢
  have hg : V_gs - (1 + 0.42 * 0.42) * -2.4 + V_ds * 5e-4 =
      V_gs - (1 + 0.42 * 0.42) * -2.4 + 5e-4 * V_ds := by ring
  simp only [hg]
  generalize V_gs - (1 + 0.42 * 0.42) * -2.4 + 5e-4 * V_ds = g at hVeff ⊢
  have hX : (0 : K) < g * g + 0.3 * 0.3 := by
    have := mul_self_nonneg g
    have h3 : (0 : K) < 0.3 * 0.3 := by norm_num
    linarith
  rw [hF.pow_neg _ 0.5 hX]
  generalize F.pow (g * g + 0.3 * 0.3) 0.5 = s at hVeff ⊢
  have hv : (g + s) * 0.5 = 0.5 * (g + s) := by ring
  simp only [hv]
  generalize 0.5 * (g + s) = Veff at hVeff ⊢
  have hD : V_ds * V_ds * 0.0 + 1 + Veff * 6e-2 = 1 + 0.0 * (V_ds * V_ds) + 6e-2 * Veff := by
    ring
  have ha : V_ds * 1.3 * (Veff * 0.18 + 1) = 1.3 * V_ds * (1 + 0.18 * Veff) := by ring
  simp only [hD, ha]
  rw [hF.pow_sub_one _ _ hVeff]
  generalize 1 + 0.0 * (V_ds * V_ds) + 6e-2 * Veff = D
  generalize F.pow Veff (1.5 / D) = P
  generalize F.tanh (1.3 * V_ds * (1 + 0.18 * Veff)) = T
  generalize F.cosh (1.3 * V_ds * (1 + 0.18 * Veff)) = C
  generalize F.log Veff = L
  have hc : Veff * Veff⁻¹ = 1 := mul_inv_cancel₀ (ne_of_gt hVeff)
  refine ⟨by ring, ?_, ?_⟩
  · linear_combination
      (0.42 * T * P * L * (-(1.5 * 6e-2 * (0.5 * (1 + g * s⁻¹))) * D⁻¹ ^ 2)) * hc
  · linear_combination
      (0.42 * T * P * L * (-(1.5 * 6e-2 * (0.5 * (5e-4 + g * s⁻¹ * 5e-4))) * D⁻¹ ^ 2)) * hc

/-- C10: at every `(V_gs, V_ds)` whose effective voltage `Veff` is positive, the COBRA
drain current evaluated on `DiffVar<T, 2>` (the expression of
`NLCurrentSource::addNonLinearStampTo`) has the closed-form value `Idrain` and the
closed-form partials `dIdrain/dV_gs`, `dIdrain/dV_ds` of `transistorTestControl`, for any
`pow` obeying the laws of exponentiation. -/
theorem cobra_autodiff_eq_control (F : CMath K) (hF : PowLaws F) (V_gs V_ds : K)
    (hVeff : 0 < transistorVeff F V_gs V_ds) :
    NLCurrentSource.Idrain F V_gs V_ds = transistorTestAudoDiff F V_gs V_ds ∧
    index (transistorTestAudoDiff F V_gs V_ds) 0 = (transistorTestControl F V_gs V_ds).var ∧
    index (transistorTestAudoDiff F V_gs V_ds) 1 = (transistorTestControl F V_gs V_ds).diff1 ∧
    index (transistorTestAudoDiff F V_gs V_ds) 2 = (transistorTestControl F V_gs V_ds).diff2 :=
  ⟨rfl, cobra_components F hF V_gs V_ds hVeff⟩

end DeviceTheorems

/-- The real exponential, logarithm, power and trigonometric functions obey `PowLaws`. -/
theorem real_powLaws :
    PowLaws (CMath.mk Real.sin Real.cos Real.tan Real.sinh Real.cosh Real.tanh Real.exp
      Real.log (fun x y => x ^ y)) where
  pow_one := fun x => Real.rpow_one x
  pow_two := fun x => by
    show x ^ (2 : ℝ) = x * x
    rw [Real.rpow_two, sq]
  pow_neg := fun x y hx => by
    show x ^ (-y) = 1 / x ^ y
    rw [Real.rpow_neg (le_of_lt hx), one_div]
  pow_sub_one := fun x y hx => Real.rpow_sub_one (ne_of_gt hx) y

theorem real_transistorVeff_pos :
    0 < transistorVeff (CMath.mk Real.sin Real.cos Real.tan Real.sinh Real.cosh Real.tanh
      Real.exp Real.log (fun x y => x ^ y)) 1 1 := by
  have hg : (0 : ℝ) < transistorVgst 1 1 := by
    simp only [transistorVgst]; norm_num
  have hs : (0 : ℝ) ≤ (transistorVgst (1 : ℝ) 1 ^ (2 : ℝ) + 0.3 * 0.3) ^ (0.5 : ℝ) :=
    Real.rpow_nonneg (by positivity) _
  show (0 : ℝ) < 0.5 * (transistorVgst 1 1 +
    (transistorVgst (1 : ℝ) 1 ^ (2 : ℝ) + 0.3 * 0.3) ^ (0.5 : ℝ))
  have : (0 : ℝ) < transistorVgst 1 1 +
      (transistorVgst (1 : ℝ) 1 ^ (2 : ℝ) + 0.3 * 0.3) ^ (0.5 : ℝ) := by linarith
  linarith

theorem cobra_autodiff_eq_control_witness :
    PowLaws (CMath.mk Real.sin Real.cos Real.tan Real.sinh Real.cosh Real.tanh
      Real.exp Real.log (fun x y => x ^ y)) ∧
    0 < transistorVeff (CMath.mk Real.sin Real.cos Real.tan Real.sinh Real.cosh Real.tanh
      Real.exp Real.log (fun x y => x ^ y)) 1 1 ∧
    NLCurrentSource.Idrain (CMath.mk Real.sin Real.cos Real.tan Real.sinh Real.cosh Real.tanh
      Real.exp Real.log (fun x y => x ^ y)) 1 1 =
      transistorTestAudoDiff (CMath.mk Real.sin Real.cos Real.tan Real.sinh Real.cosh Real.tanh
      Real.exp Real.log (fun x y => x ^ y)) 1 1 ∧
    AutoDifferentiation.index (transistorTestAudoDiff (CMath.mk Real.sin Real.cos Real.tan Real.sinh Real.cosh Real.tanh
      Real.exp Real.log (fun x y => x ^ y)) 1 1) 0 =
      (transistorTestControl (CMath.mk Real.sin Real.cos Real.tan Real.sinh Real.cosh Real.tanh
      Real.exp Real.log (fun x y => x ^ y)) 1 1).var ∧
    AutoDifferentiation.index (transistorTestAudoDiff (CMath.mk Real.sin Real.cos Real.tan Real.sinh Real.cosh Real.tanh
      Real.exp Real.log (fun x y => x ^ y)) 1 1) 1 =
      (transistorTestControl (CMath.mk Real.sin Real.cos Real.tan Real.sinh Real.cosh Real.tanh
      Real.exp Real.log (fun x y => x ^ y)) 1 1).diff1 ∧
    AutoDifferentiation.index (transistorTestAudoDiff (CMath.mk Real.sin Real.cos Real.tan Real.sinh Real.cosh Real.tanh
      Real.exp Real.log (fun x y => x ^ y)) 1 1) 2 =
      (transistorTestControl (CMath.mk Real.sin Real.cos Real.tan Real.sinh Real.cosh Real.tanh
      Real.exp Real.log (fun x y => x ^ y)) 1 1).diff2 :=
  ⟨real_powLaws, real_transistorVeff_pos,
    cobra_autodiff_eq_control _ real_powLaws 1 1 real_transistorVeff_pos⟩

/-! ## Stamps -/

namespace Stamp

variable {K : Type} [LinearOrderedField K]

theorem addG_G_data (st : Stamp K) (m n : Nat) (v : K) (k : Nat) :
    (st.addG m n v).G.data k = st.G.data k + if k = m * st.G.N + n then v else 0 := by
  simp only [addG, Matrix.addAt, Function.update_apply]
  split_ifs with h
  · rw [h]
  · rw [add_zero]

theorem addS_s_data (st : Stamp K) (m : Nat) (v : K) (k : Nat) :
    (st.addS m v).s.data k = st.s.data k + if k = m * st.s.N + 0 then v else 0 := by
  simp only [addS, Matrix.addAt, Function.update_apply]
  split_ifs with h
  · rw [h]
  · rw [add_zero]

theorem addG_s (st : Stamp K) (m n : Nat) (v : K) : (st.addG m n v).s = st.s := rfl
theorem addS_G (st : Stamp K) (m : Nat) (v : K) : (st.addS m v).G = st.G := rfl
theorem addG_G_N (st : Stamp K) (m n : Nat) (v : K) : (st.addG m n v).G.N = st.G.N := rfl
theorem addG_G_M (st : Stamp K) (m n : Nat) (v : K) : (st.addG m n v).G.M = st.G.M := rfl
theorem addS_s_N (st : Stamp K) (m : Nat) (v : K) : (st.addS m v).s.N = st.s.N := rfl
theorem addS_s_M (st : Stamp K) (m : Nat) (v : K) : (st.addS m v).s.M = st.s.M := rfl
theorem addG_sizeG_A (st : Stamp K) (m n : Nat) (v : K) :
    (st.addG m n v).sizeG_A = st.sizeG_A := rfl
theorem addS_sizeG_A (st : Stamp K) (m : Nat) (v : K) :
    (st.addS m v).sizeG_A = st.sizeG_A := rfl
theorem addG_sizeG_D (st : Stamp K) (m n : Nat) (v : K) :
    (st.addG m n v).sizeG_D = st.sizeG_D := rfl
theorem addS_sizeG_D (st : Stamp K) (m : Nat) (v : K) :
    (st.addS m v).sizeG_D = st.sizeG_D := rfl
theorem clear_G_data (st : Stamp K) (k : Nat) : st.clear.G.data k = 0 := rfl
theorem clear_s_data (st : Stamp K) (k : Nat) : st.clear.s.data k = 0 := rfl
theorem clear_G_N (st : Stamp K) : st.clear.G.N = st.G.N := rfl
theorem clear_G_M (st : Stamp K) : st.clear.G.M = st.G.M := rfl
theorem clear_s_N (st : Stamp K) : st.clear.s.N = st.s.N := rfl
theorem clear_s_M (st : Stamp K) : st.clear.s.M = st.s.M := rfl
theorem clear_sizeG_A (st : Stamp K) : st.clear.sizeG_A = st.sizeG_A := rfl
theorem clear_sizeG_D (st : Stamp K) : st.clear.sizeG_D = st.sizeG_D := rfl

theorem clear_congr (A B : Stamp K) (h1 : A.sizeG_A = B.sizeG_A)
    (h2 : A.sizeG_D = B.sizeG_D) (h3 : A.G.M = B.G.M) (h4 : A.G.N = B.G.N)
    (h5 : A.s.M = B.s.M) (h6 : A.s.N = B.s.N) : A.clear = B.clear := by
  obtain ⟨a1, a2, ⟨a3, a4, a5⟩, ⟨a6, a7, a8⟩⟩ := A
  obtain ⟨b1, b2, ⟨b3, b4, b5⟩, ⟨b6, b7, b8⟩⟩ := B
  simp only at h1 h2 h3 h4 h5 h6
  subst h1 h2 h3 h4 h5 h6
  rfl

theorem additive_id : Additive (fun S : Stamp K => S) := by
  intro S
  refine ⟨rfl, rfl, rfl, rfl, rfl, rfl, fun k => ?_, fun k => ?_⟩
  · rw [clear_G_data, add_zero]
  · rw [clear_s_data, add_zero]

theorem additive_comp {f g : Stamp K → Stamp K} (hf : Additive f) (hg : Additive g) :
    Additive (fun S => g (f S)) := by
  intro S
  obtain ⟨f1, f2, f3, f4, f5, f6, f7, f8⟩ := hf S
  obtain ⟨g1, g2, g3, g4, g5, g6, g7, g8⟩ := hg (f S)
  obtain ⟨c1, c2, c3, c4, c5, c6, c7, c8⟩ := hf S.clear
  obtain ⟨d1, d2, d3, d4, d5, d6, d7, d8⟩ := hg (f S.clear)
  have e : (f S).clear = (f S.clear).clear :=
    clear_congr _ _ (f1.trans c1.symm) (f2.trans c2.symm) (f3.trans c3.symm)
      (f4.trans c4.symm) (f5.trans c5.symm) (f6.trans c6.symm)
  refine ⟨g1.trans f1, g2.trans f2, g3.trans f3, g4.trans f4, g5.trans f5, g6.trans f6,
    fun k => ?_, fun k => ?_⟩
  · rw [g7 k, f7 k, d7 k, c7 k, e, clear_G_data]; ring
  · rw [g8 k, f8 k, d8 k, c8 k, e, clear_s_data]; ring

theorem additive_ite (c : Prop) [Decidable c] {f g : Stamp K → Stamp K} (hf : Additive f)
    (hg : Additive g) : Additive (fun S => if c then f S else g S) := by
  by_cases h : c
  · simpa [h] using hf
  · simpa [h] using hg

/-- Adding `v` at an entry of `G` whose position depends only on the size `sizeG_A`. -/
theorem additive_addG (m n : Nat → Nat) (v : K) :
    Additive (fun S : Stamp K => S.addG (m S.sizeG_A) (n S.sizeG_A) v) := by
  intro S
  refine ⟨rfl, rfl, rfl, rfl, rfl, rfl, fun k => ?_, fun k => ?_⟩
  · simp only [addG_G_data, clear_G_data, clear_G_N, clear_sizeG_A, zero_add]
  · simp only [addG_s, clear_s_data, add_zero]

/-- Adding `v` at an entry of `s` whose position depends only on the size `sizeG_A`. -/
theorem additive_addS (m : Nat → Nat) (v : K) :
    Additive (fun S : Stamp K => S.addS (m S.sizeG_A) v) := by
  intro S
  refine ⟨rfl, rfl, rfl, rfl, rfl, rfl, fun k => ?_, fun k => ?_⟩
  · simp only [addS_G, clear_G_data, add_zero]
  · simp only [addS_s_data, clear_s_data, clear_s_N, clear_sizeG_A, zero_add]

end Stamp

/-! ## Additivity of the element stamps -/

section ElementAdditivity

variable {K : Type} [LinearOrderedField K]

open Stamp

theorem resistor_additive (r : Resistor K) : Stamp.Additive r.addStaticStampTo := by
  intro S
  simp only [Resistor.addStaticStampTo]
  split_ifs <;>
  refine ⟨rfl, rfl, rfl, rfl, rfl, rfl, fun k => ?_, fun k => ?_⟩ <;>
  simp only [addG_G_data, addG_s, addS_G, addS_s_data, addG_G_N, addS_s_N, addG_sizeG_A,
    addS_sizeG_A, clear_G_data, clear_s_data, clear_G_N, clear_s_N, clear_sizeG_A] <;>
  ring

theorem currentSource_additive (c : CurrentSource K) :
    Stamp.Additive c.addStaticStampTo := by
  intro S
  simp only [CurrentSource.addStaticStampTo]
  split_ifs <;>
  refine ⟨rfl, rfl, rfl, rfl, rfl, rfl, fun k => ?_, fun k => ?_⟩ <;>
  simp only [addG_G_data, addG_s, addS_G, addS_s_data, addG_G_N, addS_s_N, addG_sizeG_A,
    addS_sizeG_A, clear_G_data, clear_s_data, clear_G_N, clear_s_N, clear_sizeG_A] <;>
  ring

theorem voltageSource_additive (v : VoltageSource K) :
    Stamp.Additive v.addStaticStampTo := by
  intro S
  simp only [VoltageSource.addStaticStampTo]
  split_ifs <;>
  refine ⟨rfl, rfl, rfl, rfl, rfl, rfl, fun k => ?_, fun k => ?_⟩ <;>
  simp only [addG_G_data, addG_s, addS_G, addS_s_data, addG_G_N, addS_s_N, addG_sizeG_A,
    addS_sizeG_A, clear_G_data, clear_s_data, clear_G_N, clear_s_N, clear_sizeG_A] <;>
  ring

theorem capacitor_dynamic_additive (c : Capacitor K) (sol : Matrix K) (n : Nat) (dt : K) :
    Stamp.Additive (fun S => c.addDynamicStampTo S sol n dt) := by
  intro S
  simp only [Capacitor.addDynamicStampTo]
  split_ifs <;>
  refine ⟨rfl, rfl, rfl, rfl, rfl, rfl, fun k => ?_, fun k => ?_⟩ <;>
  simp only [addG_G_data, addG_s, addS_G, addS_s_data, addG_G_N, addS_s_N, addG_sizeG_A,
    addS_sizeG_A, clear_G_data, clear_s_data, clear_G_N, clear_s_N, clear_sizeG_A] <;>
  ring

theorem capacitor_dc_additive (c : Capacitor K) (sol : Matrix K) (numCurrents : Nat) :
    Stamp.Additive (fun S => c.addDCAnalysisStampTo S sol numCurrents) := by
  intro S
  simp only [Capacitor.addDCAnalysisStampTo]
  split_ifs <;>
  refine ⟨rfl, rfl, rfl, rfl, rfl, rfl, fun k => ?_, fun k => ?_⟩ <;>
  simp only [addG_G_data, addG_s, addS_G, addS_s_data, addG_G_N, addS_s_N, addG_sizeG_A,
    addS_sizeG_A, clear_G_data, clear_s_data, clear_G_N, clear_s_N, clear_sizeG_A] <;>
  ring

theorem inductor_dynamic_additive (l : Inductor K) (sol : Matrix K) (n : Nat) (dt : K) :
    Stamp.Additive (fun S => l.addDynamicStampTo S sol n dt) := by
  intro S
  simp only [Inductor.addDynamicStampTo]
  split_ifs <;>
  refine ⟨rfl, rfl, rfl, rfl, rfl, rfl, fun k => ?_, fun k => ?_⟩ <;>
  simp only [addG_G_data, addG_s, addS_G, addS_s_data, addG_G_N, addS_s_N, addG_sizeG_A,
    addS_sizeG_A, clear_G_data, clear_s_data, clear_G_N, clear_s_N, clear_sizeG_A] <;>
  ring

theorem inductor_dc_additive (l : Inductor K) (sol : Matrix K) (numCurrents : Nat) :
    Stamp.Additive (fun S => l.addDCAnalysisStampTo S sol numCurrents) := by
  intro S
  simp only [Inductor.addDCAnalysisStampTo]
  split_ifs <;>
  refine ⟨rfl, rfl, rfl, rfl, rfl, rfl, fun k => ?_, fun k => ?_⟩ <;>
  simp only [addG_G_data, addG_s, addS_G, addS_s_data, addG_G_N, addS_s_N, addG_sizeG_A,
    addS_sizeG_A, clear_G_data, clear_s_data, clear_G_N, clear_s_N, clear_sizeG_A] <;>
  ring

theorem diode_additive (F : CMath K) (d : Diode K) (sol : Matrix K) (n : Nat) (dt : K) :
    Stamp.Additive (fun S => d.addNonLinearStampTo F S sol n dt) := by
  intro S
  simp only [Diode.addNonLinearStampTo]
  split_ifs <;>
  refine ⟨rfl, rfl, rfl, rfl, rfl, rfl, fun k => ?_, fun k => ?_⟩ <;>
  simp only [addG_G_data, addG_s, addS_G, addS_s_data, addG_G_N, addS_s_N, addG_sizeG_A,
    addS_sizeG_A, clear_G_data, clear_s_data, clear_G_N, clear_s_N, clear_sizeG_A] <;>
  ring

/-- The block of one terminal `t1` of a three-terminal device: the diagonal entry, the
source entry and the two couplings to the terminals `t2` and `t3`. -/
theorem Stamp.additive_block (t1 t2 t3 : Nat) (a b c d : K) :
    Stamp.Additive (fun S : Stamp K =>
      if 0 < t1 then
        let stamp := (S.addG (t1 - 1) (t1 - 1) a).addS (t1 - 1) b
        let stamp := if 0 < t2 then stamp.addG (t1 - 1) (t2 - 1) c else stamp
        let stamp := if 0 < t3 then stamp.addG (t1 - 1) (t3 - 1) d else stamp
        stamp
      else S) := by
  intro S
  simp only []
  split_ifs <;>
  refine ⟨rfl, rfl, rfl, rfl, rfl, rfl, fun k => ?_, fun k => ?_⟩ <;>
  simp only [addG_G_data, addG_s, addS_G, addS_s_data, addG_G_N, addS_s_N, addG_sizeG_A,
    addS_sizeG_A, clear_G_data, clear_s_data, clear_G_N, clear_s_N, clear_sizeG_A] <;>
  ring

theorem bjtn_additive (F : CMath K) (q : BJT K) (sol : Matrix K) (n : Nat) (dt : K) :
    Stamp.Additive (fun S => BJTN.addNonLinearStampTo F q S sol n dt) :=
  Stamp.additive_comp
    (Stamp.additive_comp (Stamp.additive_block q.e q.c q.b _ _ _ _)
      (Stamp.additive_block q.c q.e q.b _ _ _ _))
    (Stamp.additive_block q.b q.e q.c _ _ _ _)

theorem bjtp_additive (F : CMath K) (q : BJT K) (sol : Matrix K) (n : Nat) (dt : K) :
    Stamp.Additive (fun S => BJTP.addNonLinearStampTo F q S sol n dt) :=
  Stamp.additive_comp
    (Stamp.additive_comp (Stamp.additive_block q.e q.c q.b _ _ _ _)
      (Stamp.additive_block q.c q.e q.b _ _ _ _))
    (Stamp.additive_block q.b q.e q.c _ _ _ _)

theorem elementStamp_additive (E : ElementStamp K) : Stamp.Additive E.apply := by
  cases E with
  | resistorStatic r => exact resistor_additive r
  | currentSourceStatic c => exact currentSource_additive c
  | voltageSourceStatic v => exact voltageSource_additive v
  | capacitorDynamic c sol n dt => exact capacitor_dynamic_additive c sol n dt
  | capacitorDC c sol numCurrents => exact capacitor_dc_additive c sol numCurrents
  | inductorDynamic l sol n dt => exact inductor_dynamic_additive l sol n dt
  | inductorDC l sol numCurrents => exact inductor_dc_additive l sol numCurrents
  | diodeNonLinear F d sol n dt => exact diode_additive F d sol n dt
  | bjtnNonLinear F q sol n dt => exact bjtn_additive F q sol n dt
  | bjtpNonLinear F q sol n dt => exact bjtp_additive F q sol n dt

end ElementAdditivity

/-! ## `Matrix::add`, `Stamp::add` and the sum of two stamps -/

section StampSum

variable {K : Type} [LinearOrderedField K]

theorem addInner_apply (a : Nat → K) (d0 : Nat → K) (N m : Nat) (k : Nat) (hk : k ≤ N)
    (i j : Nat) (hj : j < N) :
    forLoop (fun n d => Function.update d (m * N + n) (a (m * N + n))) 0 k d0 (i * N + j) =
      if i = m ∧ j < k then a (i * N + j) else d0 (i * N + j) := by
  induction k with
  | zero => simp [forLoop]
  | succ k ih =>
    have hk' : k < N := by omega
    simp only [forLoop, Nat.zero_add, Function.update_apply, ih (by omega),
      Matrix.idx_eq_iff hj hk']
    by_cases h1 : i = m
    · by_cases h2 : j = k
      · subst h1 h2; simp
      · have h3 : j < k + 1 ↔ j < k := by omega
        simp [h1, h2, h3]
    · simp [h1]

theorem addOuter_apply (a : Nat → K) (d0 : Nat → K) (N : Nat) (k : Nat)
    (i j : Nat) (hj : j < N) :
    forLoop (fun m d => forLoop
        (fun n d => Function.update d (m * N + n) (a (m * N + n))) 0 N d) 0 k d0
        (i * N + j) =
      if i < k then a (i * N + j) else d0 (i * N + j) := by
  induction k with
  | zero => simp [forLoop]
  | succ k ih =>
    rw [forLoop, Nat.zero_add, addInner_apply a _ N k N (le_refl N) i j hj, ih]
    by_cases h1 : i = k
    · subst h1; simp [hj]
    · by_cases h2 : i < k
      · have h3 : i < k + 1 := by omega
        simp [h1, h2, h3]
      · have h3 : ¬ i < k + 1 := by omega
        simp [h1, h2, h3]

theorem Matrix.add_data (A rhs dest : Matrix K) (i j : Nat) (hj : j < A.N) :
    (A.add rhs dest).data (i * A.N + j) =
      if i < A.M then A.data (i * A.N + j) + rhs.data (i * A.N + j)
      else dest.data (i * A.N + j) := by
  simp only [Matrix.add, forRange, Nat.sub_zero]
  exact addOuter_apply (fun k => A.data k + rhs.data k) dest.data A.N A.M i j hj

theorem Stamp.add_G_get (st rhs : Stamp K) (m n : Nat) (hm : m < st.G.M) (hn : n < st.G.N) :
    (st.add rhs).G.get m n = st.G.data (m * st.G.N + n) + rhs.G.data (m * st.G.N + n) := by
  have h := Matrix.add_data st.G rhs.G st.G m n hn
  rw [if_pos hm] at h
  exact h

theorem Stamp.add_s_get (st rhs : Stamp K) (m n : Nat) (hm : m < st.s.M) (hn : n < st.s.N) :
    (st.add rhs).s.get m n = st.s.data (m * st.s.N + n) + rhs.s.data (m * st.s.N + n) := by
  have h := Matrix.add_data st.s rhs.s st.s m n hn
  rw [if_pos hm] at h
  exact h

theorem Stamp.eq_of_data (A B : Stamp K) (h1 : A.sizeG_A = B.sizeG_A)
    (h2 : A.sizeG_D = B.sizeG_D) (h3 : A.G.M = B.G.M) (h4 : A.G.N = B.G.N)
    (h5 : A.s.M = B.s.M) (h6 : A.s.N = B.s.N) (h7 : ∀ k, A.G.data k = B.G.data k)
    (h8 : ∀ k, A.s.data k = B.s.data k) : A = B := by
  obtain ⟨a1, a2, ⟨a3, a4, a5⟩, ⟨a6, a7, a8⟩⟩ := A
  obtain ⟨b1, b2, ⟨b3, b4, b5⟩, ⟨b6, b7, b8⟩⟩ := B
  simp only at h1 h2 h3 h4 h5 h6 h7 h8
  obtain rfl : a3 = b3 := funext h7
  obtain rfl : a6 = b6 := funext h8
  subst h1 h2 h3 h4 h5 h6
  rfl

theorem Stamp.additive_clear_apply {f : Stamp K → Stamp K} (hf : Stamp.Additive f)
    (S : Stamp K) : (f S).clear = S.clear := by
  obtain ⟨f1, f2, f3, f4, f5, f6, -, -⟩ := hf S
  exact Stamp.clear_congr _ _ f1 f2 f3 f4 f5 f6

theorem Stamp.clear_clear (S : Stamp K) : S.clear.clear = S.clear := rfl

theorem Stamp.additive_comm {f g : Stamp K → Stamp K} (hf : Stamp.Additive f)
    (hg : Stamp.Additive g) (S : Stamp K) : g (f S) = f (g S) := by
  obtain ⟨f1, f2, f3, f4, f5, f6, f7, f8⟩ := hf S
  obtain ⟨g1, g2, g3, g4, g5, g6, g7, g8⟩ := hg S
  obtain ⟨a1, a2, a3, a4, a5, a6, a7, a8⟩ := hg (f S)
  obtain ⟨b1, b2, b3, b4, b5, b6, b7, b8⟩ := hf (g S)
  have ef := Stamp.additive_clear_apply hf S
  have eg := Stamp.additive_clear_apply hg S
  refine Stamp.eq_of_data _ _ (by rw [a1, b1, f1, g1]) (by rw [a2, b2, f2, g2])
    (by rw [a3, b3, f3, g3]) (by rw [a4, b4, f4, g4]) (by rw [a5, b5, f5, g5])
    (by rw [a6, b6, f6, g6]) (fun k => ?_) (fun k => ?_)
  · rw [a7 k, b7 k, f7 k, g7 k, ef, eg]; ring
  · rw [a8 k, b8 k, f8 k, g8 k, ef, eg]; ring

/-- C11: stamping is additive.  For every stamping call `E` (resistor, current source,
voltage source, capacitor, inductor, diode, NPN or PNP BJT) and every stamp `S`, every
entry of `G` and of `s` after the call is the entry of `S` plus the entry the call
produces on the cleared stamp; on the entries of the matrices this is `Stamp::add` of
`S` and the stamp of `E` on the cleared stamp.  Hence for two calls `E1`, `E2` the stamp
of both on the cleared stamp is the entrywise sum of their two stamps, and the two
orders of application give the same stamp. -/
theorem stamping_additive (E E1 E2 : ElementStamp K) (S : Stamp K) :
    (∀ k, (E.apply S).G.data k = S.G.data k + (E.apply S.clear).G.data k) ∧
    (∀ k, (E.apply S).s.data k = S.s.data k + (E.apply S.clear).s.data k) ∧
    (∀ (m : Fin S.G.M) (n : Fin S.G.N),
      (E.apply S).G.get m n = (S.add (E.apply S.clear)).G.get m n) ∧
    (∀ (m : Fin S.s.M) (n : Fin S.s.N),
      (E.apply S).s.get m n = (S.add (E.apply S.clear)).s.get m n) ∧
    (∀ k, (E2.apply (E1.apply S.clear)).G.data k =
      (E1.apply S.clear).G.data k + (E2.apply S.clear).G.data k) ∧
    (∀ k, (E2.apply (E1.apply S.clear)).s.data k =
      (E1.apply S.clear).s.data k + (E2.apply S.clear).s.data k) ∧
    E2.apply (E1.apply S) = E1.apply (E2.apply S) := by
  have hE := elementStamp_additive E
  have h1 := elementStamp_additive E1
  have h2 := elementStamp_additive E2
  obtain ⟨-, -, -, e4, -, e6, e7, e8⟩ := hE S
  refine ⟨e7, e8, fun m n => ?_, fun m n => ?_, fun k => ?_, fun k => ?_, Stamp.additive_comm h1 h2 S⟩
  · rw [Stamp.add_G_get S _ m n m.2 n.2, Matrix.get, e4, e7]
  · rw [Stamp.add_s_get S _ m n m.2 n.2, Matrix.get, e6, e8]
  · obtain ⟨-, -, -, -, -, -, a7, -⟩ := h2 (E1.apply S.clear)
    rw [a7 k, Stamp.additive_clear_apply h1 S.clear, Stamp.clear_clear]
  · obtain ⟨-, -, -, -, -, -, -, a8⟩ := h2 (E1.apply S.clear)
    rw [a8 k, Stamp.additive_clear_apply h1 S.clear, Stamp.clear_clear]

end StampSum

/-! ## Capacitor and inductor companion models -/

section Reactive

variable {K : Type} [LinearOrderedField K]

open Stamp

/-- C12: a trapezoidal capacitor at step `n >= 1`, with `G_eq = 2C/dt`, `u(n-1)` the
branch voltage in column `n - 1` and `I_eq = lastCurrent + G_eq * u(n-1)`.
`addDynamicStampTo` adds `G_eq` to `G[n1,n1]` and `G[n2,n2]`, `-G_eq` to `G[n1,n2]` and
`G[n2,n1]`, `+I_eq` to `s[n1]` and `-I_eq` to `s[n2]`, skipping ground terminals, and
changes nothing else; `updateStoredState` then sets `lastCurrent` to
`G_eq * u(n) - (lastCurrent + G_eq * u(n-1))` and keeps the other members. -/
theorem capacitor_trapezoidal_stamp (c : Capacitor K) (S : Stamp K) (sol : Matrix K)
    (n : Nat) (dt : K) (sizeG_A : Nat) (htrap : c.trapezoidalRule = true) (hn : 1 ≤ n) :
    (∀ k, (c.addDynamicStampTo S sol n dt).G.data k = S.G.data k
      + (if c.n1 ≠ 0 ∧ k = (c.n1 - 1) * S.G.N + (c.n1 - 1) then 2 * c.value / dt else 0)
      + (if c.n2 ≠ 0 ∧ k = (c.n2 - 1) * S.G.N + (c.n2 - 1) then 2 * c.value / dt else 0)
      + (if (c.n1 ≠ 0 ∧ c.n2 ≠ 0) ∧ k = (c.n1 - 1) * S.G.N + (c.n2 - 1)
          then -(2 * c.value / dt) else 0)
      + (if (c.n1 ≠ 0 ∧ c.n2 ≠ 0) ∧ k = (c.n2 - 1) * S.G.N + (c.n1 - 1)
          then -(2 * c.value / dt) else 0)) ∧
    (∀ k, (c.addDynamicStampTo S sol n dt).s.data k = S.s.data k
      + (if c.n1 ≠ 0 ∧ k = (c.n1 - 1) * S.s.N + 0
          then c.lastCurrent + 2 * c.value / dt * branchVoltage sol c.n1 c.n2 (n - 1)
          else 0)
      + (if c.n2 ≠ 0 ∧ k = (c.n2 - 1) * S.s.N + 0
          then -(c.lastCurrent + 2 * c.value / dt * branchVoltage sol c.n1 c.n2 (n - 1))
          else 0)) ∧
    (c.addDynamicStampTo S sol n dt).G.M = S.G.M ∧
    (c.addDynamicStampTo S sol n dt).G.N = S.G.N ∧
    (c.addDynamicStampTo S sol n dt).s.M = S.s.M ∧
    (c.addDynamicStampTo S sol n dt).s.N = S.s.N ∧
    (c.addDynamicStampTo S sol n dt).sizeG_A = S.sizeG_A ∧
    (c.addDynamicStampTo S sol n dt).sizeG_D = S.sizeG_D ∧
    c.updateStoredState sol n dt sizeG_A =
      { c with lastCurrent := 2 * c.value / dt * branchVoltage sol c.n1 c.n2 n -
          (c.lastCurrent + 2 * c.value / dt * branchVoltage sol c.n1 c.n2 (n - 1)) } := by
  have hs : ∀ T : Stamp K, (c.addDynamicStampTo T sol n dt).G.N = T.G.N ∧
      (c.addDynamicStampTo T sol n dt).s.N = T.s.N ∧
      (c.addDynamicStampTo T sol n dt).G.M = T.G.M ∧
      (c.addDynamicStampTo T sol n dt).s.M = T.s.M ∧
      (c.addDynamicStampTo T sol n dt).sizeG_A = T.sizeG_A ∧
      (c.addDynamicStampTo T sol n dt).sizeG_D = T.sizeG_D := by
    intro T
    simp only [Capacitor.addDynamicStampTo]
    split_ifs <;> exact ⟨rfl, rfl, rfl, rfl, rfl, rfl⟩
  obtain ⟨s1, s2, s3, s4, s5, s6⟩ := hs S
  refine ⟨fun k => ?_, fun k => ?_, s3, s1, s4, s2, s5, s6, ?_⟩
  · simp only [Capacitor.addDynamicStampTo, htrap, if_true]
    by_cases h1 : c.n1 = 0 <;> by_cases h2 : c.n2 = 0 <;>
      simp only [h1, h2, ne_eq, not_true_eq_false, not_false_eq_true, if_true, if_false,
        and_self, false_and, and_false, true_and, add_zero, addG_G_data, addG_s, addS_G,
        addG_G_N, addS_s_N]
  · simp only [Capacitor.addDynamicStampTo, htrap, if_true]
    by_cases h1 : c.n1 = 0 <;> by_cases h2 : c.n2 = 0 <;>
      simp only [h1, h2, ne_eq, not_true_eq_false, not_false_eq_true, if_true, if_false,
        and_self, false_and, and_false, true_and, add_zero, addS_s_data, addG_s, addS_G,
        addG_G_N, addS_s_N]
  · simp only [Capacitor.updateStoredState, htrap, if_true]

theorem capacitor_trapezoidal_stamp_witness :
    unitCapacitor.trapezoidalRule = true ∧ 1 ≤ 1 ∧
    (∀ k, (unitCapacitor.addDynamicStampTo (Stamp.new 1 0) rampSol 1 1).G.data k =
      (Stamp.new 1 0 : Stamp ℚ).G.data k
      + (if unitCapacitor.n1 ≠ 0 ∧
          k = (unitCapacitor.n1 - 1) * (Stamp.new 1 0 : Stamp ℚ).G.N + (unitCapacitor.n1 - 1)
          then 2 * unitCapacitor.value / 1 else 0)
      + (if unitCapacitor.n2 ≠ 0 ∧
          k = (unitCapacitor.n2 - 1) * (Stamp.new 1 0 : Stamp ℚ).G.N + (unitCapacitor.n2 - 1)
          then 2 * unitCapacitor.value / 1 else 0)
      + (if (unitCapacitor.n1 ≠ 0 ∧ unitCapacitor.n2 ≠ 0) ∧
          k = (unitCapacitor.n1 - 1) * (Stamp.new 1 0 : Stamp ℚ).G.N + (unitCapacitor.n2 - 1)
          then -(2 * unitCapacitor.value / 1) else 0)
      + (if (unitCapacitor.n1 ≠ 0 ∧ unitCapacitor.n2 ≠ 0) ∧
          k = (unitCapacitor.n2 - 1) * (Stamp.new 1 0 : Stamp ℚ).G.N + (unitCapacitor.n1 - 1)
          then -(2 * unitCapacitor.value / 1) else 0)) ∧
    unitCapacitor.updateStoredState rampSol 1 1 0 =
      { unitCapacitor with lastCurrent :=
          (2 * unitCapacitor.value / 1 *
            (branchVoltage rampSol unitCapacitor.n1 unitCapacitor.n2 1) -
          (unitCapacitor.lastCurrent + 2 * unitCapacitor.value / 1 *
            (branchVoltage rampSol unitCapacitor.n1 unitCapacitor.n2 (1 - 1)))) } :=
  ⟨rfl, le_refl 1,
    (capacitor_trapezoidal_stamp unitCapacitor (Stamp.new 1 0) rampSol 1 1 0 rfl
      (le_refl 1)).1,
    (capacitor_trapezoidal_stamp unitCapacitor (Stamp.new 1 0) rampSol 1 1 0 rfl
      (le_refl 1)).2.2.2.2.2.2.2.2⟩

/-- C13, as stated, fails: a new capacitor of value `1` from node `1` to ground, driven
by the ramp `u(n) = n` with `dt = 1`, stores the current `2` after step `1` and `0` after
step `2`, while `C * (u(n) - u(n-1)) / dt` is `1` at both steps. -/
theorem capacitor_ramp_current_differs :
    unitCapacitor.lastCurrent = 0 ∧ unitCapacitor.trapezoidalRule = true ∧
    (∀ n, branchVoltage rampSol unitCapacitor.n1 unitCapacitor.n2 n = (n : ℚ)) ∧
    (unitCapacitor.afterSteps rampSol 1 0 1).lastCurrent = 2 ∧
    unitCapacitor.value * (branchVoltage rampSol unitCapacitor.n1 unitCapacitor.n2 1 -
      branchVoltage rampSol unitCapacitor.n1 unitCapacitor.n2 0) / 1 = 1 ∧
    (unitCapacitor.afterSteps rampSol 1 0 2).lastCurrent = 0 ∧
    unitCapacitor.value * (branchVoltage rampSol unitCapacitor.n1 unitCapacitor.n2 2 -
      branchVoltage rampSol unitCapacitor.n1 unitCapacitor.n2 1) / 1 = 1 := by
  have hu : ∀ n, branchVoltage rampSol unitCapacitor.n1 unitCapacitor.n2 n = (n : ℚ) := by
    intro n
    simp [branchVoltage, unitCapacitor, rampSol, Matrix.get]
  refine ⟨rfl, rfl, hu, ?_, ?_, ?_, ?_⟩
  · simp [Capacitor.afterSteps, Capacitor.updateStoredState, unitCapacitor, branchVoltage,
      rampSol, Matrix.get]
  · rw [hu, hu]; simp [unitCapacitor]
  · simp [Capacitor.afterSteps, Capacitor.updateStoredState, unitCapacitor, branchVoltage,
      rampSol, Matrix.get]
    norm_num
  · rw [hu, hu]; simp [unitCapacitor]; norm_num

theorem Capacitor.afterSteps_fields (c : Capacitor K) (sol : Matrix K) (dt : K)
    (sizeG_A : Nat) (n : Nat) :
    (c.afterSteps sol dt sizeG_A n).value = c.value ∧
    (c.afterSteps sol dt sizeG_A n).n1 = c.n1 ∧
    (c.afterSteps sol dt sizeG_A n).n2 = c.n2 ∧
    (c.afterSteps sol dt sizeG_A n).trapezoidalRule = c.trapezoidalRule := by
  induction n with
  | zero => exact ⟨rfl, rfl, rfl, rfl⟩
  | succ n ih =>
    simp only [Capacitor.afterSteps, Capacitor.updateStoredState]
    split_ifs <;> exact ih

theorem Capacitor.afterSteps_succ (c : Capacitor K) (sol : Matrix K) (dt : K)
    (sizeG_A : Nat) (n : Nat) (htrap : c.trapezoidalRule = true) :
    (c.afterSteps sol dt sizeG_A (n + 1)).lastCurrent =
      2 * c.value / dt * branchVoltage sol c.n1 c.n2 (n + 1) -
        ((c.afterSteps sol dt sizeG_A n).lastCurrent +
          2 * c.value / dt * branchVoltage sol c.n1 c.n2 n) := by
  obtain ⟨h1, h2, h3, h4⟩ := c.afterSteps_fields sol dt sizeG_A n
  simp only [Capacitor.afterSteps, Capacitor.updateStoredState, h1, h2, h3, h4, htrap,
    if_true, Nat.add_sub_cancel]

/-- C13, amended: for a trapezoidal capacitor the stored currents `i(n)` (`lastCurrent`
after the `updateStoredState` of step `n`, `i(0)` the initial one) satisfy
`(i(n) + i(n-1)) / 2 = C * (u(n) - u(n-1)) / dt` at every step `n >= 1`: the mean of two
consecutive currents, not the current itself, is the difference quotient.  For a ramp
with `u(k) - u(k-1) = a` at every step and `i(0) = 0` the series is `2 * C * a / dt` at
odd `n` and `0` at even `n`. -/
theorem capacitor_current_series (c : Capacitor K) (sol : Matrix K) (dt : K)
    (sizeG_A : Nat) (n : Nat) (htrap : c.trapezoidalRule = true) (hn : 1 ≤ n) :
    ((c.afterSteps sol dt sizeG_A n).lastCurrent +
        (c.afterSteps sol dt sizeG_A (n - 1)).lastCurrent) / 2 =
      c.value * (branchVoltage sol c.n1 c.n2 n - branchVoltage sol c.n1 c.n2 (n - 1)) / dt ∧
    ∀ a : K, c.lastCurrent = 0 →
      (∀ k, 1 ≤ k → k ≤ n →
        branchVoltage sol c.n1 c.n2 k - branchVoltage sol c.n1 c.n2 (k - 1) = a) →
      (c.afterSteps sol dt sizeG_A n).lastCurrent =
        if n % 2 = 1 then 2 * c.value * a / dt else 0 := by
  constructor
  · obtain ⟨m, rfl⟩ : ∃ m, n = m + 1 := ⟨n - 1, by omega⟩
    rw [Nat.add_sub_cancel, c.afterSteps_succ sol dt sizeG_A m htrap]
    ring
  · intro a h0 hramp
    clear hn
    induction n with
    | zero => simpa [Capacitor.afterSteps] using h0
    | succ m ih =>
      have ihm := ih (fun k hk1 hk2 => hramp k hk1 (by omega))
      have hr := hramp (m + 1) (by omega) (le_refl _)
      rw [Nat.add_sub_cancel] at hr
      rw [c.afterSteps_succ sol dt sizeG_A m htrap, ihm]
      have hu : branchVoltage sol c.n1 c.n2 (m + 1) = a + branchVoltage sol c.n1 c.n2 m := by
        rw [← hr]; ring
      rw [hu]
      by_cases hm : m % 2 = 1
      · have hm' : ¬ (m + 1) % 2 = 1 := by omega
        rw [if_pos hm, if_neg hm']; ring
      · have hm' : (m + 1) % 2 = 1 := by omega
        rw [if_neg hm, if_pos hm']; ring

theorem capacitor_current_series_witness :
    unitCapacitor.trapezoidalRule = true ∧ 1 ≤ 3 ∧
    ((unitCapacitor.afterSteps rampSol 1 0 3).lastCurrent +
        (unitCapacitor.afterSteps rampSol 1 0 (3 - 1)).lastCurrent) / 2 =
      unitCapacitor.value * (branchVoltage rampSol unitCapacitor.n1 unitCapacitor.n2 3 -
        branchVoltage rampSol unitCapacitor.n1 unitCapacitor.n2 (3 - 1)) / 1 ∧
    (unitCapacitor.afterSteps rampSol 1 0 3).lastCurrent =
      if 3 % 2 = 1 then 2 * unitCapacitor.value * 1 / 1 else 0 := by
  have h := capacitor_current_series unitCapacitor rampSol 1 0 3 rfl (by decide)
  refine ⟨rfl, by decide, h.1, h.2 1 rfl ?_⟩
  intro k _ _
  simp [branchVoltage, unitCapacitor, rampSol, Matrix.get]
  have : 1 ≤ k := by assumption
  push_cast [Nat.cast_sub this]
  ring

end Reactive

/-! ## Inductor: companion model and DC short circuit -/

section InductorTheorems

variable {K : Type} [LinearOrderedField K]

open Stamp

/-- C14: a trapezoidal inductor at step `n >= 1`, with `G_eq = dt/(2L)`, `u(n-1)` the
branch voltage in column `n - 1` and `I_eq = lastCurrent + G_eq * u(n-1)`.
`addDynamicStampTo` adds `G_eq` to `G[n1,n1]` and `G[n2,n2]`, `-G_eq` to `G[n1,n2]` and
`G[n2,n1]`, `-I_eq` to `s[n1]` and `+I_eq` to `s[n2]`, skipping ground terminals, and
changes nothing else; `updateStoredState` then sets `lastCurrent` to
`G_eq * u(n) + (lastCurrent + G_eq * u(n-1))` and keeps the other members. -/
theorem inductor_trapezoidal_stamp (l : Inductor K) (S : Stamp K) (sol : Matrix K)
    (n : Nat) (dt : K) (sizeG_A : Nat) (htrap : l.trapezoidalRule = true) (hn : 1 ≤ n) :
    (∀ k, (l.addDynamicStampTo S sol n dt).G.data k = S.G.data k
      + (if l.n1 ≠ 0 ∧ k = (l.n1 - 1) * S.G.N + (l.n1 - 1) then dt / (2 * l.value) else 0)
      + (if l.n2 ≠ 0 ∧ k = (l.n2 - 1) * S.G.N + (l.n2 - 1) then dt / (2 * l.value) else 0)
      + (if (l.n1 ≠ 0 ∧ l.n2 ≠ 0) ∧ k = (l.n1 - 1) * S.G.N + (l.n2 - 1)
          then -(dt / (2 * l.value)) else 0)
      + (if (l.n1 ≠ 0 ∧ l.n2 ≠ 0) ∧ k = (l.n2 - 1) * S.G.N + (l.n1 - 1)
          then -(dt / (2 * l.value)) else 0)) ∧
    (∀ k, (l.addDynamicStampTo S sol n dt).s.data k = S.s.data k
      + (if l.n1 ≠ 0 ∧ k = (l.n1 - 1) * S.s.N + 0
          then -(l.lastCurrent + dt / (2 * l.value) * branchVoltage sol l.n1 l.n2 (n - 1))
          else 0)
      + (if l.n2 ≠ 0 ∧ k = (l.n2 - 1) * S.s.N + 0
          then l.lastCurrent + dt / (2 * l.value) * branchVoltage sol l.n1 l.n2 (n - 1)
          else 0)) ∧
    (l.addDynamicStampTo S sol n dt).G.M = S.G.M ∧
    (l.addDynamicStampTo S sol n dt).G.N = S.G.N ∧
    (l.addDynamicStampTo S sol n dt).s.M = S.s.M ∧
    (l.addDynamicStampTo S sol n dt).s.N = S.s.N ∧
    (l.addDynamicStampTo S sol n dt).sizeG_A = S.sizeG_A ∧
    (l.addDynamicStampTo S sol n dt).sizeG_D = S.sizeG_D ∧
    l.updateStoredState sol n dt sizeG_A =
      { l with lastCurrent := dt / (2 * l.value) * branchVoltage sol l.n1 l.n2 n +
          (l.lastCurrent + dt / (2 * l.value) * branchVoltage sol l.n1 l.n2 (n - 1)) } := by
  have hs : ∀ T : Stamp K, (l.addDynamicStampTo T sol n dt).G.N = T.G.N ∧
      (l.addDynamicStampTo T sol n dt).s.N = T.s.N ∧
      (l.addDynamicStampTo T sol n dt).G.M = T.G.M ∧
      (l.addDynamicStampTo T sol n dt).s.M = T.s.M ∧
      (l.addDynamicStampTo T sol n dt).sizeG_A = T.sizeG_A ∧
      (l.addDynamicStampTo T sol n dt).sizeG_D = T.sizeG_D := by
    intro T
    simp only [Inductor.addDynamicStampTo]
    split_ifs <;> exact ⟨rfl, rfl, rfl, rfl, rfl, rfl⟩
  obtain ⟨s1, s2, s3, s4, s5, s6⟩ := hs S
  refine ⟨fun k => ?_, fun k => ?_, s3, s1, s4, s2, s5, s6, ?_⟩
  · simp only [Inductor.addDynamicStampTo, htrap, if_true]
    by_cases h1 : l.n1 = 0 <;> by_cases h2 : l.n2 = 0 <;>
      simp only [h1, h2, ne_eq, not_true_eq_false, not_false_eq_true, if_true, if_false,
        and_self, false_and, and_false, true_and, add_zero, addG_G_data, addG_s, addS_G,
        addG_G_N, addS_s_N]
  · simp only [Inductor.addDynamicStampTo, htrap, if_true]
    by_cases h1 : l.n1 = 0 <;> by_cases h2 : l.n2 = 0 <;>
      simp only [h1, h2, ne_eq, not_true_eq_false, not_false_eq_true, if_true, if_false,
        and_self, false_and, and_false, true_and, add_zero, addS_s_data, addG_s, addS_G,
        addG_G_N, addS_s_N]
  · simp only [Inductor.updateStoredState, htrap, if_true]

theorem inductor_trapezoidal_stamp_witness :
    unitInductor.trapezoidalRule = true ∧ 1 ≤ 1 ∧
    (∀ k, (unitInductor.addDynamicStampTo (Stamp.new 1 0) rampSol 1 1).s.data k =
      (Stamp.new 1 0 : Stamp ℚ).s.data k
      + (if unitInductor.n1 ≠ 0 ∧ k = (unitInductor.n1 - 1) * (Stamp.new 1 0 : Stamp ℚ).s.N + 0
          then -(unitInductor.lastCurrent + 1 / (2 * unitInductor.value) *
            branchVoltage rampSol unitInductor.n1 unitInductor.n2 (1 - 1))
          else 0)
      + (if unitInductor.n2 ≠ 0 ∧ k = (unitInductor.n2 - 1) * (Stamp.new 1 0 : Stamp ℚ).s.N + 0
          then unitInductor.lastCurrent + 1 / (2 * unitInductor.value) *
            branchVoltage rampSol unitInductor.n1 unitInductor.n2 (1 - 1)
          else 0)) ∧
    unitInductor.updateStoredState rampSol 1 1 0 =
      { unitInductor with lastCurrent :=
          (1 / (2 * unitInductor.value) *
            (branchVoltage rampSol unitInductor.n1 unitInductor.n2 1) +
          (unitInductor.lastCurrent + 1 / (2 * unitInductor.value) *
            (branchVoltage rampSol unitInductor.n1 unitInductor.n2 (1 - 1)))) } :=
  ⟨rfl, le_refl 1,
    (inductor_trapezoidal_stamp unitInductor (Stamp.new 1 0) rampSol 1 1 0 rfl
      (le_refl 1)).2.1,
    (inductor_trapezoidal_stamp unitInductor (Stamp.new 1 0) rampSol 1 1 0 rfl
      (le_refl 1)).2.2.2.2.2.2.2.2⟩

theorem Inductor.dc_G_data (l : Inductor K) (S : Stamp K) (sol : Matrix K)
    (numCurrents : Nat) (k : Nat) :
    (l.addDCAnalysisStampTo S sol numCurrents).G.data k = S.G.data k
      + (if 0 < l.n1 ∧
          k = (l.n1 - 1) * S.G.N + (S.sizeG_A + numCurrents + (l.dcCurrentIndex - 1))
          then 1 else 0)
      + (if 0 < l.n1 ∧
          k = (S.sizeG_A + numCurrents + (l.dcCurrentIndex - 1)) * S.G.N + (l.n1 - 1)
          then 1 else 0)
      + (if 0 < l.n2 ∧
          k = (l.n2 - 1) * S.G.N + (S.sizeG_A + numCurrents + (l.dcCurrentIndex - 1))
          then -1 else 0)
      + (if 0 < l.n2 ∧
          k = (S.sizeG_A + numCurrents + (l.dcCurrentIndex - 1)) * S.G.N + (l.n2 - 1)
          then -1 else 0) := by
  simp only [Inductor.addDCAnalysisStampTo]
  by_cases h1 : 0 < l.n1 <;> by_cases h2 : 0 < l.n2 <;>
    simp only [h1, h2, if_true, if_false, false_and, true_and, add_zero, addG_G_data,
      addG_G_N, addG_sizeG_A]

theorem Inductor.dc_s (l : Inductor K) (S : Stamp K) (sol : Matrix K)
    (numCurrents : Nat) :
    (l.addDCAnalysisStampTo S sol numCurrents).s = S.s ∧
    (l.addDCAnalysisStampTo S sol numCurrents).G.N = S.G.N ∧
    (l.addDCAnalysisStampTo S sol numCurrents).G.M = S.G.M := by
  simp only [Inductor.addDCAnalysisStampTo]
  split_ifs <;> exact ⟨rfl, rfl, rfl⟩

/-- C15: in DC analysis an inductor with DC current index `dcCurrentIndex >= 1` and
terminals among the nodes `0 .. sizeG_A` is a short circuit through the unknown of row
`r = sizeG_A + numCurrents + dcCurrentIndex - 1`.  `addDCAnalysisStampTo` adds `+1` to
`G[n1,r]` and `G[r,n1]`, `-1` to `G[n2,r]` and `G[r,n2]` (ground terminals skipped) and
nothing else, and leaves `s` unchanged; row `r` of the stamp it produces on a cleared
stamp is the equation `v(n1) - v(n2) = 0` for every vector `x` of unknowns, with
`v(0) = 0` and `v(i) = x[i - 1]`; `updateDCStoredState` sets `lastCurrent` to the entry of
row `r` of the DC solution. -/
theorem inductor_dc_short_circuit (l : Inductor K) (S : Stamp K) (sol : Matrix K)
    (numCurrents : Nat) (x : Nat → K) (hdc : 1 ≤ l.dcCurrentIndex)
    (h1 : l.n1 ≤ S.sizeG_A) (h2 : l.n2 ≤ S.sizeG_A)
    (hr : S.sizeG_A + numCurrents + l.dcCurrentIndex - 1 < S.G.N) :
    (∀ k, (l.addDCAnalysisStampTo S sol numCurrents).G.data k = S.G.data k
      + (if 0 < l.n1 ∧
          k = (l.n1 - 1) * S.G.N + (S.sizeG_A + numCurrents + l.dcCurrentIndex - 1)
          then 1 else 0)
      + (if 0 < l.n1 ∧
          k = (S.sizeG_A + numCurrents + l.dcCurrentIndex - 1) * S.G.N + (l.n1 - 1)
          then 1 else 0)
      + (if 0 < l.n2 ∧
          k = (l.n2 - 1) * S.G.N + (S.sizeG_A + numCurrents + l.dcCurrentIndex - 1)
          then -1 else 0)
      + (if 0 < l.n2 ∧
          k = (S.sizeG_A + numCurrents + l.dcCurrentIndex - 1) * S.G.N + (l.n2 - 1)
          then -1 else 0)) ∧
    (l.addDCAnalysisStampTo S sol numCurrents).s = S.s ∧
    (∑ j in Finset.range S.G.N,
        (l.addDCAnalysisStampTo S.clear sol numCurrents).G.get
          (S.sizeG_A + numCurrents + l.dcCurrentIndex - 1) j * x j =
      (if 0 < l.n1 then x (l.n1 - 1) else 0) - (if 0 < l.n2 then x (l.n2 - 1) else 0)) ∧
    (l.addDCAnalysisStampTo S.clear sol numCurrents).s.get
      (S.sizeG_A + numCurrents + l.dcCurrentIndex - 1) 0 = 0 ∧
    (l.updateDCStoredState sol S.sizeG_A numCurrents).lastCurrent =
      sol.get (S.sizeG_A + numCurrents + l.dcCurrentIndex - 1) 0 := by
  have hre : S.sizeG_A + numCurrents + (l.dcCurrentIndex - 1) =
      S.sizeG_A + numCurrents + l.dcCurrentIndex - 1 := by omega
  refine ⟨fun k => ?_, (l.dc_s S sol numCurrents).1, ?_, ?_, rfl⟩
  · rw [l.dc_G_data S sol numCurrents k, hre]
  · have hN := (l.dc_s S.clear sol numCurrents).2.1
    have hterm : ∀ j ∈ Finset.range S.G.N,
        (l.addDCAnalysisStampTo S.clear sol numCurrents).G.get
          (S.sizeG_A + numCurrents + l.dcCurrentIndex - 1) j * x j =
        (if j = l.n1 - 1 then (if 0 < l.n1 then x (l.n1 - 1) else 0) else 0) -
          (if j = l.n2 - 1 then (if 0 < l.n2 then x (l.n2 - 1) else 0) else 0) := by
      intro j hj
      have hj' : j < S.G.N := Finset.mem_range.mp hj
      rw [Matrix.get, hN, l.dc_G_data S.clear sol numCurrents]
      simp only [clear_G_data, clear_G_N, clear_sizeG_A, zero_add, hre]
      have ea : ∀ t, (S.sizeG_A + numCurrents + l.dcCurrentIndex - 1) * S.G.N + j =
          (S.sizeG_A + numCurrents + l.dcCurrentIndex - 1) * S.G.N + t ↔ j = t := by
        intro t; omega
      have eb : ∀ t, t ≤ S.sizeG_A →
          ¬ (0 < t ∧ (S.sizeG_A + numCurrents + l.dcCurrentIndex - 1) * S.G.N + j =
            (t - 1) * S.G.N + (S.sizeG_A + numCurrents + l.dcCurrentIndex - 1)) := by
        intro t ht hE
        have := (Matrix.idx_inj hj' hr hE.2).1
        omega
      simp only [ea, eb _ h1, eb _ h2, if_false, add_zero, zero_add]
      have r1 : (if j = l.n1 - 1 then (if 0 < l.n1 then x (l.n1 - 1) else 0) else 0) =
          (if 0 < l.n1 ∧ j = l.n1 - 1 then 1 else 0) * x j := by
        by_cases a : j = l.n1 - 1
        · rw [if_pos a, ← a]
          by_cases b : 0 < l.n1
          · rw [if_pos b, if_pos ⟨b, rfl⟩, one_mul]
          · rw [if_neg b, if_neg (fun h => b h.1), zero_mul]
        · rw [if_neg a, if_neg (fun h => a h.2), zero_mul]
      have r2 : (if j = l.n2 - 1 then (if 0 < l.n2 then x (l.n2 - 1) else 0) else 0) =
          -((if 0 < l.n2 ∧ j = l.n2 - 1 then -1 else 0) * x j) := by
        by_cases a : j = l.n2 - 1
        · rw [if_pos a, ← a]
          by_cases b : 0 < l.n2
          · rw [if_pos b, if_pos ⟨b, rfl⟩]; ring
          · rw [if_neg b, if_neg (fun h => b h.1)]; ring
        · rw [if_neg a, if_neg (fun h => a h.2)]; ring
      rw [r1, r2]
      ring
    rw [Finset.sum_congr rfl hterm, Finset.sum_sub_distrib, Finset.sum_ite_eq',
      Finset.sum_ite_eq']
    have m1 : 0 < l.n1 → l.n1 - 1 ∈ Finset.range S.G.N := fun h =>
      Finset.mem_range.mpr (by omega)
    have m2 : 0 < l.n2 → l.n2 - 1 ∈ Finset.range S.G.N := fun h =>
      Finset.mem_range.mpr (by omega)
    by_cases c1 : 0 < l.n1 <;> by_cases c2 : 0 < l.n2 <;>
      simp [c1, c2, m1, m2]
  · rw [(l.dc_s S.clear sol numCurrents).1]
    rfl

theorem inductor_dc_short_circuit_witness :
    1 ≤ unitInductor.dcCurrentIndex ∧ unitInductor.n1 ≤ (Stamp.new 1 1 : Stamp ℚ).sizeG_A ∧
    unitInductor.n2 ≤ (Stamp.new 1 1 : Stamp ℚ).sizeG_A ∧
    (Stamp.new 1 1 : Stamp ℚ).sizeG_A + 0 + unitInductor.dcCurrentIndex - 1 <
      (Stamp.new 1 1 : Stamp ℚ).G.N ∧
    (∑ j in Finset.range (Stamp.new 1 1 : Stamp ℚ).G.N,
        (unitInductor.addDCAnalysisStampTo (Stamp.new 1 1 : Stamp ℚ).clear rampSol 0).G.get
          ((Stamp.new 1 1 : Stamp ℚ).sizeG_A + 0 + unitInductor.dcCurrentIndex - 1) j *
          rampSol.data j =
      (if 0 < unitInductor.n1 then rampSol.data (unitInductor.n1 - 1) else 0) -
        (if 0 < unitInductor.n2 then rampSol.data (unitInductor.n2 - 1) else 0)) ∧
    (unitInductor.updateDCStoredState rampSol (Stamp.new 1 1 : Stamp ℚ).sizeG_A 0).lastCurrent =
      rampSol.get ((Stamp.new 1 1 : Stamp ℚ).sizeG_A + 0 + unitInductor.dcCurrentIndex - 1) 0 :=
  ⟨by decide, by decide, by decide, by decide,
    (inductor_dc_short_circuit unitInductor (Stamp.new 1 1) rampSol 0 rampSol.data
      (by decide) (by decide) (by decide) (by decide)).2.2.1,
    (inductor_dc_short_circuit unitInductor (Stamp.new 1 1) rampSol 0 rampSol.data
      (by decide) (by decide) (by decide) (by decide)).2.2.2.2⟩

end InductorTheorems

/-! ## Non-linear devices: DC stamps, the non-linear capacitor, the clamps -/

section NonLinearTheorems

variable {K : Type} [LinearOrderedField K]

open Stamp

/-- C16: what the code does for the five non-linear device kinds.  The DC stamp of a
diode, an NPN BJT, a PNP BJT and a COBRA non-linear current source succeeds and is the
stamp of `addNonLinearStampTo(stamp, sol, 0, 0)`.  An NMOS does not override
`addDCAnalysisStampTo`: on every stamp and solution vector the call raises
"not implemented" and so does not produce the stamp of
`addNonLinearStampTo(stamp, sol, 0, 0)`. -/
theorem nonlinear_dc_stamps (F : CMath K) (d : Diode K) (q : BJT K)
    (c : NLCurrentSource K) (m : NLNMOS K) (S : Stamp K) (sol : Matrix K)
    (numCurrents : Nat) :
    d.addDCAnalysisStampTo F S sol numCurrents =
      Except.ok (d.addNonLinearStampTo F S sol 0 0) ∧
    BJTN.addDCAnalysisStampTo F q S sol numCurrents =
      Except.ok (BJTN.addNonLinearStampTo F q S sol 0 0) ∧
    BJTP.addDCAnalysisStampTo F q S sol numCurrents =
      Except.ok (BJTP.addNonLinearStampTo F q S sol 0 0) ∧
    c.addDCAnalysisStampTo F S sol numCurrents =
      Except.ok (c.addNonLinearStampTo F S sol 0 0) ∧
    NLNMOS.addDCAnalysisStampTo F m S sol numCurrents = Except.error "not implemented" ∧
    NLNMOS.addDCAnalysisStampTo F m S sol numCurrents ≠
      Except.ok (m.addNonLinearStampTo F S sol 0 0) := by
  refine ⟨rfl, rfl, rfl, rfl, rfl, ?_⟩
  intro h
  simp [NLNMOS.addDCAnalysisStampTo, Component.notImplemented] at h

theorem NLCapacitor.stamp_data (F : CMath K) (c : NLCapacitor K) (S : Stamp K)
    (sol : Matrix K) (n : Nat) (dt : K) :
    (∀ k, (c.addNonLinearStampTo F S sol n dt).G.data k = S.G.data k
      + (if 0 < c.n1 ∧ k = (c.n1 - 1) * S.G.N + (c.n1 - 1)
          then c.di F dt (branchVoltage sol c.n1 c.n2 n) else 0)
      + (if 0 < c.n2 ∧ k = (c.n2 - 1) * S.G.N + (c.n2 - 1)
          then c.di F dt (branchVoltage sol c.n1 c.n2 n) else 0)
      + (if (0 < c.n1 ∧ 0 < c.n2) ∧ k = (c.n1 - 1) * S.G.N + (c.n2 - 1)
          then -c.di F dt (branchVoltage sol c.n1 c.n2 n) else 0)
      + (if (0 < c.n1 ∧ 0 < c.n2) ∧ k = (c.n2 - 1) * S.G.N + (c.n1 - 1)
          then -c.di F dt (branchVoltage sol c.n1 c.n2 n) else 0)) ∧
    (∀ k, (c.addNonLinearStampTo F S sol n dt).s.data k = S.s.data k
      + (if 0 < c.n1 ∧ k = (c.n1 - 1) * S.s.N + 0
          then -(c.i F dt (branchVoltage sol c.n1 c.n2 n) -
            c.di F dt (branchVoltage sol c.n1 c.n2 n) * branchVoltage sol c.n1 c.n2 n)
          else 0)
      + (if 0 < c.n2 ∧ k = (c.n2 - 1) * S.s.N + 0
          then c.i F dt (branchVoltage sol c.n1 c.n2 n) -
            c.di F dt (branchVoltage sol c.n1 c.n2 n) * branchVoltage sol c.n1 c.n2 n
          else 0)) := by
  have hu : (if 0 < c.n2 then (if 0 < c.n1 then sol.get (c.n1 - 1) n else 0) -
      sol.get (c.n2 - 1) n else (if 0 < c.n1 then sol.get (c.n1 - 1) n else 0)) =
      branchVoltage sol c.n1 c.n2 n := by
    simp only [branchVoltage, Nat.pos_iff_ne_zero]
  constructor
  · intro k
    simp only [NLCapacitor.addNonLinearStampTo, hu]
    by_cases h1 : 0 < c.n1 <;> by_cases h2 : 0 < c.n2 <;>
      simp only [h1, h2, if_true, if_false, and_self, false_and, and_false, true_and,
        add_zero, addG_G_data, addG_s, addS_G, addG_G_N, addS_s_N] <;>
      ring
  · intro k
    simp only [NLCapacitor.addNonLinearStampTo, hu]
    by_cases h1 : 0 < c.n1 <;> by_cases h2 : 0 < c.n2 <;>
      simp only [h1, h2, if_true, if_false, and_self, false_and, and_false, true_and,
        add_zero, addS_s_data, addG_s, addS_G, addG_G_N, addS_s_N] <;>
      ring_nf

theorem hasDerivAt_real_tanh (x : ℝ) :
    HasDerivAt Real.tanh (1 / Real.cosh x ^ 2) x := by
  have hc : Real.cosh x ≠ 0 := ne_of_gt (Real.cosh_pos x)
  have h := (Real.hasDerivAt_sinh x).div (Real.hasDerivAt_cosh x) hc
  have e : (fun y => Real.sinh y / Real.cosh y) = Real.tanh := by
    funext y
    rw [Real.tanh_eq_sinh_div_cosh]
  have hs := Real.cosh_sq x
  have e2 : (Real.cosh x * Real.cosh x - Real.sinh x * Real.sinh x) / Real.cosh x ^ 2 =
      1 / Real.cosh x ^ 2 := by
    congr 1
    nlinarith [hs]
  rw [← e, ← e2]
  exact h

/-- C17: the non-linear capacitor with the real `tanh`, `cosh` and `pow`.  With
`C(u) = C_p + C_o * (1 + tanh(P_10 + P_11 * u))`, `dC/du = C_o * P_11 / cosh^2(P_10 +
P_11 * u)`, `i(u) = C(u) * (2 * (u - u_last) / dt - i_last / C_last)` and
`G_eq = dC/du * (2 * (u - u_last) / dt - i_last / C_last) + 2 * C(u) / dt`,
`addNonLinearStampTo` at the iterate `u` (the branch voltage in column `n`) adds `G_eq`
to `G[n1,n1]` and `G[n2,n2]`, `-G_eq` to `G[n1,n2]` and `G[n2,n1]`, `-I_eq` to `s[n1]` and
`+I_eq` to `s[n2]` with `I_eq = i(u) - G_eq * u`, and `G_eq` is the derivative of `i`
with respect to `u`. -/
theorem nlcapacitor_newton_stamp (F : CMath ℝ) (c : NLCapacitor ℝ) (S : Stamp ℝ)
    (sol : Matrix ℝ) (n : Nat) (dt : ℝ) (htanh : F.tanh = Real.tanh)
    (hcosh : F.cosh = Real.cosh) (hpow : ∀ x : ℝ, F.pow x 2 = x ^ 2) :
    (∀ u, c.C F u = c.C_p + c.C_o * (1 + Real.tanh (c.P_10 + c.P_11 * u))) ∧
    (∀ u, c.dC F u = c.C_o * c.P_11 / Real.cosh (c.P_10 + c.P_11 * u) ^ 2) ∧
    (∀ u, c.i F dt u = c.C F u * (2 * (u - c.u_last) / dt - c.i_last / c.C_last)) ∧
    (∀ u, c.di F dt u =
      c.dC F u * (2 * (u - c.u_last) / dt - c.i_last / c.C_last) + 2 * c.C F u / dt) ∧
    (∀ k, (c.addNonLinearStampTo F S sol n dt).G.data k = S.G.data k
      + (if 0 < c.n1 ∧ k = (c.n1 - 1) * S.G.N + (c.n1 - 1)
          then c.di F dt (branchVoltage sol c.n1 c.n2 n) else 0)
      + (if 0 < c.n2 ∧ k = (c.n2 - 1) * S.G.N + (c.n2 - 1)
          then c.di F dt (branchVoltage sol c.n1 c.n2 n) else 0)
      + (if (0 < c.n1 ∧ 0 < c.n2) ∧ k = (c.n1 - 1) * S.G.N + (c.n2 - 1)
          then -c.di F dt (branchVoltage sol c.n1 c.n2 n) else 0)
      + (if (0 < c.n1 ∧ 0 < c.n2) ∧ k = (c.n2 - 1) * S.G.N + (c.n1 - 1)
          then -c.di F dt (branchVoltage sol c.n1 c.n2 n) else 0)) ∧
    (∀ k, (c.addNonLinearStampTo F S sol n dt).s.data k = S.s.data k
      + (if 0 < c.n1 ∧ k = (c.n1 - 1) * S.s.N + 0
          then -(c.i F dt (branchVoltage sol c.n1 c.n2 n) -
            c.di F dt (branchVoltage sol c.n1 c.n2 n) * branchVoltage sol c.n1 c.n2 n)
          else 0)
      + (if 0 < c.n2 ∧ k = (c.n2 - 1) * S.s.N + 0
          then c.i F dt (branchVoltage sol c.n1 c.n2 n) -
            c.di F dt (branchVoltage sol c.n1 c.n2 n) * branchVoltage sol c.n1 c.n2 n
          else 0)) ∧
    (∀ u, HasDerivAt (fun x => c.i F dt x) (c.di F dt u) u) := by
  have hC : ∀ u, c.C F u = c.C_p + c.C_o * (1 + Real.tanh (c.P_10 + c.P_11 * u)) := by
    intro u
    simp only [NLCapacitor.C, htanh]
    norm_num
  have hdC : ∀ u, c.dC F u = c.C_o * c.P_11 / Real.cosh (c.P_10 + c.P_11 * u) ^ 2 := by
    intro u
    simp only [NLCapacitor.dC, hcosh, hpow]
  have hi : ∀ u, c.i F dt u =
      c.C F u * (2 * (u - c.u_last) / dt - c.i_last / c.C_last) := by
    intro u
    simp only [NLCapacitor.i]
    norm_num
  have hdi : ∀ u, c.di F dt u =
      c.dC F u * (2 * (u - c.u_last) / dt - c.i_last / c.C_last) + 2 * c.C F u / dt := by
    intro u
    simp only [NLCapacitor.di]
    norm_num
  refine ⟨hC, hdC, hi, hdi, (c.stamp_data F S sol n dt).1, (c.stamp_data F S sol n dt).2,
    fun u => ?_⟩
  have hlin : HasDerivAt (fun x : ℝ => c.P_10 + c.P_11 * x) c.P_11 u := by
    simpa using ((hasDerivAt_id u).const_mul c.P_11).const_add c.P_10
  have htan : HasDerivAt (fun x : ℝ => Real.tanh (c.P_10 + c.P_11 * x))
      (1 / Real.cosh (c.P_10 + c.P_11 * u) ^ 2 * c.P_11) u :=
    (hasDerivAt_real_tanh (c.P_10 + c.P_11 * u)).comp u hlin
  have hCd : HasDerivAt (fun x : ℝ => c.C F x) (c.dC F u) u := by
    have h1 := ((htan.const_add 1).const_mul c.C_o).const_add c.C_p
    have e : (fun x : ℝ => c.C F x) =
        fun x => c.C_p + c.C_o * (1 + Real.tanh (c.P_10 + c.P_11 * x)) := funext hC
    rw [e, hdC]
    convert h1 using 1
    ring
  have hfac : HasDerivAt (fun x : ℝ => 2 * (x - c.u_last) / dt - c.i_last / c.C_last)
      (2 / dt) u := by
    have h1 := ((((hasDerivAt_id u).sub_const c.u_last).const_mul 2).div_const dt).sub_const
      (c.i_last / c.C_last)
    simpa using h1
  have hprod := hCd.mul hfac
  have e : (fun x : ℝ => c.i F dt x) =
      fun x => c.C F x * (2 * (x - c.u_last) / dt - c.i_last / c.C_last) := funext hi
  rw [e, hdi]
  convert hprod using 1
  ring

theorem nlcapacitor_newton_stamp_witness :
    (CMath.mk Real.sin Real.cos Real.tan Real.sinh Real.cosh Real.tanh Real.exp Real.log
      (fun x y => x ^ y)).tanh = Real.tanh ∧
    (∀ u, HasDerivAt
      (fun x => NLCapacitor.i (CMath.mk Real.sin Real.cos Real.tan Real.sinh Real.cosh
        Real.tanh Real.exp Real.log (fun x y => x ^ y))
        (NLCapacitor.mk 1 2 1 1 0 1 0 0 2) 1 x)
      (NLCapacitor.di (CMath.mk Real.sin Real.cos Real.tan Real.sinh Real.cosh
        Real.tanh Real.exp Real.log (fun x y => x ^ y))
        (NLCapacitor.mk 1 2 1 1 0 1 0 0 2) 1 u) u) :=
  ⟨rfl, (nlcapacitor_newton_stamp
    (CMath.mk Real.sin Real.cos Real.tan Real.sinh Real.cosh Real.tanh Real.exp Real.log
      (fun x y => x ^ y))
    (NLCapacitor.mk 1 2 1 1 0 1 0 0 2) (Stamp.new 2 0) (Matrix.mk0 2 2 0) 1 1 rfl rfl
    (fun x => Real.rpow_two x)).2.2.2.2.2.2⟩

end NonLinearTheorems

/-! ## Cached and uncached assembly -/

namespace CircuitElements

variable {K : Type} [LinearOrderedField K]

theorem addStaticStamps_append (st : Stamp K) (a b : List (Component K)) :
    st.addStaticStamps (a ++ b) = (st.addStaticStamps a).addStaticStamps b := by
  simp only [Stamp.addStaticStamps, List.foldl_append]

theorem addDynamicStamps_append (st : Stamp K) (a b : List (Component K)) (sol : Matrix K)
    (n : Nat) (dt : K) :
    st.addDynamicStamps (a ++ b) sol n dt =
      (st.addDynamicStamps a sol n dt).addDynamicStamps b sol n dt := by
  simp only [Stamp.addDynamicStamps, List.foldl_append]

theorem addDynamicStamps_congr (cs : List (Component K)) (sol0 sol : Matrix K) (n : Nat)
    (dt : K)
    (h : ∀ c ∈ cs, ∀ st, c.addDynamicStampTo st sol0 n dt = c.addDynamicStampTo st sol n dt)
    (st : Stamp K) : st.addDynamicStamps cs sol0 n dt = st.addDynamicStamps cs sol n dt := by
  induction cs generalizing st with
  | nil => rfl
  | cons c cs ih =>
    simp only [Stamp.addDynamicStamps, List.foldl_cons]
    rw [h c (List.mem_cons_self c cs) st]
    exact ih (fun c' hc' => h c' (List.mem_cons_of_mem c hc')) _

theorem addNonLinearStamps_ok (sol : Matrix K) (n : Nat) (dt : K)
    (cs : List (Component K))
    (hok : ∀ c ∈ cs, ∀ st, ∃ st', c.addNonLinearStampTo st sol n dt = Except.ok st')
    (st : Stamp K) : ∃ st', Stamp.addNonLinearStamps sol n dt cs st = Except.ok st' := by
  induction cs generalizing st with
  | nil => exact ⟨st, rfl⟩
  | cons c cs ih =>
    obtain ⟨st1, h1⟩ := hok c (List.mem_cons_self c cs) st
    obtain ⟨st2, h2⟩ := ih (fun c' hc' => hok c' (List.mem_cons_of_mem c hc')) st1
    refine ⟨st2, ?_⟩
    rw [Stamp.addNonLinearStamps, h1]
    exact h2

theorem generateStaticStamp_spec (ce : CircuitElements K) :
    ce.generateStaticStamp.staticStamp = ce.staticLayer ∧
    ce.generateStaticStamp.dynamicElements = ce.dynamicElements ∧
    ce.generateStaticStamp.nonLinearElements = ce.nonLinearElements := by
  refine ⟨?_, rfl, rfl⟩
  simp only [generateStaticStamp, staticLayer, addStaticStamps_append]

theorem generateDynamicStamp_spec (ce : CircuitElements K) (sol : Matrix K) (n : Nat)
    (dt : K) (hs : ce.staticStampIsFresh = true → ce.staticStamp = ce.staticLayer) :
    (ce.generateDynamicStamp sol n dt).dynamicStamp = ce.dynamicLayer sol n dt ∧
    (ce.generateDynamicStamp sol n dt).nonLinearElements = ce.nonLinearElements := by
  by_cases h : ce.staticStampIsFresh = true
  · simp only [generateDynamicStamp, h, Bool.not_true, Bool.false_eq_true, if_false,
      dynamicLayer, addDynamicStamps_append, hs h, and_self]
  · have h' : ce.staticStampIsFresh = false := by simpa using h
    obtain ⟨g1, g2, g3⟩ := ce.generateStaticStamp_spec
    simp only [generateDynamicStamp, h', Bool.not_false, if_true, dynamicLayer,
      addDynamicStamps_append, g1, g2, g3, and_self]

theorem generateNonLinearStamp_elements (ce : CircuitElements K) (sol : Matrix K) (n : Nat)
    (dt : K) (r : CircuitElements K)
    (h : ce.generateNonLinearStamp sol n dt = Except.ok r) :
    r.nonLinearElements = ce.nonLinearElements := by
  have hel : (if (!ce.dynamicStampIsFresh) = true then ce.generateDynamicStamp sol n dt
      else ce).nonLinearElements = ce.nonLinearElements := by
    split_ifs
    · simp only [generateDynamicStamp]
      split_ifs <;> rfl
    · rfl
  simp only [generateNonLinearStamp] at h
  split at h
  · exact absurd h (by simp)
  · simp only [Except.ok.injEq] at h
    rw [← h]
    exact hel

theorem generateNonLinearStamp_ok (ce : CircuitElements K) (sol : Matrix K) (n : Nat)
    (dt : K)
    (hok : ∀ c ∈ ce.nonLinearElements, ∀ st,
      ∃ st', c.addNonLinearStampTo st sol n dt = Except.ok st') :
    ∃ r, ce.generateNonLinearStamp sol n dt = Except.ok r := by
  have hel : (if (!ce.dynamicStampIsFresh) = true then ce.generateDynamicStamp sol n dt
      else ce).nonLinearElements = ce.nonLinearElements := by
    split_ifs
    · simp only [generateDynamicStamp]
      split_ifs <;> rfl
    · rfl
  obtain ⟨st', h'⟩ := addNonLinearStamps_ok sol n dt _ (hel ▸ hok)
    (if (!ce.dynamicStampIsFresh) = true then ce.generateDynamicStamp sol n dt
      else ce).dynamicStamp
  simp only [generateNonLinearStamp, h']
  exact ⟨_, rfl⟩

/-- C19: cached and uncached assembly agree.  Assume that the static stamp, when
flagged fresh, is the static layer of the current elements, and that the dynamic stamp,
when flagged fresh, is the dynamic layer of the current elements for `n`, `dt` and a
solution matrix `sol0` on which every dynamic contribution is the one on `sol` (the
dynamic stamps read the columns before `n` only).  Then `generateNonLinearStamp` fails or
succeeds exactly as the uncached assembly does, and the stamp it returns is the sum onto
a zero stamp of every element's static contribution, every dynamic and non-linear
element's dynamic contribution and every non-linear element's non-linear contribution.
When no non-linear element raises, the call returns. -/
theorem generateNonLinearStamp_eq_uncached (ce : CircuitElements K) (sol : Matrix K)
    (n : Nat) (dt : K)
    (hs : ce.staticStampIsFresh = true → ce.staticStamp = ce.staticLayer)
    (hd : ce.dynamicStampIsFresh = true → ∃ sol0 : Matrix K,
      (∀ c ∈ ce.dynamicElements ++ ce.nonLinearElements, ∀ st,
        c.addDynamicStampTo st sol0 n dt = c.addDynamicStampTo st sol n dt) ∧
      ce.dynamicStamp = ce.dynamicLayer sol0 n dt) :
    Except.map (fun r : CircuitElements K => r.nonLinearStamp)
        (ce.generateNonLinearStamp sol n dt) = ce.uncachedNonLinearStamp sol n dt ∧
    ((∀ c ∈ ce.nonLinearElements, ∀ st,
        ∃ st', c.addNonLinearStampTo st sol n dt = Except.ok st') →
      ∃ r, ce.generateNonLinearStamp sol n dt = Except.ok r ∧
        ce.uncachedNonLinearStamp sol n dt = Except.ok r.nonLinearStamp) := by
  have hcore : ∃ ce1 : CircuitElements K,
      ce1.dynamicStamp = ce.dynamicLayer sol n dt ∧
      ce1.nonLinearElements = ce.nonLinearElements ∧
      ce.generateNonLinearStamp sol n dt =
        match Stamp.addNonLinearStamps sol n dt ce1.nonLinearElements ce1.dynamicStamp with
        | Except.error e => Except.error e
        | Except.ok nonLinearStamp => Except.ok
            { ce1 with nonLinearStamp := nonLinearStamp, nonLinearStampIsFresh := true } := by
    by_cases h : ce.dynamicStampIsFresh = true
    · obtain ⟨sol0, hagree, hlayer⟩ := hd h
      refine ⟨ce, ?_, rfl, ?_⟩
      · rw [hlayer, dynamicLayer, dynamicLayer]
        exact addDynamicStamps_congr _ sol0 sol n dt hagree _
      · simp only [generateNonLinearStamp, h, Bool.not_true, Bool.false_eq_true, if_false]
    · have h' : ce.dynamicStampIsFresh = false := by simpa using h
      obtain ⟨g1, g2⟩ := ce.generateDynamicStamp_spec sol n dt hs
      refine ⟨ce.generateDynamicStamp sol n dt, g1, g2, ?_⟩
      simp only [generateNonLinearStamp, h', Bool.not_false, if_true]
  obtain ⟨ce1, c1, c2, c3⟩ := hcore
  have hmap : Except.map (fun r : CircuitElements K => r.nonLinearStamp)
      (ce.generateNonLinearStamp sol n dt) = ce.uncachedNonLinearStamp sol n dt := by
    rw [c3, uncachedNonLinearStamp, c1, c2]
    cases Stamp.addNonLinearStamps sol n dt ce.nonLinearElements (ce.dynamicLayer sol n dt)
      with
    | error e => rfl
    | ok st => rfl
  refine ⟨hmap, fun hok => ?_⟩
  obtain ⟨r, hr⟩ := ce.generateNonLinearStamp_ok sol n dt hok
  refine ⟨r, hr, ?_⟩
  rw [← hmap, hr]
  rfl

theorem generateNonLinearStamp_eq_uncached_witness :
    (exampleElements.generateDynamicStamp (Matrix.mk0 1 4 0) 1 1).staticStampIsFresh = true ∧
    (exampleElements.generateDynamicStamp (Matrix.mk0 1 4 0) 1 1).dynamicStampIsFresh = true ∧
    (exampleElements.generateDynamicStamp (Matrix.mk0 1 4 0) 1 1).staticStamp =
      (exampleElements.generateDynamicStamp (Matrix.mk0 1 4 0) 1 1).staticLayer ∧
    (exampleElements.generateDynamicStamp (Matrix.mk0 1 4 0) 1 1).dynamicStamp =
      (exampleElements.generateDynamicStamp (Matrix.mk0 1 4 0) 1 1).dynamicLayer
        (Matrix.mk0 1 4 0) 1 1 ∧
    Except.map (fun r : CircuitElements ℚ => r.nonLinearStamp)
        ((exampleElements.generateDynamicStamp (Matrix.mk0 1 4 0) 1 1).generateNonLinearStamp
          rampSol 1 1) =
      (exampleElements.generateDynamicStamp (Matrix.mk0 1 4 0) 1 1).uncachedNonLinearStamp
        rampSol 1 1 :=
  ⟨rfl, rfl, rfl, rfl,
    (generateNonLinearStamp_eq_uncached
      (exampleElements.generateDynamicStamp (Matrix.mk0 1 4 0) 1 1) rampSol 1 1
      (fun _ => rfl)
      (fun _ => ⟨Matrix.mk0 1 4 0, by
        intro c hc st
        have hc' : c = Capacitor.toComponent unitCapacitor ∨
            c = Diode.toComponent (CMath.mk id id id id id id id id (fun x _ => x))
              (Diode.mk 1 0 1) := by
          simpa [exampleElements, generateDynamicStamp, generateStaticStamp,
            CircuitElements.new] using hc
        rcases hc' with rfl | rfl
        · simp [Component.addDynamicStampTo, Capacitor.toComponent,
            Capacitor.addDynamicStampTo, branchVoltage, unitCapacitor, rampSol, Matrix.get,
            Matrix.mk0]
        · rfl, rfl⟩)).1⟩

end CircuitElements

/-! ## The clamps of the exponential devices -/

section Clamps

variable {K : Type} [LinearOrderedField K]

theorem Diode.etaVT_pos : (0 : K) < Diode.eta * Diode.V_T := by
  norm_num [Diode.eta, Diode.V_T]

theorem Diode.VT_le_etaVT : (Diode.V_T : K) ≤ Diode.eta * Diode.V_T := by
  norm_num [Diode.eta, Diode.V_T]

theorem Diode.VT_pos : (0 : K) < Diode.V_T := by
  norm_num [Diode.V_T]

theorem BJT.junctionVT_pos : (0 : K) < 26e-3 := by
  norm_num

/-- C18: the clamps of the diode, the NPN and the PNP BJT, for every solution matrix.
The argument of `exp` in the diode stamp is `min(V_crit, v) / (eta * V_T)`, at most
`V_crit / (eta * V_T)` (and at most `V_crit / V_T` when `V_crit >= 0`); in the NPN stamp
the arguments are `min(V_crit, v) / V_T`, at most `V_crit / V_T` of the junction; in the
PNP stamp they are `-max(-V_crit, v) / V_T`, again at most `V_crit / V_T`.  Each stamp
depends on `exp` only through its values at arguments up to these bounds, it is a total
function (as a `Component` the call returns a stamp and never raises), and it is the same
stamp for all junction voltages beyond the clamp. -/
theorem clamped_exponential_stamps (F F' : CMath K) (d : Diode K) (q : BJT K)
    (S : Stamp K) (sol sol' : Matrix K) (n n' : Nat) (dt : K) :
    (d.clampedVoltage sol n / (Diode.eta * Diode.V_T) ≤
      d.V_crit / (Diode.eta * Diode.V_T)) ∧
    (0 ≤ d.V_crit → d.clampedVoltage sol n / (Diode.eta * Diode.V_T) ≤
      d.V_crit / Diode.V_T) ∧
    ((∀ x, x ≤ d.V_crit / (Diode.eta * Diode.V_T) → F.exp x = F'.exp x) →
      d.addNonLinearStampTo F S sol n dt = d.addNonLinearStampTo F' S sol n dt) ∧
    (d.V_crit ≤ branchVoltage sol d.n1 d.n2 n → d.V_crit ≤ branchVoltage sol' d.n1 d.n2 n' →
      d.addNonLinearStampTo F S sol n dt = d.addNonLinearStampTo F S sol' n' dt) ∧
    (Diode.toComponent F d).addNonLinearStampTo S sol n dt =
      Except.ok (d.addNonLinearStampTo F S sol n dt) ∧
    ((BJTN.clampedVoltages q sol n).1 / 26e-3 ≤ q.V_be_crit / 26e-3 ∧
      (BJTN.clampedVoltages q sol n).2 / 26e-3 ≤ q.V_bc_crit / 26e-3) ∧
    ((∀ x, x ≤ q.V_be_crit / 26e-3 ∨ x ≤ q.V_bc_crit / 26e-3 → F.exp x = F'.exp x) →
      BJTN.addNonLinearStampTo F q S sol n dt = BJTN.addNonLinearStampTo F' q S sol n dt) ∧
    (q.V_be_crit ≤ (q.junctionVoltages sol n).1 → q.V_bc_crit ≤ (q.junctionVoltages sol n).2 →
      q.V_be_crit ≤ (q.junctionVoltages sol' n').1 →
      q.V_bc_crit ≤ (q.junctionVoltages sol' n').2 →
      BJTN.addNonLinearStampTo F q S sol n dt = BJTN.addNonLinearStampTo F q S sol' n' dt) ∧
    (BJTN.toComponent F q).addNonLinearStampTo S sol n dt =
      Except.ok (BJTN.addNonLinearStampTo F q S sol n dt) ∧
    (-(BJTP.clampedVoltages q sol n).1 / 26e-3 ≤ q.V_be_crit / 26e-3 ∧
      -(BJTP.clampedVoltages q sol n).2 / 26e-3 ≤ q.V_bc_crit / 26e-3) ∧
    ((∀ x, x ≤ q.V_be_crit / 26e-3 ∨ x ≤ q.V_bc_crit / 26e-3 → F.exp x = F'.exp x) →
      BJTP.addNonLinearStampTo F q S sol n dt = BJTP.addNonLinearStampTo F' q S sol n dt) ∧
    ((q.junctionVoltages sol n).1 ≤ -q.V_be_crit → (q.junctionVoltages sol n).2 ≤ -q.V_bc_crit →
      (q.junctionVoltages sol' n').1 ≤ -q.V_be_crit →
      (q.junctionVoltages sol' n').2 ≤ -q.V_bc_crit →
      BJTP.addNonLinearStampTo F q S sol n dt = BJTP.addNonLinearStampTo F q S sol' n' dt) ∧
    (BJTP.toComponent F q).addNonLinearStampTo S sol n dt =
      Except.ok (BJTP.addNonLinearStampTo F q S sol n dt) := by
  have hd : d.clampedVoltage sol n / (Diode.eta * Diode.V_T) ≤
      d.V_crit / (Diode.eta * Diode.V_T) :=
    (div_le_div_iff_of_pos_right Diode.etaVT_pos).mpr (min_le_left _ _)
  have hn1 : (BJTN.clampedVoltages q sol n).1 / 26e-3 ≤ q.V_be_crit / 26e-3 :=
    (div_le_div_iff_of_pos_right BJT.junctionVT_pos).mpr (min_le_left _ _)
  have hn2 : (BJTN.clampedVoltages q sol n).2 / 26e-3 ≤ q.V_bc_crit / 26e-3 :=
    (div_le_div_iff_of_pos_right BJT.junctionVT_pos).mpr (min_le_left _ _)
  have hp1 : -(BJTP.clampedVoltages q sol n).1 / 26e-3 ≤ q.V_be_crit / 26e-3 := by
    refine (div_le_div_iff_of_pos_right BJT.junctionVT_pos).mpr ?_
    have := le_max_left (-q.V_be_crit) (q.junctionVoltages sol n).1
    simp only [BJTP.clampedVoltages]
    linarith
  have hp2 : -(BJTP.clampedVoltages q sol n).2 / 26e-3 ≤ q.V_bc_crit / 26e-3 := by
    refine (div_le_div_iff_of_pos_right BJT.junctionVT_pos).mpr ?_
    have := le_max_left (-q.V_bc_crit) (q.junctionVoltages sol n).2
    simp only [BJTP.clampedVoltages]
    linarith
  refine ⟨hd, fun h0 => ?_, fun hF => ?_, fun h1 h2 => ?_, rfl, ⟨hn1, hn2⟩, fun hF => ?_,
    fun h1 h2 h3 h4 => ?_, rfl, ⟨hp1, hp2⟩, fun hF => ?_, fun h1 h2 h3 h4 => ?_, rfl⟩
  · exact hd.trans (div_le_div_of_nonneg_left h0 Diode.VT_pos Diode.VT_le_etaVT)
  · simp only [Diode.addNonLinearStampTo, hF _ hd]
  · have e1 : d.clampedVoltage sol n = d.V_crit := min_eq_left h1
    have e2 : d.clampedVoltage sol' n' = d.V_crit := min_eq_left h2
    simp only [Diode.addNonLinearStampTo, e1, e2]
  · simp only [BJTN.addNonLinearStampTo, BJTN.nortonValues, hF _ (Or.inl hn1),
      hF _ (Or.inr hn2)]
  · have e1 : BJTN.clampedVoltages q sol n = (q.V_be_crit, q.V_bc_crit) := by
      simp only [BJTN.clampedVoltages, min_eq_left h1, min_eq_left h2]
    have e2 : BJTN.clampedVoltages q sol' n' = (q.V_be_crit, q.V_bc_crit) := by
      simp only [BJTN.clampedVoltages, min_eq_left h3, min_eq_left h4]
    simp only [BJTN.addNonLinearStampTo, e1, e2]
  · simp only [BJTP.addNonLinearStampTo, hF _ (Or.inl hp1), hF _ (Or.inr hp2)]
  · have e1 : BJTP.clampedVoltages q sol n = (-q.V_be_crit, -q.V_bc_crit) := by
      simp only [BJTP.clampedVoltages, max_eq_left h1, max_eq_left h2]
    have e2 : BJTP.clampedVoltages q sol' n' = (-q.V_be_crit, -q.V_bc_crit) := by
      simp only [BJTP.clampedVoltages, max_eq_left h3, max_eq_left h4]
    simp only [BJTP.addNonLinearStampTo, e1, e2]

theorem clamped_exponential_stamps_witness :
    (0 : ℚ) ≤ (Diode.mk 1 0 1 : Diode ℚ).V_crit ∧
    (Diode.mk 1 0 1 : Diode ℚ).V_crit ≤ branchVoltage (Matrix.mk0 1 1 5) 1 0 0 ∧
    (Diode.mk 1 0 1 : Diode ℚ).V_crit ≤ branchVoltage (Matrix.mk0 1 1 7) 1 0 0 ∧
    Diode.clampedVoltage (Diode.mk 1 0 1 : Diode ℚ) (Matrix.mk0 1 1 5) 0 /
      (Diode.eta * Diode.V_T) ≤ (Diode.mk 1 0 1 : Diode ℚ).V_crit / Diode.V_T ∧
    Diode.addNonLinearStampTo (CMath.mk id id id id id id id id (fun x _ => x))
        (Diode.mk 1 0 1 : Diode ℚ) (Stamp.new 1 0) (Matrix.mk0 1 1 5) 0 1 =
      Diode.addNonLinearStampTo (CMath.mk id id id id id id id id (fun x _ => x))
        (Diode.mk 1 0 1 : Diode ℚ) (Stamp.new 1 0) (Matrix.mk0 1 1 7) 0 1 := by
  have h0 : (0 : ℚ) ≤ (Diode.mk 1 0 1 : Diode ℚ).V_crit := by norm_num
  have h5 : (Diode.mk 1 0 1 : Diode ℚ).V_crit ≤ branchVoltage (Matrix.mk0 1 1 5) 1 0 0 := by
    norm_num [branchVoltage, Matrix.get, Matrix.mk0]
  have h7 : (Diode.mk 1 0 1 : Diode ℚ).V_crit ≤ branchVoltage (Matrix.mk0 1 1 7) 1 0 0 := by
    norm_num [branchVoltage, Matrix.get, Matrix.mk0]
  have h := clamped_exponential_stamps (CMath.mk id id id id id id id id (fun x _ => x))
    (CMath.mk id id id id id id id id (fun x _ => x)) (Diode.mk 1 0 1 : Diode ℚ)
    (BJT.mk 1 2 0 1 1) (Stamp.new 1 0) (Matrix.mk0 1 1 5) (Matrix.mk0 1 1 7) 0 0 1
  exact ⟨h0, h5, h7, h.2.1 h0, h.2.2.2.1 h5 h7⟩

end Clamps

/-! ## One time step of `simulate` -/

namespace SimulationEnvironment

variable {K : Type} [LinearOrderedField K]

theorem setLoop_spec (v : Nat → K) (n : Nat) (sm0 : Matrix K) (m : Nat) :
    (forLoop (fun k (sm : Matrix K) => sm.setAt k n (v k)) 0 m sm0).M = sm0.M ∧
    (forLoop (fun k (sm : Matrix K) => sm.setAt k n (v k)) 0 m sm0).N = sm0.N ∧
    ∀ i j, j < sm0.N → n < sm0.N →
      (forLoop (fun k (sm : Matrix K) => sm.setAt k n (v k)) 0 m sm0).data (i * sm0.N + j) =
        if j = n ∧ i < m then v i else sm0.data (i * sm0.N + j) := by
  induction m with
  | zero => exact ⟨rfl, rfl, fun i j _ _ => by simp [forLoop]⟩
  | succ m ih =>
    obtain ⟨h1, h2, h3⟩ := ih
    have step : forLoop (fun k (sm : Matrix K) => sm.setAt k n (v k)) 0 (m + 1) sm0 =
        (forLoop (fun k (sm : Matrix K) => sm.setAt k n (v k)) 0 m sm0).setAt (0 + m) n
          (v (0 + m)) := rfl
    rw [step]
    generalize forLoop (fun k (sm : Matrix K) => sm.setAt k n (v k)) 0 m sm0 = sm
      at h1 h2 h3
    refine ⟨h1, h2, fun i j hj hn => ?_⟩
    show Function.update sm.data ((0 + m) * sm.N + n) (v (0 + m)) (i * sm0.N + j) = _
    rw [Function.update_apply, Nat.zero_add, h2, h3 i j hj hn]
    simp only [Matrix.idx_eq_iff hj hn]
    by_cases a : i = m
    · by_cases b : j = n
      · subst a b; simp
      · simp [a, b]
    · have e : i < m + 1 ↔ i < m := by omega
      simp [a, e]

theorem get_of_data (A B : Matrix K) (k j : Nat) (hN : A.N = B.N) (v : K)
    (h : A.data (k * B.N + j) = v) : A.get k j = v := by
  rw [Matrix.get, hN]
  exact h

theorem newtonIteration_spec (env : SimulationEnvironment K) (tempSoln : Matrix K)
    (n : Nat) (hn : n < env.solutionMat.N)
    (hok : ∀ c ∈ env.elements.nonLinearElements, ∀ st sol k dt,
      ∃ st', c.addNonLinearStampTo st sol k dt = Except.ok st') :
    ∃ env1 temp1 maxDiff, env.newtonIteration tempSoln n = Except.ok (env1, temp1, maxDiff) ∧
      env1.elements.nonLinearElements = env.elements.nonLinearElements ∧
      env1.solutionMat.M = env.solutionMat.M ∧ env1.solutionMat.N = env.solutionMat.N ∧
      (∀ k j, j < env.solutionMat.N → j ≠ n →
        env1.solutionMat.get k j = env.solutionMat.get k j) ∧
      (∀ k, k < env.solutionMat.M → env1.solutionMat.get k n = temp1.get k 0) := by
  obtain ⟨r, hr⟩ := env.elements.generateNonLinearStamp_ok env.solutionMat n env.timestep
    (fun c hc st => hok c hc st _ _ _)
  have hel := env.elements.generateNonLinearStamp_elements _ _ _ r hr
  simp only [newtonIteration, hr, forRange, Nat.sub_zero]
  refine ⟨_, _, _, rfl, hel, ?_⟩
  obtain ⟨h1, h2, h3⟩ := setLoop_spec
    (fun k => Matrix.get { tempSoln with
      data := r.nonLinearStamp.G.leftDivideWith r.nonLinearStamp.s
        (r.nonLinearStamp.G.luPairInto env.luPair) env.scratchSpace.data tempSoln.data } k 0)
    n env.solutionMat env.solutionMat.M
  refine ⟨h1, h2, fun k j hj hjn => ?_, fun k hk => ?_⟩
  · have e := h3 k j hj hn
    rw [if_neg (fun h => hjn h.1)] at e
    exact get_of_data _ env.solutionMat k j h2 _ e
  · have e := h3 k n hn hn
    rw [if_pos ⟨rfl, hk⟩] at e
    exact get_of_data _ env.solutionMat k n h2 _ e

theorem newtonLoop_spec (n : Nat) (fuel : Nat) :
    ∀ (env : SimulationEnvironment K) (tempSoln : Matrix K), n < env.solutionMat.N →
    (∀ c ∈ env.elements.nonLinearElements, ∀ st sol k dt,
      ∃ st', c.addNonLinearStampTo st sol k dt = Except.ok st') →
    ∃ env1 temp1, newtonLoop n (fuel + 1) env tempSoln = Except.ok (env1, temp1) ∧
      env1.solutionMat.M = env.solutionMat.M ∧ env1.solutionMat.N = env.solutionMat.N ∧
      (∀ k j, j < env.solutionMat.N → j ≠ n →
        env1.solutionMat.get k j = env.solutionMat.get k j) ∧
      (∀ k, k < env.solutionMat.M → env1.solutionMat.get k n = temp1.get k 0) ∧
      ∃ (envL : SimulationEnvironment K) (tempL : Matrix K)
          (envN : SimulationEnvironment K) (maxDiff : K),
        envL.newtonIteration tempL n = Except.ok (envN, temp1, maxDiff) ∧
        env1.solutionMat = envN.solutionMat := by
  induction fuel with
  | zero =>
    intro env tempSoln hn hok
    obtain ⟨e1, t1, md, h, -, h2, h3, h4, h5⟩ := newtonIteration_spec env tempSoln n hn hok
    by_cases hc : md < 1e-12
    · refine ⟨e1, t1, ?_, h2, h3, h4, h5, env, tempSoln, e1, md, h, rfl⟩
      simp only [newtonLoop, h, hc, if_true]
    · refine ⟨{ e1 with elements := { e1.elements with nonLinearStampIsFresh := false } },
        t1, ?_, h2, h3, h4, h5, env, tempSoln, e1, md, h, rfl⟩
      simp only [newtonLoop, h, hc, if_false]
  | succ fuel ih =>
    intro env tempSoln hn hok
    obtain ⟨e1, t1, md, h, h1, h2, h3, h4, h5⟩ := newtonIteration_spec env tempSoln n hn hok
    by_cases hc : md < 1e-12
    · refine ⟨e1, t1, ?_, h2, h3, h4, h5, env, tempSoln, e1, md, h, rfl⟩
      rw [newtonLoop]
      simp only [h, hc, if_true]
    · obtain ⟨e2, t2, g, g2, g3, g4, g5, g6⟩ := ih
        { e1 with elements := { e1.elements with nonLinearStampIsFresh := false } } t1
        (by rw [h3]; exact hn) (fun c hc' => hok c (h1 ▸ hc'))
      refine ⟨e2, t2, ?_, g2.trans h2, g3.trans h3, fun k j hj hjn => ?_,
        fun k hk => g5 k (by rw [h2]; exact hk), g6⟩
      · rw [newtonLoop]
        simp only [h, hc, if_false]
        exact g
      · rw [g4 k j (by rw [h3]; exact hj) hjn]
        exact h4 k j hj hjn

/-- C20: processing the time step `n` (`1 <= n < steps`) of `simulate`, with a solution
matrix of `steps` columns and non-linear elements whose stamps do not raise.  The step
returns; the solution matrix keeps its size and every entry of every column other than
`n`; on leaving the Newton-Raphson loop every entry of column `n` is the entry of
`tempSoln`, and that `tempSoln` is the one solved by the last pass of the loop. -/
theorem simulateStep_frame (env : SimulationEnvironment K) (tempSoln : Matrix K) (n : Nat)
    (hn1 : 1 ≤ n) (hn : n < env.steps) (hN : env.solutionMat.N = env.steps)
    (hok : ∀ c ∈ env.elements.nonLinearElements, ∀ st sol k dt,
      ∃ st', c.addNonLinearStampTo st sol k dt = Except.ok st') :
    ∃ env1 temp1, env.simulateStep tempSoln n = Except.ok (env1, temp1) ∧
      env1.solutionMat.M = env.solutionMat.M ∧ env1.solutionMat.N = env.solutionMat.N ∧
      (∀ k j, j < env.steps → j ≠ n → env1.solutionMat.get k j = env.solutionMat.get k j) ∧
      (∀ k, k < env.solutionMat.M → env1.solutionMat.get k n = temp1.get k 0) ∧
      ∃ (envL : SimulationEnvironment K) (tempL : Matrix K)
          (envN : SimulationEnvironment K) (maxDiff : K),
        envL.newtonIteration tempL n = Except.ok (envN, temp1, maxDiff) ∧
        env1.solutionMat = envN.solutionMat := by
  obtain ⟨e1, t1, h, h2, h3, h4, h5, h6⟩ := newtonLoop_spec n 31 env tempSoln
    (by rw [hN]; exact hn) hok
  have hstep : ∃ el : CircuitElements K,
      env.simulateStep tempSoln n = Except.ok ({ e1 with elements := el }, t1) :=
    ⟨if n = 1 then
        { e1.elements.updateTimeStep e1.solutionMat n e1.timestep with
          staticStampIsFresh := false }
      else e1.elements.updateTimeStep e1.solutionMat n e1.timestep,
      by simp only [simulateStep, h]⟩
  obtain ⟨el, hel⟩ := hstep
  exact ⟨{ e1 with elements := el }, t1, hel, h2, h3,
    fun k j hj hjn => h4 k j (by rw [hN]; exact hj) hjn, h5, h6⟩

theorem simulateStep_frame_witness :
    1 ≤ 1 ∧ 1 < exampleEnvironment.steps ∧
    exampleEnvironment.solutionMat.N = exampleEnvironment.steps ∧
    ∃ env1 temp1,
      exampleEnvironment.simulateStep (Matrix.mk0 1 1 0) 1 = Except.ok (env1, temp1) ∧
      env1.solutionMat.M = exampleEnvironment.solutionMat.M ∧
      env1.solutionMat.N = exampleEnvironment.solutionMat.N ∧
      (∀ k j, j < exampleEnvironment.steps → j ≠ 1 →
        env1.solutionMat.get k j = exampleEnvironment.solutionMat.get k j) ∧
      (∀ k, k < exampleEnvironment.solutionMat.M →
        env1.solutionMat.get k 1 = temp1.get k 0) ∧
      ∃ (envL : SimulationEnvironment ℚ) (tempL : Matrix ℚ)
          (envN : SimulationEnvironment ℚ) (maxDiff : ℚ),
        envL.newtonIteration tempL 1 = Except.ok (envN, temp1, maxDiff) ∧
        env1.solutionMat = envN.solutionMat :=
  ⟨le_refl 1, by decide, rfl,
    simulateStep_frame exampleEnvironment (Matrix.mk0 1 1 0) 1 (le_refl 1) (by decide) rfl
      (by
        intro c hc st sol k dt
        have hc' : c = Diode.toComponent (CMath.mk id id id id id id id id (fun x _ => x))
            (Diode.mk 1 0 1) := by
          simpa [exampleEnvironment, exampleElements, CircuitElements.new] using hc
        subst hc'
        exact ⟨_, rfl⟩)⟩

end SimulationEnvironment

/-! ## The number of Newton-Raphson passes -/

namespace SimulationEnvironment

variable {K : Type} [LinearOrderedField K]

theorem maxLoop_spec (d : Nat → K) (m : Nat) :
    (∀ k, k < m → d k ≤ forLoop (fun k (maxDiff : K) => max maxDiff (d k)) 0 m 0) ∧
    (forLoop (fun k (maxDiff : K) => max maxDiff (d k)) 0 m 0 = 0 ∨
      ∃ k, k < m ∧ forLoop (fun k (maxDiff : K) => max maxDiff (d k)) 0 m 0 = d k) := by
  induction m with
  | zero => exact ⟨fun k hk => absurd hk (Nat.not_lt_zero k), Or.inl rfl⟩
  | succ m ih =>
    obtain ⟨h1, h2⟩ := ih
    have step : forLoop (fun k (maxDiff : K) => max maxDiff (d k)) 0 (m + 1) 0 =
        max (forLoop (fun k (maxDiff : K) => max maxDiff (d k)) 0 m 0) (d (0 + m)) := rfl
    rw [step, Nat.zero_add]
    generalize forLoop (fun k (maxDiff : K) => max maxDiff (d k)) 0 m 0 = v at h1 h2
    constructor
    · intro k hk
      by_cases hkm : k = m
      · subst hkm; exact le_max_right _ _
      · exact (h1 k (by omega)).trans (le_max_left _ _)
    · by_cases hle : v ≤ d m
      · exact Or.inr ⟨m, Nat.lt_succ_self m, max_eq_right hle⟩
      · have hv : max v (d m) = v := max_eq_left (le_of_not_le hle)
        rw [hv]
        rcases h2 with h0 | ⟨k, hk, hkv⟩
        · exact Or.inl h0
        · exact Or.inr ⟨k, by omega, hkv⟩

theorem newtonIteration_returns (env : SimulationEnvironment K) (tempSoln : Matrix K)
    (n : Nat)
    (hok : ∀ c ∈ env.elements.nonLinearElements, ∀ st sol k dt,
      ∃ st', c.addNonLinearStampTo st sol k dt = Except.ok st') :
    ∃ env1 temp1 maxDiff, env.newtonIteration tempSoln n = Except.ok (env1, temp1, maxDiff) ∧
      env1.elements.nonLinearElements = env.elements.nonLinearElements := by
  obtain ⟨r, hr⟩ := env.elements.generateNonLinearStamp_ok env.solutionMat n env.timestep
    (fun c hc st => hok c hc st _ _ _)
  have hel := env.elements.generateNonLinearStamp_elements _ _ _ r hr
  simp only [newtonIteration, hr]
  exact ⟨_, _, _, rfl, hel⟩

theorem newtonIteration_maxDiff (env env1 : SimulationEnvironment K)
    (tempSoln temp1 : Matrix K) (n : Nat) (maxDiff : K)
    (h : env.newtonIteration tempSoln n = Except.ok (env1, temp1, maxDiff)) :
    (∀ k, k < env.solutionMat.M →
      abs (env.solutionMat.get k n - temp1.get k 0) ≤ maxDiff) ∧
    (maxDiff = 0 ∨ ∃ k, k < env.solutionMat.M ∧
      maxDiff = abs (env.solutionMat.get k n - temp1.get k 0)) := by
  simp only [newtonIteration] at h
  split at h
  · exact absurd h (by simp)
  · simp only [Except.ok.injEq, Prod.mk.injEq] at h
    obtain ⟨-, h2, h3⟩ := h
    subst h2 h3
    simp only [forRange, Nat.sub_zero]
    exact maxLoop_spec _ _

theorem newtonLoop_run (n : Nat) (fuel : Nat) :
    ∀ (env : SimulationEnvironment K) (tempSoln : Matrix K),
    (∀ c ∈ env.elements.nonLinearElements, ∀ st sol k dt,
      ∃ st', c.addNonLinearStampTo st sol k dt = Except.ok st') →
    ∃ (j : Nat) (env1 : SimulationEnvironment K) (temp1 : Matrix K) (maxDiff : K),
      1 ≤ j ∧ j ≤ fuel + 1 ∧ NewtonRun n j env tempSoln env1 temp1 maxDiff ∧
      (maxDiff < 1e-12 ∨ j = fuel + 1) ∧
      newtonLoop n (fuel + 1) env tempSoln = Except.ok
        (if maxDiff < 1e-12 then env1
          else { env1 with
            elements := { env1.elements with nonLinearStampIsFresh := false } },
         temp1) := by
  induction fuel with
  | zero =>
    intro env tempSoln hok
    obtain ⟨e1, t1, md, h, -⟩ := newtonIteration_returns env tempSoln n hok
    refine ⟨1, e1, t1, md, le_refl 1, le_refl 1, NewtonRun.last env tempSoln e1 t1 md h,
      Or.inr rfl, ?_⟩
    by_cases hc : md < 1e-12
    · simp only [newtonLoop, h, hc, if_true]
    · simp only [newtonLoop, h, hc, if_false]
  | succ fuel ih =>
    intro env tempSoln hok
    obtain ⟨e1, t1, md, h, hel⟩ := newtonIteration_returns env tempSoln n hok
    by_cases hc : md < 1e-12
    · refine ⟨1, e1, t1, md, le_refl 1, by omega, NewtonRun.last env tempSoln e1 t1 md h,
        Or.inl hc, ?_⟩
      rw [newtonLoop]
      simp only [h, hc, if_true]
    · obtain ⟨j, e2, t2, md2, hj1, hj2, hrun, hstop, hres⟩ := ih
        { e1 with elements := { e1.elements with nonLinearStampIsFresh := false } } t1
        (fun c hc' => hok c (hel ▸ hc'))
      refine ⟨j + 1, e2, t2, md2, by omega, by omega,
        NewtonRun.next j env tempSoln e1 t1 md e2 t2 md2 h hc hrun, ?_, ?_⟩
      · rcases hstop with hlt | hj
        · exact Or.inl hlt
        · exact Or.inr (by omega)
      · rw [newtonLoop]
        simp only [h, hc, if_false]
        exact hres

/-- C21: the Newton-Raphson loop of a time step, for non-linear elements whose stamps do
not raise.  The loop makes `j` passes (stamp, factor, solve) with `1 <= j <= 32`; every
pass before the last had `maxDiff >= 1e-12`; the last pass has `maxDiff < 1e-12` or is
pass number 32; the loop then returns the environment and the iterate of that last pass
(with `nonLinearStampIsFresh` cleared when the pass did not converge), and the time step
returns without raising.  The `maxDiff` of a pass is the maximum of `0` and the
`|sol[k, n] - x[k]|`, `k < M`. -/
theorem newton_loop_bounded (env : SimulationEnvironment K) (tempSoln : Matrix K) (n : Nat)
    (hok : ∀ c ∈ env.elements.nonLinearElements, ∀ st sol k dt,
      ∃ st', c.addNonLinearStampTo st sol k dt = Except.ok st') :
    (∃ (j : Nat) (env1 : SimulationEnvironment K) (temp1 : Matrix K) (maxDiff : K),
      1 ≤ j ∧ j ≤ 32 ∧ NewtonRun n j env tempSoln env1 temp1 maxDiff ∧
      (maxDiff < 1e-12 ∨ j = 32) ∧
      newtonLoop n 32 env tempSoln = Except.ok
        (if maxDiff < 1e-12 then env1
          else { env1 with
            elements := { env1.elements with nonLinearStampIsFresh := false } },
         temp1) ∧
      ∃ env2, env.simulateStep tempSoln n = Except.ok (env2, temp1)) ∧
    (∀ (envA envB : SimulationEnvironment K) (tempA tempB : Matrix K) (maxDiff : K),
      envA.newtonIteration tempA n = Except.ok (envB, tempB, maxDiff) →
      (∀ k, k < envA.solutionMat.M →
        abs (envA.solutionMat.get k n - tempB.get k 0) ≤ maxDiff) ∧
      (maxDiff = 0 ∨ ∃ k, k < envA.solutionMat.M ∧
        maxDiff = abs (envA.solutionMat.get k n - tempB.get k 0))) := by
  refine ⟨?_, fun envA envB tempA tempB maxDiff h =>
    newtonIteration_maxDiff envA envB tempA tempB n maxDiff h⟩
  obtain ⟨j, e1, t1, md, hj1, hj2, hrun, hstop, hres⟩ := newtonLoop_run n 31 env tempSoln hok
  refine ⟨j, e1, t1, md, hj1, hj2, hrun, hstop, hres, ?_⟩
  simp only [simulateStep, hres]
  exact ⟨_, rfl⟩

theorem newton_loop_bounded_witness :
    ∃ (j : Nat) (env1 : SimulationEnvironment ℚ) (temp1 : Matrix ℚ) (maxDiff : ℚ),
      1 ≤ j ∧ j ≤ 32 ∧ NewtonRun 1 j exampleEnvironment (Matrix.mk0 1 1 0) env1 temp1 maxDiff ∧
      (maxDiff < 1e-12 ∨ j = 32) ∧
      newtonLoop 1 32 exampleEnvironment (Matrix.mk0 1 1 0) = Except.ok
        (if maxDiff < 1e-12 then env1
          else { env1 with
            elements := { env1.elements with nonLinearStampIsFresh := false } },
         temp1) ∧
      ∃ env2, exampleEnvironment.simulateStep (Matrix.mk0 1 1 0) 1 = Except.ok (env2, temp1) :=
  (newton_loop_bounded exampleEnvironment (Matrix.mk0 1 1 0) 1
    (by
      intro c hc st sol k dt
      have hc' : c = Diode.toComponent (CMath.mk id id id id id id id id (fun x _ => x))
          (Diode.mk 1 0 1) := by
        simpa [exampleEnvironment, exampleElements, CircuitElements.new] using hc
      subst hc'
      exact ⟨_, rfl⟩)).1

end SimulationEnvironment

/-! ## The DC operating point -/

namespace SimulationEnvironment

variable {K : Type} [LinearOrderedField K]

theorem addDCAnalysisStamps_ok (sol : Matrix K) (numCurrents : Nat)
    (cs : List (Component K))
    (hok : ∀ c ∈ cs, ∀ st, ∃ st', c.addDCAnalysisStampTo st sol numCurrents = Except.ok st')
    (st : Stamp K) :
    ∃ st', Stamp.addDCAnalysisStamps sol numCurrents cs st = Except.ok st' := by
  induction cs generalizing st with
  | nil => exact ⟨st, rfl⟩
  | cons c cs ih =>
    obtain ⟨st1, h1⟩ := hok c (List.mem_cons_self c cs) st
    obtain ⟨st2, h2⟩ := ih (fun c' hc' => hok c' (List.mem_cons_of_mem c hc')) st1
    refine ⟨st2, ?_⟩
    rw [Stamp.addDCAnalysisStamps, h1]
    exact h2

theorem generateDCStamp_ok (ce : CircuitElements K) (sol : Matrix K) (numCurrents : Nat)
    (hok : ∀ c ∈ ce.staticElements ++ ce.dynamicElements ++ ce.nonLinearElements,
      ∀ st sol nc, ∃ st', c.addDCAnalysisStampTo st sol nc = Except.ok st') :
    ∃ dcStamp, ce.generateDCStamp sol numCurrents = Except.ok { ce with dcStamp := dcStamp } := by
  obtain ⟨s1, h1⟩ := addDCAnalysisStamps_ok sol numCurrents ce.staticElements
    (fun c hc st => hok c (by simp [hc]) st sol numCurrents) ce.dcStamp.clear
  obtain ⟨s2, h2⟩ := addDCAnalysisStamps_ok sol numCurrents ce.dynamicElements
    (fun c hc st => hok c (by simp [hc]) st sol numCurrents) s1
  obtain ⟨s3, h3⟩ := addDCAnalysisStamps_ok sol numCurrents ce.nonLinearElements
    (fun c hc st => hok c (by simp [hc]) st sol numCurrents) s2
  exact ⟨s3, by simp only [CircuitElements.generateDCStamp, h1, h2, h3]⟩

theorem dcIteration_ok (numCurrents : Nat) (st : DCState K)
    (hok : ∀ c ∈ st.elements.staticElements ++ st.elements.dynamicElements ++
        st.elements.nonLinearElements,
      ∀ s sol nc, ∃ s', c.addDCAnalysisStampTo s sol nc = Except.ok s') :
    ∃ st1, dcIteration numCurrents st = Except.ok st1 ∧
      st1.elements.staticElements = st.elements.staticElements ∧
      st1.elements.dynamicElements = st.elements.dynamicElements ∧
      st1.elements.nonLinearElements = st.elements.nonLinearElements ∧
      st1.elements.staticStamp = st.elements.staticStamp ∧
      st1.elements.dynamicStamp = st.elements.dynamicStamp ∧
      st1.elements.nonLinearStamp = st.elements.nonLinearStamp ∧
      st1.elements.staticStampIsFresh = st.elements.staticStampIsFresh ∧
      st1.elements.dynamicStampIsFresh = st.elements.dynamicStampIsFresh ∧
      st1.elements.nonLinearStampIsFresh = st.elements.nonLinearStampIsFresh := by
  obtain ⟨d, hd⟩ := generateDCStamp_ok st.elements st.dcSoln numCurrents hok
  simp only [dcIteration, hd]
  exact ⟨_, rfl, rfl, rfl, rfl, rfl, rfl, rfl, rfl, rfl, rfl⟩

theorem dcLoop_run (numCurrents : Nat) (count : Nat) :
    ∀ st : DCState K,
    (∀ c ∈ st.elements.staticElements ++ st.elements.dynamicElements ++
        st.elements.nonLinearElements,
      ∀ s sol nc, ∃ s', c.addDCAnalysisStampTo s sol nc = Except.ok s') →
    ∃ st1, dcLoop numCurrents count st = Except.ok st1 ∧ DCRun numCurrents count st st1 ∧
      st1.elements.staticElements = st.elements.staticElements ∧
      st1.elements.dynamicElements = st.elements.dynamicElements ∧
      st1.elements.nonLinearElements = st.elements.nonLinearElements ∧
      st1.elements.staticStamp = st.elements.staticStamp ∧
      st1.elements.dynamicStamp = st.elements.dynamicStamp ∧
      st1.elements.nonLinearStamp = st.elements.nonLinearStamp ∧
      st1.elements.staticStampIsFresh = st.elements.staticStampIsFresh ∧
      st1.elements.dynamicStampIsFresh = st.elements.dynamicStampIsFresh ∧
      st1.elements.nonLinearStampIsFresh = st.elements.nonLinearStampIsFresh := by
  induction count with
  | zero =>
    intro st _
    exact ⟨st, rfl, DCRun.done st, rfl, rfl, rfl, rfl, rfl, rfl, rfl, rfl, rfl⟩
  | succ count ih =>
    intro st hok
    obtain ⟨s1, h1, a1, a2, a3, a4, a5, a6, a7, a8, a9⟩ := dcIteration_ok numCurrents st hok
    obtain ⟨s2, h2, hrun, b1, b2, b3, b4, b5, b6, b7, b8, b9⟩ := ih s1
      (by rw [a1, a2, a3]; exact hok)
    refine ⟨s2, ?_, DCRun.pass count st s1 s2 h1 hrun, b1.trans a1, b2.trans a2,
      b3.trans a3, b4.trans a4, b5.trans a5, b6.trans a6, b7.trans a7, b8.trans a8,
      b9.trans a9⟩
    rw [dcLoop, h1]
    exact h2

/-- C22: `setDCOpPoint` with elements whose DC stamps do not raise and a solution matrix
with at least one column.  The method returns; it makes exactly 35 passes
(`generateDCStamp`, factor, solve) on its local buffers of `M + numDCCurrents` rows; it
then copies the first `M` entries of the final DC solution into column 0 of the solution
matrix (the further `numDCCurrents` entries are not copied), leaves every other column
and the members `luPair` and `scratchSpace` unchanged, and the three element lists are
those of the registry with `updateDCStoredState(dcSoln, dcStamp.sizeG_A, numCurrents)`
applied to every element; the transient stamps and flags are unchanged. -/
theorem setDCOpPoint_spec (env : SimulationEnvironment K) (numCurrents numDCCurrents : Nat)
    (hN : 0 < env.solutionMat.N)
    (hok : ∀ c ∈ env.elements.staticElements ++ env.elements.dynamicElements ++
        env.elements.nonLinearElements,
      ∀ s sol nc, ∃ s', c.addDCAnalysisStampTo s sol nc = Except.ok s') :
    ∃ (env1 : SimulationEnvironment K) (st : DCState K),
      env.setDCOpPoint numCurrents numDCCurrents = Except.ok env1 ∧
      DCRun numCurrents 35
        { elements := env.elements,
          luPair := LUPair.new (env.solutionMat.M + numDCCurrents),
          scratchSpace := Matrix.mk0 (env.solutionMat.M + numDCCurrents) 1 0,
          dcSoln := Matrix.mk0 (env.solutionMat.M + numDCCurrents) 1 0 } st ∧
      env1.solutionMat.M = env.solutionMat.M ∧ env1.solutionMat.N = env.solutionMat.N ∧
      (∀ k, k < env.solutionMat.M → env1.solutionMat.get k 0 = st.dcSoln.get k 0) ∧
      (∀ k j, j < env.solutionMat.N → j ≠ 0 →
        env1.solutionMat.get k j = env.solutionMat.get k j) ∧
      env1.luPair = env.luPair ∧ env1.scratchSpace = env.scratchSpace ∧
      env1.steps = env.steps ∧ env1.timestep = env.timestep ∧
      env1.elements.staticElements = env.elements.staticElements.map (fun c =>
        c.updateDCStoredState st.dcSoln st.elements.dcStamp.sizeG_A numCurrents) ∧
      env1.elements.dynamicElements = env.elements.dynamicElements.map (fun c =>
        c.updateDCStoredState st.dcSoln st.elements.dcStamp.sizeG_A numCurrents) ∧
      env1.elements.nonLinearElements = env.elements.nonLinearElements.map (fun c =>
        c.updateDCStoredState st.dcSoln st.elements.dcStamp.sizeG_A numCurrents) ∧
      env1.elements.dcStamp = st.elements.dcStamp ∧
      env1.elements.staticStamp = env.elements.staticStamp ∧
      env1.elements.dynamicStamp = env.elements.dynamicStamp ∧
      env1.elements.nonLinearStamp = env.elements.nonLinearStamp ∧
      env1.elements.staticStampIsFresh = env.elements.staticStampIsFresh ∧
      env1.elements.dynamicStampIsFresh = env.elements.dynamicStampIsFresh ∧
      env1.elements.nonLinearStampIsFresh = env.elements.nonLinearStampIsFresh := by
  obtain ⟨st, hst, hrun, a1, a2, a3, a4, a5, a6, a7, a8, a9⟩ := dcLoop_run numCurrents 35
    { elements := env.elements,
      luPair := LUPair.new (env.solutionMat.M + numDCCurrents),
      scratchSpace := Matrix.mk0 (env.solutionMat.M + numDCCurrents) 1 0,
      dcSoln := Matrix.mk0 (env.solutionMat.M + numDCCurrents) 1 0 } hok
  obtain ⟨h1, h2, h3⟩ := setLoop_spec (fun k => st.dcSoln.get k 0) 0 env.solutionMat
    env.solutionMat.M
  refine ⟨{ env with
      elements := st.elements.updateDCStoredState st.dcSoln numCurrents,
      solutionMat := forLoop (fun k (sm : Matrix K) => sm.setAt k 0 (st.dcSoln.get k 0))
        0 env.solutionMat.M env.solutionMat }, st, ?_, hrun, h1, h2, fun k hk => ?_,
    fun k j hj hj0 => ?_, rfl, rfl, rfl, rfl, ?_, ?_, ?_, rfl, a4, a5, a6, a7, a8, a9⟩
  · simp only [setDCOpPoint, hst, forRange, Nat.sub_zero]
  · have e := h3 k 0 hN hN
    rw [if_pos ⟨rfl, hk⟩] at e
    exact get_of_data _ env.solutionMat k 0 h2 _ e
  · have e := h3 k j hj hN
    rw [if_neg (fun h => hj0 h.1)] at e
    exact get_of_data _ env.solutionMat k j h2 _ e
  · show st.elements.staticElements.map _ = _
    rw [a1]
  · show st.elements.dynamicElements.map _ = _
    rw [a2]
  · show st.elements.nonLinearElements.map _ = _
    rw [a3]

theorem setDCOpPoint_spec_witness :
    0 < exampleEnvironment.solutionMat.N ∧
    ∃ (env1 : SimulationEnvironment ℚ) (st : DCState ℚ),
      exampleEnvironment.setDCOpPoint 0 0 = Except.ok env1 ∧
      DCRun 0 35
        { elements := exampleEnvironment.elements,
          luPair := LUPair.new (exampleEnvironment.solutionMat.M + 0),
          scratchSpace := Matrix.mk0 (exampleEnvironment.solutionMat.M + 0) 1 0,
          dcSoln := Matrix.mk0 (exampleEnvironment.solutionMat.M + 0) 1 0 } st ∧
      (∀ k, k < exampleEnvironment.solutionMat.M →
        env1.solutionMat.get k 0 = st.dcSoln.get k 0) ∧
      (∀ k j, j < exampleEnvironment.solutionMat.N → j ≠ 0 →
        env1.solutionMat.get k j = exampleEnvironment.solutionMat.get k j) := by
  have hok : ∀ c ∈ exampleEnvironment.elements.staticElements ++
      exampleEnvironment.elements.dynamicElements ++
      exampleEnvironment.elements.nonLinearElements,
      ∀ (s : Stamp ℚ) (sol : Matrix ℚ) (nc : Nat),
        ∃ s', c.addDCAnalysisStampTo s sol nc = Except.ok s' := by
    intro c hc s sol nc
    have hc' : c = Resistor.toComponent (Resistor.mk 1 1 0 0 true) ∨
        c = Capacitor.toComponent unitCapacitor ∨
        c = Diode.toComponent (CMath.mk id id id id id id id id (fun x _ => x))
          (Diode.mk 1 0 1) := by
      simpa [exampleEnvironment, exampleElements, CircuitElements.new] using hc
    rcases hc' with rfl | rfl | rfl <;> exact ⟨_, rfl⟩
  obtain ⟨env1, st, h1, h2, -, -, h5, h6, -⟩ :=
    setDCOpPoint_spec exampleEnvironment 0 0 (by decide) hok
  exact ⟨by decide, env1, st, h1, h2, h5, h6⟩

end SimulationEnvironment

/-! ## The DTIR S-parameter block -/

namespace SParameterSequence

variable {K : Type} [LinearOrderedField K]

theorem thresholdFold_spec (l : List K) (t0 : K) :
    t0 ≤ l.foldl (fun t entry => max (abs entry) t) t0 ∧
    (∀ x ∈ l, abs x ≤ l.foldl (fun t entry => max (abs entry) t) t0) ∧
    (l.foldl (fun t entry => max (abs entry) t) t0 = t0 ∨
      ∃ x ∈ l, l.foldl (fun t entry => max (abs entry) t) t0 = abs x) := by
  induction l generalizing t0 with
  | nil => exact ⟨le_refl _, fun x hx => absurd hx (List.not_mem_nil x), Or.inl rfl⟩
  | cons y l ih =>
    obtain ⟨h1, h2, h3⟩ := ih (max (abs y) t0)
    simp only [List.foldl_cons]
    refine ⟨(le_max_right _ _).trans h1, fun x hx => ?_, ?_⟩
    · rcases List.mem_cons.mp hx with rfl | hx'
      · exact (le_max_left _ _).trans h1
      · exact h2 x hx'
    · rcases h3 with h0 | ⟨x, hx, hxe⟩
      · by_cases hle : abs y ≤ t0
        · left; rw [h0, max_eq_right hle]
        · right
          exact ⟨y, List.mem_cons_self y l, by
            rw [h0, max_eq_left (le_of_not_le hle)]⟩
      · exact Or.inr ⟨x, List.mem_cons_of_mem y hx, hxe⟩

theorem pruneLoop_gen (g tm : Nat → K) (thr : K) (s0 : SParameterSequence K) (k : Nat) :
    (forLoop (fun n (s : SParameterSequence K) =>
        if n = 0 ∨ abs (g n) > thr then
          { s with _data := s._data ++ [g n], _time := s._time ++ [tm n] }
        else s) 0 k s0) =
      { s0 with
        _data := s0._data ++ ((List.range k).filter
          (fun n : Nat => decide (n = 0 ∨ thr < abs (g n)))).map g
        _time := s0._time ++ ((List.range k).filter
          (fun n : Nat => decide (n = 0 ∨ thr < abs (g n)))).map tm } := by
  induction k with
  | zero => simp [forLoop]
  | succ k ih =>
    rw [forLoop, ih, Nat.zero_add]
    by_cases h : k = 0 ∨ thr < abs (g k)
    · have h' : k = 0 ∨ abs (g k) > thr := h
      rw [if_pos h', List.range_succ, List.filter_append, List.map_append, List.map_append,
        List.filter_cons_of_pos (by simpa using h), List.filter_nil, List.map_cons,
        List.map_nil, List.map_cons, List.map_nil, List.append_assoc, List.append_assoc]
    · have h' : ¬ (k = 0 ∨ abs (g k) > thr) := h
      rw [if_neg h', List.range_succ, List.filter_append, List.map_append, List.map_append,
        List.filter_cons_of_neg (by simpa using h), List.filter_nil, List.map_nil,
        List.map_nil, List.append_nil, List.append_nil]

theorem pruneLoop_spec (causal : CausalData K) (thr : K) (s0 : SParameterSequence K)
    (k : Nat) :
    (forLoop (fun n (s : SParameterSequence K) =>
        if n = 0 ∨ abs (causal.data.getD n 0) > thr then
          { s with
            _data := s._data ++ [causal.data.getD n 0]
            _time := s._time ++ [if n = 0 then 0 else (n : K) * causal.Ts - causal.tau] }
        else s) 0 k s0) =
      { s0 with
        _data := s0._data ++ ((List.range k).filter
          (fun n : Nat => decide (n = 0 ∨ thr < abs (causal.data.getD n 0)))).map
            (fun n : Nat => causal.data.getD n 0)
        _time := s0._time ++ ((List.range k).filter
          (fun n : Nat => decide (n = 0 ∨ thr < abs (causal.data.getD n 0)))).map
            (fun n : Nat => if n = 0 then 0 else (n : K) * causal.Ts - causal.tau) } :=
  pruneLoop_gen (fun n : Nat => causal.data.getD n 0)
    (fun n : Nat => if n = 0 then 0 else (n : K) * causal.Ts - causal.tau) thr s0 k

/-- The failing input of C28: for `h = (1/2, 2/5)` and `fracMaxToKeep = 1/2` the magnitude
of `h[1]` is not below `fracMaxToKeep * max |h| = 1/4`, yet the pruning keeps index `0`
only, because its threshold is `fracMaxToKeep * max(1, max |h|) = 1/2`: the scan for the
largest magnitude starts from `1`, while the message of the function reports the
threshold as the fraction `fracMaxToKeep` of the largest value. -/
theorem pruning_drops_entry_above_fraction :
    ¬ (abs ((2 : ℚ) / 5) < 1 / 2 * max (abs ((1 : ℚ) / 2)) (abs ((2 : ℚ) / 5))) ∧
    exampleCausal.data = [1 / 2, 2 / 5] ∧
    thresholdToKeep exampleCausal (1 / 2) = 1 / 2 ∧
    (appendPruned emptySequence 0 0 exampleCausal (1 / 2))._data = [1 / 2] := by
  have ht : thresholdToKeep exampleCausal (1 / 2) = 1 / 2 := by
    simp only [thresholdToKeep, exampleCausal, List.foldl_cons, List.foldl_nil]
    norm_num [abs_of_pos]
  refine ⟨?_, rfl, ht, ?_⟩
  · norm_num [abs_of_pos]
  · simp only [appendPruned, forRange, Nat.sub_zero, pruneLoop_spec, setOffset, setLength, ht]
    simp only [exampleCausal, emptySequence, List.length_cons, List.length_nil]
    norm_num [List.range_succ, List.filter_cons, abs_of_pos]

/-- The comparison of the pruning is strict: for `h = (2, 1)` and `fracMaxToKeep = 1/2`
the threshold is `1/2 * 2 = 1`, the magnitude of `h[1]` is not below it, and the pruning
keeps index `0` only. -/
theorem pruning_drops_entry_at_threshold :
    ¬ (abs (1 : ℚ) < 1 / 2 * max (abs (2 : ℚ)) (abs (1 : ℚ))) ∧
    exampleCausalTie.data = [2, 1] ∧
    thresholdToKeep exampleCausalTie (1 / 2) = 1 ∧
    (appendPruned emptySequence 0 0 exampleCausalTie (1 / 2))._data = [2] := by
  have ht : thresholdToKeep exampleCausalTie (1 / 2) = 1 := by
    simp only [thresholdToKeep, exampleCausalTie, List.foldl_cons, List.foldl_nil]
    norm_num [abs_of_pos]
  refine ⟨?_, rfl, ht, ?_⟩
  · norm_num [abs_of_pos]
  · simp only [appendPruned, forRange, Nat.sub_zero, pruneLoop_spec, setOffset, setLength, ht]
    simp only [exampleCausalTie, emptySequence, List.length_cons, List.length_nil]
    norm_num [List.range_succ, List.filter_cons, abs_of_pos]

/-- C28: what the code does.  For every sequence store, port pair and impulse response
`h`, the pruning appends to `_data` the entries `h[n]`, in increasing `n`, of exactly the
indices `n = 0` and `n > 0` with `|h[n]| > fracMaxToKeep * m`, and to `_time` the matching
times (`0` for `n = 0`, else `n * Ts - tau`); here `m = max(1, max_n |h[n]|)`: `m >= 1`,
`m` bounds every `|h[n]|`, and `m` is `1` or one of the `|h[n]|`.  When the pair has an
entry in `sParamLengthOffset`, `offset(a, b)` is the old size of `_data` and
`length(a, b)` the number of entries appended. -/
theorem pruning_keeps (s : SParameterSequence K) (a b : Nat) (causal : CausalData K)
    (fracMaxToKeep : K) :
    (∃ m : K, thresholdToKeep causal fracMaxToKeep = m * fracMaxToKeep ∧ 1 ≤ m ∧
      (∀ x ∈ causal.data, abs x ≤ m) ∧ (m = 1 ∨ ∃ x ∈ causal.data, m = abs x)) ∧
    (appendPruned s a b causal fracMaxToKeep)._data =
      s._data ++ ((List.range causal.data.length).filter
        (fun n : Nat => decide (n = 0 ∨
          thresholdToKeep causal fracMaxToKeep < abs (causal.data.getD n 0)))).map
          (fun n : Nat => causal.data.getD n 0) ∧
    (appendPruned s a b causal fracMaxToKeep)._time =
      s._time ++ ((List.range causal.data.length).filter
        (fun n : Nat => decide (n = 0 ∨
          thresholdToKeep causal fracMaxToKeep < abs (causal.data.getD n 0)))).map
          (fun n : Nat => if n = 0 then 0 else (n : K) * causal.Ts - causal.tau) ∧
    (a * s.numPorts + b < s.sParamLengthOffset.length →
      (appendPruned s a b causal fracMaxToKeep).offset a b = s._data.length ∧
      (appendPruned s a b causal fracMaxToKeep).length a b =
        ((List.range causal.data.length).filter
          (fun n : Nat => decide (n = 0 ∨
            thresholdToKeep causal fracMaxToKeep < abs (causal.data.getD n 0)))).length) := by
  refine ⟨?_, ?_, ?_, fun hidx => ?_⟩
  · obtain ⟨h1, h2, h3⟩ := thresholdFold_spec causal.data (1 : K)
    exact ⟨_, rfl, h1, h2, h3⟩
  · simp only [appendPruned, forRange, Nat.sub_zero, pruneLoop_spec, setOffset, setLength]
  · simp only [appendPruned, forRange, Nat.sub_zero, pruneLoop_spec, setOffset, setLength]
  · simp only [appendPruned, forRange, Nat.sub_zero, pruneLoop_spec, setOffset, setLength,
      offset, length]
    simp [hidx]

theorem pruning_keeps_witness :
    0 * emptySequence.numPorts + 0 < emptySequence.sParamLengthOffset.length ∧
    (appendPruned emptySequence 0 0 exampleCausal (1 / 2)).offset 0 0 =
      emptySequence._data.length ∧
    (appendPruned emptySequence 0 0 exampleCausal (1 / 2)).length 0 0 =
      ((List.range exampleCausal.data.length).filter
        (fun n : Nat => decide (n = 0 ∨
          thresholdToKeep exampleCausal (1 / 2) <
            abs (exampleCausal.data.getD n 0)))).length :=
  ⟨by decide,
    (pruning_keeps emptySequence 0 0 exampleCausal (1 / 2)).2.2.2 (by decide)⟩

end SParameterSequence

/-! ## S-parameter block: stamps and the incident wave -/

namespace SParameterBlock

variable {K : Type} [LinearOrderedField K]

open Stamp

theorem forLoop_keeps_s (body : Nat → Stamp K → Stamp K)
    (h : ∀ n st, (body n st).s = st.s) (k : Nat) (st : Stamp K) :
    (forLoop body 0 k st).s = st.s := by
  induction k with
  | zero => rfl
  | succ k ih => rw [forLoop, h, ih]

theorem staticCross_s (blk : SParameterBlock K) (p c : Nat) (st : Stamp K) :
    (blk.staticCross p c st).s = st.s := by
  simp only [staticCross]
  split_ifs <;> rfl

theorem dcCross_s (blk : SParameterBlock K) (p c : Nat) (st : Stamp K) :
    (blk.dcCross p c st).s = st.s := by
  simp only [dcCross]
  split_ifs <;> rfl

theorem addStaticStampTo_s (blk : SParameterBlock K) (st : Stamp K) :
    (blk.addStaticStampTo st).s = st.s := by
  simp only [addStaticStampTo, forRange, Nat.sub_zero]
  refine forLoop_keeps_s _ (fun p st => ?_) _ _
  rw [forLoop_keeps_s _ (fun c st => blk.staticCross_s p c st)]
  split_ifs <;> rfl

theorem addDCAnalysisStampTo_s (blk : SParameterBlock K) (st : Stamp K) (sol : Matrix K)
    (numCurrents : Nat) : (blk.addDCAnalysisStampTo st sol numCurrents).s = st.s := by
  simp only [addDCAnalysisStampTo, forRange, Nat.sub_zero]
  refine forLoop_keeps_s _ (fun p st => ?_) _ _
  rw [forLoop_keeps_s _ (fun c st => blk.dcCross_s p c st)]
  split_ifs <;> rfl

/-- C29: what the code does.  Neither the static nor the DC stamp of an S-parameter block
writes to `s`.  For a block with one port (no controlled sources) the DC stamp changes
`G` by `+Rprime` at `G[curr, curr]` and by the `+1` / `-1` couplings of the port nodes,
with `Rprime = beta * z_ref * (1 + sum) / (1 - beta * sum)` and `sum` the sum of the
`s(p, p, k)`; the static stamp changes `G` by `-R` at `G[curr, curr]` and by the same
couplings.  The DC entry has the sign opposite to the one of the static stamp. -/
theorem sparam_dc_stamp (blk : SParameterBlock K) (S : Stamp K) (sol : Matrix K)
    (numCurrents : Nat) :
    (blk.addDCAnalysisStampTo S sol numCurrents).s = S.s ∧
    (blk.addStaticStampTo S).s = S.s ∧
    blk.Rprime 0 = (blk.portAt 0).beta * blk.z_ref * (1 + blk.dataSum 0 0) /
      (1 - (blk.portAt 0).beta * blk.dataSum 0 0) ∧
    ∀ pt : SParameterPort K, blk.port = [pt] →
      (∀ k, (blk.addDCAnalysisStampTo S sol numCurrents).G.data k = S.G.data k
        + (if k = (S.sizeG_A + (pt.current - 1)) * S.G.N + (S.sizeG_A + (pt.current - 1))
            then blk.Rprime 0 else 0)
        + (if pt.positive ≠ 0 ∧
            k = (S.sizeG_A + (pt.current - 1)) * S.G.N + (pt.positive - 1) then 1 else 0)
        + (if pt.positive ≠ 0 ∧
            k = (pt.positive - 1) * S.G.N + (S.sizeG_A + (pt.current - 1)) then 1 else 0)
        + (if pt.negative ≠ 0 ∧
            k = (S.sizeG_A + (pt.current - 1)) * S.G.N + (pt.negative - 1) then -1 else 0)
        + (if pt.negative ≠ 0 ∧
            k = (pt.negative - 1) * S.G.N + (S.sizeG_A + (pt.current - 1)) then -1 else 0)) ∧
      (∀ k, (blk.addStaticStampTo S).G.data k = S.G.data k
        + (if k = (S.sizeG_A + (pt.current - 1)) * S.G.N + (S.sizeG_A + (pt.current - 1))
            then -pt.R else 0)
        + (if pt.positive ≠ 0 ∧
            k = (S.sizeG_A + (pt.current - 1)) * S.G.N + (pt.positive - 1) then 1 else 0)
        + (if pt.positive ≠ 0 ∧
            k = (pt.positive - 1) * S.G.N + (S.sizeG_A + (pt.current - 1)) then 1 else 0)
        + (if pt.negative ≠ 0 ∧
            k = (S.sizeG_A + (pt.current - 1)) * S.G.N + (pt.negative - 1) then -1 else 0)
        + (if pt.negative ≠ 0 ∧
            k = (pt.negative - 1) * S.G.N + (S.sizeG_A + (pt.current - 1)) then -1 else 0)) := by
  refine ⟨blk.addDCAnalysisStampTo_s S sol numCurrents, blk.addStaticStampTo_s S, rfl,
    fun pt hpt => ?_⟩
  have hp0 : blk.portAt 0 = pt := by simp [portAt, hpt]
  have hlen : blk.port.length = 1 := by simp [hpt]
  constructor
  · intro k
    simp only [addDCAnalysisStampTo, forRange, Nat.sub_zero, hlen, forLoop, Nat.zero_add,
      dcCross, hp0, ne_eq, not_true_eq_false, if_false]
    by_cases h1 : pt.positive = 0 <;> by_cases h2 : pt.negative = 0 <;>
      simp only [h1, h2, not_true_eq_false, not_false_eq_true, if_true, if_false,
        false_and, true_and, add_zero, addG_G_data, addG_G_N, addG_sizeG_A]
  · intro k
    simp only [addStaticStampTo, forRange, Nat.sub_zero, hlen, forLoop, Nat.zero_add,
      staticCross, hp0, ne_eq, not_true_eq_false, if_false]
    by_cases h1 : pt.positive = 0 <;> by_cases h2 : pt.negative = 0 <;>
      simp only [h1, h2, not_true_eq_false, not_false_eq_true, if_true, if_false,
        false_and, true_and, add_zero, addG_G_data, addG_G_N, addG_sizeG_A]

theorem sparam_dc_stamp_witness :
    onePortBlock.port =
      [{ positive := 1, negative := 0, current := 1, R := 50, beta := 1, s0 := [0] }] ∧
    onePortBlock.Rprime 0 = 50 ∧
    (onePortBlock.addDCAnalysisStampTo (Stamp.new 1 1) (Matrix.mk0 2 1 0) 1).G.get 1 1 = 50 ∧
    (onePortBlock.addStaticStampTo (Stamp.new 1 1)).G.get 1 1 = -50 := by
  have h := (sparam_dc_stamp onePortBlock (Stamp.new 1 1) (Matrix.mk0 2 1 0) 1).2.2.2 _ rfl
  have hR : onePortBlock.Rprime 0 = 50 := by
    simp [Rprime, dataSum, SParameterSequence.length, SParameterSequence.data,
      SParameterSequence.offset, onePortBlock, portAt, forRange, forLoop]
  have hN : ∀ St : Stamp ℚ, (onePortBlock.addDCAnalysisStampTo St (Matrix.mk0 2 1 0) 1).G.N =
      St.G.N := by
    intro St
    simp [addDCAnalysisStampTo, forRange, forLoop, onePortBlock, portAt, dcCross, addG,
      Matrix.addAt]
  have hN2 : ∀ St : Stamp ℚ, (onePortBlock.addStaticStampTo St).G.N = St.G.N := by
    intro St
    simp [addStaticStampTo, forRange, forLoop, onePortBlock, portAt, staticCross, addG,
      Matrix.addAt]
  refine ⟨rfl, hR, ?_, ?_⟩
  · rw [Matrix.get, hN, h.1, hR]
    simp [Stamp.new, Matrix.mk0]
  · rw [Matrix.get, hN2, h.2]
    simp [Stamp.new, Matrix.mk0]

/-- C30, as stated, fails: at step `n = 5` with `t_k / dt = 9/2` the sample point
`n - t_k/dt = 1/2` lies after column `0`, and the linear interpolation between the
columns `0` and `1` of `v+ - v- + z_ref * i` is `102` on the constant solution `2`, but
`aWaveConvValue` returns `0`. -/
theorem aWaveConvValue_zero_inside_first_interval :
    (0 : ℚ) < (5 : ℚ) - (9 / 2) / 1 ∧
    (1 - ((5 : ℚ) - (9 / 2) / 1)) *
        (constSol.get 0 0 - 0 + onePortBlock.z_ref * constSol.get 1 0) +
      ((5 : ℚ) - (9 / 2) / 1) *
        (constSol.get 0 1 - 0 + onePortBlock.z_ref * constSol.get 1 1) = 102 ∧
    onePortBlock.aWaveConvValue 0 constSol 5 (9 / 2) 1 1 = 0 := by
  refine ⟨by norm_num, ?_, ?_⟩
  · norm_num [constSol, Matrix.get, Matrix.mk0, onePortBlock]
  · have hf : Nat.floor ((5 : ℚ) - 9 / 2 / 1) = 0 := by
      rw [Nat.floor_eq_zero]; norm_num
    simp only [aWaveConvValue, hf]
    norm_num

/-- C30, amended: with `index = n - t_k/dt` and `floor` its integer part,
`aWaveConvValue` returns `0` when `index <= 0`, and also when `floor = 0` (the sample
point lies before column `1`) or `floor + 1 >= n`; in the remaining case, where
`1 <= floor` and `floor + 1 < n`, it returns the linear interpolation
`(1 - mix) * a(floor) + mix * a(floor + 1)`, `mix = index - floor`, of the incident wave
`a(col) = v+(col) - v-(col) + z_ref * i(col)` of the port.  The value depends only on
the solution columns before `n`. -/
theorem aWaveConvValue_spec [FloorRing K] (blk : SParameterBlock K) (portIndex : Nat)
    (sol sol' : Matrix K) (n : Nat) (sTimePoint dt : K) (sizeG_A : Nat) :
    ((n : K) - sTimePoint / dt ≤ 0 →
      blk.aWaveConvValue portIndex sol n sTimePoint dt sizeG_A = 0) ∧
    (Nat.floor ((n : K) - sTimePoint / dt) = 0 ∨
        n ≤ Nat.floor ((n : K) - sTimePoint / dt) + 1 →
      blk.aWaveConvValue portIndex sol n sTimePoint dt sizeG_A = 0) ∧
    (∀ a : Nat → K,
      (∀ col, a col =
        (if (blk.portAt portIndex).positive ≠ 0 then
          sol.get ((blk.portAt portIndex).positive - 1) col else 0) -
        (if (blk.portAt portIndex).negative ≠ 0 then
          sol.get ((blk.portAt portIndex).negative - 1) col else 0) +
        blk.z_ref * sol.get (sizeG_A + (blk.portAt portIndex).current - 1) col) →
      0 < Nat.floor ((n : K) - sTimePoint / dt) →
      Nat.floor ((n : K) - sTimePoint / dt) + 1 < n →
      blk.aWaveConvValue portIndex sol n sTimePoint dt sizeG_A =
        (1 - ((n : K) - sTimePoint / dt - (Nat.floor ((n : K) - sTimePoint / dt) : K))) *
            a (Nat.floor ((n : K) - sTimePoint / dt)) +
          ((n : K) - sTimePoint / dt - (Nat.floor ((n : K) - sTimePoint / dt) : K)) *
            a (Nat.floor ((n : K) - sTimePoint / dt) + 1)) ∧
    ((∀ k j, j < n → sol.get k j = sol'.get k j) →
      blk.aWaveConvValue portIndex sol n sTimePoint dt sizeG_A =
        blk.aWaveConvValue portIndex sol' n sTimePoint dt sizeG_A) := by
  refine ⟨fun h => ?_, fun h => ?_, fun a ha h1 h2 => ?_, fun hag => ?_⟩
  · simp only [aWaveConvValue, h, if_true]
  · by_cases c1 : (n : K) - sTimePoint / dt ≤ 0
    · simp only [aWaveConvValue, c1, if_true]
    · have c2 : Nat.floor ((n : K) - sTimePoint / dt) ≤ 0 ∨
          Nat.floor ((n : K) - sTimePoint / dt) + 1 ≥ n := by
        rcases h with h | h
        · exact Or.inl (le_of_eq h)
        · exact Or.inr h
      simp only [aWaveConvValue, c1, c2, if_true, if_false]
  · have hpos : ¬ ((n : K) - sTimePoint / dt ≤ 0) := by
      intro hle
      have := Nat.floor_of_nonpos hle
      omega
    have hc : ¬ (Nat.floor ((n : K) - sTimePoint / dt) ≤ 0 ∨
        Nat.floor ((n : K) - sTimePoint / dt) + 1 ≥ n) := by
      intro h
      rcases h with h | h <;> omega
    simp only [aWaveConvValue, hpos, hc, if_false, ha]
    split_ifs <;> ring
  · by_cases c1 : (n : K) - sTimePoint / dt ≤ 0
    · simp only [aWaveConvValue, c1, if_true]
    · by_cases c2 : Nat.floor ((n : K) - sTimePoint / dt) ≤ 0 ∨
          Nat.floor ((n : K) - sTimePoint / dt) + 1 ≥ n
      · simp only [aWaveConvValue, c1, c2, if_true, if_false]
      · have hlt : Nat.floor ((n : K) - sTimePoint / dt) + 1 < n := by
          by_contra hge
          exact c2 (Or.inr (by omega))
        simp only [aWaveConvValue, c1, c2, if_false, hag _ _ hlt,
          hag _ _ (Nat.lt_of_succ_lt hlt)]

theorem aWaveConvValue_spec_witness :
    0 < Nat.floor (((5 : Nat) : ℚ) - (5 / 2) / 1) ∧
    Nat.floor (((5 : Nat) : ℚ) - (5 / 2) / 1) + 1 < 5 ∧
    onePortBlock.aWaveConvValue 0 constSol 5 (5 / 2) 1 1 =
      (1 - (((5 : Nat) : ℚ) - (5 / 2) / 1 -
          (Nat.floor (((5 : Nat) : ℚ) - (5 / 2) / 1) : ℚ))) *
          (fun col => constSol.get 0 col + 50 * constSol.get 1 col)
            (Nat.floor (((5 : Nat) : ℚ) - (5 / 2) / 1)) +
        (((5 : Nat) : ℚ) - (5 / 2) / 1 -
          (Nat.floor (((5 : Nat) : ℚ) - (5 / 2) / 1) : ℚ)) *
          (fun col => constSol.get 0 col + 50 * constSol.get 1 col)
            (Nat.floor (((5 : Nat) : ℚ) - (5 / 2) / 1) + 1) := by
  have hf : Nat.floor (((5 : Nat) : ℚ) - (5 / 2) / 1) = 2 := by
    rw [Nat.floor_eq_iff (by norm_num)]
    constructor <;> norm_num
  refine ⟨by rw [hf]; decide, by rw [hf]; decide, ?_⟩
  exact (aWaveConvValue_spec onePortBlock 0 constSol constSol 5 (5 / 2) 1 1).2.2.1
    (fun col => constSol.get 0 col + 50 * constSol.get 1 col)
    (fun col => by simp [onePortBlock, portAt])
    (by rw [hf]; decide) (by rw [hf]; decide)

end SParameterBlock

/-! ## The laws of the trigonometric functions hold for the real functions -/

theorem realTrigLaws :
    TrigLaws (CMath.mk Real.sin Real.cos Real.tan Real.sinh Real.cosh Real.tanh
      Real.exp Real.log (fun x y => x ^ y)) Real.pi where
  exp_zero := Real.exp_zero
  cos_add := Real.cos_add
  sin_add := Real.sin_add
  cos_neg := Real.cos_neg
  sin_neg := Real.sin_neg
  tan_eq := Real.tan_eq_sin_div_cos
  pi_ne_zero := Real.pi_ne_zero
  unit_iff := by
    intro x
    show (Real.cos x = 1 ∧ Real.sin x = 0) ↔ ∃ n : Int, x = 2 * Real.pi * (n : ℝ)
    constructor
    · rintro ⟨hc, _⟩
      obtain ⟨n, hn⟩ := (Real.cos_eq_one_iff x).mp hc
      exact ⟨n, by rw [← hn]; ring⟩
    · rintro ⟨n, rfl⟩
      have h : 2 * Real.pi * (n : ℝ) = (n : ℝ) * (2 * Real.pi) := by ring
      rw [h]
      have hc : Real.cos ((n : ℝ) * (2 * Real.pi)) = 1 := Real.cos_int_mul_two_pi n
      refine ⟨hc, ?_⟩
      have hs := Real.sin_sq_add_cos_sq ((n : ℝ) * (2 * Real.pi))
      rw [hc] at hs
      have h0 : Real.sin ((n : ℝ) * (2 * Real.pi)) ^ 2 = 0 := by linarith
      exact pow_eq_zero_iff (two_ne_zero) |>.mp h0

/-! ## The causality enforcement (ForceCausal.hpp) -/

section ForceCausalTheorems

variable {K : Type} [LinearOrderedField K]

theorem forLoop_set_length (f : Nat → K) (lo : Nat) :
    ∀ (k : Nat) (d : List K),
      (forLoop (fun i (d : List K) => d.set i (f i)) lo k d).length = d.length
  | 0, _ => rfl
  | k + 1, d => by
    show ((forLoop (fun i (d : List K) => d.set i (f i)) lo k d).set (lo + k)
      (f (lo + k))).length = d.length
    rw [List.length_set, forLoop_set_length f lo k d]

theorem ForceCausal.F_im (Fm : CMath K) (pi : K) (freq : StdVector K)
    (data : StdVector (StdComplex K)) (tau k : K) (n : Nat) :
    (ForceCausal.F Fm pi freq data tau k n).im =
      ((data.data n).re - k) * (Fm.exp 0 * Fm.sin (-2 * pi * freq.data n * tau)) +
        (data.data n).im * (Fm.exp 0 * Fm.cos (-2 * pi * freq.data n * tau)) := rfl

/-- C27: with the laws of sine, cosine and tangent, for a frequency grid and response data
of the same size and a delay `tau` with `sin (2 * pi * f_last * tau) ≠ 0`, the value
`F (freq, data, tau, K (freq, data, tau), last)` has imaginary part `0`; and when
`abs (imag (data.back ()))` is not below `1e-5` (the root-finding branch), `forceCausal`
returns `tau = getTau (freq, data)` and, for a grid of at least two samples, a data vector
of `2 * size - 2` entries whose entry `0` is `K (freq, data, tau)`. -/
theorem forceCausal_dephased_real (Fm : CMath K) (pi : K) (hlaws : TrigLaws Fm pi)
    (freq : StdVector K) (data : StdVector (StdComplex K)) (tau : K)
    (hsize : data.size = freq.size)
    (hsin : Fm.sin (2 * pi * freq.back * tau) ≠ 0) :
    (ForceCausal.F Fm pi freq data tau (ForceCausal.K Fm pi freq data tau)
        (freq.size - 1)).im = 0 ∧
      (¬ abs data.back.im < 1e-5 → 2 ≤ freq.size → freq.size < 2 ^ 63 →
        (forceCausal Fm pi freq data).tau = ForceCausal.getTau Fm pi freq data 1e-7 30 1e-8 ∧
        (forceCausal Fm pi freq data).data.length = 2 * freq.size - 2 ∧
        (forceCausal Fm pi freq data).data[0]? =
          some (ForceCausal.K Fm pi freq data (forceCausal Fm pi freq data).tau)) := by
  constructor
  · rw [ForceCausal.F_im]
    have hang : -2 * pi * freq.data (freq.size - 1) * tau = -(2 * pi * freq.back * tau) := by
      simp only [StdVector.back]
      ring
    rw [hang, hlaws.sin_neg, hlaws.cos_neg]
    have hk : (data.data (freq.size - 1)).re - ForceCausal.K Fm pi freq data tau =
        (data.data (freq.size - 1)).im / Fm.tan (2 * pi * freq.back * tau) := by
      simp only [ForceCausal.K, StdVector.back, hsize]
      ring
    rw [hk, hlaws.tan_eq]
    by_cases hcos : Fm.cos (2 * pi * freq.back * tau) = 0
    · rw [hcos]
      simp
    · field_simp
      ring
  · intro hbr h2 h63
    have hge : abs data.back.im ≥ 1e-5 := not_lt.mp hbr
    have hsz : sizeSub (2 * freq.size) 2 = 2 * freq.size - 2 := by
      unfold sizeSub
      omega
    refine ⟨?_, ?_, ?_⟩
    · simp only [forceCausal, if_neg hbr]
    · simp only [forceCausal, if_pos hge, List.length_set, forRange, forLoop_set_length,
        List.length_replicate, hsz]
    · simp only [forceCausal, if_neg hbr, if_pos hge]
      rw [List.getElem?_set_self]
      simp only [forRange, forLoop_set_length, List.length_replicate, hsz]
      omega

/-- The imaginary part at the last sample and the entry `0` for a grid of two samples,
with the functions of the real numbers. -/
theorem forceCausal_dephased_real_witness :
    (⟨2, fun _ => ⟨1, 1⟩⟩ : StdVector (StdComplex ℝ)).size =
        (⟨2, fun _ => 1⟩ : StdVector ℝ).size ∧
      (ForceCausal.F (CMath.mk Real.sin Real.cos Real.tan Real.sinh Real.cosh Real.tanh
          Real.exp Real.log (fun x y => x ^ y)) Real.pi ⟨2, fun _ => 1⟩
          ⟨2, fun _ => ⟨1, 1⟩⟩ (1 / 4)
          (ForceCausal.K (CMath.mk Real.sin Real.cos Real.tan Real.sinh Real.cosh Real.tanh
            Real.exp Real.log (fun x y => x ^ y)) Real.pi ⟨2, fun _ => 1⟩
            ⟨2, fun _ => ⟨1, 1⟩⟩ (1 / 4)) (2 - 1)).im = 0 ∧
      (forceCausal (CMath.mk Real.sin Real.cos Real.tan Real.sinh Real.cosh Real.tanh
          Real.exp Real.log (fun x y => x ^ y)) Real.pi ⟨2, fun _ => 1⟩
          ⟨2, fun _ => ⟨1, 1⟩⟩).data[0]? =
        some (ForceCausal.K (CMath.mk Real.sin Real.cos Real.tan Real.sinh Real.cosh
            Real.tanh Real.exp Real.log (fun x y => x ^ y)) Real.pi ⟨2, fun _ => 1⟩
          ⟨2, fun _ => ⟨1, 1⟩⟩
          (forceCausal (CMath.mk Real.sin Real.cos Real.tan Real.sinh Real.cosh Real.tanh
            Real.exp Real.log (fun x y => x ^ y)) Real.pi ⟨2, fun _ => 1⟩
            ⟨2, fun _ => ⟨1, 1⟩⟩).tau) := by
  have hlaws : TrigLaws (CMath.mk Real.sin Real.cos Real.tan Real.sinh Real.cosh Real.tanh
      Real.exp Real.log (fun x y => x ^ y)) Real.pi := realTrigLaws
  have hsin : Real.sin (2 * Real.pi * 1 * (1 / 4)) ≠ 0 := by
    have h : 2 * Real.pi * 1 * (1 / 4) = Real.pi / 2 := by ring
    rw [h, Real.sin_pi_div_two]
    exact one_ne_zero
  have hbr : ¬ abs (1 : ℝ) < 1e-5 := by norm_num
  have h := forceCausal_dephased_real _ Real.pi hlaws ⟨2, fun _ => 1⟩
    ⟨2, fun _ => ⟨1, 1⟩⟩ (1 / 4) rfl hsin
  exact ⟨rfl, h.1, (h.2 hbr (le_refl 2) (by norm_num)).2.2⟩

end ForceCausalTheorems

/-! ## Complex arithmetic and the roots of unity (dft.hpp) -/

namespace StdComplex

variable {K : Type} [LinearOrderedField K]

theorem add_re (a b : StdComplex K) : (a + b).re = a.re + b.re := rfl

theorem add_im (a b : StdComplex K) : (a + b).im = a.im + b.im := rfl

theorem sub_re (a b : StdComplex K) : (a - b).re = a.re - b.re := rfl

theorem sub_im (a b : StdComplex K) : (a - b).im = a.im - b.im := rfl

theorem neg_re (a : StdComplex K) : (-a).re = -a.re := rfl

theorem neg_im (a : StdComplex K) : (-a).im = -a.im := rfl

theorem mul_re (a b : StdComplex K) : (a * b).re = a.re * b.re - a.im * b.im := rfl

theorem mul_im (a b : StdComplex K) : (a * b).im = a.re * b.im + a.im * b.re := rfl

theorem zero_re : (0 : StdComplex K).re = 0 := rfl

theorem zero_im : (0 : StdComplex K).im = 0 := rfl

theorem one_re : (1 : StdComplex K).re = 1 := rfl

theorem one_im : (1 : StdComplex K).im = 0 := rfl

theorem mk_zero : (⟨0, 0⟩ : StdComplex K) = 0 := rfl

theorem smulReal_eq (x : K) (z : StdComplex K) : smulReal x z = ofReal x * z := by
  ext
  · show x * z.re = x * z.re - 0 * z.im
    ring
  · show x * z.im = x * z.im + 0 * z.re
    ring

theorem ofReal_add (x y : K) : ofReal (x + y) = ofReal x + ofReal y := by
  ext
  · rfl
  · show (0 : K) = 0 + 0
    ring

theorem ofReal_sub (x y : K) : ofReal (x - y) = ofReal x - ofReal y := by
  ext
  · rfl
  · show (0 : K) = 0 - 0
    ring

theorem divReal_eq (z : StdComplex K) (x : K) : divReal z x = ofReal x⁻¹ * z := by
  ext
  · show z.re / x = x⁻¹ * z.re - 0 * z.im
    rw [div_eq_inv_mul]
    ring
  · show z.im / x = x⁻¹ * z.im + 0 * z.re
    rw [div_eq_inv_mul]
    ring

theorem ofReal_mul_ofReal (x y : K) : ofReal x * ofReal y = ofReal (x * y) := by
  ext
  · show x * y - 0 * 0 = x * y
    ring
  · show x * 0 + 0 * y = 0
    ring

theorem ofReal_one : ofReal (1 : K) = 1 := rfl

theorem natCast_eq (n : Nat) : ((n : StdComplex K)) = ofReal (n : K) := by
  induction n with
  | zero =>
    show ((Nat.cast 0 : StdComplex K)) = ofReal ((Nat.cast 0 : K))
    rw [Nat.cast_zero, Nat.cast_zero]
    rfl
  | succ n ih =>
    rw [Nat.cast_succ, Nat.cast_succ, ofReal_add, ih]
    rfl

/-- A product of complex numbers vanishes only when a factor does. -/
theorem eq_zero_of_mul_eq_zero (a b : StdComplex K) (h : a * b = 0) (ha : a ≠ 0) :
    b = 0 := by
  have h1 : a.re * b.re - a.im * b.im = 0 := congrArg StdComplex.re h
  have h2 : a.re * b.im + a.im * b.re = 0 := congrArg StdComplex.im h
  have hpos : 0 < a.re ^ 2 + a.im ^ 2 := by
    by_contra hn
    have hre : a.re = 0 := by nlinarith [sq_nonneg a.re, sq_nonneg a.im]
    have him : a.im = 0 := by nlinarith [sq_nonneg a.re, sq_nonneg a.im]
    exact ha (StdComplex.ext hre him)
  have e1 : (a.re ^ 2 + a.im ^ 2) * b.re = 0 := by
    have : (a.re ^ 2 + a.im ^ 2) * b.re =
        a.re * (a.re * b.re - a.im * b.im) + a.im * (a.re * b.im + a.im * b.re) := by ring
    rw [this, h1, h2]
    ring
  have e2 : (a.re ^ 2 + a.im ^ 2) * b.im = 0 := by
    have : (a.re ^ 2 + a.im ^ 2) * b.im =
        a.re * (a.re * b.im + a.im * b.re) - a.im * (a.re * b.re - a.im * b.im) := by ring
    rw [this, h1, h2]
    ring
  ext
  · exact (mul_eq_zero.mp e1).resolve_left (ne_of_gt hpos)
  · exact (mul_eq_zero.mp e2).resolve_left (ne_of_gt hpos)

/-- A square root of one other than one is minus one. -/
theorem eq_neg_one_of_sq (z : StdComplex K) (h : z * z = 1) (hne : z ≠ 1) : z = -1 := by
  have h1 : z.re * z.re - z.im * z.im = 1 := congrArg StdComplex.re h
  have h2 : z.re * z.im + z.im * z.re = 0 := congrArg StdComplex.im h
  have h3 : z.re * z.im = 0 := by linarith
  rcases mul_eq_zero.mp h3 with hre | him
  · rw [hre] at h1
    nlinarith [sq_nonneg z.im]
  · rw [him] at h1
    have h4 : (z.re - 1) * (z.re + 1) = 0 := by linarith
    rcases mul_eq_zero.mp h4 with h5 | h5
    · exact absurd (StdComplex.ext (by show z.re = 1; linarith) him) hne
    · ext
      · show z.re = -1
        linarith
      · show z.im = -0
        rw [him]
        ring

end StdComplex

section Roots

variable {K : Type} [LinearOrderedField K] {F : CMath K} {pi : K}

theorem TrigLaws.cos_zero (hl : TrigLaws F pi) : F.cos 0 = 1 :=
  ((hl.unit_iff 0).mpr ⟨0, by push_cast; ring⟩).1

theorem TrigLaws.sin_zero (hl : TrigLaws F pi) : F.sin 0 = 0 :=
  ((hl.unit_iff 0).mpr ⟨0, by push_cast; ring⟩).2

theorem StdComplex.exp_add (hl : TrigLaws F pi) (x y : K) :
    StdComplex.exp F ⟨0, x + y⟩ = StdComplex.exp F ⟨0, x⟩ * StdComplex.exp F ⟨0, y⟩ := by
  ext
  · show F.exp 0 * F.cos (x + y) =
      F.exp 0 * F.cos x * (F.exp 0 * F.cos y) - F.exp 0 * F.sin x * (F.exp 0 * F.sin y)
    rw [hl.exp_zero, hl.cos_add]
    ring
  · show F.exp 0 * F.sin (x + y) =
      F.exp 0 * F.cos x * (F.exp 0 * F.sin y) + F.exp 0 * F.sin x * (F.exp 0 * F.cos y)
    rw [hl.exp_zero, hl.sin_add]
    ring

theorem nthRootOfUnity_add (hl : TrigLaws F pi) (a b : Int) (N : Nat) :
    nthRootOfUnity F pi (a + b) N = nthRootOfUnity F pi a N * nthRootOfUnity F pi b N := by
  unfold nthRootOfUnity
  rw [← StdComplex.exp_add hl]
  congr 2
  push_cast
  ring

theorem nthRootOfUnity_eq_one_iff (hl : TrigLaws F pi) (a : Int) (N : Nat) (hN : 0 < N) :
    nthRootOfUnity F pi a N = 1 ↔ (N : Int) ∣ a := by
  have hNK : (N : K) ≠ 0 := Nat.cast_ne_zero.mpr (Nat.pos_iff_ne_zero.mp hN)
  have hunit : nthRootOfUnity F pi a N = 1 ↔
      (F.cos (-2 * pi * (a : K) / (N : K)) = 1 ∧ F.sin (-2 * pi * (a : K) / (N : K)) = 0) := by
    constructor
    · intro h
      have h1 : F.exp 0 * F.cos (-2 * pi * (a : K) / (N : K)) = 1 := congrArg StdComplex.re h
      have h2 : F.exp 0 * F.sin (-2 * pi * (a : K) / (N : K)) = 0 := congrArg StdComplex.im h
      rw [hl.exp_zero, one_mul] at h1 h2
      exact ⟨h1, h2⟩
    · rintro ⟨h1, h2⟩
      ext
      · show F.exp 0 * F.cos (-2 * pi * (a : K) / (N : K)) = 1
        rw [hl.exp_zero, one_mul, h1]
      · show F.exp 0 * F.sin (-2 * pi * (a : K) / (N : K)) = 0
        rw [hl.exp_zero, one_mul, h2]
  rw [hunit, hl.unit_iff]
  constructor
  · rintro ⟨n, hn⟩
    refine ⟨-n, ?_⟩
    have h2 : (a : K) = ((N : Int) : K) * ((-n : Int) : K) := by
      have hpi := hl.pi_ne_zero
      push_cast
      field_simp at hn
      have h3 : pi * (2 * ((a : K) + (n : K) * (N : K))) = 0 := by linarith
      rcases mul_eq_zero.mp h3 with h4 | h4
      · exact absurd h4 hpi
      · linarith
    exact_mod_cast h2
  · rintro ⟨c, hc⟩
    refine ⟨-c, ?_⟩
    rw [hc]
    push_cast
    field_simp
    ring

theorem nthRootOfUnity_zero (hl : TrigLaws F pi) (N : Nat) :
    nthRootOfUnity F pi 0 N = 1 := by
  have h : (-2 * pi * ((0 : Int) : K) / (N : K)) = 0 := by
    push_cast
    ring
  ext
  · show F.exp 0 * F.cos (-2 * pi * ((0 : Int) : K) / (N : K)) = 1
    rw [h, hl.exp_zero, hl.cos_zero, one_mul]
  · show F.exp 0 * F.sin (-2 * pi * ((0 : Int) : K) / (N : K)) = 0
    rw [h, hl.exp_zero, hl.sin_zero, one_mul]

theorem nthRootOfUnity_double (a : Int) (N : Nat) (hN : 0 < N) :
    nthRootOfUnity F pi (2 * a) (2 * N) = nthRootOfUnity F pi a N := by
  have hNK : (N : K) ≠ 0 := Nat.cast_ne_zero.mpr (Nat.pos_iff_ne_zero.mp hN)
  unfold nthRootOfUnity
  congr 2
  push_cast
  field_simp
  ring

/-- Numerators that agree modulo the denominator give the same root. -/
theorem nthRootOfUnity_congr (hl : TrigLaws F pi) (a b : Int) (N : Nat) (hN : 0 < N)
    (h : (N : Int) ∣ a - b) : nthRootOfUnity F pi a N = nthRootOfUnity F pi b N := by
  have e : a = (a - b) + b := by ring
  rw [e, nthRootOfUnity_add hl, (nthRootOfUnity_eq_one_iff hl _ N hN).mpr h, one_mul]

theorem nthRootOfUnity_half (hl : TrigLaws F pi) (N : Nat) (hN : 0 < N) :
    nthRootOfUnity F pi (N : Int) (2 * N) = -1 := by
  apply StdComplex.eq_neg_one_of_sq
  · rw [← nthRootOfUnity_add hl]
    apply (nthRootOfUnity_eq_one_iff hl _ _ (by omega)).mpr
    exact ⟨1, by push_cast; ring⟩
  · intro h
    have hd := (nthRootOfUnity_eq_one_iff hl _ _ (by omega)).mp h
    obtain ⟨c, hc⟩ := hd
    push_cast at hc
    have hNpos : (0 : Int) < N := by exact_mod_cast hN
    have h1 : (N : Int) * (2 * c - 1) = 0 := by linarith
    rcases mul_eq_zero.mp h1 with h2 | h2
    · omega
    · omega

theorem nthRootOfUnity_mul_nat (hl : TrigLaws F pi) (j : Int) (N : Nat) :
    ∀ k : Nat, nthRootOfUnity F pi ((k : Int) * j) N = nthRootOfUnity F pi j N ^ k
  | 0 => by
    rw [pow_zero]
    have h : ((0 : Nat) : Int) * j = 0 := by simp
    rw [h, nthRootOfUnity_zero hl]
  | k + 1 => by
    have h : ((k + 1 : Nat) : Int) * j = (k : Int) * j + j := by
      push_cast
      ring
    rw [h, nthRootOfUnity_add hl, nthRootOfUnity_mul_nat hl j N k, pow_succ]

/-- The sum of the powers of a root of unity: `N` when the root is one, `0` otherwise. -/
theorem nthRootOfUnity_sum (hl : TrigLaws F pi) (j : Int) (N : Nat) (hN : 0 < N) :
    (∑ k in Finset.range N, nthRootOfUnity F pi ((k : Int) * j) N) =
      if (N : Int) ∣ j then StdComplex.ofReal (N : K) else 0 := by
  split_ifs with hd
  · have h1 : ∀ k ∈ Finset.range N, nthRootOfUnity F pi ((k : Int) * j) N = 1 := by
      intro k _
      exact (nthRootOfUnity_eq_one_iff hl _ N hN).mpr (Dvd.dvd.mul_left hd _)
    rw [Finset.sum_congr rfl h1, Finset.sum_const, Finset.card_range, nsmul_eq_mul, mul_one,
      StdComplex.natCast_eq]
  · have h1 : ∀ k ∈ Finset.range N, nthRootOfUnity F pi ((k : Int) * j) N =
        nthRootOfUnity F pi j N ^ k := fun k _ => nthRootOfUnity_mul_nat hl j N k
    rw [Finset.sum_congr rfl h1]
    have hne : nthRootOfUnity F pi j N - 1 ≠ 0 := by
      intro h
      exact hd ((nthRootOfUnity_eq_one_iff hl j N hN).mp (sub_eq_zero.mp h))
    apply StdComplex.eq_zero_of_mul_eq_zero _ _ _ hne
    rw [mul_geom_sum, ← nthRootOfUnity_mul_nat hl,
      (nthRootOfUnity_eq_one_iff hl _ N hN).mpr (Dvd.intro _ rfl), sub_self]

end Roots

/-! ## The radix-2 transform computes the discrete Fourier sum (dft.hpp) -/

section FFT

variable {K : Type} [LinearOrderedField K] {F : CMath K} {pi : K}

theorem intOfSize_dvd (x : Nat) : (4294967296 : Int) ∣ intOfSize x - (x : Int) := by
  unfold intOfSize
  simp only
  split_ifs <;> omega

theorem sizeOfInt_dvd (d : Int) : (4294967296 : Int) ∣ (sizeOfInt d : Int) - d := by
  unfold sizeOfInt
  rw [Int.toNat_of_nonneg (Int.emod_nonneg _ (by norm_num))]
  omega

theorem sizeMod_dvd (y : Nat) :
    (4294967296 : Int) ∣ ((y % 2 ^ 64 : Nat) : Int) - (y : Int) := by
  omega

/-- The twiddle numerator `dir * i`, computed in `size_t` and passed as `int`, agrees
with the integer product modulo `2 ^ 32`. -/
theorem twiddle_dvd (dir : Int) (i : Nat) :
    (4294967296 : Int) ∣ intOfSize (sizeOfInt dir * i % 2 ^ 64) - dir * (i : Int) := by
  have h1 := intOfSize_dvd (sizeOfInt dir * i % 2 ^ 64)
  have h2 := sizeMod_dvd (sizeOfInt dir * i)
  have h3 : (4294967296 : Int) ∣ ((sizeOfInt dir : Int) - dir) * (i : Int) :=
    Dvd.dvd.mul_right (sizeOfInt_dvd dir) _
  have e : intOfSize (sizeOfInt dir * i % 2 ^ 64) - dir * (i : Int) =
      (intOfSize (sizeOfInt dir * i % 2 ^ 64) - ((sizeOfInt dir * i % 2 ^ 64 : Nat) : Int)) +
        ((((sizeOfInt dir * i % 2 ^ 64 : Nat) : Int) - ((sizeOfInt dir * i : Nat) : Int)) +
          ((sizeOfInt dir : Int) - dir) * (i : Int)) := by
    push_cast
    ring
  rw [e]
  exact dvd_add h1 (dvd_add h2 h3)

theorem product_dvd (k n : Nat) :
    (4294967296 : Int) ∣ intOfSize (k * n % 2 ^ 64) - (k : Int) * (n : Int) := by
  have h1 := intOfSize_dvd (k * n % 2 ^ 64)
  have h2 := sizeMod_dvd (k * n)
  have e : intOfSize (k * n % 2 ^ 64) - (k : Int) * (n : Int) =
      (intOfSize (k * n % 2 ^ 64) - ((k * n % 2 ^ 64 : Nat) : Int)) +
        (((k * n % 2 ^ 64 : Nat) : Int) - ((k * n : Nat) : Int)) := by
    push_cast
    ring
  rw [e]
  exact dvd_add h1 h2

theorem pow_two_dvd_wrap (j : Nat) (hj : j ≤ 32) :
    (((2 ^ j : Nat) : Int)) ∣ (4294967296 : Int) := by
  have h : (4294967296 : Int) = ((2 ^ 32 : Nat) : Int) := by norm_num
  rw [h]
  exact Int.natCast_dvd_natCast.mpr (pow_dvd_pow 2 hj)

theorem nthRootOfUnity_twiddle (hl : TrigLaws F pi) (dir : Int) (i j : Nat) (hj : j ≤ 32) :
    nthRootOfUnity F pi (intOfSize (sizeOfInt dir * i % 2 ^ 64)) (2 ^ j) =
      nthRootOfUnity F pi (dir * (i : Int)) (2 ^ j) :=
  nthRootOfUnity_congr hl _ _ _ (Nat.pos_pow_of_pos j (by decide))
    (Dvd.dvd.trans (pow_two_dvd_wrap j hj) (twiddle_dvd dir i))

theorem nthRootOfUnity_product (hl : TrigLaws F pi) (k n j : Nat) (hj : j ≤ 32) :
    nthRootOfUnity F pi (intOfSize (k * n % 2 ^ 64)) (2 ^ j) =
      nthRootOfUnity F pi ((k : Int) * (n : Int)) (2 ^ j) :=
  nthRootOfUnity_congr hl _ _ _ (Nat.pos_pow_of_pos j (by decide))
    (Dvd.dvd.trans (pow_two_dvd_wrap j hj) (product_dvd k n))

/-- A sum over `2 * h` indices splits into the even and the odd indices. -/
theorem sum_range_even_odd {A : Type} [AddCommMonoid A] (f : Nat → A) :
    ∀ h : Nat, (∑ n in Finset.range (2 * h), f n) =
      (∑ n in Finset.range h, f (2 * n)) + ∑ n in Finset.range h, f (2 * n + 1)
  | 0 => by simp
  | h + 1 => by
    have e : 2 * (h + 1) = 2 * h + 1 + 1 := by ring
    rw [e, Finset.sum_range_succ, Finset.sum_range_succ, sum_range_even_odd f h,
      Finset.sum_range_succ, Finset.sum_range_succ]
    abel

/-- The butterfly loop: the entries written and the entries kept. -/
theorem butterfly_loop {A : Type} (a b : Nat → A) (rpos h : Nat) :
    ∀ (m : Nat) (r : Nat → A), m ≤ h →
      (∀ i, i < m →
        forLoop (fun i (r : Nat → A) =>
          Function.update (Function.update r (rpos + i) (a i)) (rpos + (i + h)) (b i))
          0 m r (rpos + i) = a i) ∧
      (∀ i, i < m →
        forLoop (fun i (r : Nat → A) =>
          Function.update (Function.update r (rpos + i) (a i)) (rpos + (i + h)) (b i))
          0 m r (rpos + (i + h)) = b i) ∧
      (∀ p, (p < rpos ∨ rpos + (h + h) ≤ p) →
        forLoop (fun i (r : Nat → A) =>
          Function.update (Function.update r (rpos + i) (a i)) (rpos + (i + h)) (b i))
          0 m r p = r p)
  | 0, r, _ => ⟨fun i hi => absurd hi (Nat.not_lt_zero i),
      fun i hi => absurd hi (Nat.not_lt_zero i), fun _ _ => rfl⟩
  | m + 1, r, hm => by
    obtain ⟨ha, hb, hf⟩ := butterfly_loop a b rpos h m r (by omega)
    have step : forLoop (fun i (r : Nat → A) =>
          Function.update (Function.update r (rpos + i) (a i)) (rpos + (i + h)) (b i))
          0 (m + 1) r =
        Function.update (Function.update (forLoop (fun i (r : Nat → A) =>
          Function.update (Function.update r (rpos + i) (a i)) (rpos + (i + h)) (b i))
          0 m r) (rpos + (0 + m)) (a (0 + m))) (rpos + (0 + m + h)) (b (0 + m)) := rfl
    rw [step, Nat.zero_add]
    refine ⟨?_, ?_, ?_⟩
    · intro i hi
      rw [Function.update_noteq (by omega)]
      by_cases him : i = m
      · rw [him, Function.update_same]
      · rw [Function.update_noteq (by omega)]
        exact ha i (by omega)
    · intro i hi
      by_cases him : i = m
      · rw [him, Function.update_same]
      · rw [Function.update_noteq (by omega), Function.update_noteq (by omega)]
        exact hb i (by omega)
    · intro p hp
      rw [Function.update_noteq (by omega), Function.update_noteq (by omega)]
      exact hf p hp

/-- The Fourier sum of `2 * h` samples in terms of the sums of the even and of the odd
samples. -/
theorem fourier_sum_split (hl : TrigLaws F pi) (c : Nat → StdComplex K) (offset s h : Nat)
    (hh : 0 < h) (dk : Int) :
    (∑ n in Finset.range (2 * h),
        c (offset + n * 2 ^ s) * nthRootOfUnity F pi (dk * (n : Int)) (2 * h)) =
      (∑ n in Finset.range h,
        c (offset + n * 2 ^ (s + 1)) * nthRootOfUnity F pi (dk * (n : Int)) h) +
      nthRootOfUnity F pi dk (2 * h) *
        ∑ n in Finset.range h,
          c (offset + 2 ^ s + n * 2 ^ (s + 1)) * nthRootOfUnity F pi (dk * (n : Int)) h := by
  rw [sum_range_even_odd, Finset.mul_sum]
  congr 1
  · apply Finset.sum_congr rfl
    intro n _
    have e1 : offset + 2 * n * 2 ^ s = offset + n * 2 ^ (s + 1) := by
      rw [pow_succ]
      ring
    have e2 : dk * ((2 * n : Nat) : Int) = 2 * (dk * (n : Int)) := by
      push_cast
      ring
    rw [e1, e2, nthRootOfUnity_double _ _ hh]
  · apply Finset.sum_congr rfl
    intro n _
    have e1 : offset + (2 * n + 1) * 2 ^ s = offset + 2 ^ s + n * 2 ^ (s + 1) := by
      rw [pow_succ]
      ring
    have e2 : dk * ((2 * n + 1 : Nat) : Int) = dk + 2 * (dk * (n : Int)) := by
      push_cast
      ring
    rw [e1, e2, nthRootOfUnity_add hl, nthRootOfUnity_double _ _ hh]
    ring

theorem oneShl_small (s : Nat) (hs : s ≤ 30) : oneShl s = 2 ^ s := by
  have h1 : 2 ^ s < 2 ^ 31 := Nat.pow_lt_pow_right (by decide) (by omega)
  have h2 : (2 : Nat) ^ 31 < 2 ^ 32 := by decide
  have h3 : (2 : Nat) ^ 32 < 2 ^ 64 := by decide
  unfold oneShl intOfSize sizeOfInt
  simp only []
  rw [Nat.mod_eq_of_lt (by omega), if_pos h1]
  have h4 : ((2 ^ s : Nat) : Int) % 2 ^ 64 = ((2 ^ s : Nat) : Int) := by
    apply Int.emod_eq_of_lt
    · exact Int.natCast_nonneg _
    · have : (2 : Int) ^ 64 = ((2 ^ 64 : Nat) : Int) := by norm_num
      rw [this]
      exact Int.ofNat_lt.mpr (by omega)
  rw [h4]
  exact Int.toNat_ofNat _

theorem oneShl_31 : oneShl 31 = 2 ^ 64 - 2 ^ 31 := by
  unfold oneShl intOfSize sizeOfInt
  norm_num
  rfl

/-- The negation in `int` agrees with the negation of the integers modulo `2 ^ 32`. -/
theorem negInt_dvd (d : Int) : (4294967296 : Int) ∣ negInt d - -d := by
  have h1 := intOfSize_dvd (sizeOfInt (-d))
  have h2 := sizeOfInt_dvd (-d)
  have e : negInt d - -d =
      (intOfSize (sizeOfInt (-d)) - (sizeOfInt (-d) : Int)) + ((sizeOfInt (-d) : Int) - -d) := by
    unfold negInt
    ring
  rw [e]
  exact dvd_add h1 h2

/-- A sub-problem of `len` samples at stride `stride` lies within the input. -/
theorem shiftRight_mul_le (size stride : Nat) : (size >>> stride) * 2 ^ stride ≤ size := by
  rw [Nat.shiftRight_eq_div_pow]
  exact Nat.div_mul_le_self size (2 ^ stride)

/-- The butterfly loop with checked accesses: when the windows of `h + h` entries from the
two positions lie within the two vectors, no access is outside, and the loop is the loop
on the entries. -/
theorem butterfly_checked {A : Type} [Add A] [Sub A] [Mul A] (w : Nat → A)
    (scratch result : StdVector A) (rpos spos h : Nat)
    (hr : rpos + (h + h) ≤ result.size) (hs : spos + (h + h) ≤ scratch.size) :
    ∀ m, m ≤ h →
      forLoop (fun i (result : Option (StdVector A)) =>
          result.bind fun result =>
          (scratch.read (spos + i)).bind fun a =>
          (scratch.read (spos + (i + h))).bind fun b =>
          (result.write (rpos + i) (a + w i * b)).bind fun result =>
          (scratch.read (spos + i)).bind fun a =>
          (scratch.read (spos + (i + h))).bind fun b =>
          result.write (rpos + (i + h)) (a - w i * b))
        0 m (some result) =
      some { result with
        data := forLoop (fun i (r : Nat → A) =>
          Function.update (Function.update r (rpos + i)
              (scratch.data (spos + i) + w i * scratch.data (spos + (i + h))))
            (rpos + (i + h))
            (scratch.data (spos + i) - w i * scratch.data (spos + (i + h))))
          0 m result.data } := by
  intro m
  induction m with
  | zero => intro _; rfl
  | succ m ih =>
    intro hm
    have h1 : spos + (0 + m) < scratch.size := by omega
    have h2 : spos + (0 + m + h) < scratch.size := by omega
    have h3 : rpos + (0 + m) < result.size := by omega
    have h4 : rpos + (0 + m + h) < result.size := by omega
    simp only [forLoop]
    rw [ih (by omega)]
    simp only [Option.some_bind, StdVector.read, StdVector.write, if_pos h1, if_pos h2,
      if_pos h3, if_pos h4]

/-- The function `_fftHelperRadix2` on a sub-problem of `2 ^ j` samples at a stride with
`stride + j <= 31`, with `offset < 2 ^ stride` and room for `2 ^ j` entries from the two
positions: no access is outside a vector, the `2 ^ j` entries of `result` from its position
hold the Fourier sums of the samples `offset`, `offset + 2 ^ stride`, ..., and the sizes
of both vectors and their entries outside the `2 ^ j` entries from their positions are
kept. -/
theorem fftHelperRadix2_spec {T : Type} [Add T] [Sub T] (conv : T → StdComplex K)
    (hadd : ∀ x y, conv (x + y) = conv x + conv y)
    (hsub : ∀ x y, conv (x - y) = conv x - conv y)
    (dir : Int) (hdir : dir = 1 ∨ dir = -1) (hl : TrigLaws F pi) (inputData : StdVector T) :
    ∀ (j : Nat), 1 ≤ j →
      ∀ (stride offset rpos spos : Nat) (result scratch : StdVector (StdComplex K)),
        stride + j ≤ 31 → offset < 2 ^ stride →
        inputData.size >>> stride = 2 ^ j →
        rpos + 2 ^ j ≤ result.size → spos + 2 ^ j ≤ scratch.size →
        ∃ r s : StdVector (StdComplex K),
          _fftHelperRadix2 conv dir F pi inputData result rpos scratch spos offset stride =
            some (r, s) ∧
          r.size = result.size ∧ s.size = scratch.size ∧
          (∀ k, k < 2 ^ j →
            r.data (rpos + k) =
              ∑ n in Finset.range (2 ^ j),
                conv (inputData.data (offset + n * 2 ^ stride)) *
                  nthRootOfUnity F pi (dir * (k : Int) * (n : Int)) (2 ^ j)) ∧
          (∀ p, (p < rpos ∨ rpos + 2 ^ j ≤ p) → r.data p = result.data p) ∧
          (∀ p, (p < spos ∨ spos + 2 ^ j ≤ p) → s.data p = scratch.data p) := by
  intro j hj1
  induction j, hj1 using Nat.le_induction with
  | base =>
    intro stride offset rpos spos result scratch hsj hoff hlen hrs hss
    have hw0 : nthRootOfUnity F pi 0 (2 ^ 1) = 1 := nthRootOfUnity_zero hl _
    have hw1 : nthRootOfUnity F pi dir (2 ^ 1) = -1 := by
      have h1 : nthRootOfUnity F pi ((1 : Nat) : Int) (2 * 1) = -1 :=
        nthRootOfUnity_half hl 1 (by decide)
      rcases hdir with hd | hd
      · rw [hd]
        exact h1
      · rw [hd, ← h1]
        exact nthRootOfUnity_congr hl _ _ _ (by decide) ⟨-1, by norm_num⟩
    have hsz := shiftRight_mul_le inputData.size stride
    rw [hlen] at hsz
    have hp31 : 2 ^ stride < 2 ^ 31 := Nat.pow_lt_pow_right (by decide) (by omega)
    have hmod : (offset + oneShl stride) % 2 ^ 64 = offset + 2 ^ stride := by
      rw [oneShl_small stride (by omega)]
      exact Nat.mod_eq_of_lt (by omega)
    have hi0 : offset < inputData.size := by omega
    have hi1 : offset + 2 ^ stride < inputData.size := by omega
    have hr0 : rpos + 0 < result.size := by omega
    have hr1 : rpos + 1 < result.size := by omega
    rw [_fftHelperRadix2, hlen]
    simp only [show ¬ (2 < 2 ^ 1) by decide, if_false, hmod, StdVector.read,
      StdVector.write, if_pos hi0, if_pos hi1, if_pos hr0, if_pos hr1, Option.some_bind,
      Option.map_some']
    refine ⟨_, _, rfl, rfl, rfl, ?_, ?_, ?_⟩
    · intro k hk
      have hr : Finset.range (2 ^ 1) = Finset.range (0 + 1 + 1) := rfl
      rw [hr, Finset.sum_range_succ, Finset.sum_range_succ, Finset.sum_range_zero]
      have hk2 : k = 0 ∨ k = 1 := by omega
      rcases hk2 with h0 | h1
      · rw [h0]
        show Function.update (Function.update result.data (rpos + 0) _) (rpos + 1) _
          (rpos + 0) = _
        rw [Function.update_noteq (by omega), Function.update_same, hadd]
        simp only [Nat.cast_zero, mul_zero, zero_mul, hw0, Nat.add_zero, Nat.one_mul,
          zero_add, mul_one]
      · rw [h1]
        show Function.update (Function.update result.data (rpos + 0) _) (rpos + 1) _
          (rpos + 1) = _
        rw [Function.update_same, hsub]
        simp only [Nat.cast_zero, Nat.cast_one, mul_zero, zero_mul, hw0, hw1, Nat.add_zero,
          Nat.one_mul, zero_add, mul_one]
        ring
    · intro p hp
      show Function.update (Function.update result.data (rpos + 0) _) (rpos + 1) _ p = _
      rw [Function.update_noteq (by omega), Function.update_noteq (by omega)]
    · intro p _
      trivial
  | succ j hj1 ih =>
    intro stride offset rpos spos result scratch hsj hoff hlen hrs hss
    have hpos : 0 < 2 ^ j := Nat.pos_pow_of_pos j (by decide)
    have hpow : 2 ^ (j + 1) = 2 * 2 ^ j := by
      rw [pow_succ]
      ring
    have hhalf : 2 ^ (j + 1) / 2 = 2 ^ j := by omega
    have hlen1 : inputData.size >>> (stride + 1) = 2 ^ j := by
      rw [Nat.shiftRight_succ, hlen, hhalf]
    have hbig : 2 < 2 ^ (j + 1) := by
      have : 2 ^ 1 ≤ 2 ^ j := Nat.pow_le_pow_right (by decide) hj1
      omega
    have hps : 2 ^ (stride + 1) = 2 * 2 ^ stride := by
      rw [pow_succ]
      ring
    have hp31 : 2 ^ stride < 2 ^ 31 := Nat.pow_lt_pow_right (by decide) (by omega)
    have hmod : (offset + oneShl stride) % 2 ^ 64 = offset + 2 ^ stride := by
      rw [oneShl_small stride (by omega)]
      exact Nat.mod_eq_of_lt (by omega)
    obtain ⟨r1, s1, e1, hr1, hs1, f1, f2, f3⟩ := ih (stride + 1) offset spos rpos scratch
      result (by omega) (by omega) hlen1 (by omega) (by omega)
    obtain ⟨r2, s2, e2, hr2, hs2, g1, g2, g3⟩ := ih (stride + 1) (offset + 2 ^ stride)
      (spos + 2 ^ j) (rpos + 2 ^ j) r1 s1 (by omega) (by omega) hlen1 (by omega) (by omega)
    rw [_fftHelperRadix2, hlen]
    simp only [hbig, if_true, hhalf, e1, Option.some_bind, hmod, e2, forRange, Nat.sub_zero]
    rw [butterfly_checked
      (fun i => nthRootOfUnity F pi (intOfSize (sizeOfInt dir * i % 2 ^ 64)) (2 ^ (j + 1)))
      r2 s2 rpos spos (2 ^ j) (by omega) (by omega) (2 ^ j) (le_refl _)]
    simp only [Option.map_some']
    obtain ⟨ba, bb, bf⟩ := butterfly_loop
      (fun i => r2.data (spos + i) +
        nthRootOfUnity F pi (intOfSize (sizeOfInt dir * i % 2 ^ 64)) (2 ^ (j + 1)) *
          r2.data (spos + (i + 2 ^ j)))
      (fun i => r2.data (spos + i) -
        nthRootOfUnity F pi (intOfSize (sizeOfInt dir * i % 2 ^ 64)) (2 ^ (j + 1)) *
          r2.data (spos + (i + 2 ^ j)))
      rpos (2 ^ j) (2 ^ j) s2.data (le_refl _)
    -- the two halves of the scratch vector after the recursive calls
    have hE : ∀ i, i < 2 ^ j →
        r2.data (spos + i) =
          ∑ n in Finset.range (2 ^ j),
            conv (inputData.data (offset + n * 2 ^ (stride + 1))) *
              nthRootOfUnity F pi (dir * (i : Int) * (n : Int)) (2 ^ j) := by
      intro i hi
      rw [g2 (spos + i) (Or.inl (by omega))]
      exact f1 i hi
    have hO : ∀ i, i < 2 ^ j →
        r2.data (spos + (i + 2 ^ j)) =
          ∑ n in Finset.range (2 ^ j),
            conv (inputData.data (offset + 2 ^ stride + n * 2 ^ (stride + 1))) *
              nthRootOfUnity F pi (dir * (i : Int) * (n : Int)) (2 ^ j) := by
      intro i hi
      have e : spos + (i + 2 ^ j) = spos + 2 ^ j + i := by omega
      rw [e]
      exact g1 i hi
    have hsplit : ∀ k : Nat,
        (∑ n in Finset.range (2 ^ (j + 1)),
          conv (inputData.data (offset + n * 2 ^ stride)) *
            nthRootOfUnity F pi (dir * (k : Int) * (n : Int)) (2 ^ (j + 1))) =
        (∑ n in Finset.range (2 ^ j),
          conv (inputData.data (offset + n * 2 ^ (stride + 1))) *
            nthRootOfUnity F pi (dir * (k : Int) * (n : Int)) (2 ^ j)) +
        nthRootOfUnity F pi (dir * (k : Int)) (2 ^ (j + 1)) *
          ∑ n in Finset.range (2 ^ j),
            conv (inputData.data (offset + 2 ^ stride + n * 2 ^ (stride + 1))) *
              nthRootOfUnity F pi (dir * (k : Int) * (n : Int)) (2 ^ j) := by
      intro k
      rw [hpow]
      exact fourier_sum_split hl (fun p => conv (inputData.data p)) offset stride (2 ^ j)
        hpos (dir * (k : Int))
    refine ⟨_, _, rfl, hs2.trans hs1, hr2.trans hr1, ?_, ?_, ?_⟩
    · intro k hk
      show forLoop _ 0 (2 ^ j) s2.data (rpos + k) = _
      by_cases hkh : k < 2 ^ j
      · rw [ba k hkh, hE k hkh, hO k hkh, hsplit k,
          nthRootOfUnity_twiddle hl dir k (j + 1) (by omega)]
      · have hk2 : k = (k - 2 ^ j) + 2 ^ j := by omega
        have hi : k - 2 ^ j < 2 ^ j := by omega
        generalize k - 2 ^ j = i at hk2 hi
        subst hk2
        rw [bb i hi, hE i hi, hO i hi, hsplit (i + 2 ^ j),
          nthRootOfUnity_twiddle hl dir i (j + 1) (by omega)]
        have hper : ∀ n : Nat,
            nthRootOfUnity F pi (dir * ((i + 2 ^ j : Nat) : Int) * (n : Int)) (2 ^ j) =
              nthRootOfUnity F pi (dir * (i : Int) * (n : Int)) (2 ^ j) := by
          intro n
          apply nthRootOfUnity_congr hl _ _ _ hpos
          refine ⟨dir * (n : Int), ?_⟩
          push_cast
          ring
        have hneg : nthRootOfUnity F pi (dir * ((i + 2 ^ j : Nat) : Int)) (2 ^ (j + 1)) =
            -nthRootOfUnity F pi (dir * (i : Int)) (2 ^ (j + 1)) := by
          have e : dir * ((i + 2 ^ j : Nat) : Int) =
              dir * (i : Int) + dir * ((2 ^ j : Nat) : Int) := by
            push_cast
            ring
          have hh : nthRootOfUnity F pi (dir * ((2 ^ j : Nat) : Int)) (2 ^ (j + 1)) = -1 := by
            rw [hpow]
            rcases hdir with hd | hd
            · rw [hd, one_mul]
              exact nthRootOfUnity_half hl _ hpos
            · rw [hd, ← nthRootOfUnity_half hl _ hpos]
              apply nthRootOfUnity_congr hl _ _ _ (by omega)
              refine ⟨-1, ?_⟩
              push_cast
              ring
          rw [e, nthRootOfUnity_add hl, hh]
          ring
        simp only [hper, hneg]
        ring
    · intro p hp
      show forLoop _ 0 (2 ^ j) s2.data p = _
      rw [bf p (by omega), g3 p (by omega), f3 p (by omega)]
    · intro p hp
      rw [g2 p (by omega), f2 p (by omega)]

/-- For an input of `2 ^ 32` entries the chain of first recursive calls of
`_fftHelperRadix2` reaches the base case at stride 31 with offset 0, where
`inputData[0 + (1 << 31)]` is the entry `2 ^ 64 - 2 ^ 31`, outside the vector: the calls
at offset 0 have no value. -/
theorem fftHelperRadix2_outside {T : Type} [Add T] [Sub T] (conv : T → StdComplex K)
    (dir : Int) (F : CMath K) (pi : K) (inputData : StdVector T)
    (hsize : inputData.size = 2 ^ 32) :
    ∀ k, k ≤ 31 → ∀ (result scratch : StdVector (StdComplex K)) (rpos spos : Nat),
      _fftHelperRadix2 conv dir F pi inputData result rpos scratch spos 0 (31 - k) = none := by
  intro k
  induction k with
  | zero =>
    intro _ result scratch rpos spos
    have hlen : inputData.size >>> 31 = 2 := by
      rw [hsize]
      rfl
    have h0 : 0 < inputData.size := by
      rw [hsize]
      decide
    have h1 : ¬ (2 ^ 64 - 2 ^ 31 < inputData.size) := by
      rw [hsize]
      decide
    have hmod : (0 + oneShl 31) % 2 ^ 64 = 2 ^ 64 - 2 ^ 31 := by
      rw [oneShl_31]
      norm_num
    rw [_fftHelperRadix2, hlen]
    simp only [show ¬ (2 < 2) by decide, if_false, hmod, StdVector.read, if_pos h0,
      if_neg h1, Option.some_bind, Option.none_bind]
  | succ k ih =>
    intro hk result scratch rpos spos
    have hlen : inputData.size >>> (31 - (k + 1)) = 2 ^ (k + 2) := by
      rw [hsize, Nat.shiftRight_eq_div_pow]
      have e : 32 = (31 - (k + 1)) + (k + 2) := by omega
      nth_rewrite 1 [e]
      rw [Nat.pow_add, Nat.mul_comm, Nat.mul_div_cancel _ (Nat.two_pow_pos _)]
    have hgt : 2 < 2 ^ (k + 2) := by
      have : 2 ^ 2 ≤ 2 ^ (k + 2) := Nat.pow_le_pow_right (by decide) (by omega)
      omega
    have hs : 31 - (k + 1) + 1 = 31 - k := by omega
    rw [_fftHelperRadix2, hlen]
    simp only [hgt, if_true, hs, ih (by omega), Option.none_bind]

end FFT
/-! ## `fft`, `dft`, `ifft` and `idft` (dft.hpp) -/

section FourierClaims

variable {K : Type} [LinearOrderedField K] {F : CMath K} {pi : K}

/-- A loop that adds one term to the entry `k` in every pass. -/
theorem forLoop_accumulate {A : Type} [AddCommMonoid A] (g : Nat → A) (k : Nat) :
    ∀ (m : Nat) (t : Nat → A),
      forLoop (fun n (t : Nat → A) => Function.update t k (t k + g n)) 0 m t =
        Function.update t k (t k + ∑ n in Finset.range m, g n)
  | 0, t => by
    rw [Finset.sum_range_zero, add_zero, Function.update_eq_self]
    rfl
  | m + 1, t => by
    have step : forLoop (fun n (t : Nat → A) => Function.update t k (t k + g n)) 0 (m + 1) t =
        Function.update (forLoop (fun n (t : Nat → A) => Function.update t k (t k + g n))
            0 m t) k
          (forLoop (fun n (t : Nat → A) => Function.update t k (t k + g n)) 0 m t k +
            g (0 + m)) := rfl
    rw [step, forLoop_accumulate g k m t, Function.update_same, Function.update_idem,
      Finset.sum_range_succ, Nat.zero_add, add_assoc]

/-- A loop that rewrites the entry `k` in pass `k`. -/
theorem forLoop_update_each {A : Type} (h : Nat → A → A) :
    ∀ (m : Nat) (t : Nat → A) (p : Nat),
      forLoop (fun k (t : Nat → A) => Function.update t k (h k (t k))) 0 m t p =
        if p < m then h p (t p) else t p
  | 0, t, p => by
    rw [if_neg (Nat.not_lt_zero p)]
    rfl
  | m + 1, t, p => by
    have step : forLoop (fun k (t : Nat → A) => Function.update t k (h k (t k))) 0 (m + 1) t =
        Function.update (forLoop (fun k (t : Nat → A) => Function.update t k (h k (t k)))
            0 m t) (0 + m)
          (h (0 + m) (forLoop (fun k (t : Nat → A) => Function.update t k (h k (t k)))
            0 m t (0 + m))) := rfl
    rw [step, Nat.zero_add]
    by_cases hp : p = m
    · rw [hp, Function.update_same, forLoop_update_each h m t m, if_neg (lt_irrefl m),
        if_pos (Nat.lt_succ_self m)]
    · rw [Function.update_noteq hp, forLoop_update_each h m t p]
      by_cases hpm : p < m
      · rw [if_pos hpm, if_pos (by omega)]
      · rw [if_neg hpm, if_neg (by omega)]

/-- The entries of `dft` of a vector of `2 ^ m` samples are the Fourier sums. -/
theorem dft_spec (hl : TrigLaws F pi) (x : StdVector K) (m : Nat) (hm : m ≤ 32)
    (hsize : x.size = 2 ^ m) (k : Nat) (hk : k < x.size) :
    (dft F pi x).data k =
      ∑ n in Finset.range x.size,
        StdComplex.ofReal (x.data n) * nthRootOfUnity F pi ((k : Int) * (n : Int)) x.size := by
  have hbody : (fun k (toRet : Nat → StdComplex K) =>
      forRange (fun n (toRet : Nat → StdComplex K) =>
          Function.update toRet k (toRet k + StdComplex.smulReal (x.data n)
            (nthRootOfUnity F pi (intOfSize (k * n % 2 ^ 64)) x.size)))
        0 x.size toRet) =
      fun k (toRet : Nat → StdComplex K) => Function.update toRet k
        ((fun k v => v + ∑ n in Finset.range x.size, StdComplex.smulReal (x.data n)
            (nthRootOfUnity F pi (intOfSize (k * n % 2 ^ 64)) x.size)) k (toRet k)) := by
    funext k toRet
    simp only [forRange, Nat.sub_zero]
    exact forLoop_accumulate _ k x.size toRet
  have e := forLoop_update_each (fun k (v : StdComplex K) =>
      v + ∑ n in Finset.range x.size, StdComplex.smulReal (x.data n)
        (nthRootOfUnity F pi (intOfSize (k * n % 2 ^ 64)) x.size))
    x.size (fun _ => ⟨0, 0⟩) k
  rw [if_pos hk] at e
  simp only [dft, hbody]
  simp only [forRange, Nat.sub_zero]
  refine Eq.trans e ?_
  show (⟨0, 0⟩ : StdComplex K) + _ = _
  rw [StdComplex.mk_zero, zero_add]
  apply Finset.sum_congr rfl
  intro n _
  rw [StdComplex.smulReal_eq, hsize, nthRootOfUnity_product hl k n m hm]

/-- The entries of `idft` are the inverse Fourier sums divided by the length. -/
theorem idft_spec (hl : TrigLaws F pi) (X : StdVector (StdComplex K)) (m : Nat) (hm : m ≤ 32)
    (hsize : X.size = 2 ^ m) (n : Nat) (hn : n < X.size) :
    (idft F pi X).data n =
      StdComplex.ofReal ((X.size : K)⁻¹) *
        ∑ k in Finset.range X.size,
          X.data k * nthRootOfUnity F pi (-((k : Int) * (n : Int))) X.size := by
  have hbody : (fun n (toRet : Nat → StdComplex K) =>
      Function.update
        (forRange (fun k (toRet : Nat → StdComplex K) =>
          Function.update toRet n (toRet n + X.data k *
            nthRootOfUnity F pi (negInt (intOfSize (k * n % 2 ^ 64))) X.size))
        0 X.size toRet) n
        (StdComplex.divReal
          (forRange (fun k (toRet : Nat → StdComplex K) =>
            Function.update toRet n (toRet n + X.data k *
              nthRootOfUnity F pi (negInt (intOfSize (k * n % 2 ^ 64))) X.size))
          0 X.size toRet n) (X.size : K))) =
      fun n (toRet : Nat → StdComplex K) => Function.update toRet n
        ((fun n v => StdComplex.divReal (v + ∑ k in Finset.range X.size, X.data k *
            nthRootOfUnity F pi (negInt (intOfSize (k * n % 2 ^ 64))) X.size) (X.size : K))
          n (toRet n)) := by
    funext n toRet
    simp only [forRange, Nat.sub_zero]
    rw [forLoop_accumulate _ n X.size toRet, Function.update_same, Function.update_idem]
  have e := forLoop_update_each (fun n (v : StdComplex K) =>
      StdComplex.divReal (v + ∑ k in Finset.range X.size, X.data k *
        nthRootOfUnity F pi (negInt (intOfSize (k * n % 2 ^ 64))) X.size) (X.size : K))
    X.size (fun _ => ⟨0, 0⟩) n
  rw [if_pos hn] at e
  simp only [idft, hbody]
  simp only [forRange, Nat.sub_zero]
  refine Eq.trans e ?_
  show StdComplex.divReal ((⟨0, 0⟩ : StdComplex K) + _) _ = _
  rw [StdComplex.mk_zero, zero_add, StdComplex.divReal_eq]
  congr 1
  apply Finset.sum_congr rfl
  intro k _
  congr 1
  rw [hsize]
  apply nthRootOfUnity_congr hl _ _ _ (Nat.pos_pow_of_pos m (by decide))
  have h := Dvd.dvd.trans (pow_two_dvd_wrap m hm) (product_dvd k n)
  have h' := Dvd.dvd.trans (pow_two_dvd_wrap m hm) (negInt_dvd (intOfSize (k * n % 2 ^ 64)))
  have e : negInt (intOfSize (k * n % 2 ^ 64)) - -((k : Int) * (n : Int)) =
      (negInt (intOfSize (k * n % 2 ^ 64)) - -intOfSize (k * n % 2 ^ 64)) -
        (intOfSize (k * n % 2 ^ 64) - (k : Int) * (n : Int)) := by ring
  rw [e]
  exact dvd_sub h' h

/-- For an input of `2 ^ m` samples with `1 <= m <= 31`, `fft` makes no access outside a
vector and the entries of its result are the Fourier sums. -/
theorem fft_spec (hl : TrigLaws F pi) (x : StdVector K) (m : Nat) (hm1 : 1 ≤ m)
    (hm : m ≤ 31) (hsize : x.size = 2 ^ m) :
    ∃ X : StdVector (StdComplex K), fft F pi x = some X ∧ X.size = x.size ∧
      ∀ k, k < x.size → X.data k =
        ∑ n in Finset.range x.size,
          StdComplex.ofReal (x.data n) *
            nthRootOfUnity F pi ((k : Int) * (n : Int)) x.size := by
  obtain ⟨r, s, e, hr, -, h, -, -⟩ := fftHelperRadix2_spec StdComplex.ofReal
    StdComplex.ofReal_add StdComplex.ofReal_sub 1 (Or.inl rfl) hl x m hm1 0 0 0 0
    ⟨x.size, fun _ => ⟨0, 0⟩⟩ ⟨x.size, fun _ => ⟨0, 0⟩⟩ (by omega) (by decide)
    (by rw [Nat.shiftRight_zero, hsize]) (by show 0 + 2 ^ m ≤ x.size; omega)
    (by show 0 + 2 ^ m ≤ x.size; omega)
  refine ⟨r, ?_, hr, ?_⟩
  · simp only [fft, e, Option.map_some']
  · intro k hk
    have hk' := h k (by rw [← hsize]; exact hk)
    rw [Nat.zero_add] at hk'
    rw [hk', hsize]
    apply Finset.sum_congr rfl
    intro n _
    rw [Nat.zero_add, pow_zero, Nat.mul_one, one_mul]

/-- For an input of `2 ^ m` entries with `1 <= m <= 31`, `ifft` makes no access outside a
vector and the entries of its result are the inverse Fourier sums divided by the
length. -/
theorem ifft_spec (hl : TrigLaws F pi) (X : StdVector (StdComplex K)) (m : Nat)
    (hm1 : 1 ≤ m) (hm : m ≤ 31) (hsize : X.size = 2 ^ m) :
    ∃ Y : StdVector (StdComplex K), ifft F pi X = some Y ∧ Y.size = X.size ∧
      ∀ n, n < X.size → Y.data n =
        StdComplex.ofReal ((X.size : K)⁻¹) *
          ∑ k in Finset.range X.size,
            X.data k * nthRootOfUnity F pi (-((k : Int) * (n : Int))) X.size := by
  obtain ⟨r, s, e, hr, -, h, -, -⟩ := fftHelperRadix2_spec (fun z : StdComplex K => z)
    (fun _ _ => rfl) (fun _ _ => rfl) (-1) (Or.inr rfl) hl X m hm1 0 0 0 0
    ⟨X.size, fun _ => ⟨0, 0⟩⟩ ⟨X.size, fun _ => ⟨0, 0⟩⟩ (by omega) (by decide)
    (by rw [Nat.shiftRight_zero, hsize]) (by show 0 + 2 ^ m ≤ X.size; omega)
    (by show 0 + 2 ^ m ≤ X.size; omega)
  have hr' : r.size = X.size := hr
  refine ⟨{ r with
      data := forRange (fun i (data : Nat → StdComplex K) =>
          Function.update data i (StdComplex.divReal (data i) (r.size : K)))
        0 r.size r.data }, by simp only [ifft, e, Option.map_some'], hr', ?_⟩
  intro n hn
  have hn' := h n (by rw [← hsize]; exact hn)
  rw [Nat.zero_add] at hn'
  show forRange _ 0 r.size r.data n = _
  simp only [forRange, Nat.sub_zero]
  rw [forLoop_update_each (fun _ v => StdComplex.divReal v (r.size : K)),
    if_pos (by rw [hr']; exact hn), hn', StdComplex.divReal_eq, hr', hsize]
  congr 1
  apply Finset.sum_congr rfl
  intro k _
  rw [Nat.zero_add, pow_zero, Nat.mul_one]
  congr 2
  ring

/-- For an input of `2 ^ 32` samples `fft` has no value: the base case of the helper at
stride 31 reads `inputData[2 ^ 64 - 2 ^ 31]`, outside the vector. -/
theorem fft_outside (F : CMath K) (pi : K) (x : StdVector K) (hsize : x.size = 2 ^ 32) :
    fft F pi x = none := by
  have h := fftHelperRadix2_outside StdComplex.ofReal 1 F pi x hsize 31 (le_refl _)
    ⟨x.size, fun _ => ⟨0, 0⟩⟩ ⟨x.size, fun _ => ⟨0, 0⟩⟩ 0 0
  simp only [fft]
  rw [show 0 = 31 - 31 from rfl, h]
  rfl

/-- For an input of `2 ^ 32` entries `ifft` has no value either. -/
theorem ifft_outside (F : CMath K) (pi : K) (X : StdVector (StdComplex K))
    (hsize : X.size = 2 ^ 32) : ifft F pi X = none := by
  have h := fftHelperRadix2_outside (fun z : StdComplex K => z) (-1) F pi X hsize 31
    (le_refl _) ⟨X.size, fun _ => ⟨0, 0⟩⟩ ⟨X.size, fun _ => ⟨0, 0⟩⟩ 0 0
  simp only [ifft]
  rw [show 0 = 31 - 31 from rfl, h]
  rfl

/-- The inverse Fourier sums of the Fourier sums of `c`, divided by the length, are `c`. -/
theorem fourier_inversion (hl : TrigLaws F pi) (N : Nat) (hN : 0 < N)
    (c : Nat → StdComplex K) (n : Nat) (hn : n < N) :
    StdComplex.ofReal ((N : K)⁻¹) *
        ∑ k in Finset.range N,
          (∑ j in Finset.range N, c j * nthRootOfUnity F pi ((k : Int) * (j : Int)) N) *
            nthRootOfUnity F pi (-((k : Int) * (n : Int))) N = c n := by
  have hNK : (N : K) ≠ 0 := Nat.cast_ne_zero.mpr (Nat.pos_iff_ne_zero.mp hN)
  have h1 : (∑ k in Finset.range N,
      (∑ j in Finset.range N, c j * nthRootOfUnity F pi ((k : Int) * (j : Int)) N) *
        nthRootOfUnity F pi (-((k : Int) * (n : Int))) N) =
      ∑ j in Finset.range N, c j *
        ∑ k in Finset.range N, nthRootOfUnity F pi ((k : Int) * ((j : Int) - (n : Int))) N := by
    have h2 : ∀ k ∈ Finset.range N,
        (∑ j in Finset.range N, c j * nthRootOfUnity F pi ((k : Int) * (j : Int)) N) *
          nthRootOfUnity F pi (-((k : Int) * (n : Int))) N =
        ∑ j in Finset.range N,
          c j * nthRootOfUnity F pi ((k : Int) * ((j : Int) - (n : Int))) N := by
      intro k _
      rw [Finset.sum_mul]
      apply Finset.sum_congr rfl
      intro j _
      have e : (k : Int) * ((j : Int) - (n : Int)) =
          (k : Int) * (j : Int) + -((k : Int) * (n : Int)) := by ring
      rw [e, nthRootOfUnity_add hl, mul_assoc]
    rw [Finset.sum_congr rfl h2, Finset.sum_comm]
    apply Finset.sum_congr rfl
    intro j _
    rw [Finset.mul_sum]
  rw [h1]
  have h3 : ∀ j ∈ Finset.range N, c j *
      (∑ k in Finset.range N, nthRootOfUnity F pi ((k : Int) * ((j : Int) - (n : Int))) N) =
      if j = n then c n * StdComplex.ofReal (N : K) else 0 := by
    intro j hj
    have hjN : j < N := Finset.mem_range.mp hj
    rw [nthRootOfUnity_sum hl _ N hN]
    by_cases hjn : j = n
    · rw [if_pos hjn, hjn, sub_self, if_pos (dvd_zero _)]
    · rw [if_neg hjn, if_neg, mul_zero]
      intro hd
      have habs : |(j : Int) - (n : Int)| < (N : Int) := by
        rw [abs_lt]
        constructor <;> omega
      have h0 := Int.eq_zero_of_abs_lt_dvd hd habs
      omega
  rw [Finset.sum_congr rfl h3,
    Finset.sum_ite_eq' (Finset.range N) n (fun _ => c n * StdComplex.ofReal (N : K)),
    if_pos (Finset.mem_range.mpr hn), mul_comm (c n), ← mul_assoc, StdComplex.ofReal_mul_ofReal, inv_mul_cancel₀ hNK,
    StdComplex.ofReal_one, one_mul]

/-- C25, as stated, fails for the length `2 ^ 32`: with the functions of the real numbers
and the input of `2 ^ 32` samples `x[n] = n`, the base case of `_fftHelperRadix2` at
stride 31 reads `inputData[0 + (1 << 31)]`, where the shift is made in `int`, that is the
entry `2 ^ 64 - 2 ^ 31`, outside the vector; `fft (x)` has no value, hence
`ifft (fft (x))` has none, and `ifft` has no value on a vector of `2 ^ 32` entries. -/
theorem ifft_fft_no_value_at_length_two_pow_32 :
    fft (CMath.mk Real.sin Real.cos Real.tan Real.sinh Real.cosh Real.tanh Real.exp
        Real.log (fun x y => x ^ y)) Real.pi ⟨2 ^ 32, fun n => (n : ℝ)⟩ = none ∧
    (fft (CMath.mk Real.sin Real.cos Real.tan Real.sinh Real.cosh Real.tanh Real.exp
        Real.log (fun x y => x ^ y)) Real.pi ⟨2 ^ 32, fun n => (n : ℝ)⟩).bind
      (ifft (CMath.mk Real.sin Real.cos Real.tan Real.sinh Real.cosh Real.tanh Real.exp
        Real.log (fun x y => x ^ y)) Real.pi) = none ∧
    ifft (CMath.mk Real.sin Real.cos Real.tan Real.sinh Real.cosh Real.tanh Real.exp
        Real.log (fun x y => x ^ y)) Real.pi ⟨2 ^ 32, fun n => ⟨(n : ℝ), 0⟩⟩ = none := by
  refine ⟨fft_outside _ _ _ rfl, ?_, ifft_outside _ _ _ rfl⟩
  rw [fft_outside _ _ _ rfl]
  rfl

/-- C25, amended: with the laws of sine, cosine and `pi`, for every real input vector `x`
of `2 ^ m` samples with `1 ≤ m ≤ 31`, `fft (x)` and `ifft (fft (x))` make no access
outside a vector, `ifft (fft (x))` has the size of `x`, and its entry `n` is the complex
number with real part `x[n]` and imaginary part `0`. -/
theorem ifft_fft (hl : TrigLaws F pi) (x : StdVector K) (m : Nat) (hm1 : 1 ≤ m)
    (hm : m ≤ 31) (hsize : x.size = 2 ^ m) :
    ∃ X Y : StdVector (StdComplex K), fft F pi x = some X ∧ ifft F pi X = some Y ∧
      Y.size = x.size ∧ ∀ n, n < x.size → Y.data n = ⟨x.data n, 0⟩ := by
  have hN : 0 < x.size := by
    rw [hsize]
    exact Nat.pos_pow_of_pos m (by decide)
  obtain ⟨X, hX, hXs, hXd⟩ := fft_spec hl x m hm1 hm hsize
  obtain ⟨Y, hY, hYs, hYd⟩ := ifft_spec hl X m hm1 hm (by rw [hXs, hsize])
  refine ⟨X, Y, hX, hY, hYs.trans hXs, ?_⟩
  intro n hn
  rw [hYd n (by rw [hXs]; exact hn), hXs]
  have h1 : ∀ k ∈ Finset.range x.size,
      X.data k * nthRootOfUnity F pi (-((k : Int) * (n : Int))) x.size =
      (∑ j in Finset.range x.size, StdComplex.ofReal (x.data j) *
          nthRootOfUnity F pi ((k : Int) * (j : Int)) x.size) *
        nthRootOfUnity F pi (-((k : Int) * (n : Int))) x.size := by
    intro k hk
    rw [hXd k (Finset.mem_range.mp hk)]
  rw [Finset.sum_congr rfl h1]
  exact fourier_inversion hl x.size hN (fun j => StdComplex.ofReal (x.data j)) n hn

/-- The round trip of the two fast transforms on the four samples `0, 1, 2, 3`, with the
functions of the real numbers. -/
theorem ifft_fft_witness :
    (1 ≤ 2 ∧ 2 ≤ 31 ∧ (⟨4, fun n => (n : ℝ)⟩ : StdVector ℝ).size = 2 ^ 2) ∧
      ∃ X Y : StdVector (StdComplex ℝ),
        fft (CMath.mk Real.sin Real.cos Real.tan Real.sinh Real.cosh Real.tanh Real.exp
          Real.log (fun x y => x ^ y)) Real.pi ⟨4, fun n => (n : ℝ)⟩ = some X ∧
        ifft (CMath.mk Real.sin Real.cos Real.tan Real.sinh Real.cosh Real.tanh Real.exp
          Real.log (fun x y => x ^ y)) Real.pi X = some Y ∧
        Y.data 3 = ⟨((3 : Nat) : ℝ), 0⟩ :=
  ⟨⟨by decide, by decide, rfl⟩,
    (ifft_fft realTrigLaws ⟨4, fun n => (n : ℝ)⟩ 2 (by decide) (by decide) rfl).imp
      fun _ h => h.imp fun _ h => ⟨h.1, h.2.1, h.2.2.2 3 (by decide)⟩⟩

/-- C26, as stated, fails for the length `2 ^ 32`: with the functions of the real numbers
and the input of `2 ^ 32` samples `x[n] = n`, `dft (x)` is a vector of `2 ^ 32` entries,
while `fft (x)` has no value, because the base case of `_fftHelperRadix2` at stride 31
reads the entry `2 ^ 64 - 2 ^ 31` of `inputData`; so `fft (x)` is not a vector with the
entries of `dft (x)`. -/
theorem fft_no_value_where_dft_has_at_length_two_pow_32 :
    (dft (CMath.mk Real.sin Real.cos Real.tan Real.sinh Real.cosh Real.tanh Real.exp
        Real.log (fun x y => x ^ y)) Real.pi ⟨2 ^ 32, fun n => (n : ℝ)⟩).size = 2 ^ 32 ∧
    fft (CMath.mk Real.sin Real.cos Real.tan Real.sinh Real.cosh Real.tanh Real.exp
        Real.log (fun x y => x ^ y)) Real.pi ⟨2 ^ 32, fun n => (n : ℝ)⟩ = none ∧
    ¬ ∃ X : StdVector (StdComplex ℝ),
      fft (CMath.mk Real.sin Real.cos Real.tan Real.sinh Real.cosh Real.tanh Real.exp
        Real.log (fun x y => x ^ y)) Real.pi ⟨2 ^ 32, fun n => (n : ℝ)⟩ = some X ∧
      ∀ k, k < 2 ^ 32 → X.data k =
        (dft (CMath.mk Real.sin Real.cos Real.tan Real.sinh Real.cosh Real.tanh Real.exp
          Real.log (fun x y => x ^ y)) Real.pi ⟨2 ^ 32, fun n => (n : ℝ)⟩).data k := by
  refine ⟨rfl, fft_outside _ _ _ rfl, ?_⟩
  rintro ⟨X, hX, -⟩
  rw [fft_outside _ _ _ rfl] at hX
  exact Option.noConfusion hX

/-- C26, amended: with the laws of sine, cosine and `pi`, for every real input vector `x`
of `2 ^ m` samples with `1 ≤ m ≤ 31`, `fft (x)` makes no access outside a vector and has
the size and the entries of `dft (x)`, and `idft (dft (x))` has the size of `x` and its
entry `n` is the complex number with real part `x[n]` and imaginary part `0`. -/
theorem fft_eq_dft (hl : TrigLaws F pi) (x : StdVector K) (m : Nat) (hm1 : 1 ≤ m)
    (hm : m ≤ 31) (hsize : x.size = 2 ^ m) :
    (∃ X : StdVector (StdComplex K), fft F pi x = some X ∧
      X.size = (dft F pi x).size ∧
      ∀ k, k < x.size → X.data k = (dft F pi x).data k) ∧
    ((idft F pi (dft F pi x)).size = x.size ∧
      ∀ n, n < x.size → (idft F pi (dft F pi x)).data n = ⟨x.data n, 0⟩) := by
  have hN : 0 < x.size := by
    rw [hsize]
    exact Nat.pos_pow_of_pos m (by decide)
  refine ⟨?_, rfl, ?_⟩
  · obtain ⟨X, hX, hXs, hXd⟩ := fft_spec hl x m hm1 hm hsize
    refine ⟨X, hX, hXs, ?_⟩
    intro k hk
    rw [hXd k hk, dft_spec hl x m (by omega) hsize k hk]
  · intro n hn
    have hds : (dft F pi x).size = x.size := rfl
    rw [idft_spec hl (dft F pi x) m (by omega) (by rw [hds, hsize]) n (by rw [hds]; exact hn),
      hds]
    have h1 : ∀ k ∈ Finset.range x.size,
        (dft F pi x).data k * nthRootOfUnity F pi (-((k : Int) * (n : Int))) x.size =
        (∑ j in Finset.range x.size, StdComplex.ofReal (x.data j) *
            nthRootOfUnity F pi ((k : Int) * (j : Int)) x.size) *
          nthRootOfUnity F pi (-((k : Int) * (n : Int))) x.size := by
      intro k hk
      rw [dft_spec hl x m (by omega) hsize k (Finset.mem_range.mp hk)]
    rw [Finset.sum_congr rfl h1]
    exact fourier_inversion hl x.size hN (fun j => StdComplex.ofReal (x.data j)) n hn

/-- The fast and the direct transform on the four samples `0, 1, 2, 3`, with the
functions of the real numbers. -/
theorem fft_eq_dft_witness :
    (1 ≤ 2 ∧ 2 ≤ 31 ∧ (⟨4, fun n => (n : ℝ)⟩ : StdVector ℝ).size = 2 ^ 2) ∧
      (∃ X : StdVector (StdComplex ℝ),
        fft (CMath.mk Real.sin Real.cos Real.tan Real.sinh Real.cosh Real.tanh Real.exp
          Real.log (fun x y => x ^ y)) Real.pi ⟨4, fun n => (n : ℝ)⟩ = some X ∧
        X.data 1 =
          (dft (CMath.mk Real.sin Real.cos Real.tan Real.sinh Real.cosh Real.tanh Real.exp
            Real.log (fun x y => x ^ y)) Real.pi ⟨4, fun n => (n : ℝ)⟩).data 1) ∧
      (idft (CMath.mk Real.sin Real.cos Real.tan Real.sinh Real.cosh Real.tanh Real.exp
          Real.log (fun x y => x ^ y)) Real.pi
        (dft (CMath.mk Real.sin Real.cos Real.tan Real.sinh Real.cosh Real.tanh Real.exp
          Real.log (fun x y => x ^ y)) Real.pi ⟨4, fun n => (n : ℝ)⟩)).data 3 =
        ⟨((3 : Nat) : ℝ), 0⟩ :=
  ⟨⟨by decide, by decide, rfl⟩,
    (fft_eq_dft realTrigLaws ⟨4, fun n => (n : ℝ)⟩ 2 (by decide) (by decide) rfl).1.imp
      fun _ h => ⟨h.1, h.2.2 1 (by decide)⟩,
    (fft_eq_dft realTrigLaws ⟨4, fun n => (n : ℝ)⟩ 2 (by decide) (by decide) rfl).2.2 3
      (by decide)⟩

end FourierClaims
/-! ## Circuits without non-linear elements: the solve of every Newton-Raphson pass -/

namespace Matrix

variable {K : Type} [LinearOrderedField K]

theorem luInit_inv_into (A : Matrix K) (hsq : A.N = A.M) (dest : LUPair K)
    (hlN : dest.l.N = A.M) (hlM : dest.l.M = A.M) : LUInv A 0 (luInit A dest) := by
  have h := luInit_loop A { dest with u := A, l := dest.l.fill 0 } A.N (le_refl _)
  simp only [] at h
  obtain ⟨h1, h2, h3, h4, h5, h6⟩ := h
  have hl : ∀ i j, i < A.M → j < A.M →
      (luInit A dest).l.data (i * A.N + j) = if i = j then 1 else 0 := by
    intro i j hi hj
    have := h5 i j (by omega) (by omega)
    simp only [luInit, forRange, Nat.sub_zero]
    rw [this]
    have hi' : i < A.N := by omega
    simp [hi', Matrix.fill]
  have hp : ∀ i, i < A.M → (luInit A dest).p i = i := by
    intro i hi
    have := h6 i
    simp only [luInit, forRange, Nat.sub_zero]
    rw [this]
    have hi' : i < A.N := by omega
    simp [hi']
  have hu : (luInit A dest).u = A := by
    simp only [luInit, forRange, Nat.sub_zero]
    exact h1
  constructor
  · rw [hu]
  · rw [hu]
  · simp only [luInit, forRange, Nat.sub_zero]; rw [h2]; exact hlN
  · simp only [luInit, forRange, Nat.sub_zero]; rw [h3]; exact hlM
  · intro i hi; rw [hp i hi]; exact hi
  · intro i hi j hj h; rw [hp i hi, hp j hj] at h; exact h
  · intro i hi; rw [hl i i hi hi]; simp
  · intro i hi j hj hij _; rw [hl i j hi hj]; simp [hij]
  · intro i _ j _ hjk _; omega
  · intro i hi j hj
    rw [hp i hi, hu]
    rw [Finset.sum_congr rfl (fun t ht => by
      rw [hl i t hi (Finset.mem_range.mp ht)])]
    simp [Finset.sum_ite_eq, hi]

theorem luInto_inv (A : Matrix K) (hsq : A.N = A.M) (dest : LUPair K)
    (hlN : dest.l.N = A.M) (hlM : dest.l.M = A.M) (k : Nat) (hk : k ≤ A.M) :
    LUInv A k (forLoop (luStep A) 0 k (luInit A dest)) := by
  induction k with
  | zero => exact luInit_inv_into A hsq dest hlN hlM
  | succ k ih =>
    have := luStep_inv A hsq k (by omega) _ (ih (by omega))
    simpa [forLoop] using this

theorem luPairInto_inv (A : Matrix K) (hsq : A.N = A.M) (dest : LUPair K)
    (hlN : dest.l.N = A.M) (hlM : dest.l.M = A.M) :
    LUInv A (A.M - 1) (luPairInto A dest) := by
  have h := luInto_inv A hsq dest hlN hlM (A.M - 1) (by omega)
  simpa [luPairInto, forRange] using h

theorem luInv_p_surj (A : Matrix K) (lu : LUPair K) (k0 : Nat) (h : LUInv A k0 lu)
    (k : Nat) (hk : k < A.M) : ∃ i, i < A.M ∧ lu.p i = k := by
  let f : Fin A.M → Fin A.M := fun i => ⟨lu.p i.val, h.pBound i.val i.isLt⟩
  have hf : Function.Injective f := by
    intro a b hab
    have := congrArg Fin.val hab
    exact Fin.ext (h.pInj a.val a.isLt b.val b.isLt this)
  obtain ⟨i, hi⟩ := Finite.surjective_of_injective hf ⟨k, hk⟩
  exact ⟨i.val, i.isLt, congrArg Fin.val hi⟩

/-- The factorisation into any `LUPair` of the right size followed by the substitutions
into any buffers solves the system of a nonsingular matrix. -/
theorem leftDivideWith_into_solves (A b : Matrix K) (dest : LUPair K) (sc0 d0 : Nat → K)
    (hsq : A.N = A.M) (hlN : dest.l.N = A.M) (hlM : dest.l.M = A.M)
    (hns : Nonsingular A) (i : Nat) (hi : i < A.M) :
    ∑ j in Finset.range A.M,
      A.data (i * A.N + j) * leftDivideWith A b (luPairInto A dest) sc0 d0 j = b.data i := by
  have h := luPairInto_inv A hsq dest hlN hlM
  have hd : ∀ i, i < A.M → (luPairInto A dest).u.data (i * A.N + i) ≠ 0 := by
    intro i hi
    obtain ⟨s, hs, hdet⟩ := lu_det A (luPairInto A dest) (A.M - 1) (le_refl _) h
    have hne : s * (toSq A).det ≠ 0 := mul_ne_zero hs hns
    rw [hdet] at hne
    exact (Finset.prod_ne_zero_iff.mp hne) ⟨i, hi⟩ (Finset.mem_univ _)
  obtain ⟨y, hy1, hy2⟩ := leftDivideWith_spec A b (luPairInto A dest) sc0 d0 hsq
    h.lDiag (fun i hi j hj hij => h.lOff i hi j hj (by omega) (Or.inl hij))
    (fun i hi j hj hji => h.uLow i hi j hj (by omega) hji) hd
  obtain ⟨m, hm, hpm⟩ := luInv_p_surj A _ _ h i hi
  have hbi : b.data i = b.data ((luPairInto A dest).p m) := by rw [hpm]
  rw [hbi, ← hy1 m hm]
  have hA : ∀ j, j < A.M → A.data (i * A.N + j) =
      ∑ t in Finset.range A.M, (luPairInto A dest).l.data (m * A.N + t) *
        (luPairInto A dest).u.data (t * A.N + j) := by
    intro j hj
    rw [h.prod m hm j hj, hpm]
  have hL : ∀ j, j ∈ Finset.range A.M →
      A.data (i * A.N + j) * leftDivideWith A b (luPairInto A dest) sc0 d0 j =
      ∑ t in Finset.range A.M, (luPairInto A dest).l.data (m * A.N + t) *
        (luPairInto A dest).u.data (t * A.N + j) *
          leftDivideWith A b (luPairInto A dest) sc0 d0 j := by
    intro j hj
    rw [hA j (Finset.mem_range.mp hj), Finset.sum_mul]
  have hR : ∀ t, t ∈ Finset.range A.M → (luPairInto A dest).l.data (m * A.N + t) * y t =
      ∑ j in Finset.range A.M, (luPairInto A dest).l.data (m * A.N + t) *
        (luPairInto A dest).u.data (t * A.N + j) *
          leftDivideWith A b (luPairInto A dest) sc0 d0 j := by
    intro t ht
    rw [← hy2 t (Finset.mem_range.mp ht), Finset.mul_sum]
    exact Finset.sum_congr rfl (fun j _ => by ring)
  rw [Finset.sum_congr rfl hL, Finset.sum_congr rfl hR, Finset.sum_comm]

/-- A square matrix of three rows is nonsingular when its determinant, written out, is
not zero. -/
theorem nonsingular_three (A : Matrix K) (hM : A.M = 3) (hN : A.N = 3)
    (hdet : A.data 0 * A.data 4 * A.data 8 - A.data 0 * A.data 5 * A.data 7
      - A.data 1 * A.data 3 * A.data 8 + A.data 1 * A.data 5 * A.data 6
      + A.data 2 * A.data 3 * A.data 7 - A.data 2 * A.data 4 * A.data 6 ≠ 0) :
    Nonsingular A := by
  obtain ⟨data, M, N⟩ := A
  simp only at hM hN
  subst hM hN
  unfold Nonsingular toSq
  rw [Matrix.det_fin_three]
  simpa [Matrix.get] using hdet

/-- The system of a source of value `V` at node 1, a conductance `g` between the nodes 1
and 2 and a conductance `h` with a source current `I` at node 2: the solve returns
`V` at node 1 and `(I + g * V) / (g + h)` at node 2. -/
theorem series_solve (A b : Matrix K) (dest : LUPair K) (sc0 d0 : Nat → K)
    (g h I V : K) (hM : A.M = 3) (hN : A.N = 3)
    (hlN : dest.l.N = 3) (hlM : dest.l.M = 3) (hgh : g + h ≠ 0)
    (a0 : A.data 0 = g) (a1 : A.data 1 = -g) (a2 : A.data 2 = 1)
    (a3 : A.data 3 = -g) (a4 : A.data 4 = g + h) (a5 : A.data 5 = 0)
    (a6 : A.data 6 = 1) (a7 : A.data 7 = 0) (a8 : A.data 8 = 0)
    (b0 : b.data 0 = 0) (b1 : b.data 1 = I) (b2 : b.data 2 = V) :
    leftDivideWith A b (luPairInto A dest) sc0 d0 0 = V ∧
      leftDivideWith A b (luPairInto A dest) sc0 d0 1 = (I + g * V) / (g + h) := by
  have hns : Nonsingular A := by
    apply nonsingular_three A hM hN
    rw [a0, a1, a2, a3, a4, a5, a6, a7, a8]
    intro hz
    apply hgh
    linarith
  have hsq : A.N = A.M := by rw [hM, hN]
  have hs := leftDivideWith_into_solves A b dest sc0 d0 hsq (by rw [hM]; exact hlN)
    (by rw [hM]; exact hlM) hns
  have e1 := hs 1 (by omega)
  have e2 := hs 2 (by omega)
  rw [hM, hN] at e1 e2
  simp only [Finset.sum_range_succ, Finset.sum_range_zero, zero_add] at e1 e2
  norm_num at e1 e2
  rw [a3, a4, a5, b1] at e1
  rw [a6, a7, a8, b2] at e2
  have x0 : leftDivideWith A b (luPairInto A dest) sc0 d0 0 = V := by linarith
  refine ⟨x0, ?_⟩
  rw [x0] at e1
  rw [eq_div_iff hgh]
  linarith

end Matrix

/-! ## Circuits without non-linear elements: the caches and the loops of `simulate` -/

namespace SimulationEnvironment

variable {K : Type} [LinearOrderedField K]

/-- With coherent caches and no non-linear element, `generateNonLinearStamp` returns the
dynamic stamp and leaves coherent caches. -/
theorem StampCache.generate (ce : CircuitElements K) (sol : Matrix K) (n : Nat) (dt : K)
    (Z S D : Stamp K) (h : StampCache ce Z S D)
    (hD : S.addDynamicStamps ce.dynamicElements sol n dt = D) :
    ∃ r : CircuitElements K, ce.generateNonLinearStamp sol n dt = Except.ok r ∧
      r.nonLinearStamp = D ∧ r.staticElements = ce.staticElements ∧
      r.dynamicElements = ce.dynamicElements ∧ StampCache r Z S D := by
  have hnl := h.nonLinear
  by_cases hdyn : ce.dynamicStampIsFresh = true
  · refine ⟨{ ce with nonLinearStamp := ce.dynamicStamp, nonLinearStampIsFresh := true },
      ?_, h.dynamic hdyn, rfl, rfl, ⟨hnl, h.clear, h.genStatic, h.clearStatic, h.static,
        h.dynamic⟩⟩
    simp only [CircuitElements.generateNonLinearStamp, hdyn, Bool.not_true,
      Bool.false_eq_true, if_false, hnl, Stamp.addNonLinearStamps]
  · have hdyn' : ce.dynamicStampIsFresh = false := by simpa using hdyn
    by_cases hst : ce.staticStampIsFresh = true
    · have hS := h.static hst
      refine ⟨{ ce with
          dynamicStamp := D
          dynamicStampIsFresh := true
          nonLinearStamp := D
          nonLinearStampIsFresh := true }, ?_, rfl, rfl, rfl,
        ⟨hnl, h.clear, h.genStatic, h.clearStatic, h.static, fun _ => rfl⟩⟩
      simp only [CircuitElements.generateNonLinearStamp, hdyn', Bool.not_false, if_true,
        CircuitElements.generateDynamicStamp, hst, Bool.not_true, Bool.false_eq_true,
        if_false, hnl, Stamp.addNonLinearStamps, Stamp.addDynamicStamps, List.foldl_nil, hS]
      simp only [Stamp.addDynamicStamps] at hD
      rw [hD]
    · have hst' : ce.staticStampIsFresh = false := by simpa using hst
      have hgen : ((ce.staticStamp.clear.addStaticStamps ce.staticElements).addStaticStamps
          ce.dynamicElements).addStaticStamps [] = S := by
        rw [h.clear]
        show (Z.addStaticStamps ce.staticElements).addStaticStamps ce.dynamicElements = S
        rw [← CircuitElements.addStaticStamps_append]
        exact h.genStatic
      refine ⟨{ ce with
          staticStamp := S
          staticStampIsFresh := true
          dynamicStamp := D
          dynamicStampIsFresh := true
          nonLinearStamp := D
          nonLinearStampIsFresh := true }, ?_, rfl, rfl, rfl,
        ⟨hnl, h.clearStatic, h.genStatic, h.clearStatic, fun _ => rfl, fun _ => rfl⟩⟩
      simp only [Stamp.addDynamicStamps] at hD
      simp only [CircuitElements.generateNonLinearStamp, hdyn', Bool.not_false, if_true,
        CircuitElements.generateDynamicStamp, hst', CircuitElements.generateStaticStamp,
        hnl, hgen, Stamp.addNonLinearStamps, Stamp.addDynamicStamps, List.foldl_nil, hD]

/-- One pass of the Newton-Raphson loop for a series stamp: the pass returns, keeps the
invariant, and writes the solution into column `n`. -/
theorem series_newtonIteration (env0 env : SimulationEnvironment K) (t : Matrix K)
    (n : Nat) (Z S D : Stamp K) (g h I V : K) (hn : n < env0.solutionMat.N)
    (hinv : SeriesInv env0 env t n Z S D) (hshape : SeriesStamp D g h I V)
    (hgh : g + h ≠ 0)
    (hD : ∀ sol : Matrix K, sol.N = env0.solutionMat.N →
      (∀ k j, j < env0.solutionMat.N → j ≠ n → sol.get k j = env0.solutionMat.get k j) →
      S.addDynamicStamps env0.elements.dynamicElements sol n env0.timestep = D) :
    ∃ (env1 : SimulationEnvironment K) (t1 : Matrix K) (maxDiff : K),
      env.newtonIteration t n = Except.ok (env1, t1, maxDiff) ∧
      SeriesInv env0 env1 t1 n Z S D ∧
      env1.solutionMat.get 0 n = V ∧ env1.solutionMat.get 1 n = (I + g * V) / (g + h) := by
  have hDe : S.addDynamicStamps env.elements.dynamicElements env.solutionMat n env.timestep
      = D := by
    rw [hinv.dynamicElements, hinv.timestep]
    exact hD env.solutionMat hinv.solN hinv.frame
  obtain ⟨r, hr, r1, r2, r3, r4⟩ := StampCache.generate env.elements env.solutionMat n
    env.timestep Z S D hinv.cache hDe
  obtain ⟨x0, x1⟩ := Matrix.series_solve D.G D.s env.luPair env.scratchSpace.data t.data
    g h I V hshape.GM hshape.GN hinv.lN hinv.lM hgh hshape.g0 hshape.g1 hshape.g2 hshape.g3
    hshape.g4 hshape.g5 hshape.g6 hshape.g7 hshape.g8 hshape.s0 hshape.s1 hshape.s2
  have hlu := Matrix.luPairInto_inv D.G (by rw [hshape.GM, hshape.GN]) env.luPair
    (by rw [hshape.GM]; exact hinv.lN) (by rw [hshape.GM]; exact hinv.lM)
  obtain ⟨h1, h2, h3⟩ := setLoop_spec
    (fun k => Matrix.get { t with
      data := D.G.leftDivideWith D.s (D.G.luPairInto env.luPair) env.scratchSpace.data
        t.data } k 0)
    n env.solutionMat env.solutionMat.M
  have hnN : n < env.solutionMat.N := by rw [hinv.solN]; exact hn
  have hget : ∀ k, Matrix.get { t with
      data := D.G.leftDivideWith D.s (D.G.luPairInto env.luPair) env.scratchSpace.data
        t.data } k 0 =
      D.G.leftDivideWith D.s (D.G.luPairInto env.luPair) env.scratchSpace.data t.data k := by
    intro k
    show D.G.leftDivideWith D.s (D.G.luPairInto env.luPair) env.scratchSpace.data t.data
      (k * t.N + 0) = _
    rw [hinv.tempN, Nat.mul_one, Nat.add_zero]
  simp only [newtonIteration, hr, r1, forRange, Nat.sub_zero]
  refine ⟨_, _, _, rfl, ?_, ?_, ?_⟩
  · refine ⟨r4, r2.trans hinv.staticElements, r3.trans hinv.dynamicElements, hinv.steps,
      hinv.timestep, ?_, ?_, h1.trans hinv.solM, h2.trans hinv.solN, hinv.tempN, ?_⟩
    · rw [hlu.lN, hshape.GM]
    · rw [hlu.lM, hshape.GM]
    · intro k j hj hjn
      have e := h3 k j (by rw [hinv.solN]; exact hj) hnN
      rw [if_neg (fun hh => hjn hh.1)] at e
      rw [get_of_data _ env.solutionMat k j h2 _ e]
      exact hinv.frame k j hj hjn
  · have e := h3 0 n hnN hnN
    rw [if_pos ⟨rfl, by rw [hinv.solM]; decide⟩, hget, x0] at e
    exact get_of_data _ env.solutionMat 0 n h2 _ e
  · have e := h3 1 n hnN hnN
    rw [if_pos ⟨rfl, by rw [hinv.solM]; decide⟩, hget, x1] at e
    exact get_of_data _ env.solutionMat 1 n h2 _ e

theorem SeriesInv.clearFlag (env0 env : SimulationEnvironment K) (t : Matrix K) (n : Nat)
    (Z S D : Stamp K) (h : SeriesInv env0 env t n Z S D) :
    SeriesInv env0
      { env with elements := { env.elements with nonLinearStampIsFresh := false } }
      t n Z S D :=
  ⟨⟨h.cache.nonLinear, h.cache.clear, h.cache.genStatic, h.cache.clearStatic,
      h.cache.static, h.cache.dynamic⟩, h.staticElements, h.dynamicElements, h.steps,
    h.timestep, h.lN, h.lM, h.solM, h.solN, h.tempN, h.frame⟩

/-- The Newton-Raphson loop of a step for a series stamp: the loop returns, keeps the
invariant, and column `n` holds the solution. -/
theorem series_newtonLoop (env0 : SimulationEnvironment K) (n : Nat) (Z S D : Stamp K)
    (g h I V : K) (hn : n < env0.solutionMat.N) (hshape : SeriesStamp D g h I V)
    (hgh : g + h ≠ 0)
    (hD : ∀ sol : Matrix K, sol.N = env0.solutionMat.N →
      (∀ k j, j < env0.solutionMat.N → j ≠ n → sol.get k j = env0.solutionMat.get k j) →
      S.addDynamicStamps env0.elements.dynamicElements sol n env0.timestep = D)
    (fuel : Nat) :
    ∀ (env : SimulationEnvironment K) (t : Matrix K), SeriesInv env0 env t n Z S D →
      ∃ (env1 : SimulationEnvironment K) (t1 : Matrix K),
        newtonLoop n (fuel + 1) env t = Except.ok (env1, t1) ∧
        SeriesInv env0 env1 t1 n Z S D ∧
        env1.solutionMat.get 0 n = V ∧
        env1.solutionMat.get 1 n = (I + g * V) / (g + h) := by
  induction fuel with
  | zero =>
    intro env t hinv
    obtain ⟨e1, t1, md, hit, hinv1, q0, q1⟩ := series_newtonIteration env0 env t n Z S D
      g h I V hn hinv hshape hgh hD
    by_cases hc : md < 1e-12
    · refine ⟨e1, t1, ?_, hinv1, q0, q1⟩
      simp only [newtonLoop, hit, hc, if_true]
    · refine ⟨{ e1 with elements := { e1.elements with nonLinearStampIsFresh := false } },
        t1, ?_, SeriesInv.clearFlag env0 e1 t1 n Z S D hinv1, q0, q1⟩
      simp only [newtonLoop, hit, hc, if_false]
  | succ fuel ih =>
    intro env t hinv
    obtain ⟨e1, t1, md, hit, hinv1, q0, q1⟩ := series_newtonIteration env0 env t n Z S D
      g h I V hn hinv hshape hgh hD
    by_cases hc : md < 1e-12
    · refine ⟨e1, t1, ?_, hinv1, q0, q1⟩
      rw [newtonLoop]
      simp only [hit, hc, if_true]
    · obtain ⟨e2, t2, hl, hinv2, p0, p1⟩ := ih
        { e1 with elements := { e1.elements with nonLinearStampIsFresh := false } } t1
        (SeriesInv.clearFlag env0 e1 t1 n Z S D hinv1)
      refine ⟨e2, t2, ?_, hinv2, p0, p1⟩
      rw [newtonLoop]
      simp only [hit, hc, if_false]
      exact hl

/-- The step `n` of the time loop for a series stamp: the step returns the environment
left by the Newton-Raphson loop with the registry updated by `updateTimeStep`. -/
theorem series_simulateStep (env0 : SimulationEnvironment K) (t : Matrix K) (n : Nat)
    (Z S D : Stamp K) (g h I V : K) (hn : n < env0.solutionMat.N)
    (hinv : SeriesInv env0 env0 t n Z S D) (hshape : SeriesStamp D g h I V)
    (hgh : g + h ≠ 0)
    (hD : ∀ sol : Matrix K, sol.N = env0.solutionMat.N →
      (∀ k j, j < env0.solutionMat.N → j ≠ n → sol.get k j = env0.solutionMat.get k j) →
      S.addDynamicStamps env0.elements.dynamicElements sol n env0.timestep = D) :
    ∃ (envL : SimulationEnvironment K) (t1 : Matrix K),
      SeriesInv env0 envL t1 n Z S D ∧
      envL.solutionMat.get 0 n = V ∧
      envL.solutionMat.get 1 n = (I + g * V) / (g + h) ∧
      env0.simulateStep t n = Except.ok
        ({ envL with elements :=
            if n = 1 then
              { envL.elements.updateTimeStep envL.solutionMat n envL.timestep with
                staticStampIsFresh := false }
            else envL.elements.updateTimeStep envL.solutionMat n envL.timestep }, t1) := by
  obtain ⟨e1, t1, hl, hinv1, q0, q1⟩ := series_newtonLoop env0 n Z S D g h I V hn hshape
    hgh hD 31 env0 t hinv
  refine ⟨e1, t1, hinv1, q0, q1, ?_⟩
  simp only [simulateStep, hl]

/-- An invariant of the steps of the time loop holds when the loop ends. -/
theorem simulateLoop_invariant (steps : Nat)
    (Inv : Nat → SimulationEnvironment K → Matrix K → Prop)
    (hstep : ∀ n env t, 1 ≤ n → n < steps → Inv n env t →
      ∃ (env1 : SimulationEnvironment K) (t1 : Matrix K),
        env.simulateStep t n = Except.ok (env1, t1) ∧ Inv (n + 1) env1 t1) :
    ∀ (count n : Nat) (env : SimulationEnvironment K) (t : Matrix K),
      1 ≤ n → n + count ≤ steps → Inv n env t →
      ∃ (env1 : SimulationEnvironment K) (t1 : Matrix K),
        simulateLoop count n env t = Except.ok (env1, t1) ∧ Inv (n + count) env1 t1 := by
  intro count
  induction count with
  | zero =>
    intro n env t _ _ hI
    exact ⟨env, t, rfl, hI⟩
  | succ count ih =>
    intro n env t hn1 hle hI
    obtain ⟨e1, t1, hs, hI1⟩ := hstep n env t hn1 (by omega) hI
    obtain ⟨e2, t2, hl, hI2⟩ := ih (n + 1) e1 t1 (by omega) (by omega) hI1
    refine ⟨e2, t2, ?_, ?_⟩
    · rw [simulateLoop]
      simp only [hs]
      exact hl
    · have e : n + (count + 1) = n + 1 + count := by omega
      rw [e]
      exact hI2

end SimulationEnvironment

/-! ## The entries of the stamps of a source, two resistors and a capacitor -/

section SeriesStamps

variable {K : Type} [LinearOrderedField K]

theorem ThreeUnknowns.new : ThreeUnknowns (Stamp.new 2 1 : Stamp K) :=
  ⟨rfl, rfl, rfl, rfl, rfl, rfl⟩

theorem ThreeUnknowns.clear_eq (st : Stamp K) (h : ThreeUnknowns st) :
    st.clear = Stamp.new 2 1 :=
  Stamp.clear_congr st (Stamp.new 2 1) h.sizeA h.sizeD h.GM h.GN h.sM h.sN

/-- The stamp of the source `V 1 0 V` with current index `1`. -/
theorem source_stamp (V : K) (st : Stamp K) (h : ThreeUnknowns st) :
    ThreeUnknowns ((VoltageSource.mk V 1 0 1).addStaticStampTo st) ∧
    (∀ k, ((VoltageSource.mk V 1 0 1).addStaticStampTo st).G.data k =
      st.G.data k + (if k = 2 then 1 else 0) + (if k = 6 then 1 else 0)) ∧
    (∀ k, ((VoltageSource.mk V 1 0 1).addStaticStampTo st).s.data k =
      st.s.data k + (if k = 2 then V else 0)) := by
  obtain ⟨h1, h2, h3, h4, h5, h6⟩ := h
  have e : (VoltageSource.mk V 1 0 1).addStaticStampTo st =
      ((st.addG 0 (st.sizeG_A + 0) 1).addG (st.sizeG_A + 0) 0 1).addS (st.sizeG_A + 0) V := by
    simp [VoltageSource.addStaticStampTo, Stamp.addG_sizeG_A]
  rw [e]
  refine ⟨⟨h1, h2, h3, h4, h5, h6⟩, fun k => ?_, fun k => ?_⟩
  · simp only [Stamp.addS_G, Stamp.addG_s, Stamp.addG_G_data, Stamp.addS_s_data,
      Stamp.addG_G_N, Stamp.addS_s_N, h1, h4, h6, Nat.zero_mul, Nat.one_mul, Nat.zero_add,
      Nat.add_zero, Nat.reduceAdd, Nat.reduceMul]
  · simp only [Stamp.addS_G, Stamp.addG_s, Stamp.addG_G_data, Stamp.addS_s_data,
      Stamp.addG_G_N, Stamp.addS_s_N, h1, h4, h6, Nat.zero_mul, Nat.one_mul, Nat.zero_add,
      Nat.add_zero, Nat.reduceAdd, Nat.reduceMul]

/-- The stamp of the resistor `R 1 2 r`. -/
theorem resistor12_stamp (r : K) (st : Stamp K) (h : ThreeUnknowns st) :
    ThreeUnknowns ((Resistor.mk r 1 2 0 true).addStaticStampTo st) ∧
    (∀ k, ((Resistor.mk r 1 2 0 true).addStaticStampTo st).G.data k =
      st.G.data k + (if k = 0 then 1 / r else 0) + (if k = 4 then 1 / r else 0) +
        (if k = 1 then -(1 / r) else 0) + (if k = 3 then -(1 / r) else 0)) ∧
    ((Resistor.mk r 1 2 0 true).addStaticStampTo st).s = st.s := by
  obtain ⟨h1, h2, h3, h4, h5, h6⟩ := h
  have e : (Resistor.mk r 1 2 0 true).addStaticStampTo st =
      (((st.addG 0 0 (1 / r)).addG 1 1 (1 / r)).addG 0 1 (-(1 / r))).addG 1 0 (-(1 / r)) := by
    simp [Resistor.addStaticStampTo]
  rw [e]
  refine ⟨⟨h1, h2, h3, h4, h5, h6⟩, fun k => ?_, rfl⟩
  simp only [Stamp.addS_G, Stamp.addG_s, Stamp.addG_G_data, Stamp.addS_s_data,
    Stamp.addG_G_N, Stamp.addS_s_N, h1, h4, h6, Nat.zero_mul, Nat.one_mul, Nat.zero_add,
    Nat.add_zero, Nat.reduceAdd, Nat.reduceMul]

/-- The stamp of the resistor `R 2 0 r`. -/
theorem resistor20_stamp (r : K) (st : Stamp K) (h : ThreeUnknowns st) :
    ThreeUnknowns ((Resistor.mk r 2 0 0 true).addStaticStampTo st) ∧
    (∀ k, ((Resistor.mk r 2 0 0 true).addStaticStampTo st).G.data k =
      st.G.data k + (if k = 4 then 1 / r else 0)) ∧
    ((Resistor.mk r 2 0 0 true).addStaticStampTo st).s = st.s := by
  obtain ⟨h1, h2, h3, h4, h5, h6⟩ := h
  have e : (Resistor.mk r 2 0 0 true).addStaticStampTo st = st.addG 1 1 (1 / r) := by
    simp [Resistor.addStaticStampTo]
  rw [e]
  refine ⟨⟨h1, h2, h3, h4, h5, h6⟩, fun k => ?_, rfl⟩
  simp only [Stamp.addS_G, Stamp.addG_s, Stamp.addG_G_data, Stamp.addS_s_data,
    Stamp.addG_G_N, Stamp.addS_s_N, h1, h4, h6, Nat.zero_mul, Nat.one_mul, Nat.zero_add,
    Nat.add_zero, Nat.reduceAdd, Nat.reduceMul]

/-- The dynamic stamp of the capacitor `C 2 0 c` with the trapezoidal rule. -/
theorem capacitor20_stamp (c i : K) (st : Stamp K) (sol : Matrix K) (n : Nat) (dt : K)
    (h : ThreeUnknowns st) :
    ThreeUnknowns ((Capacitor.mk c 2 0 i true).addDynamicStampTo st sol n dt) ∧
    ((Capacitor.mk c 2 0 i true).addDynamicStampTo st sol n dt).G.data 0 = st.G.data 0 ∧
    (∀ k, ((Capacitor.mk c 2 0 i true).addDynamicStampTo st sol n dt).G.data k =
      st.G.data k + (if k = 4 then 2 * c / dt else 0)) ∧
    (∀ k, ((Capacitor.mk c 2 0 i true).addDynamicStampTo st sol n dt).s.data k =
      st.s.data k + (if k = 1 then i + 2 * c / dt * sol.get 1 (n - 1) else 0)) := by
  obtain ⟨h1, h2, h3, h4, h5, h6⟩ := h
  have e : (Capacitor.mk c 2 0 i true).addDynamicStampTo st sol n dt =
      (st.addG 1 1 (2 * c / dt)).addS 1 (i + 2 * c / dt * sol.get 1 (n - 1)) := by
    simp [Capacitor.addDynamicStampTo, branchVoltage]
  rw [e]
  refine ⟨⟨h1, h2, h3, h4, h5, h6⟩, ?_, fun k => ?_, fun k => ?_⟩
  · simp only [Stamp.addS_G, Stamp.addG_s, Stamp.addG_G_data, Stamp.addS_s_data,
      Stamp.addG_G_N, Stamp.addS_s_N, h1, h4, h6, Nat.zero_mul, Nat.one_mul, Nat.zero_add,
      Nat.add_zero, Nat.reduceAdd, Nat.reduceMul]
    simp
  · simp only [Stamp.addS_G, Stamp.addG_s, Stamp.addG_G_data, Stamp.addS_s_data,
      Stamp.addG_G_N, Stamp.addS_s_N, h1, h4, h6, Nat.zero_mul, Nat.one_mul, Nat.zero_add,
      Nat.add_zero, Nat.reduceAdd, Nat.reduceMul]
  · simp only [Stamp.addS_G, Stamp.addG_s, Stamp.addG_G_data, Stamp.addS_s_data,
      Stamp.addG_G_N, Stamp.addS_s_N, h1, h4, h6, Nat.zero_mul, Nat.one_mul, Nat.zero_add,
      Nat.add_zero, Nat.reduceAdd, Nat.reduceMul]

/-- The DC stamp of the capacitor `C 2 0 c`. -/
theorem capacitor20_dc_stamp (c i : K) (st : Stamp K) (sol : Matrix K) (numCurrents : Nat)
    (h : ThreeUnknowns st) :
    ThreeUnknowns ((Capacitor.mk c 2 0 i true).addDCAnalysisStampTo st sol numCurrents) ∧
    (∀ k, ((Capacitor.mk c 2 0 i true).addDCAnalysisStampTo st sol numCurrents).G.data k =
      st.G.data k + (if k = 4 then 1e-9 else 0)) ∧
    ((Capacitor.mk c 2 0 i true).addDCAnalysisStampTo st sol numCurrents).s = st.s := by
  obtain ⟨h1, h2, h3, h4, h5, h6⟩ := h
  have e : (Capacitor.mk c 2 0 i true).addDCAnalysisStampTo st sol numCurrents =
      st.addG 1 1 1e-9 := by
    simp [Capacitor.addDCAnalysisStampTo]
  rw [e]
  refine ⟨⟨h1, h2, h3, h4, h5, h6⟩, fun k => ?_, rfl⟩
  simp only [Stamp.addS_G, Stamp.addG_s, Stamp.addG_G_data, Stamp.addS_s_data,
    Stamp.addG_G_N, Stamp.addS_s_N, h1, h4, h6, Nat.zero_mul, Nat.one_mul, Nat.zero_add,
    Nat.add_zero, Nat.reduceAdd, Nat.reduceMul]

/-- The static stamp of the source and the resistor `R 1 2 r` onto a zero stamp and a
further conductance `h` and source current `I` at node 2 make a series stamp. -/
theorem series_shape (V r h I : K) (st : Stamp K)
    (hst : ThreeUnknowns st)
    (hG : ∀ k, st.G.data k =
      ((Resistor.mk r 1 2 0 true).addStaticStampTo
        ((VoltageSource.mk V 1 0 1).addStaticStampTo (Stamp.new 2 1))).G.data k +
        (if k = 4 then h else 0))
    (hs : ∀ k, st.s.data k =
      ((Resistor.mk r 1 2 0 true).addStaticStampTo
        ((VoltageSource.mk V 1 0 1).addStaticStampTo (Stamp.new 2 1))).s.data k +
        (if k = 1 then I else 0)) :
    SeriesStamp st (1 / r) h I V := by
  obtain ⟨v1, v2, v3⟩ := source_stamp V (Stamp.new 2 1 : Stamp K) ThreeUnknowns.new
  obtain ⟨r1, r2, r3⟩ := resistor12_stamp r _ v1
  have z : ∀ k, (Stamp.new 2 1 : Stamp K).G.data k = 0 := fun _ => rfl
  have zs : ∀ k, (Stamp.new 2 1 : Stamp K).s.data k = 0 := fun _ => rfl
  constructor
  · exact hst.GM
  · exact hst.GN
  all_goals
    first
    | (rw [hG, r2, v2, z]; norm_num)
    | (rw [hs, r3, v3, zs]; norm_num)

end SeriesStamps

/-! ## The resistive divider -/

section Divider

variable {K : Type} [LinearOrderedField K]

/-- The registry after `updateTimeStep` and the reset of `staticStampIsFresh` at the
first step: the caches stay coherent for any dynamic stamp, because the dynamic stamp is
no longer flagged fresh. -/
theorem StampCache.afterStep (ce : CircuitElements K) (sol : Matrix K) (n : Nat) (dt : K)
    (Z S D D1 : Stamp K) (h : StampCache ce Z S D)
    (hgen : Z.addStaticStamps (ce.staticElements ++ ce.dynamicElements.map (fun c =>
      c.updateStoredState sol n dt ce.staticStamp.sizeG_A)) = S) :
    StampCache
      (if n = 1 then { ce.updateTimeStep sol n dt with staticStampIsFresh := false }
        else ce.updateTimeStep sol n dt) Z S D1 ∧
    (if n = 1 then { ce.updateTimeStep sol n dt with staticStampIsFresh := false }
        else ce.updateTimeStep sol n dt).staticElements = ce.staticElements ∧
    (if n = 1 then { ce.updateTimeStep sol n dt with staticStampIsFresh := false }
        else ce.updateTimeStep sol n dt).dynamicElements =
      ce.dynamicElements.map (fun c =>
        c.updateStoredState sol n dt ce.staticStamp.sizeG_A) := by
  have hnl : (ce.updateTimeStep sol n dt).nonLinearElements = [] := by
    simp only [CircuitElements.updateTimeStep, h.nonLinear, List.map_nil]
  by_cases hn : n = 1
  · simp only [hn, if_true]
    refine ⟨⟨?_, h.clear, ?_, h.clearStatic, ?_, ?_⟩, rfl, rfl⟩
    · rw [hn] at hnl
      exact hnl
    · rw [hn] at hgen
      exact hgen
    · intro hf
      exact absurd hf (by simp)
    · intro hf
      exact absurd hf (by simp [CircuitElements.updateTimeStep])
  · simp only [hn, if_false]
    refine ⟨⟨hnl, h.clear, hgen, h.clearStatic, h.static, ?_⟩, rfl, rfl⟩
    intro hf
    exact absurd hf (by simp [CircuitElements.updateTimeStep])

/-- The static stamp of the divider is a series stamp. -/
theorem divider_shape (V r1 r2 : K) :
    SeriesStamp ((Stamp.new 2 1 : Stamp K).addStaticStamps (dividerElements V r1 r2).staticElements)
      (1 / r1) (1 / r2) 0 V ∧
    ((Stamp.new 2 1 : Stamp K).addStaticStamps (dividerElements V r1 r2).staticElements).clear =
      Stamp.new 2 1 := by
  have e : (Stamp.new 2 1 : Stamp K).addStaticStamps (dividerElements V r1 r2).staticElements =
      (Resistor.mk r2 2 0 0 true).addStaticStampTo
        ((Resistor.mk r1 1 2 0 true).addStaticStampTo
          ((VoltageSource.mk V 1 0 1).addStaticStampTo (Stamp.new 2 1))) := rfl
  rw [e]
  obtain ⟨v1, -, -⟩ := source_stamp V (Stamp.new 2 1 : Stamp K) ThreeUnknowns.new
  obtain ⟨r1', -, -⟩ := resistor12_stamp r1 _ v1
  obtain ⟨q1, q2, q3⟩ := resistor20_stamp r2 _ r1'
  refine ⟨series_shape V r1 (1 / r2) 0 _ q1 q2 (fun k => ?_), ThreeUnknowns.clear_eq _ q1⟩
  rw [q3]
  simp

/-- C23: the divider `V 1 0 V`, `R1 1 2 r1`, `R2 2 0 r2` with `r1, r2 > 0`, any number
of steps and any timestep, constructed without DC analysis: the constructor and
`simulate` return, and in the solution matrix that `simulate` leaves every column
`n` with `1 ≤ n < steps` holds `V` at node 1 and `V * r2 / (r1 + r2)` at node 2, which
is the solve by `luPair` and `leftDivide` of the system assembled from the static
stamps. -/
theorem divider_node_voltage (V r1 r2 : K) (hr1 : 0 < r1) (hr2 : 0 < r2) (steps : Nat)
    (dt : K) :
    ∃ env0 env : SimulationEnvironment K,
      dividerEnvironment V r1 r2 steps dt = Except.ok env0 ∧
      env0.simulate = Except.ok env ∧
      ∀ n, 1 ≤ n → n < steps →
        env.solutionMat.get 0 n = V ∧ env.solutionMat.get 1 n = V * r2 / (r1 + r2) := by
  obtain ⟨hshape, hclear⟩ := divider_shape V r1 r2
  have hgh : 1 / r1 + 1 / r2 ≠ 0 := by positivity
  have hval : (0 + 1 / r1 * V) / (1 / r1 + 1 / r2) = V * r2 / (r1 + r2) := by
    field_simp
    ring
  -- the environment that the constructor returns
  let env0 : SimulationEnvironment K :=
    { steps := steps, timestep := dt,
      elements := (dividerElements V r1 r2).setNewStampSize 2 1 0,
      luPair := LUPair.new 3, scratchSpace := Matrix.mk0 3 1 0,
      solutionMat := Matrix.mk0 3 steps 0 }
  have hcons : dividerEnvironment V r1 r2 steps dt = Except.ok env0 := rfl
  -- the invariant of the time loop
  let Inv : Nat → SimulationEnvironment K → Matrix K → Prop := fun n env t =>
    SeriesInv env env t n (Stamp.new 2 1)
      ((Stamp.new 2 1 : Stamp K).addStaticStamps (dividerElements V r1 r2).staticElements)
      ((Stamp.new 2 1 : Stamp K).addStaticStamps (dividerElements V r1 r2).staticElements) ∧
    env.elements.staticElements = (dividerElements V r1 r2).staticElements ∧
    env.elements.dynamicElements = [] ∧
    env.solutionMat.N = steps ∧
    ∀ j, 1 ≤ j → j < n →
      env.solutionMat.get 0 j = V ∧ env.solutionMat.get 1 j = V * r2 / (r1 + r2)
  have hInv0 : Inv 1 env0 (Matrix.mk0 env0.solutionMat.M 1 0) := by
    refine ⟨⟨⟨rfl, rfl, ?_, hclear, ?_, ?_⟩, rfl, rfl, rfl, rfl, rfl, rfl, rfl, rfl, rfl,
      fun _ _ _ _ => rfl⟩, rfl, rfl, rfl, fun j h1 h2 => by omega⟩
    · show (Stamp.new 2 1 : Stamp K).addStaticStamps
        ((dividerElements V r1 r2).staticElements ++ []) = _
      rw [List.append_nil]
    · intro hf
      exact absurd hf (by simp [env0, CircuitElements.setNewStampSize])
    · intro hf
      exact absurd hf (by simp [env0, CircuitElements.setNewStampSize])
  have hstep : ∀ n env t, 1 ≤ n → n < steps → Inv n env t →
      ∃ (env1 : SimulationEnvironment K) (t1 : Matrix K),
        env.simulateStep t n = Except.ok (env1, t1) ∧ Inv (n + 1) env1 t1 := by
    intro n env t hn1 hn ⟨hinv, hL, hdyn, hN, hcol⟩
    obtain ⟨envL, t1, hinvL, q0, q1, hs⟩ := SimulationEnvironment.series_simulateStep env t n
      (Stamp.new 2 1) _ _ (1 / r1) (1 / r2) 0 V (by rw [hN]; exact hn) hinv hshape hgh
      (by
        intro sol _ _
        rw [hdyn]
        rfl)
    have hdynL : envL.elements.dynamicElements = [] := hinvL.dynamicElements.trans hdyn
    obtain ⟨c1, c2, c3⟩ := StampCache.afterStep envL.elements envL.solutionMat n
      envL.timestep (Stamp.new 2 1) _ _
      ((Stamp.new 2 1 : Stamp K).addStaticStamps (dividerElements V r1 r2).staticElements)
      hinvL.cache
      (by
        rw [hdynL, List.map_nil, List.append_nil, hinvL.staticElements, hL])
    refine ⟨_, t1, hs, ⟨c1, rfl, rfl, rfl, rfl, hinvL.lN, hinvL.lM, hinvL.solM, rfl,
      hinvL.tempN, fun _ _ _ _ => rfl⟩, ?_, ?_, ?_, ?_⟩
    · exact c2.trans (hinvL.staticElements.trans hL)
    · rw [c3, hdynL, List.map_nil]
    · exact hinvL.solN.trans hN
    · intro j hj1 hj
      by_cases hjn : j = n
      · rw [hjn]
        exact ⟨q0, by rw [← hval]; exact q1⟩
      · have hf0 := hinvL.frame 0 j (by rw [hN]; omega) hjn
        have hf1 := hinvL.frame 1 j (by rw [hN]; omega) hjn
        obtain ⟨p0, p1⟩ := hcol j hj1 (by omega)
        exact ⟨hf0.trans p0, hf1.trans p1⟩
  by_cases hs0 : steps = 0
  · refine ⟨env0, env0, hcons, ?_, fun n h1 h2 => by omega⟩
    simp only [SimulationEnvironment.simulate, env0, hs0, Nat.zero_sub,
      SimulationEnvironment.simulateLoop]
  · obtain ⟨env1, t1, hl, -, -, -, -, hcol⟩ :=
      SimulationEnvironment.simulateLoop_invariant steps Inv hstep (steps - 1) 1 env0
        (Matrix.mk0 env0.solutionMat.M 1 0) (le_refl 1) (by omega) hInv0
    refine ⟨env0, env1, hcons, ?_, fun n h1 h2 => hcol n h1 (by omega)⟩
    have hl' : SimulationEnvironment.simulateLoop (env0.steps - 1) 1 env0
        (Matrix.mk0 env0.solutionMat.M 1 0) = Except.ok (env1, t1) := hl
    simp only [SimulationEnvironment.simulate, hl']

/-- The divider with `V = 10` and `r1 = r2 = 1000` and three steps: column 2 holds `5`
at node 2. -/
theorem divider_node_voltage_witness :
    (0 : ℚ) < 1000 ∧
    ∃ env0 env : SimulationEnvironment ℚ,
      dividerEnvironment 10 1000 1000 3 (1 / 1000) = Except.ok env0 ∧
      env0.simulate = Except.ok env ∧ env.solutionMat.get 1 2 = 5 := by
  refine ⟨by norm_num, ?_⟩
  obtain ⟨env0, env, h0, h1, h2⟩ := divider_node_voltage (10 : ℚ) 1000 1000 (by norm_num)
    (by norm_num) 3 (1 / 1000)
  refine ⟨env0, env, h0, h1, ?_⟩
  rw [(h2 2 (by decide) (by decide)).2]
  norm_num

end Divider

/-! ## The RC circuit -/

section RC

variable {K : Type} [LinearOrderedField K]

/-- The dynamic stamp of the RC circuit onto its static stamp. -/
theorem rc_dynamic (V r c i dt : K) (sol : Matrix K) (n : Nat) :
    Stamp.addDynamicStamps
      ((Resistor.mk r 1 2 0 true).addStaticStampTo
        ((VoltageSource.mk V 1 0 1).addStaticStampTo (Stamp.new 2 1)))
      [Capacitor.toComponent (Capacitor.mk c 2 0 i true)] sol n dt =
    (((Resistor.mk r 1 2 0 true).addStaticStampTo
        ((VoltageSource.mk V 1 0 1).addStaticStampTo (Stamp.new 2 1))).addG 1 1
          (2 * c / dt)).addS 1 (i + 2 * c / dt * sol.get 1 (n - 1)) := by
  show (Capacitor.mk c 2 0 i true).addDynamicStampTo _ sol n dt = _
  simp [Capacitor.addDynamicStampTo, branchVoltage]

/-- The static stamp of the source and the resistor with a conductance `h` and a source
current `I` added at node 2 is a series stamp. -/
theorem rc_shape (V r h I : K) :
    SeriesStamp
      ((((Resistor.mk r 1 2 0 true).addStaticStampTo
        ((VoltageSource.mk V 1 0 1).addStaticStampTo (Stamp.new 2 1 : Stamp K))).addG 1 1
          h).addS 1 I) (1 / r) h I V ∧
    ((Resistor.mk r 1 2 0 true).addStaticStampTo
      ((VoltageSource.mk V 1 0 1).addStaticStampTo (Stamp.new 2 1 : Stamp K))).clear =
      Stamp.new 2 1 := by
  obtain ⟨v1, -, -⟩ := source_stamp V (Stamp.new 2 1 : Stamp K) ThreeUnknowns.new
  obtain ⟨⟨h1, h2, h3, h4, h5, h6⟩, -, -⟩ := resistor12_stamp r _ v1
  refine ⟨series_shape V r h I _ ⟨h1, h2, h3, h4, h5, h6⟩ (fun k => ?_) (fun k => ?_),
    ThreeUnknowns.clear_eq _ ⟨h1, h2, h3, h4, h5, h6⟩⟩
  · simp only [Stamp.addS_G, Stamp.addG_G_data, h4, Nat.one_mul, Nat.reduceAdd]
  · simp only [Stamp.addS_s_data, Stamp.addG_s, Stamp.addS_s_N, Stamp.addG_s, h6, Nat.one_mul,
      Nat.add_zero]

/-- The capacitor after `updateStoredState`. -/
theorem rc_update (c i dt : K) (sol : Matrix K) (n sizeG_A : Nat) :
    (Capacitor.toComponent (Capacitor.mk c 2 0 i true)).updateStoredState sol n dt sizeG_A =
      Capacitor.toComponent (Capacitor.mk c 2 0
        (2 * c / dt * sol.get 1 n - (i + 2 * c / dt * sol.get 1 (n - 1))) true) := by
  simp [Component.updateStoredState, Capacitor.toComponent, Capacitor.updateStoredState,
    branchVoltage]

theorem rc_first_step (g h V v0 : K) (hgh : g + h ≠ 0) :
    V - (0 + h * v0 + g * V) / (g + h) = h * (V - v0) / (g + h) * ((h - g) / (h + g)) ^ 0 ∧
    h * ((0 + h * v0 + g * V) / (g + h)) - (0 + h * v0) =
      g * (h * (V - v0) / (g + h) * ((h - g) / (h + g)) ^ 0) := by
  constructor
  · field_simp
    ring
  · field_simp
    ring

theorem rc_next_step (g h V e : K) (hgh : g + h ≠ 0) :
    V - (g * e + h * (V - e) + g * V) / (g + h) = e * ((h - g) / (h + g)) ∧
    h * ((g * e + h * (V - e) + g * V) / (g + h)) - (g * e + h * (V - e)) =
      g * (e * ((h - g) / (h + g))) := by
  have hgh' : h + g ≠ 0 := by rwa [add_comm]
  constructor
  · field_simp
    ring
  · field_simp
    ring

/-- The columns that `simulate` leaves for the RC circuit, from any start with node-2
voltage `v0` in column 0 and no capacitor current: the distance of the node-2 voltage
from `V` is `h * (V - v0) / (g + h)` after the first step and is multiplied by
`(h - g) / (h + g)` in every further step, where `g = 1 / r` and `h = 2 * c / dt`. -/
theorem rc_simulate (V r c dt : K) (steps : Nat) (hgh : 1 / r + 2 * c / dt ≠ 0)
    (env0 : SimulationEnvironment K) (h0 : RCStart env0 V r c dt steps) :
    ∃ env : SimulationEnvironment K, env0.simulate = Except.ok env ∧
      env.solutionMat.get 1 0 = env0.solutionMat.get 1 0 ∧
      ∀ j, 1 ≤ j → j < steps →
        env.solutionMat.get 1 j =
          V - 2 * c / dt * (V - env0.solutionMat.get 1 0) / (1 / r + 2 * c / dt) *
            ((2 * c / dt - 1 / r) / (2 * c / dt + 1 / r)) ^ (j - 1) := by
  obtain ⟨hcl0, hclear⟩ := rc_shape V r (0 : K) 0
  let Inv : Nat → SimulationEnvironment K → Matrix K → Prop := fun n env t =>
    (∀ D : Stamp K, SeriesInv env env t n (Stamp.new 2 1)
      ((Resistor.mk r 1 2 0 true).addStaticStampTo
        ((VoltageSource.mk V 1 0 1).addStaticStampTo (Stamp.new 2 1))) D) ∧
    env.elements.staticElements = (rcElements V r c).staticElements ∧
    (∃ i : K, env.elements.dynamicElements =
        [Capacitor.toComponent (Capacitor.mk c 2 0 i true)] ∧
      (n = 1 → i = 0) ∧
      (2 ≤ n → i = 1 / r * (2 * c / dt * (V - env0.solutionMat.get 1 0) /
        (1 / r + 2 * c / dt) * ((2 * c / dt - 1 / r) / (2 * c / dt + 1 / r)) ^ (n - 2)))) ∧
    env.timestep = dt ∧ env.solutionMat.N = steps ∧
    env.solutionMat.get 1 0 = env0.solutionMat.get 1 0 ∧
    ∀ j, 1 ≤ j → j < n →
      env.solutionMat.get 1 j =
        V - 2 * c / dt * (V - env0.solutionMat.get 1 0) / (1 / r + 2 * c / dt) *
          ((2 * c / dt - 1 / r) / (2 * c / dt + 1 / r)) ^ (j - 1)
  have hInv0 : Inv 1 env0 (Matrix.mk0 env0.solutionMat.M 1 0) := by
    refine ⟨fun D => ⟨⟨h0.nonLinearElements, ThreeUnknowns.clear_eq _ h0.staticStamp, ?_,
      hclear, ?_, ?_⟩, rfl, rfl, rfl, rfl, h0.lN, h0.lM, h0.solM, rfl, rfl,
      fun _ _ _ _ => rfl⟩, h0.staticElements, ⟨0, h0.dynamicElements, fun _ => rfl,
        fun h => by omega⟩, h0.timestepEq, h0.solN, rfl, fun j h1 h2 => by omega⟩
    · rw [h0.staticElements, h0.dynamicElements]
      rfl
    · intro hf
      rw [h0.staticStampIsFresh] at hf
      exact absurd hf (by simp)
    · intro hf
      rw [h0.dynamicStampIsFresh] at hf
      exact absurd hf (by simp)
  have hstep : ∀ n env t, 1 ≤ n → n < steps → Inv n env t →
      ∃ (env1 : SimulationEnvironment K) (t1 : Matrix K),
        env.simulateStep t n = Except.ok (env1, t1) ∧ Inv (n + 1) env1 t1 := by
    intro n env t hn1 hn ⟨hinv, hL, ⟨i, hdyn, hi1, hi2⟩, hdt, hN, hv0, hcol⟩
    obtain ⟨hshape, -⟩ := rc_shape V r (2 * c / dt)
      (i + 2 * c / dt * env.solutionMat.get 1 (n - 1))
    obtain ⟨envL, t1, hinvL, -, q1, hs⟩ := SimulationEnvironment.series_simulateStep env t n
      (Stamp.new 2 1) _ _ (1 / r) (2 * c / dt)
      (i + 2 * c / dt * env.solutionMat.get 1 (n - 1)) V (by rw [hN]; exact hn)
      (hinv _) hshape hgh
      (by
        intro sol _ hframe
        rw [hdyn, hdt, rc_dynamic, hframe 1 (n - 1) (by rw [hN]; omega) (by omega)])
    have hdynL : envL.elements.dynamicElements =
        [Capacitor.toComponent (Capacitor.mk c 2 0 i true)] :=
      hinvL.dynamicElements.trans hdyn
    have hmap : envL.elements.dynamicElements.map (fun comp =>
        comp.updateStoredState envL.solutionMat n envL.timestep
          envL.elements.staticStamp.sizeG_A) =
        [Capacitor.toComponent (Capacitor.mk c 2 0
          (2 * c / dt * envL.solutionMat.get 1 n -
            (i + 2 * c / dt * envL.solutionMat.get 1 (n - 1))) true)] := by
      rw [hdynL, List.map_cons, List.map_nil, rc_update, hinvL.timestep, hdt]
    have hprev : envL.solutionMat.get 1 (n - 1) = env.solutionMat.get 1 (n - 1) :=
      hinvL.frame 1 (n - 1) (by rw [hN]; omega) (by omega)
    have hafter := fun D1 : Stamp K => StampCache.afterStep envL.elements envL.solutionMat n
      envL.timestep (Stamp.new 2 1) _ _ D1 hinvL.cache
      (by
        rw [hmap, hinvL.staticElements, hL]
        rfl)
    refine ⟨_, t1, hs, fun D1 => ⟨(hafter D1).1, rfl, rfl, rfl, rfl, hinvL.lN, hinvL.lM,
      hinvL.solM, rfl, hinvL.tempN, fun _ _ _ _ => rfl⟩, ?_, ?_, hinvL.timestep.trans hdt,
      hinvL.solN.trans hN, ?_, ?_⟩
    · exact (hafter (Stamp.new 2 1)).2.1.trans (hinvL.staticElements.trans hL)
    · refine ⟨_, (hafter (Stamp.new 2 1)).2.2.trans hmap, fun h => by omega, fun _ => ?_⟩
      rw [q1, hprev]
      by_cases hn1' : n = 1
      · have e0 : n - 1 = 0 := by omega
        have e00 : n + 1 - 2 = 0 := by omega
        rw [hi1 hn1', e0, e00, hv0]
        exact (rc_first_step (1 / r) (2 * c / dt) V (env0.solutionMat.get 1 0) hgh).2
      · have hn2 : 2 ≤ n := by omega
        have e1 : n - 1 - 1 = n - 2 := by omega
        have e2 : n + 1 - 2 = (n - 2) + 1 := by omega
        rw [hi2 hn2, hcol (n - 1) (by omega) (by omega), e1, e2, pow_succ]
        refine ((rc_next_step (1 / r) (2 * c / dt) V
          (2 * c / dt * (V - env0.solutionMat.get 1 0) /
            (1 / r + 2 * c / dt) * ((2 * c / dt - 1 / r) / (2 * c / dt + 1 / r)) ^ (n - 2))
          hgh).2).trans ?_
        ring
    · exact (hinvL.frame 1 0 (by rw [hN]; omega) (by omega)).trans hv0
    · intro j hj1 hj
      by_cases hjn : j = n
      · rw [hjn, q1]
        by_cases hn1' : n = 1
        · have e0 : n - 1 = 0 := by omega
          rw [hi1 hn1', e0, hv0]
          have key := (rc_first_step (1 / r) (2 * c / dt) V (env0.solutionMat.get 1 0)
            hgh).1
          linarith [key]
        · have hn2 : 2 ≤ n := by omega
          have e1 : n - 1 - 1 = n - 2 := by omega
          have e2 : n - 1 = (n - 2) + 1 := by omega
          rw [hi2 hn2, hcol (n - 1) (by omega) (by omega), e1]
          have key := (rc_next_step (1 / r) (2 * c / dt) V
            (2 * c / dt * (V - env0.solutionMat.get 1 0) /
              (1 / r + 2 * c / dt) * ((2 * c / dt - 1 / r) / (2 * c / dt + 1 / r)) ^ (n - 2))
            hgh).1
          rw [e2, pow_succ]
          linarith [key]
      · rw [hinvL.frame 1 j (by rw [hN]; omega) hjn]
        exact hcol j hj1 (by omega)
  by_cases hs0 : steps = 0
  · refine ⟨env0, ?_, rfl, fun n h1 h2 => by omega⟩
    simp only [SimulationEnvironment.simulate, h0.stepsEq, hs0, Nat.zero_sub,
      SimulationEnvironment.simulateLoop]
  · obtain ⟨env1, t1, hl, -, -, -, -, -, hv0, hcol⟩ :=
      SimulationEnvironment.simulateLoop_invariant steps Inv hstep (steps - 1) 1 env0
        (Matrix.mk0 env0.solutionMat.M 1 0) (le_refl 1) (by omega) hInv0
    refine ⟨env1, ?_, hv0, fun n h1 h2 => hcol n h1 (by omega)⟩
    simp only [SimulationEnvironment.simulate, h0.stepsEq, hl]

end RC

/-! ## The DC operating point of the RC circuit -/

section RCOperatingPoint

variable {K : Type} [LinearOrderedField K]

/-- The DC stamp of the RC circuit is a series stamp: the capacitor is the conductance
`1e-9` at node 2. -/
theorem rc_dc_shape (V r c : K) :
    SeriesStamp
      ((Capacitor.mk c 2 0 0 true).addDCAnalysisStampTo
        ((Resistor.mk r 1 2 0 true).addStaticStampTo
          ((VoltageSource.mk V 1 0 1).addStaticStampTo (Stamp.new 2 1 : Stamp K)))
        (Matrix.mk0 0 0 0) 0) (1 / r) 1e-9 0 V ∧
    ThreeUnknowns
      ((Capacitor.mk c 2 0 0 true).addDCAnalysisStampTo
        ((Resistor.mk r 1 2 0 true).addStaticStampTo
          ((VoltageSource.mk V 1 0 1).addStaticStampTo (Stamp.new 2 1 : Stamp K)))
        (Matrix.mk0 0 0 0) 0) := by
  obtain ⟨v1, -, -⟩ := source_stamp V (Stamp.new 2 1 : Stamp K) ThreeUnknowns.new
  obtain ⟨r1, -, -⟩ := resistor12_stamp r _ v1
  obtain ⟨q1, q2, q3⟩ := capacitor20_dc_stamp c 0 _ (Matrix.mk0 0 0 0) 0 r1
  refine ⟨series_shape V r 1e-9 0 _ q1 q2 (fun k => ?_), q1⟩
  rw [q3]
  simp

/-- The DC stamp of the capacitor does not read the solution vector. -/
theorem capacitor_dc_any (c i : K) (st : Stamp K) (sol sol1 : Matrix K) (n n1 : Nat) :
    (Capacitor.mk c 2 0 i true).addDCAnalysisStampTo st sol n =
      (Capacitor.mk c 2 0 i true).addDCAnalysisStampTo st sol1 n1 := rfl

/-- One pass of the loop of `setDCOpPoint` for the RC circuit. -/
theorem rc_dcIteration (V r c : K) (hg : 1 / r + 1e-9 ≠ 0) (st : DCState K)
    (X : Stamp K) (hX : ThreeUnknowns X)
    (hel : st.elements = { (rcElements V r c).setNewStampSize 2 1 0 with dcStamp := X })
    (hlN : st.luPair.l.N = 3) (hlM : st.luPair.l.M = 3) (hN : st.dcSoln.N = 1) :
    ∃ (st1 : DCState K) (X1 : Stamp K),
      SimulationEnvironment.dcIteration 1 st = Except.ok st1 ∧ ThreeUnknowns X1 ∧
      st1.elements = { (rcElements V r c).setNewStampSize 2 1 0 with dcStamp := X1 } ∧
      st1.luPair.l.N = 3 ∧ st1.luPair.l.M = 3 ∧ st1.dcSoln.N = 1 ∧
      st1.dcSoln.data 1 = (0 + 1 / r * V) / (1 / r + 1e-9) := by
  obtain ⟨hshape, hthree⟩ := rc_dc_shape V r c
  have hgen : st.elements.generateDCStamp st.dcSoln 1 = Except.ok
      { (rcElements V r c).setNewStampSize 2 1 0 with
        dcStamp := (Capacitor.mk c 2 0 0 true).addDCAnalysisStampTo
          ((Resistor.mk r 1 2 0 true).addStaticStampTo
            ((VoltageSource.mk V 1 0 1).addStaticStampTo (Stamp.new 2 1 : Stamp K)))
          (Matrix.mk0 0 0 0) 0 } := by
    rw [hel]
    simp only [CircuitElements.generateDCStamp, ThreeUnknowns.clear_eq X hX]
    rfl
  obtain ⟨-, x1⟩ := Matrix.series_solve _ _ st.luPair st.scratchSpace.data st.dcSoln.data
    (1 / r) 1e-9 0 V hshape.GM hshape.GN hlN hlM hg hshape.g0 hshape.g1 hshape.g2 hshape.g3
    hshape.g4 hshape.g5 hshape.g6 hshape.g7 hshape.g8 hshape.s0 hshape.s1 hshape.s2
  have hlu := Matrix.luPairInto_inv
    ((Capacitor.mk c 2 0 0 true).addDCAnalysisStampTo
      ((Resistor.mk r 1 2 0 true).addStaticStampTo
        ((VoltageSource.mk V 1 0 1).addStaticStampTo (Stamp.new 2 1 : Stamp K)))
      (Matrix.mk0 0 0 0) 0).G (by rw [hshape.GM, hshape.GN]) st.luPair
    (by rw [hshape.GM]; exact hlN) (by rw [hshape.GM]; exact hlM)
  simp only [SimulationEnvironment.dcIteration, hgen]
  refine ⟨_, _, rfl, hthree, rfl, ?_, ?_, hN, x1⟩
  · rw [hlu.lN, hshape.GM]
  · rw [hlu.lM, hshape.GM]

/-- The loop of `setDCOpPoint` for the RC circuit, for at least one pass. -/
theorem rc_dcLoop (V r c : K) (hg : 1 / r + 1e-9 ≠ 0) (count : Nat) :
    ∀ (st : DCState K) (X : Stamp K), ThreeUnknowns X →
      st.elements = { (rcElements V r c).setNewStampSize 2 1 0 with dcStamp := X } →
      st.luPair.l.N = 3 → st.luPair.l.M = 3 → st.dcSoln.N = 1 →
      ∃ (st1 : DCState K) (X1 : Stamp K),
        SimulationEnvironment.dcLoop 1 (count + 1) st = Except.ok st1 ∧
        st1.elements = { (rcElements V r c).setNewStampSize 2 1 0 with dcStamp := X1 } ∧
        st1.dcSoln.N = 1 ∧
        st1.dcSoln.data 1 = (0 + 1 / r * V) / (1 / r + 1e-9) := by
  induction count with
  | zero =>
    intro st X hX hel hlN hlM hN
    obtain ⟨st1, X1, h1, -, h3, -, -, h6, h7⟩ := rc_dcIteration V r c hg st X hX hel hlN hlM hN
    refine ⟨st1, X1, ?_, h3, h6, h7⟩
    simp only [SimulationEnvironment.dcLoop, h1]
  | succ count ih =>
    intro st X hX hel hlN hlM hN
    obtain ⟨st1, X1, h1, h2, h3, h4, h5, h6, -⟩ := rc_dcIteration V r c hg st X hX hel hlN
      hlM hN
    obtain ⟨st2, X2, g1, g2, g3, g4⟩ := ih st1 X1 h2 h3 h4 h5 h6
    refine ⟨st2, X2, ?_, g2, g3, g4⟩
    rw [SimulationEnvironment.dcLoop]
    simp only [h1]
    exact g1

/-- The environment that the constructor returns for the RC circuit with DC analysis: a
start of `simulate` whose column 0 holds `(1 / r * V) / (1 / r + 1e-9)` at node 2. -/
theorem rc_dc_start (V r c dt : K) (steps : Nat) (hsteps : 0 < steps)
    (hg : 1 / r + 1e-9 ≠ 0) :
    ∃ env0 : SimulationEnvironment K,
      SimulationEnvironment.construct (rcElements V r c) 2 1 0 steps dt true =
        Except.ok env0 ∧
      RCStart env0 V r c dt steps ∧
      env0.solutionMat.get 1 0 = (0 + 1 / r * V) / (1 / r + 1e-9) := by
  obtain ⟨st1, X1, h1, h2, h3, h4⟩ := rc_dcLoop V r c hg 34
    { elements := (rcElements V r c).setNewStampSize 2 1 0, luPair := LUPair.new 3,
      scratchSpace := Matrix.mk0 3 1 0, dcSoln := Matrix.mk0 3 1 0 }
    (Stamp.new 2 1) ThreeUnknowns.new rfl rfl rfl rfl
  obtain ⟨s1, s2, s3⟩ := SimulationEnvironment.setLoop_spec (fun k => st1.dcSoln.get k 0) 0
    (Matrix.mk0 3 steps (0 : K)) 3
  have hcons : SimulationEnvironment.construct (rcElements V r c) 2 1 0 steps dt true =
      Except.ok
        { steps := steps, timestep := dt,
          elements := st1.elements.updateDCStoredState st1.dcSoln 1,
          luPair := LUPair.new 3, scratchSpace := Matrix.mk0 3 1 0,
          solutionMat := forRange (fun k (sm : Matrix K) => sm.setAt k 0 (st1.dcSoln.get k 0))
            0 3 (Matrix.mk0 3 steps 0) } := by
    have h1' : SimulationEnvironment.dcLoop 1 35
        { elements := (rcElements V r c).setNewStampSize 2 1 0,
          luPair := LUPair.new (3 + 0), scratchSpace := Matrix.mk0 (3 + 0) 1 0,
          dcSoln := Matrix.mk0 (3 + 0) 1 0 } = Except.ok st1 := h1
    simp only [SimulationEnvironment.construct, SimulationEnvironment.setDCOpPoint, if_true]
    exact (congrArg (fun x => match x with
      | Except.error e => (Except.error e : Except String (SimulationEnvironment K))
      | Except.ok st => Except.ok
        { steps := steps, timestep := dt,
          elements := st.elements.updateDCStoredState st.dcSoln 1,
          luPair := LUPair.new 3, scratchSpace := Matrix.mk0 3 1 0,
          solutionMat := forRange (fun k (sm : Matrix K) => sm.setAt k 0 (st.dcSoln.get k 0))
            0 3 (Matrix.mk0 3 steps 0) }) h1')
  refine ⟨_, hcons, ?_, ?_⟩
  · have hM : (forRange (fun k (sm : Matrix K) => sm.setAt k 0 (st1.dcSoln.get k 0))
        0 3 (Matrix.mk0 3 steps 0)).M = 3 := s1
    have hN : (forRange (fun k (sm : Matrix K) => sm.setAt k 0 (st1.dcSoln.get k 0))
        0 3 (Matrix.mk0 3 steps 0)).N = steps := s2
    refine ⟨rfl, rfl, ?_, ?_, ?_, ?_, ?_, ?_, rfl, rfl, hM, hN⟩
    · rw [h2]
      rfl
    · rw [h2]
      rfl
    · rw [h2]
      rfl
    · rw [h2]
      exact ThreeUnknowns.new
    · rw [h2]
      rfl
    · rw [h2]
      rfl
  · have e := s3 1 0 hsteps hsteps
    rw [if_pos ⟨rfl, by decide⟩] at e
    have e2 : st1.dcSoln.get 1 0 = st1.dcSoln.data 1 := by
      show st1.dcSoln.data (1 * st1.dcSoln.N + 0) = _
      rw [h3]
    rw [e2, h4] at e
    exact SimulationEnvironment.get_of_data _ (Matrix.mk0 3 steps 0) 1 0 s2 _ e

end RCOperatingPoint

/-! ## The RC charge: the last column with and without DC analysis -/

section RCCharge

/-- With DC analysis the RC circuit starts charged: every column of the solution matrix
that `simulate` leaves holds a node-2 voltage between `1 - 1e-6` and `1`. -/
theorem rc_dc_columns {K : Type} [LinearOrderedField K] :
    ∃ env0 env : SimulationEnvironment K,
      rcEnvironment true = Except.ok env0 ∧ env0.simulate = Except.ok env ∧
      ∀ n, n < 5000 →
        1 - 1e-6 ≤ env.solutionMat.get 1 n ∧ env.solutionMat.get 1 n ≤ 1 := by
  obtain ⟨env0, h0, hstart, hv0⟩ := rc_dc_start (1 : K) 1000 1e-6 1e-6 5000 (by decide)
    (by norm_num)
  obtain ⟨env, h1, hc0, hcol⟩ := rc_simulate (1 : K) 1000 1e-6 1e-6 5000 (by norm_num) env0
    hstart
  refine ⟨env0, env, h0, h1, fun n hn => ?_⟩
  have hv : env0.solutionMat.get 1 0 = (1000000 / 1000001 : K) := by
    rw [hv0]
    norm_num
  by_cases hn0 : n = 0
  · rw [hn0, hc0, hv]
    constructor <;> norm_num
  · rw [hcol n (by omega) hn, hv]
    have hA : (2 * 1e-6 / 1e-6 * (1 - 1000000 / 1000001) / (1 / 1000 + 2 * 1e-6 / 1e-6) : K) =
        2000 / (1000001 * 2001) := by norm_num
    have hrho : ((2 * 1e-6 / 1e-6 - 1 / 1000) / (2 * 1e-6 / 1e-6 + 1 / 1000) : K) =
        1999 / 2001 := by norm_num
    rw [hA, hrho]
    have hp0 : (0 : K) ≤ (1999 / 2001) ^ (n - 1) := pow_nonneg (by norm_num) _
    have hp1 : ((1999 / 2001 : K)) ^ (n - 1) ≤ 1 :=
      pow_le_one₀ (by norm_num) (by norm_num)
    have hA0 : (0 : K) < 2000 / (1000001 * 2001) := by norm_num
    have hA1 : (2000 / (1000001 * 2001) : K) ≤ 1e-6 := by norm_num
    have hm0 : (0 : K) ≤ 2000 / (1000001 * 2001) * (1999 / 2001) ^ (n - 1) :=
      mul_nonneg hA0.le hp0
    have hm1 : (2000 / (1000001 * 2001) : K) * (1999 / 2001) ^ (n - 1) ≤
        2000 / (1000001 * 2001) := by
      have := mul_le_mul_of_nonneg_left hp1 hA0.le
      rwa [mul_one] at this
    constructor <;> linarith

/-- Without DC analysis the RC circuit starts at zero, and the last column holds the
node-2 voltage `1 - 2000 / 2001 * (1999 / 2001) ^ 4998`. -/
theorem rc_nodc_last_column {K : Type} [LinearOrderedField K] :
    ∃ env0 env : SimulationEnvironment K,
      rcEnvironment false = Except.ok env0 ∧ env0.simulate = Except.ok env ∧
      env.solutionMat.get 1 4999 = 1 - 2000 / 2001 * (1999 / 2001) ^ 4998 := by
  obtain ⟨env0, h0, hstart, hv⟩ : ∃ env0 : SimulationEnvironment K,
      rcEnvironment false = Except.ok env0 ∧ RCStart env0 1 1000 1e-6 1e-6 5000 ∧
      env0.solutionMat.get 1 0 = 0 :=
    ⟨_, rfl, ⟨rfl, rfl, rfl, rfl, rfl, ThreeUnknowns.new, rfl, rfl, rfl, rfl, rfl, rfl⟩, rfl⟩
  obtain ⟨env, h1, -, hcol⟩ := rc_simulate (1 : K) 1000 1e-6 1e-6 5000 (by norm_num) env0
    hstart
  refine ⟨env0, env, h0, h1, ?_⟩
  rw [hcol 4999 (by decide) (by decide), hv]
  norm_num

theorem exp_neg_five_bounds : (1 / 243 : ℝ) < Real.exp (-5) ∧ Real.exp (-5) ≤ 1 / 143 := by
  have h5 : Real.exp 5 = Real.exp 1 ^ 5 := by
    rw [← Real.exp_nat_mul]
    norm_num
  have hlo : (2.7 : ℝ) < Real.exp 1 := by
    have := Real.exp_one_gt_d9
    linarith
  have hhi : Real.exp 1 < 3 := by
    have := Real.exp_one_lt_d9
    linarith
  have hpos : (0 : ℝ) < Real.exp 5 := Real.exp_pos 5
  have h143 : (143 : ℝ) ≤ Real.exp 5 := by
    rw [h5]
    have : (2.7 : ℝ) ^ 5 ≤ Real.exp 1 ^ 5 := pow_le_pow_left (by norm_num) hlo.le 5
    have h27 : (143 : ℝ) ≤ 2.7 ^ 5 := by norm_num
    linarith
  have h243 : Real.exp 5 < 243 := by
    rw [h5]
    have : Real.exp 1 ^ 5 < (3 : ℝ) ^ 5 :=
      pow_lt_pow_left hhi (Real.exp_pos 1).le (by decide)
    have h3 : (3 : ℝ) ^ 5 = 243 := by norm_num
    linarith
  rw [Real.exp_neg]
  constructor
  · rw [one_div]
    exact inv_lt_inv_of_lt hpos h243
  · rw [one_div]
    exact inv_le_inv_of_le (by norm_num) h143

/-- The trapezoidal charging curve after 4999 steps of a thousandth of the time constant
is within `1e-4` of `1 - exp(-5)`. -/
theorem rc_decay_bound :
    |(1 - (2000 / 2001 : ℝ) * (1999 / 2001) ^ 4998) - (1 - Real.exp (-5))| ≤ 1e-4 := by
  obtain ⟨-, he⟩ := exp_neg_five_bounds
  have he0 : 0 < Real.exp (-5) := Real.exp_pos _
  -- the power from above
  have hup : ((1999 / 2001 : ℝ)) ^ 4998 ≤ Real.exp (-5) * (2001 / 1992) := by
    have h1 : (1999 / 2001 : ℝ) ≤ Real.exp (-2 / 2001) := by
      have := Real.add_one_le_exp (-2 / 2001 : ℝ)
      linarith
    have h2 : ((1999 / 2001 : ℝ)) ^ 4998 ≤ Real.exp (-2 / 2001) ^ 4998 :=
      pow_le_pow_left (by norm_num) h1 4998
    have h3 : Real.exp (-2 / 2001) ^ 4998 = Real.exp (-5) * Real.exp (9 / 2001) := by
      rw [← Real.exp_nat_mul, ← Real.exp_add]
      congr 1
      norm_num
    have h4 : Real.exp (9 / 2001) ≤ 2001 / 1992 := by
      have h5 := Real.add_one_le_exp (-(9 / 2001) : ℝ)
      have h6 : Real.exp (9 / 2001) = (Real.exp (-(9 / 2001)))⁻¹ := by
        rw [Real.exp_neg, inv_inv]
      rw [h6]
      have h7 : (1992 / 2001 : ℝ) ≤ Real.exp (-(9 / 2001)) := by linarith
      have h8 := inv_le_inv_of_le (by norm_num : (0 : ℝ) < 1992 / 2001) h7
      have h9 : ((1992 / 2001 : ℝ))⁻¹ = 2001 / 1992 := by norm_num
      linarith
    rw [h3] at h2
    have h10 := mul_le_mul_of_nonneg_left h4 he0.le
    linarith
  -- the power from below
  have hlow : Real.exp (-5) * (1998 / 1999) ≤ ((1999 / 2001 : ℝ)) ^ 4998 := by
    have h1 : Real.exp (-(2 / 1999)) ≤ (1999 / 2001 : ℝ) := by
      have h2 := Real.add_one_le_exp (2 / 1999 : ℝ)
      have h3 : (2001 / 1999 : ℝ) ≤ Real.exp (2 / 1999) := by linarith
      have h4 := inv_le_inv_of_le (by norm_num : (0 : ℝ) < 2001 / 1999) h3
      have h5 : ((2001 / 1999 : ℝ))⁻¹ = 1999 / 2001 := by norm_num
      rw [Real.exp_neg]
      linarith
    have h6 : Real.exp (-(2 / 1999)) ^ 4998 ≤ ((1999 / 2001 : ℝ)) ^ 4998 :=
      pow_le_pow_left (Real.exp_pos _).le h1 4998
    have h7 : Real.exp (-(2 / 1999)) ^ 4998 = Real.exp (-5) * Real.exp (-(1 / 1999)) := by
      rw [← Real.exp_nat_mul, ← Real.exp_add]
      congr 1
      norm_num
    have h8 : (1998 / 1999 : ℝ) ≤ Real.exp (-(1 / 1999)) := by
      have := Real.add_one_le_exp (-(1 / 1999) : ℝ)
      linarith
    rw [h7] at h6
    have h9 := mul_le_mul_of_nonneg_left h8 he0.le
    linarith
  rw [abs_le]
  constructor <;> norm_num <;> nlinarith

/-- C24, as stated, fails: for the netlist `V 1 0 1`, `R 1 2 1000`, `C 2 0 1e-6`,
`.transient(0,5e-3,1e-6)` with DC analysis not disabled, the node-2 voltage in the last
column of the solution matrix differs from `1 - exp(-5)` by more than `1e-4`. -/
theorem rc_charge_with_dc_misses :
    ∃ env0 env : SimulationEnvironment ℝ,
      rcEnvironment true = Except.ok env0 ∧ env0.simulate = Except.ok env ∧
      1e-4 < |env.solutionMat.get 1 4999 - (1 - Real.exp (-5))| := by
  obtain ⟨env0, env, h0, h1, hcol⟩ := rc_dc_columns (K := ℝ)
  obtain ⟨hlo, -⟩ := hcol 4999 (by decide)
  obtain ⟨he, -⟩ := exp_neg_five_bounds
  refine ⟨env0, env, h0, h1, ?_⟩
  have h2 : (1e-4 : ℝ) < env.solutionMat.get 1 4999 - (1 - Real.exp (-5)) := by
    norm_num at hlo he ⊢
    linarith
  exact lt_of_lt_of_le h2 (le_abs_self _)

/-- C24, amended: for the netlist `V 1 0 1`, `R 1 2 1000`, `C 2 0 1e-6`,
`.transient(0,5e-3,1e-6)`, with DC analysis (the default) the constructor and `simulate`
return and every column `n < 5000` of the solution matrix holds a node-2 voltage between
`1 - 1e-6` and `1`, because the operating point has charged the capacitor; with the
directive `.nodc` they return and the node-2 voltage in the last column is within `1e-4`
of `1 - exp(-5)`. -/
theorem rc_charge_amended :
    (∃ env0 env : SimulationEnvironment ℝ,
      rcEnvironment true = Except.ok env0 ∧ env0.simulate = Except.ok env ∧
      ∀ n, n < 5000 →
        1 - 1e-6 ≤ env.solutionMat.get 1 n ∧ env.solutionMat.get 1 n ≤ 1) ∧
    (∃ env0 env : SimulationEnvironment ℝ,
      rcEnvironment false = Except.ok env0 ∧ env0.simulate = Except.ok env ∧
      |env.solutionMat.get 1 4999 - (1 - Real.exp (-5))| ≤ 1e-4) := by
  refine ⟨rc_dc_columns (K := ℝ), ?_⟩
  obtain ⟨env0, env, h0, h1, h2⟩ := rc_nodc_last_column (K := ℝ)
  refine ⟨env0, env, h0, h1, ?_⟩
  rw [h2]
  exact rc_decay_bound

end RCCharge

/-! ## The time-step update of the registry and the cache flags -/

section CacheFlags

variable {K : Type} [LinearOrderedField K]

/-- C34: `updateTimeStep` clears `dynamicStampIsFresh` and `nonLinearStampIsFresh`, keeps
`staticStampIsFresh`, the four stamps and the static elements, and replaces the list of
dynamic elements and the list of non-linear elements by the lists, of the same lengths
and in the same order, of their elements after one `updateStoredState` with the
arguments of the call and `staticStamp.sizeG_A`. -/
theorem updateTimeStep_frame (ce : CircuitElements K) (sol : Matrix K) (n : Nat) (dt : K) :
    (ce.updateTimeStep sol n dt).dynamicStampIsFresh = false ∧
    (ce.updateTimeStep sol n dt).nonLinearStampIsFresh = false ∧
    (ce.updateTimeStep sol n dt).staticStampIsFresh = ce.staticStampIsFresh ∧
    (ce.updateTimeStep sol n dt).staticStamp = ce.staticStamp ∧
    (ce.updateTimeStep sol n dt).dynamicStamp = ce.dynamicStamp ∧
    (ce.updateTimeStep sol n dt).nonLinearStamp = ce.nonLinearStamp ∧
    (ce.updateTimeStep sol n dt).dcStamp = ce.dcStamp ∧
    (ce.updateTimeStep sol n dt).staticElements = ce.staticElements ∧
    (ce.updateTimeStep sol n dt).dynamicElements.length = ce.dynamicElements.length ∧
    (ce.updateTimeStep sol n dt).nonLinearElements.length = ce.nonLinearElements.length ∧
    (∀ i : Nat, (ce.updateTimeStep sol n dt).dynamicElements[i]? =
      (ce.dynamicElements[i]?).map
        (fun c : Component K => c.updateStoredState sol n dt ce.staticStamp.sizeG_A)) ∧
    (∀ i : Nat, (ce.updateTimeStep sol n dt).nonLinearElements[i]? =
      (ce.nonLinearElements[i]?).map
        (fun c : Component K => c.updateStoredState sol n dt ce.staticStamp.sizeG_A)) ∧
    (∀ c : Component K, (c.updateStoredState sol n dt ce.staticStamp.sizeG_A).state =
      c.updateImpl c.state sol n dt ce.staticStamp.sizeG_A) := by
  refine ⟨rfl, rfl, rfl, rfl, rfl, rfl, rfl, rfl, ?_, ?_, ?_, ?_, fun _ => rfl⟩
  · simp only [CircuitElements.updateTimeStep, List.length_map]
  · simp only [CircuitElements.updateTimeStep, List.length_map]
  · intro i
    simp only [CircuitElements.updateTimeStep, List.getElem?_map]
  · intro i
    simp only [CircuitElements.updateTimeStep, List.getElem?_map]

theorem CircuitElements.generateDynamicStamp_flags (ce : CircuitElements K) (sol : Matrix K)
    (n : Nat) (dt : K) :
    (ce.generateDynamicStamp sol n dt).staticStampIsFresh = true ∧
    (ce.generateDynamicStamp sol n dt).dynamicStampIsFresh = true ∧
    (ce.generateDynamicStamp sol n dt).nonLinearStampIsFresh = ce.nonLinearStampIsFresh := by
  cases hs : ce.staticStampIsFresh <;>
    simp [CircuitElements.generateDynamicStamp, CircuitElements.generateStaticStamp, hs]

theorem CircuitElements.generateNonLinearStamp_flags (ce ce1 : CircuitElements K)
    (sol : Matrix K) (n : Nat) (dt : K)
    (hinv : ce.dynamicStampIsFresh = true → ce.staticStampIsFresh = true)
    (hok : ce.generateNonLinearStamp sol n dt = Except.ok ce1) :
    ce1.staticStampIsFresh = true ∧ ce1.dynamicStampIsFresh = true ∧
    ce1.nonLinearStampIsFresh = true := by
  obtain ⟨f1, f2, -⟩ := ce.generateDynamicStamp_flags sol n dt
  unfold CircuitElements.generateNonLinearStamp at hok
  cases hd : ce.dynamicStampIsFresh
  · simp only [hd, Bool.not_false, if_true] at hok
    split at hok
    · exact absurd hok (by simp)
    · injection hok with hok
      subst hok
      exact ⟨f1, f2, rfl⟩
  · simp only [hd, Bool.not_true, Bool.false_eq_true, if_false] at hok
    split at hok
    · exact absurd hok (by simp)
    · injection hok with hok
      subst hok
      exact ⟨hinv hd, rfl, rfl⟩

theorem CircuitElements.generateDCStamp_flags (ce ce1 : CircuitElements K)
    (sol : Matrix K) (numCurrents : Nat)
    (hok : ce.generateDCStamp sol numCurrents = Except.ok ce1) :
    ce1.staticStampIsFresh = ce.staticStampIsFresh ∧
    ce1.dynamicStampIsFresh = ce.dynamicStampIsFresh ∧
    ce1.nonLinearStampIsFresh = ce.nonLinearStampIsFresh := by
  unfold CircuitElements.generateDCStamp at hok
  simp only at hok
  split at hok
  · exact absurd hok (by simp)
  · split at hok
    · exact absurd hok (by simp)
    · split at hok
      · exact absurd hok (by simp)
      · injection hok with hok
        subst hok
        exact ⟨rfl, rfl, rfl⟩

/-- C35: in every registry reached from `setNewStampSize` by the methods of the registry
and the flag writes of `simulate` (the relation `CircuitElements.Reachable`, in which
the write `staticStampIsFresh = false` stands where `simulate` has it, right after
`updateTimeStep`), a fresh non-linear stamp implies a fresh dynamic stamp and a fresh
dynamic stamp implies a fresh static stamp. -/
theorem cache_flag_invariant (ce : CircuitElements K) (h : ce.Reachable) :
    (ce.nonLinearStampIsFresh = true → ce.dynamicStampIsFresh = true) ∧
    (ce.dynamicStampIsFresh = true → ce.staticStampIsFresh = true) := by
  induction h with
  | setNewStampSize ce a b c =>
    exact ⟨fun h => absurd h (by simp [CircuitElements.setNewStampSize]),
      fun h => absurd h (by simp [CircuitElements.setNewStampSize])⟩
  | generateStaticStamp ce _ ih => exact ⟨ih.1, fun _ => rfl⟩
  | generateDynamicStamp ce sol n dt _ ih =>
    obtain ⟨f1, f2, -⟩ := ce.generateDynamicStamp_flags sol n dt
    exact ⟨fun _ => f2, fun _ => f1⟩
  | generateNonLinearStamp ce ce1 sol n dt _ hok ih =>
    obtain ⟨f1, f2, -⟩ := ce.generateNonLinearStamp_flags ce1 sol n dt ih.2 hok
    exact ⟨fun _ => f2, fun _ => f1⟩
  | generateNonLinearStampThrows ce sol n dt e X _ herr ih =>
    obtain ⟨f1, f2, f3⟩ := ce.generateDynamicStamp_flags sol n dt
    cases hd : ce.dynamicStampIsFresh
    · simp only [Bool.not_false, if_true]
      exact ⟨fun _ => f2, fun _ => f1⟩
    · simp only [Bool.not_true, Bool.false_eq_true, if_false]
      exact ⟨fun _ => hd, ih.2⟩
  | updateTimeStep ce sol n dt _ ih =>
    exact ⟨fun h => absurd h (by simp [CircuitElements.updateTimeStep]),
      fun h => absurd h (by simp [CircuitElements.updateTimeStep])⟩
  | generateDCStamp ce ce1 sol nc _ hok ih =>
    obtain ⟨f1, f2, f3⟩ := ce.generateDCStamp_flags ce1 sol nc hok
    rw [f1, f2, f3]
    exact ih
  | updateDCStoredState ce sol nc _ ih => exact ih
  | clearNonLinearFlag ce _ ih =>
    exact ⟨fun h => absurd h (by simp), ih.2⟩
  | clearStaticFlag ce sol n dt _ ih =>
    exact ⟨fun h => absurd h (by simp [CircuitElements.updateTimeStep]),
      fun h => absurd h (by simp [CircuitElements.updateTimeStep])⟩

theorem cache_flag_invariant_witness :
    ((exampleElements.setNewStampSize 1 0 0).generateDynamicStamp
      exampleEnvironment.solutionMat 1 1).Reachable ∧
    ((((exampleElements.setNewStampSize 1 0 0).generateDynamicStamp
        exampleEnvironment.solutionMat 1 1).nonLinearStampIsFresh = true →
      ((exampleElements.setNewStampSize 1 0 0).generateDynamicStamp
        exampleEnvironment.solutionMat 1 1).dynamicStampIsFresh = true) ∧
    (((exampleElements.setNewStampSize 1 0 0).generateDynamicStamp
        exampleEnvironment.solutionMat 1 1).dynamicStampIsFresh = true →
      ((exampleElements.setNewStampSize 1 0 0).generateDynamicStamp
        exampleEnvironment.solutionMat 1 1).staticStampIsFresh = true)) :=
  ⟨CircuitElements.Reachable.generateDynamicStamp _ _ _ _
      (CircuitElements.Reachable.setNewStampSize exampleElements 1 0 0),
    cache_flag_invariant _
      (CircuitElements.Reachable.generateDynamicStamp _ _ _ _
        (CircuitElements.Reachable.setNewStampSize exampleElements 1 0 0))⟩

/-- Every pass of the Newton-Raphson loop of `simulate` leaves a reachable registry. -/
theorem SimulationEnvironment.newtonIteration_reachable (env env1 : SimulationEnvironment K)
    (tempSoln temp1 : Matrix K) (n : Nat) (maxDiff : K) (h : env.elements.Reachable)
    (hok : env.newtonIteration tempSoln n = Except.ok (env1, temp1, maxDiff)) :
    env1.elements.Reachable := by
  unfold SimulationEnvironment.newtonIteration at hok
  split at hok
  · exact absurd hok (by simp)
  · rename_i elements hgen
    simp only [Except.ok.injEq, Prod.mk.injEq] at hok
    rw [← hok.1]
    exact CircuitElements.Reachable.generateNonLinearStamp _ _ _ _ _ h hgen

theorem SimulationEnvironment.newtonLoop_reachable (n fuel : Nat) :
    ∀ (env env1 : SimulationEnvironment K) (tempSoln temp1 : Matrix K),
      env.elements.Reachable →
      SimulationEnvironment.newtonLoop n fuel env tempSoln = Except.ok (env1, temp1) →
      env1.elements.Reachable := by
  induction fuel with
  | zero =>
    intro env env1 tempSoln temp1 h hok
    simp only [SimulationEnvironment.newtonLoop, Except.ok.injEq, Prod.mk.injEq] at hok
    rw [← hok.1]
    exact h
  | succ fuel ih =>
    intro env env1 tempSoln temp1 h hok
    simp only [SimulationEnvironment.newtonLoop] at hok
    split at hok
    · exact absurd hok (by simp)
    · rename_i env2 temp2 maxDiff hit
      have h2 := env.newtonIteration_reachable env2 tempSoln temp2 n maxDiff h hit
      split_ifs at hok
      · simp only [Except.ok.injEq, Prod.mk.injEq] at hok
        rw [← hok.1]
        exact h2
      · exact ih _ env1 temp2 temp1 (CircuitElements.Reachable.clearNonLinearFlag _ h2) hok

/-- The registries of the time loop of `simulate` are reachable ones. -/
theorem SimulationEnvironment.simulateStep_reachable (env env1 : SimulationEnvironment K)
    (tempSoln temp1 : Matrix K) (n : Nat) (h : env.elements.Reachable)
    (hok : env.simulateStep tempSoln n = Except.ok (env1, temp1)) :
    env1.elements.Reachable := by
  unfold SimulationEnvironment.simulateStep at hok
  split at hok
  · exact absurd hok (by simp)
  · rename_i env2 temp2 hloop
    have h2 := SimulationEnvironment.newtonLoop_reachable n 32 env env2 tempSoln temp2 h hloop
    simp only [Except.ok.injEq, Prod.mk.injEq] at hok
    rw [← hok.1]
    by_cases hn : n = 1
    · simp only [hn, if_true]
      exact CircuitElements.Reachable.clearStaticFlag _ _ _ _ h2
    · simp only [hn, if_false]
      exact CircuitElements.Reachable.updateTimeStep _ _ _ _ h2

end CacheFlags

/-! ## The trapezoidal identity of the capacitor -/

section TrapezoidalIdentity

variable {K : Type} [LinearOrderedField K]

/-- C36: for a capacitor with the trapezoidal rule, `lastCurrent` after
`updateStoredState` at step `n` plus `lastCurrent` before is
`(2 C / dt) (u(n) - u(n-1))`; and on a ramp of slope `k`, where
`u(j) - u(j-1) = k dt` at every step, the stored current is `C k` after every step if and
only if it is `C k` at the start. -/
theorem capacitor_trapezoidal_identity (c : Capacitor K) (sol : Matrix K) (dt : K)
    (sizeG_A : Nat) (n : Nat) (htrap : c.trapezoidalRule = true) :
    (c.updateStoredState sol n dt sizeG_A).lastCurrent + c.lastCurrent =
      2 * c.value / dt *
        (branchVoltage sol c.n1 c.n2 n - branchVoltage sol c.n1 c.n2 (n - 1)) ∧
    ∀ k : K, dt ≠ 0 →
      (∀ j, 1 ≤ j →
        branchVoltage sol c.n1 c.n2 j - branchVoltage sol c.n1 c.n2 (j - 1) = k * dt) →
      ((∀ j, 1 ≤ j → (c.afterSteps sol dt sizeG_A j).lastCurrent = c.value * k) ↔
        c.lastCurrent = c.value * k) := by
  constructor
  · simp only [Capacitor.updateStoredState, htrap, if_true]
    ring
  · intro k hdt hramp
    have hstep : ∀ m, (c.afterSteps sol dt sizeG_A (m + 1)).lastCurrent +
        (c.afterSteps sol dt sizeG_A m).lastCurrent = 2 * (c.value * k) := by
      intro m
      have hr := hramp (m + 1) (by omega)
      rw [Nat.add_sub_cancel] at hr
      rw [c.afterSteps_succ sol dt sizeG_A m htrap]
      have e : 2 * c.value / dt * branchVoltage sol c.n1 c.n2 (m + 1) -
          ((c.afterSteps sol dt sizeG_A m).lastCurrent +
            2 * c.value / dt * branchVoltage sol c.n1 c.n2 m) +
          (c.afterSteps sol dt sizeG_A m).lastCurrent =
          2 * c.value / dt * (branchVoltage sol c.n1 c.n2 (m + 1) -
            branchVoltage sol c.n1 c.n2 m) := by ring
      rw [e, hr]
      field_simp
      ring
    constructor
    · intro hall
      have h1 := hall 1 (le_refl 1)
      have h0 := hstep 0
      rw [h1] at h0
      have : (c.afterSteps sol dt sizeG_A 0).lastCurrent = c.lastCurrent := rfl
      rw [this] at h0
      linarith
    · intro h0 j _
      induction j with
      | zero => exact h0
      | succ m ih =>
        have hs := hstep m
        by_cases hm : 1 ≤ m
        · rw [ih hm] at hs
          linarith
        · have hm0 : m = 0 := by omega
          subst hm0
          have : (c.afterSteps sol dt sizeG_A 0).lastCurrent = c.lastCurrent := rfl
          rw [this, h0] at hs
          linarith

theorem capacitor_trapezoidal_identity_witness :
    unitCapacitor.trapezoidalRule = true ∧
    (unitCapacitor.updateStoredState rampSol 2 1 0).lastCurrent + unitCapacitor.lastCurrent =
      2 * unitCapacitor.value / 1 *
        (branchVoltage rampSol unitCapacitor.n1 unitCapacitor.n2 2 -
          branchVoltage rampSol unitCapacitor.n1 unitCapacitor.n2 (2 - 1)) ∧
    ((∀ j, 1 ≤ j → (unitCapacitor.afterSteps rampSol 1 0 j).lastCurrent =
        unitCapacitor.value * 1) ↔ unitCapacitor.lastCurrent = unitCapacitor.value * 1) := by
  have h := capacitor_trapezoidal_identity unitCapacitor rampSol 1 0 2 rfl
  refine ⟨rfl, h.1, h.2 1 one_ne_zero ?_⟩
  intro j hj
  simp [branchVoltage, unitCapacitor, rampSol, Matrix.get]
  push_cast [Nat.cast_sub hj]
  ring

end TrapezoidalIdentity

/-! ## Current conservation of the NPN stamp -/

section BJTConservation

variable {K : Type} [LinearOrderedField K]

theorem sum_row_entry (N i m n : Nat) (v : K) (hn : n < N) :
    ∑ j in Finset.range N, (if i * N + j = m * N + n then v else 0) =
      if i = m then v else 0 := by
  by_cases him : i = m
  · subst him
    rw [if_pos rfl, Finset.sum_eq_single n]
    · rw [if_pos rfl]
    · intro j _ hj
      rw [if_neg]
      omega
    · intro h
      exact absurd (Finset.mem_range.mpr hn) h
  · rw [if_neg him]
    apply Finset.sum_eq_zero
    intro j hj
    rw [if_neg]
    intro h
    exact him (Matrix.idx_inj (Finset.mem_range.mp hj) hn h).1

theorem sum_col_entry (M N j m n : Nat) (v : K) (hm : m < M) (hn : n < N) (hj : j < N) :
    ∑ i in Finset.range M, (if i * N + j = m * N + n then v else 0) =
      if j = n then v else 0 := by
  by_cases hjn : j = n
  · subst hjn
    rw [if_pos rfl, Finset.sum_eq_single m]
    · rw [if_pos rfl]
    · intro i _ hi
      rw [if_neg]
      intro h
      exact hi (Matrix.idx_inj hj hj h).1
    · intro h
      exact absurd (Finset.mem_range.mpr hm) h
  · rw [if_neg hjn]
    apply Finset.sum_eq_zero
    intro i _
    rw [if_neg]
    intro h
    exact hjn (Matrix.idx_inj hj hn h).2

theorem sum_s_entry (M m : Nat) (v : K) (hm : m < M) :
    ∑ i in Finset.range M, (if i * 1 + 0 = m * 1 + 0 then v else 0) = v := by
  rw [Finset.sum_eq_single m]
  · rw [if_pos rfl]
  · intro i _ hi
    rw [if_neg]
    omega
  · intro h
    exact absurd (Finset.mem_range.mpr hm) h

/-- The entries of the stamp after `BJTN::addNonLinearStampTo` with three terminals other
than ground: nine additions to `G` and three to `s`. -/
theorem BJTN.stamp_entries (F : CMath K) (q : BJT K) (S : Stamp K) (sol : Matrix K)
    (n : Nat) (dt : K) (he : 0 < q.e) (hc : 0 < q.c) (hb : 0 < q.b) :
    (∀ k, (BJTN.addNonLinearStampTo F q S sol n dt).G.data k - S.G.data k =
      (if k = (q.e - 1) * S.G.N + (q.e - 1) then
          (BJTN.nortonValues F (BJTN.clampedVoltages q sol n).1
            (BJTN.clampedVoltages q sol n).2).g_ee else 0) +
      (if k = (q.e - 1) * S.G.N + (q.c - 1) then
          -(BJTN.nortonValues F (BJTN.clampedVoltages q sol n).1
            (BJTN.clampedVoltages q sol n).2).g_ec else 0) +
      (if k = (q.e - 1) * S.G.N + (q.b - 1) then
          (BJTN.nortonValues F (BJTN.clampedVoltages q sol n).1
            (BJTN.clampedVoltages q sol n).2).g_ec -
          (BJTN.nortonValues F (BJTN.clampedVoltages q sol n).1
            (BJTN.clampedVoltages q sol n).2).g_ee else 0) +
      (if k = (q.c - 1) * S.G.N + (q.c - 1) then
          (BJTN.nortonValues F (BJTN.clampedVoltages q sol n).1
            (BJTN.clampedVoltages q sol n).2).g_cc else 0) +
      (if k = (q.c - 1) * S.G.N + (q.e - 1) then
          -(BJTN.nortonValues F (BJTN.clampedVoltages q sol n).1
            (BJTN.clampedVoltages q sol n).2).g_ce else 0) +
      (if k = (q.c - 1) * S.G.N + (q.b - 1) then
          (BJTN.nortonValues F (BJTN.clampedVoltages q sol n).1
            (BJTN.clampedVoltages q sol n).2).g_ce -
          (BJTN.nortonValues F (BJTN.clampedVoltages q sol n).1
            (BJTN.clampedVoltages q sol n).2).g_cc else 0) +
      (if k = (q.b - 1) * S.G.N + (q.b - 1) then
          (BJTN.nortonValues F (BJTN.clampedVoltages q sol n).1
            (BJTN.clampedVoltages q sol n).2).g_cc +
          (BJTN.nortonValues F (BJTN.clampedVoltages q sol n).1
            (BJTN.clampedVoltages q sol n).2).g_ee -
          (BJTN.nortonValues F (BJTN.clampedVoltages q sol n).1
            (BJTN.clampedVoltages q sol n).2).g_ce -
          (BJTN.nortonValues F (BJTN.clampedVoltages q sol n).1
            (BJTN.clampedVoltages q sol n).2).g_ec else 0) +
      (if k = (q.b - 1) * S.G.N + (q.e - 1) then
          (BJTN.nortonValues F (BJTN.clampedVoltages q sol n).1
            (BJTN.clampedVoltages q sol n).2).g_ce -
          (BJTN.nortonValues F (BJTN.clampedVoltages q sol n).1
            (BJTN.clampedVoltages q sol n).2).g_ee else 0) +
      (if k = (q.b - 1) * S.G.N + (q.c - 1) then
          (BJTN.nortonValues F (BJTN.clampedVoltages q sol n).1
            (BJTN.clampedVoltages q sol n).2).g_ec -
          (BJTN.nortonValues F (BJTN.clampedVoltages q sol n).1
            (BJTN.clampedVoltages q sol n).2).g_cc else 0)) ∧
    (∀ k, (BJTN.addNonLinearStampTo F q S sol n dt).s.data k - S.s.data k =
      (if k = (q.e - 1) * S.s.N + 0 then
          -(BJTN.nortonValues F (BJTN.clampedVoltages q sol n).1
            (BJTN.clampedVoltages q sol n).2).I_e else 0) +
      (if k = (q.c - 1) * S.s.N + 0 then
          -(BJTN.nortonValues F (BJTN.clampedVoltages q sol n).1
            (BJTN.clampedVoltages q sol n).2).I_c else 0) +
      (if k = (q.b - 1) * S.s.N + 0 then
          (BJTN.nortonValues F (BJTN.clampedVoltages q sol n).1
            (BJTN.clampedVoltages q sol n).2).I_e +
          (BJTN.nortonValues F (BJTN.clampedVoltages q sol n).1
            (BJTN.clampedVoltages q sol n).2).I_c else 0)) := by
  constructor
  · intro k
    simp only [BJTN.addNonLinearStampTo, he, hc, hb, if_true, Stamp.addG_G_data,
      Stamp.addS_G, Stamp.addG_G_N]
    ring
  · intro k
    simp only [BJTN.addNonLinearStampTo, he, hc, hb, if_true, Stamp.addS_s_data,
      Stamp.addG_s, Stamp.addS_s_N]
    ring

/-- C37: for a `BJTN` whose three terminals are nodes of the stamp other than ground,
the entries that `BJTN::addNonLinearStampTo` adds to `G` (the stamp after minus the
stamp before) sum to zero along every row, in particular the rows `e`, `c`, `b`, and
along every column, and the entries it adds to `s` sum to zero. -/
theorem bjtn_current_conservation (F : CMath K) (q : BJT K) (S : Stamp K) (sol : Matrix K)
    (n : Nat) (dt : K) (size : Nat) (he : 0 < q.e) (hc : 0 < q.c) (hb : 0 < q.b)
    (heS : q.e ≤ size) (hcS : q.c ≤ size) (hbS : q.b ≤ size)
    (hGM : S.G.M = size) (hGN : S.G.N = size) (hsM : S.s.M = size) (hsN : S.s.N = 1) :
    (∀ i, ∑ j in Finset.range S.G.N,
      ((BJTN.addNonLinearStampTo F q S sol n dt).G.get i j - S.G.get i j) = 0) ∧
    (∀ j, j < S.G.N → ∑ i in Finset.range S.G.M,
      ((BJTN.addNonLinearStampTo F q S sol n dt).G.get i j - S.G.get i j) = 0) ∧
    ∑ i in Finset.range S.s.M,
      ((BJTN.addNonLinearStampTo F q S sol n dt).s.get i 0 - S.s.get i 0) = 0 := by
  obtain ⟨hG, hs⟩ := BJTN.stamp_entries F q S sol n dt he hc hb
  have hN : (BJTN.addNonLinearStampTo F q S sol n dt).G.N = S.G.N := by
    simp only [BJTN.addNonLinearStampTo, he, hc, hb, if_true, Stamp.addS_G, Stamp.addG_G_N]
  have hN1 : (BJTN.addNonLinearStampTo F q S sol n dt).s.N = S.s.N := by
    simp only [BJTN.addNonLinearStampTo, he, hc, hb, if_true, Stamp.addG_s, Stamp.addS_s_N]
  have e1 : q.e - 1 < size := by omega
  have c1 : q.c - 1 < size := by omega
  have b1 : q.b - 1 < size := by omega
  refine ⟨?_, ?_, ?_⟩
  · intro i
    simp only [Matrix.get, hN, hG, Finset.sum_add_distrib, hGN]
    rw [sum_row_entry size i _ _ _ e1, sum_row_entry size i _ _ _ e1,
      sum_row_entry size i _ _ _ e1, sum_row_entry size i _ _ _ c1,
      sum_row_entry size i _ _ _ c1, sum_row_entry size i _ _ _ c1,
      sum_row_entry size i _ _ _ b1, sum_row_entry size i _ _ _ b1,
      sum_row_entry size i _ _ _ b1]
    split_ifs <;> ring
  · intro j hj
    rw [hGN] at hj
    simp only [Matrix.get, hN, hG, Finset.sum_add_distrib, hGN, hGM]
    rw [sum_col_entry size size j _ _ _ e1 e1 hj, sum_col_entry size size j _ _ _ e1 c1 hj,
      sum_col_entry size size j _ _ _ e1 b1 hj, sum_col_entry size size j _ _ _ c1 c1 hj,
      sum_col_entry size size j _ _ _ c1 e1 hj, sum_col_entry size size j _ _ _ c1 b1 hj,
      sum_col_entry size size j _ _ _ b1 b1 hj, sum_col_entry size size j _ _ _ b1 e1 hj,
      sum_col_entry size size j _ _ _ b1 c1 hj]
    split_ifs <;> ring
  · simp only [Matrix.get, hN1, hs, Finset.sum_add_distrib, hsN, hsM]
    rw [sum_s_entry size _ _ e1, sum_s_entry size _ _ c1, sum_s_entry size _ _ b1]
    ring

theorem bjtn_current_conservation_witness :
    (0 < (BJT.mk 2 3 1 1 1 : BJT ℚ).e ∧ 0 < (BJT.mk 2 3 1 1 1 : BJT ℚ).c ∧
      0 < (BJT.mk 2 3 1 1 1 : BJT ℚ).b) ∧
    (∀ i, ∑ j in Finset.range (Stamp.new 3 0 : Stamp ℚ).G.N,
      ((BJTN.addNonLinearStampTo (CMath.mk id id id id id id id id (fun x _ => x))
          (BJT.mk 2 3 1 1 1) (Stamp.new 3 0) (Matrix.mk0 3 1 5) 0 0).G.get i j -
        (Stamp.new 3 0 : Stamp ℚ).G.get i j) = 0) ∧
    (∀ j, j < (Stamp.new 3 0 : Stamp ℚ).G.N →
      ∑ i in Finset.range (Stamp.new 3 0 : Stamp ℚ).G.M,
        ((BJTN.addNonLinearStampTo (CMath.mk id id id id id id id id (fun x _ => x))
            (BJT.mk 2 3 1 1 1) (Stamp.new 3 0) (Matrix.mk0 3 1 5) 0 0).G.get i j -
          (Stamp.new 3 0 : Stamp ℚ).G.get i j) = 0) ∧
    ∑ i in Finset.range (Stamp.new 3 0 : Stamp ℚ).s.M,
      ((BJTN.addNonLinearStampTo (CMath.mk id id id id id id id id (fun x _ => x))
          (BJT.mk 2 3 1 1 1) (Stamp.new 3 0) (Matrix.mk0 3 1 5) 0 0).s.get i 0 -
        (Stamp.new 3 0 : Stamp ℚ).s.get i 0) = 0 :=
  ⟨⟨by decide, by decide, by decide⟩,
    bjtn_current_conservation (CMath.mk id id id id id id id id (fun x _ => x))
      (BJT.mk 2 3 1 1 1) (Stamp.new 3 0) (Matrix.mk0 3 1 5) 0 0 3 (by decide) (by decide)
      (by decide) (by decide) (by decide) (by decide) rfl rfl rfl rfl⟩

end BJTConservation

/-! ## The choice of the pivot row and the size of the multipliers -/

namespace Matrix

variable {K : Type} [LinearOrderedField K]

theorem findPivot_loop_first (A : Matrix K) (dest : LUPair K) (r k : Nat) :
    let st := forLoop (fun r2 (st : Nat × K) =>
      if abs (dest.u.data (r2 * A.N + r)) > st.2 then
        (r2, abs (dest.u.data (r2 * A.N + r)))
      else st) (r + 1) k (r, abs (dest.u.data (r * A.N + r)))
    st.2 = abs (dest.u.data (st.1 * A.N + r)) ∧
      ∀ i, r ≤ i → i < st.1 → abs (dest.u.data (i * A.N + r)) < st.2 := by
  induction k with
  | zero =>
    simp only [forLoop, true_and]
    intro i h1 h2
    omega
  | succ k ih =>
    obtain ⟨h3, h4⟩ := ih
    obtain ⟨-, h2, -, h5⟩ := findPivot_loop A dest r k
    simp only [forLoop]
    split_ifs with hgt
    · refine ⟨rfl, ?_⟩
      intro i hi1 hi2
      exact lt_of_le_of_lt (h5 i hi1 (by omega)) hgt
    · exact ⟨h3, h4⟩

/-- The search of `luPair` returns the first row, from `r` on, whose entry in column `r`
has the largest modulus: every earlier row has a strictly smaller one. -/
theorem findPivot_first (A : Matrix K) (dest : LUPair K) (r : Nat) :
    ∀ i, r ≤ i → i < (findPivot A dest r).1 → abs (dest.u.data (i * A.N + r)) <
      abs (dest.u.data ((findPivot A dest r).1 * A.N + r)) := by
  have h := findPivot_loop_first A dest r (A.M - (r + 1))
  simp only [] at h
  obtain ⟨h3, h4⟩ := h
  intro i hi1 hi2
  have := h4 i hi1 hi2
  rw [h3] at this
  exact this

theorem luElim_bound (A : Matrix K) (hsq : A.N = A.M) (r : Nat) (hr : r < A.M)
    (lu : LUPair K) (hN : lu.u.N = A.N) (hb : LBound A lu)
    (hmax : ∀ i, r + 1 ≤ i → i < A.M → abs (lu.u.data (i * A.N + r)) ≤
      abs (lu.u.data (r * A.N + r))) (k : Nat) (hk : r + 1 + k ≤ A.M) :
    (forLoop (luElimRow A r) (r + 1) k lu).u.N = A.N ∧
    LBound A (forLoop (luElimRow A r) (r + 1) k lu) ∧
    (∀ i, r + 1 + k ≤ i → i < A.M →
      (forLoop (luElimRow A r) (r + 1) k lu).u.data (i * A.N + r) =
        lu.u.data (i * A.N + r)) ∧
    (forLoop (luElimRow A r) (r + 1) k lu).u.data (r * A.N + r) =
      lu.u.data (r * A.N + r) := by
  induction k with
  | zero => exact ⟨hN, hb, fun _ _ _ => rfl, rfl⟩
  | succ k ih =>
    obtain ⟨h1, h2, h3, h4⟩ := ih (by omega)
    have hrN : r < A.N := by omega
    refine ⟨?_, ?_, ?_, ?_⟩
    · simp [forLoop, luElimRow, rowAddition, h1]
    · intro i hi j hj
      simp only [forLoop]
      rw [luElimRow_l A r _ _ hrN i j (by omega)]
      split_ifs with hc
      · rw [h3 (r + 1 + k) (le_refl _) (by omega), h4, abs_div]
        have hm := hmax (r + 1 + k) (by omega) (by omega)
        by_cases h0 : abs (lu.u.data (r * A.N + r)) = 0
        · rw [h0, div_zero]
          exact zero_le_one
        · have hpos : 0 < abs (lu.u.data (r * A.N + r)) :=
            lt_of_le_of_ne (abs_nonneg _) (Ne.symm h0)
          rw [div_le_one hpos]
          exact hm
      · exact h2 i hi j hj
    · intro i hi1 hi2
      simp only [forLoop]
      rw [luElimRow_u A r _ _ h1 i r hrN]
      have : ¬ i = r + 1 + k := by omega
      simp only [this, if_false]
      exact h3 i (by omega) hi2
    · simp only [forLoop]
      rw [luElimRow_u A r _ _ h1 r r hrN]
      have : ¬ r = r + 1 + k := by omega
      simp only [this, if_false]
      exact h4

theorem luStep_bound (A : Matrix K) (hsq : A.N = A.M) (r : Nat) (hr : r < A.M)
    (lu : LUPair K) (h : LUInv A r lu) (hb : LBound A lu) :
    LBound A (luStep A r lu) := by
  obtain ⟨h1, h2⟩ := luSwap_inv A hsq r hr lu h
  obtain ⟨hq1, hq2, -⟩ := findPivot_spec A lu r hr
  have hbs : LBound A (luSwap A r lu) := by
    intro i hi j hj
    rw [luSwap_l A r lu (by omega) i j (by omega)]
    split_ifs
    · exact hb _ (swap_lt hr hq2 hi) j hj
    · exact hb i hi j hj
  have := luElim_bound A hsq r hr (luSwap A r lu) h1.uN hbs
    (fun i hi1 hi2 => h2 i (by omega) hi2) (A.M - (r + 1)) (by omega)
  exact this.2.1

theorem luAfter_bound (A : Matrix K) (hsq : A.N = A.M) (k : Nat) (hk : k ≤ A.M) :
    LBound A (luAfter A k (LUPair.new A.M)) := by
  induction k with
  | zero =>
    have h := luInit_inv A hsq
    intro i hi j hj
    by_cases hij : i = j
    · subst hij
      have e := h.lDiag i hi
      simp only [luAfter, forLoop]
      rw [e, abs_one]
    · have e := h.lOff i hi j hj hij (Or.inr (Nat.zero_le _))
      simp only [luAfter, forLoop]
      rw [e, abs_zero]
      exact zero_le_one
  | succ k ih =>
    have := luStep_bound A hsq k (by omega) _ (luAfter_inv A hsq k (by omega)) (ih (by omega))
    simpa [luAfter, forLoop] using this

/-- C33: in iteration `r` of `luPair`, whatever the state `dest` of the factorisation,
the row `q` found by the search and swapped into position `r` has `r <= q < M`, its
entry in column `r` has the largest modulus among the rows from `r` on, and every row
from `r` up to `q` has a strictly smaller one, so that `q` is the lowest index among
the rows of largest modulus; and for a square matrix on which `luPair` never divides by
a zero pivot, every multiplier `L[m, r]`, `r < m`, of the result has modulus at most
one. -/
theorem luPair_partial_pivoting (A : Matrix K) (hsq : A.N = A.M) (hpiv : NoZeroPivot A) :
    (∀ (dest : LUPair K) (r : Nat), dest.u.N = A.N → r < A.M →
      r ≤ (findPivot A dest r).1 ∧ (findPivot A dest r).1 < A.M ∧
      (∀ i, r ≤ i → i < A.M → abs (dest.u.get i r) ≤
        abs (dest.u.get (findPivot A dest r).1 r)) ∧
      (∀ i, r ≤ i → i < (findPivot A dest r).1 → abs (dest.u.get i r) <
        abs (dest.u.get (findPivot A dest r).1 r)) ∧
      (∀ j, j < A.N → (luSwap A r dest).u.get r j =
        dest.u.get (findPivot A dest r).1 j)) ∧
    (∀ m r, m < A.M → r < m → abs ((luPair A).l.get m r) ≤ 1) := by
  constructor
  · intro dest r hN hr
    obtain ⟨hq1, hq2, hq3⟩ := findPivot_spec A dest r hr
    have hf := findPivot_first A dest r
    have hsN : (luSwap A r dest).u.N = A.N := by simp [luSwap, swapRows, hN]
    simp only [Matrix.get, hN, hsN]
    refine ⟨hq1, hq2, hq3, hf, ?_⟩
    intro j hj
    rw [luSwap_u A r dest hN r j hj, Equiv.swap_apply_left]
  · intro m r hm hrm
    have h := luAfter_bound A hsq (A.M - 1) (by omega)
    rw [← luPair_eq_luAfter] at h
    rw [luPair_get_l A hsq]
    exact h m hm r (by omega)

theorem luPair_partial_pivoting_witness :
    myMat.N = myMat.M ∧ NoZeroPivot myMat ∧
    (∀ (dest : LUPair ℚ) (r : Nat), dest.u.N = myMat.N → r < myMat.M →
      r ≤ (findPivot myMat dest r).1 ∧ (findPivot myMat dest r).1 < myMat.M ∧
      (∀ i, r ≤ i → i < myMat.M → abs (dest.u.get i r) ≤
        abs (dest.u.get (findPivot myMat dest r).1 r)) ∧
      (∀ i, r ≤ i → i < (findPivot myMat dest r).1 → abs (dest.u.get i r) <
        abs (dest.u.get (findPivot myMat dest r).1 r)) ∧
      (∀ j, j < myMat.N → (luSwap myMat r dest).u.get r j =
        dest.u.get (findPivot myMat dest r).1 j)) ∧
    (∀ m r, m < myMat.M → r < m → abs ((luPair myMat).l.get m r) ≤ 1) :=
  ⟨rfl, myMat_noZeroPivot, luPair_partial_pivoting myMat rfl myMat_noZeroPivot⟩

end Matrix

/-! ## The group of a resistor read from the netlist -/

section NetlistResistor

variable {K : Type} [LinearOrderedField K]

/-- The pattern of a resistor line has the five capture groups of the comment in
`Resistor::addToElements`, the last one optional. -/
theorem generateRegex_resistor :
    generateRegex "R" "n n w ? c" true true =
      "^R(.*?)\\s(\\d+?)\\s(\\d+?)\\s(.+?)(?:\\s(.))?\\s?$" := by
  decide

/-- No list of sub-matches passes the test of `addToElements` for the second group: a
sub-match `5` that is not empty needs six sub-matches. -/
theorem smatch_guard_false (smatch : List String) :
    ¬ (smatch.length < 6 ∧ smatchStr smatch 5 ≠ "") := by
  rintro ⟨h1, h2⟩
  apply h2
  unfold smatchStr
  rw [List.getD_eq_default]
  omega

/-- C32, for the code as it is: whatever `std::regex_match` and the conversions return
for the line, a resistor that `Resistor::addToElements` appends to the static elements
has `group1 = true` and `currentIndex = 0`, and `numCurrents` and `numDCCurrents` are
left as they were; the registry is otherwise unchanged.  The branch of the second group
is never taken, with or without the trailing field. -/
theorem resistor_addToElements_group1 (lib : StdLib K) (line : String)
    (elements : CircuitElements K) (numNodes numCurrents numDCCurrents : Nat)
    (res : CircuitElements K × Nat × Nat × Nat)
    (h : Resistor.addToElements lib line elements numNodes numCurrents numDCCurrents =
      some res) :
    res.2.2.1 = numCurrents ∧ res.2.2.2 = numDCCurrents ∧
    ∃ r : Resistor K, r.group1 = true ∧ r.currentIndex = 0 ∧
      lib.stoi (smatchStr (lib.regex_match line
        (generateRegex "R" "n n w ? c" true true)) 2) = some r.n1 ∧
      lib.stoi (smatchStr (lib.regex_match line
        (generateRegex "R" "n n w ? c" true true)) 3) = some r.n2 ∧
      lib.stod (smatchStr (lib.regex_match line
        (generateRegex "R" "n n w ? c" true true)) 4) = some r.value ∧
      res.1 = { elements with
        staticElements := elements.staticElements ++ [Resistor.toComponent r] } := by
  unfold Resistor.addToElements at h
  simp only [smatch_guard_false, if_false] at h
  split at h
  · exact absurd h (by simp)
  · rename_i n1 h1
    split at h
    · exact absurd h (by simp)
    · rename_i n2 h2
      split at h
      · exact absurd h (by simp)
      · split at h
        · exact absurd h (by simp)
        · split at h
          · exact absurd h (by simp)
          · rename_i value h5
            injection h with h
            subst h
            exact ⟨rfl, rfl, _, rfl, rfl, h1, h2, h5, rfl⟩

theorem resistor_addToElements_group1_witness :
    Resistor.addToElements groupLineLib "R1 1 2 1000 g" (CircuitElements.new 0 0 0) 0 0 0 =
      some ({ (CircuitElements.new 0 0 0 : CircuitElements ℚ) with
          staticElements := [Resistor.toComponent (Resistor.mk ((1000 : Nat) : ℚ) 1 2 0 true)] },
        2, 0, 0) ∧
    ((0 : Nat) = 0 ∧ (0 : Nat) = 0 ∧
    ∃ r : Resistor ℚ, r.group1 = true ∧ r.currentIndex = 0 ∧
      groupLineLib.stoi (smatchStr (groupLineLib.regex_match "R1 1 2 1000 g"
        (generateRegex "R" "n n w ? c" true true)) 2) = some r.n1 ∧
      groupLineLib.stoi (smatchStr (groupLineLib.regex_match "R1 1 2 1000 g"
        (generateRegex "R" "n n w ? c" true true)) 3) = some r.n2 ∧
      groupLineLib.stod (smatchStr (groupLineLib.regex_match "R1 1 2 1000 g"
        (generateRegex "R" "n n w ? c" true true)) 4) = some r.value ∧
      ({ (CircuitElements.new 0 0 0 : CircuitElements ℚ) with
          staticElements := [Resistor.toComponent (Resistor.mk ((1000 : Nat) : ℚ) 1 2 0 true)] } :
          CircuitElements ℚ) =
        { (CircuitElements.new 0 0 0 : CircuitElements ℚ) with
          staticElements := (CircuitElements.new 0 0 0 : CircuitElements ℚ).staticElements ++
            [Resistor.toComponent r] }) :=
  ⟨rfl, resistor_addToElements_group1 groupLineLib "R1 1 2 1000 g"
    (CircuitElements.new 0 0 0) 0 0 0 _ rfl⟩

end NetlistResistor

/-! ## The Newton-Raphson loop of a circuit without non-linear elements -/

namespace Matrix

variable {K : Type} [LinearOrderedField K]

/-- The system of a nonsingular square matrix has at most one solution. -/
theorem solve_unique (A : Matrix K) (hns : Nonsingular A)
    (b x y : Nat → K)
    (hx : ∀ i, i < A.M → ∑ j in Finset.range A.M, A.data (i * A.N + j) * x j = b i)
    (hy : ∀ i, i < A.M → ∑ j in Finset.range A.M, A.data (i * A.N + j) * y j = b i) :
    ∀ j, j < A.M → x j = y j := by
  have hunit : IsUnit (toSq A).det := isUnit_iff_ne_zero.mpr hns
  have hmul : ∀ z : Nat → K, (∀ i, i < A.M →
      ∑ j in Finset.range A.M, A.data (i * A.N + j) * z j = b i) →
      (toSq A).mulVec (fun j : Fin A.M => z j) = fun i : Fin A.M => b i := by
    intro z hz
    funext i
    rw [← hz i i.isLt]
    simp only [Matrix.mulVec, Matrix.dotProduct, toSq, Matrix.get]
    exact Fin.sum_univ_eq_sum_range (fun j => A.data (i * A.N + j) * z j) A.M
  have e : (fun j : Fin A.M => x j) = fun j : Fin A.M => y j := by
    have h1 := hmul x hx
    have h2 := hmul y hy
    have h3 : (toSq A)⁻¹.mulVec ((toSq A).mulVec (fun j : Fin A.M => x j)) =
        (toSq A)⁻¹.mulVec ((toSq A).mulVec (fun j : Fin A.M => y j)) := by rw [h1, h2]
    rw [Matrix.mulVec_mulVec, Matrix.mulVec_mulVec, Matrix.nonsing_inv_mul _ hunit,
      Matrix.one_mulVec, Matrix.one_mulVec] at h3
    exact h3
  intro j hj
  exact congrFun e ⟨j, hj⟩

end Matrix

namespace CircuitElements

variable {K : Type} [LinearOrderedField K]

/-- Without non-linear elements the stamp that `generateNonLinearStamp` leaves is the
dynamic stamp, which is then flagged fresh. -/
theorem generateNonLinearStamp_linear (ce ce1 : CircuitElements K) (sol : Matrix K)
    (n : Nat) (dt : K) (hnl : ce.nonLinearElements = [])
    (h : ce.generateNonLinearStamp sol n dt = Except.ok ce1) :
    ce1.nonLinearElements = [] ∧ ce1.dynamicStampIsFresh = true ∧
    ce1.nonLinearStamp = ce1.dynamicStamp := by
  have hel := ce.generateNonLinearStamp_elements sol n dt ce1 h
  have hel' : (if (!ce.dynamicStampIsFresh) = true then ce.generateDynamicStamp sol n dt
      else ce).nonLinearElements = [] := by
    split_ifs
    · simp only [generateDynamicStamp]
      split_ifs <;> exact hnl
    · exact hnl
  refine ⟨hel.trans hnl, ?_⟩
  unfold generateNonLinearStamp at h
  simp only [hel', Stamp.addNonLinearStamps, Except.ok.injEq] at h
  subst h
  refine ⟨?_, rfl⟩
  cases hd : ce.dynamicStampIsFresh
  · simp [generateDynamicStamp]
  · simp [hd]

/-- Without non-linear elements and with a fresh dynamic stamp, `generateNonLinearStamp`
copies the dynamic stamp. -/
theorem generateNonLinearStamp_cached (ce : CircuitElements K) (sol : Matrix K)
    (n : Nat) (dt : K) (hnl : ce.nonLinearElements = [])
    (hfresh : ce.dynamicStampIsFresh = true) :
    ce.generateNonLinearStamp sol n dt =
      Except.ok { ce with nonLinearStamp := ce.dynamicStamp, nonLinearStampIsFresh := true } := by
  simp only [generateNonLinearStamp, hfresh, Bool.not_true, Bool.false_eq_true, if_false,
    hnl, Stamp.addNonLinearStamps]

end CircuitElements

namespace SimulationEnvironment

variable {K : Type} [LinearOrderedField K]

/-- The second pass of the Newton-Raphson loop of a circuit without non-linear elements
solves the system of the first pass again and finds `maxDiff = 0`. -/
theorem linear_second_pass (env : SimulationEnvironment K) (t : Matrix K) (n : Nat)
    (D : Stamp K) (hnl : env.elements.nonLinearElements = [])
    (hfresh : env.elements.dynamicStampIsFresh = true)
    (hD : env.elements.dynamicStamp = D)
    (hsq : D.G.N = D.G.M) (hns : Matrix.Nonsingular D.G)
    (hlN : env.luPair.l.N = D.G.M) (hlM : env.luPair.l.M = D.G.M)
    (hM : env.solutionMat.M = D.G.M) (htN : t.N = 1)
    (hsol : ∀ k, k < D.G.M → env.solutionMat.get k n = t.get k 0)
    (hsolves : ∀ i, i < D.G.M →
      ∑ j in Finset.range D.G.M, D.G.data (i * D.G.N + j) * t.data j = D.s.data i) :
    ∃ (env2 : SimulationEnvironment K) (t2 : Matrix K),
      env.newtonIteration t n = Except.ok (env2, t2, 0) := by
  have hgen := env.elements.generateNonLinearStamp_cached env.solutionMat n env.timestep
    hnl hfresh
  have hnn : ∀ c ∈ env.elements.nonLinearElements, ∀ (st : Stamp K) (sol : Matrix K)
      (k : Nat) (dt : K), ∃ st', c.addNonLinearStampTo st sol k dt = Except.ok st' := by
    intro c hc
    rw [hnl] at hc
    exact absurd hc (List.not_mem_nil c)
  obtain ⟨e2, t2, md, hit, -⟩ := newtonIteration_returns env t n hnn
  obtain ⟨-, hmd⟩ := newtonIteration_maxDiff env e2 t t2 n md hit
  have ht2 : t2 = { t with
      data := D.G.leftDivideWith D.s (D.G.luPairInto env.luPair) env.scratchSpace.data
        t.data } := by
    have h := hit
    simp only [newtonIteration, hgen, hD, Except.ok.injEq, Prod.mk.injEq] at h
    exact h.2.1.symm
  have heq : ∀ k, k < D.G.M → t2.get k 0 = t.get k 0 := by
    intro k hk
    have hu := Matrix.solve_unique D.G hns D.s.data
      (D.G.leftDivideWith D.s (D.G.luPairInto env.luPair) env.scratchSpace.data t.data)
      t.data
      (fun i hi => Matrix.leftDivideWith_into_solves D.G D.s env.luPair
        env.scratchSpace.data t.data hsq hlN hlM hns i hi)
      hsolves k hk
    rw [ht2]
    simp only [Matrix.get, htN, Nat.mul_one, Nat.add_zero]
    exact hu
  have hzero : md = 0 := by
    rcases hmd with h0 | ⟨k, hk, hk2⟩
    · exact h0
    · rw [hM] at hk
      rw [hk2, hsol k hk, heq k hk, sub_self, abs_zero]
  rw [hzero] at hit
  exact ⟨e2, t2, hit⟩

/-- The state after the first pass of the Newton-Raphson loop of a circuit without
non-linear elements. -/
theorem linear_first_pass (env : SimulationEnvironment K) (tempSoln : Matrix K) (n : Nat)
    (ce1 : CircuitElements K) (hnl : env.elements.nonLinearElements = [])
    (hgen : env.elements.generateNonLinearStamp env.solutionMat n env.timestep =
      Except.ok ce1)
    (hsq : ce1.nonLinearStamp.G.N = ce1.nonLinearStamp.G.M)
    (hns : Matrix.Nonsingular ce1.nonLinearStamp.G)
    (hlN : env.luPair.l.N = ce1.nonLinearStamp.G.M)
    (hlM : env.luPair.l.M = ce1.nonLinearStamp.G.M)
    (hM : env.solutionMat.M = ce1.nonLinearStamp.G.M) (hn : n < env.solutionMat.N)
    (htN : tempSoln.N = 1) :
    ∃ (env1 : SimulationEnvironment K) (t1 : Matrix K) (maxDiff : K),
      env.newtonIteration tempSoln n = Except.ok (env1, t1, maxDiff) ∧
      env1.elements.nonLinearElements = [] ∧
      env1.elements.dynamicStampIsFresh = true ∧
      env1.elements.dynamicStamp = ce1.nonLinearStamp ∧
      env1.luPair.l.N = ce1.nonLinearStamp.G.M ∧
      env1.luPair.l.M = ce1.nonLinearStamp.G.M ∧
      env1.solutionMat.M = ce1.nonLinearStamp.G.M ∧ t1.N = 1 ∧
      (∀ k, k < ce1.nonLinearStamp.G.M → env1.solutionMat.get k n = t1.get k 0) ∧
      (∀ i, i < ce1.nonLinearStamp.G.M →
        ∑ j in Finset.range ce1.nonLinearStamp.G.M,
          ce1.nonLinearStamp.G.data (i * ce1.nonLinearStamp.G.N + j) * t1.data j =
            ce1.nonLinearStamp.s.data i) := by
  obtain ⟨c1, c2, c3⟩ := env.elements.generateNonLinearStamp_linear ce1 env.solutionMat n
    env.timestep hnl hgen
  have hnn : ∀ c ∈ env.elements.nonLinearElements, ∀ (st : Stamp K) (sol : Matrix K)
      (k : Nat) (dt : K), ∃ st', c.addNonLinearStampTo st sol k dt = Except.ok st' := by
    intro c hc
    rw [hnl] at hc
    exact absurd hc (List.not_mem_nil c)
  obtain ⟨e1, t1, md, hit, -, s1, -, -, s4⟩ := newtonIteration_spec env tempSoln n hn hnn
  have h := hit
  simp only [newtonIteration, hgen, Except.ok.injEq, Prod.mk.injEq] at h
  obtain ⟨he, ht, -⟩ := h
  have hlu := Matrix.luPairInto_inv ce1.nonLinearStamp.G hsq env.luPair hlN hlM
  refine ⟨e1, t1, md, hit, ?_, ?_, ?_, ?_, ?_, s1.trans hM, ?_, ?_, ?_⟩
  · rw [← he]; exact c1
  · rw [← he]; exact c2
  · rw [← he]; exact c3.symm
  · rw [← he]; exact hlu.lN
  · rw [← he]; exact hlu.lM
  · rw [← ht]; exact htN
  · intro k hk
    exact s4 k (by rw [hM]; exact hk)
  · intro i hi
    rw [← ht]
    exact Matrix.leftDivideWith_into_solves ce1.nonLinearStamp.G ce1.nonLinearStamp.s
      env.luPair env.scratchSpace.data tempSoln.data hsq hlN hlM hns i hi

/-- C38: a time step `n` of a circuit without non-linear elements whose matrix, the `G`
of the stamp that the first pass assembles, is square and nonsingular, with the
matrices of the environment sized for it.  The Newton-Raphson loop of `simulate`
returns after `j` passes with `1 <= j <= 2`, the last pass has `maxDiff < 1e-12`, and
when there is a second pass its `maxDiff` is `0`: it solves the system of the cached
stamp again and finds the iterate of the first pass. -/
theorem linear_newton_two_passes (env : SimulationEnvironment K) (tempSoln : Matrix K)
    (n : Nat) (ce1 : CircuitElements K) (hnl : env.elements.nonLinearElements = [])
    (hgen : env.elements.generateNonLinearStamp env.solutionMat n env.timestep =
      Except.ok ce1)
    (hsq : ce1.nonLinearStamp.G.N = ce1.nonLinearStamp.G.M)
    (hns : Matrix.Nonsingular ce1.nonLinearStamp.G)
    (hlN : env.luPair.l.N = ce1.nonLinearStamp.G.M)
    (hlM : env.luPair.l.M = ce1.nonLinearStamp.G.M)
    (hM : env.solutionMat.M = ce1.nonLinearStamp.G.M) (hn : n < env.solutionMat.N)
    (htN : tempSoln.N = 1) :
    ∃ (j : Nat) (env1 : SimulationEnvironment K) (temp1 : Matrix K) (maxDiff : K),
      1 ≤ j ∧ j ≤ 2 ∧ NewtonRun n j env tempSoln env1 temp1 maxDiff ∧
      maxDiff < 1e-12 ∧ (j = 2 → maxDiff = 0) ∧
      newtonLoop n 32 env tempSoln = Except.ok (env1, temp1) := by
  obtain ⟨e1, t1, md, hit, c1, c2, c3, c4, c5, c6, c7, c8, c9⟩ :=
    linear_first_pass env tempSoln n ce1 hnl hgen hsq hns hlN hlM hM hn htN
  have hpos : (0 : K) < 1e-12 := by norm_num
  by_cases hc : md < 1e-12
  · refine ⟨1, e1, t1, md, le_refl 1, by decide, NewtonRun.last env tempSoln e1 t1 md hit,
      hc, fun h => absurd h (by decide), ?_⟩
    show newtonLoop n (31 + 1) env tempSoln = _
    rw [newtonLoop]
    simp only [hit, hc, if_true]
  · obtain ⟨e2, t2, hit2⟩ := linear_second_pass
      { e1 with elements := { e1.elements with nonLinearStampIsFresh := false } } t1 n
      ce1.nonLinearStamp c1 c2 c3 hsq hns c4 c5 c6 c7 c8 c9
    refine ⟨2, e2, t2, 0, by decide, le_refl 2,
      NewtonRun.next 1 env tempSoln e1 t1 md e2 t2 0 hit hc
        (NewtonRun.last _ t1 e2 t2 0 hit2), hpos, fun _ => rfl, ?_⟩
    show newtonLoop n (31 + 1) env tempSoln = _
    rw [newtonLoop]
    simp only [hit, hc, if_false]
    show newtonLoop n (30 + 1) _ t1 = _
    rw [newtonLoop]
    simp only [hit2, hpos, if_true]

/-- The stamp that the first pass assembles for `linearEnvironment` at step 1. -/
theorem linearEnvironment_generate :
    ∃ ce1 : CircuitElements ℚ,
      linearEnvironment.elements.generateNonLinearStamp linearEnvironment.solutionMat 1
        linearEnvironment.timestep = Except.ok ce1 ∧
      ce1.nonLinearStamp.G.N = 1 ∧ ce1.nonLinearStamp.G.M = 1 ∧
      ce1.nonLinearStamp.G.data 0 = 3 := by
  refine ⟨_, rfl, rfl, rfl, ?_⟩
  simp [linearEnvironment, exampleEnvironment, exampleElements, CircuitElements.new,
    CircuitElements.generateNonLinearStamp, CircuitElements.generateDynamicStamp,
    CircuitElements.generateStaticStamp, Stamp.addNonLinearStamps, Stamp.addDynamicStamps,
    Stamp.addStaticStamps, Stamp.new, Stamp.clear, Matrix.fill, Matrix.mk0,
    Component.addStaticStampTo, Component.addDynamicStampTo, Resistor.toComponent,
    Capacitor.toComponent, Resistor.addStaticStampTo, Capacitor.addDynamicStampTo,
    unitCapacitor, Stamp.addG, Stamp.addS, Matrix.addAt, branchVoltage]
  norm_num

theorem linear_newton_two_passes_witness :
    linearEnvironment.elements.nonLinearElements = [] ∧
    ∃ (j : Nat) (env1 : SimulationEnvironment ℚ) (temp1 : Matrix ℚ) (maxDiff : ℚ),
      1 ≤ j ∧ j ≤ 2 ∧ NewtonRun 1 j linearEnvironment (Matrix.mk0 1 1 0) env1 temp1 maxDiff ∧
      maxDiff < 1e-12 ∧ (j = 2 → maxDiff = 0) ∧
      newtonLoop 1 32 linearEnvironment (Matrix.mk0 1 1 0) = Except.ok (env1, temp1) := by
  obtain ⟨ce1, hgen, hN, hM, h0⟩ := linearEnvironment_generate
  have hns : Matrix.Nonsingular ce1.nonLinearStamp.G := by
    obtain ⟨a, b, c, d, e, f, g, h, i, j⟩ := ce1
    obtain ⟨sA, sD, ⟨data, M, N⟩, s⟩ := c
    simp only at hN hM h0
    subst hN hM
    unfold Matrix.Nonsingular Matrix.toSq
    rw [Matrix.det_fin_one]
    simp [Matrix.get, h0]
  exact ⟨rfl, linear_newton_two_passes linearEnvironment (Matrix.mk0 1 1 0) 1 ce1 rfl hgen
    (by rw [hN, hM]) hns (by rw [hM]; rfl) (by rw [hM]; rfl) (by rw [hM]; rfl)
    (by decide) rfl⟩

end SimulationEnvironment

/-! ## The bounds of the accesses of `_fftHelperRadix2` -/

section FFTBounds

theorem mem_accumulate (f : Nat → List FFTAccess) (a : FFTAccess) :
    ∀ k, a ∈ forLoop (fun i (acc : List FFTAccess) => acc ++ f i) 0 k [] →
      ∃ i, i < k ∧ a ∈ f i
  | 0, h => absurd h (List.not_mem_nil a)
  | k + 1, h => by
    have step : forLoop (fun i (acc : List FFTAccess) => acc ++ f i) 0 (k + 1) [] =
        forLoop (fun i (acc : List FFTAccess) => acc ++ f i) 0 k [] ++ f (0 + k) := rfl
    rw [step, List.mem_append, Nat.zero_add] at h
    rcases h with h | h
    · obtain ⟨i, hi, hm⟩ := mem_accumulate f a k h
      exact ⟨i, by omega, hm⟩
    · exact ⟨k, by omega, h⟩

theorem deref_index (it : FFTIter) (i : Nat) : (it.deref i).index = it.pos + i := by
  unfold FFTIter.deref
  split_ifs <;> rfl

theorem shiftRight_pow (m s d : Nat) (h : s + d = m) : (2 ^ m) >>> s = 2 ^ d := by
  rw [Nat.shiftRight_eq_div_pow, ← h, Nat.pow_add, Nat.mul_comm,
    Nat.mul_div_cancel _ (Nat.two_pow_pos s)]

/-- The accesses of a call on a sub-problem of `2 ^ d` samples at stride `s`, in an input
of `2 ^ m <= 2 ^ 31` samples with `s + d = m`, stay within the `2 ^ m` entries when the
two iterators leave room for `2 ^ d` entries and `offset < 2 ^ s`. -/
theorem fftHelperRadix2Accesses_bound (m : Nat) (hm : m ≤ 31) :
    ∀ (d s : Nat), 1 ≤ d → s + d = m → ∀ (result scratch : FFTIter) (offset : Nat),
      result.pos + 2 ^ d ≤ 2 ^ m → scratch.pos + 2 ^ d ≤ 2 ^ m → offset < 2 ^ s →
      ∀ a ∈ _fftHelperRadix2Accesses (2 ^ m) result scratch offset s, a.index < 2 ^ m := by
  intro d
  induction d with
  | zero => intro s h; omega
  | succ d ih =>
    intro s _ hsd result scratch offset hr hsc hoff a ha
    have hlen := shiftRight_pow m s (d + 1) hsd
    have hs30 : s ≤ 30 := by omega
    have hsh := oneShl_small s hs30
    have hpow : 2 ^ (s + 1) ≤ 2 ^ m := Nat.pow_le_pow_right (by decide) (by omega)
    have hps : 2 ^ (s + 1) = 2 * 2 ^ s := by rw [Nat.pow_succ]; omega
    have hm64 : 2 ^ m < 2 ^ 64 := Nat.pow_lt_pow_right (by decide) (by omega)
    have hoff2 : (offset + oneShl s) % 2 ^ 64 = offset + 2 ^ s := by
      rw [hsh]
      exact Nat.mod_eq_of_lt (by omega)
    have hpd : 2 ^ (d + 1) = 2 * 2 ^ d := by rw [Nat.pow_succ]; omega
    rw [_fftHelperRadix2Accesses, hlen, hoff2] at ha
    by_cases hd : d = 0
    · subst hd
      rw [if_neg (by decide)] at ha
      simp only [List.mem_cons, List.mem_singleton, List.not_mem_nil, or_false] at ha
      simp only [pow_one, Nat.zero_add] at hr
      rcases ha with h | h | h | h | h | h <;> rw [h]
      · show offset < 2 ^ m
        omega
      · show offset + 2 ^ s < 2 ^ m
        omega
      · rw [deref_index]; omega
      · show offset < 2 ^ m
        omega
      · show offset + 2 ^ s < 2 ^ m
        omega
      · rw [deref_index]; omega
    · have hd1 : 1 ≤ d := by omega
      have h2d : 2 ≤ 2 ^ d := by
        calc 2 = 2 ^ 1 := by norm_num
          _ ≤ 2 ^ d := Nat.pow_le_pow_right (by decide) hd1
      have hgt : 2 < 2 ^ (d + 1) := by omega
      have hhalf : 2 ^ (d + 1) / 2 = 2 ^ d := by omega
      rw [if_pos hgt, hhalf] at ha
      simp only [List.mem_append] at ha
      rcases ha with h | h | h
      · exact ih (s + 1) hd1 (by omega) scratch result offset (by omega) (by omega)
          (by omega) a h
      · refine ih (s + 1) hd1 (by omega) (scratch.add (2 ^ d)) (result.add (2 ^ d))
          (offset + 2 ^ s) ?_ ?_ (by omega) a h
        · show scratch.pos + 2 ^ d + 2 ^ d ≤ 2 ^ m
          omega
        · show result.pos + 2 ^ d + 2 ^ d ≤ 2 ^ m
          omega
      · simp only [forRange, Nat.sub_zero] at h
        obtain ⟨i, hi, hmem⟩ := mem_accumulate _ a _ h
        simp only [List.mem_cons, List.mem_singleton, List.not_mem_nil, or_false] at hmem
        rcases hmem with h | h | h | h | h | h <;> rw [h, deref_index] <;> omega

/-- C40, as stated, fails for the length `2 ^ 32`: the base case at stride 31 reads
`inputData[0 + (1 << 31)]`, where the shift is made in `int` and gives `-2 ^ 31`, so that
the index is `2 ^ 64 - 2 ^ 31`, outside the `2 ^ 32` entries of the input. -/
theorem fft_reads_outside_at_length_two_pow_32 :
    FFTAccess.input (2 ^ 64 - 2 ^ 31) ∈ fftAccesses (2 ^ 32) ∧
    ¬ (FFTAccess.input (2 ^ 64 - 2 ^ 31)).index < 2 ^ 32 := by
  constructor
  · have key : ∀ k, k ≤ 31 → ∀ result scratch : FFTIter,
        FFTAccess.input (2 ^ 64 - 2 ^ 31) ∈
          _fftHelperRadix2Accesses (2 ^ 32) result scratch 0 (31 - k) := by
      intro k
      induction k with
      | zero =>
        intro _ result scratch
        have hlen : (2 ^ 32) >>> 31 = 2 ^ 1 := shiftRight_pow 32 31 1 rfl
        rw [_fftHelperRadix2Accesses, hlen, if_neg (by decide), oneShl_31]
        simp
      | succ k ih =>
        intro hk result scratch
        have hlen : (2 ^ 32) >>> (31 - (k + 1)) = 2 ^ (k + 2) :=
          shiftRight_pow 32 (31 - (k + 1)) (k + 2) (by omega)
        have hgt : 2 < 2 ^ (k + 2) := by
          have : 2 ^ 2 ≤ 2 ^ (k + 2) := Nat.pow_le_pow_right (by decide) (by omega)
          omega
        have hs : 31 - (k + 1) + 1 = 31 - k := by omega
        rw [_fftHelperRadix2Accesses, hlen, if_pos hgt, hs]
        exact List.mem_append_left _ (ih (by omega) scratch result)
    exact key 31 (le_refl _) ⟨true, 0⟩ ⟨false, 0⟩
  · show ¬ 2 ^ 64 - 2 ^ 31 < 2 ^ 32
    decide

/-- C40, amended: for an input of length `2 ^ m` with `1 <= m <= 31`, every access of
`_fftHelperRadix2` in `fft` and `ifft`, to `inputData`, to `result` and to `scratch`, has
an index below the length, and the list of accesses is that of a recursion that ends
(the model is a total function); for an input of length 1 the base case reads
`inputData[1]`, which is outside the input. -/
theorem fft_accesses_in_bounds (m : Nat) (h1 : 1 ≤ m) (h31 : m ≤ 31) :
    (∀ a ∈ fftAccesses (2 ^ m), a.index < 2 ^ m) ∧
    FFTAccess.input 1 ∈ fftAccesses 1 ∧ ¬ (FFTAccess.input 1).index < 1 := by
  refine ⟨?_, ?_, ?_⟩
  · intro a ha
    have hp : 0 < 2 ^ 0 := by decide
    exact fftHelperRadix2Accesses_bound m h31 m 0 h1 (Nat.zero_add m) ⟨true, 0⟩ ⟨false, 0⟩ 0
      (by show 0 + 2 ^ m ≤ 2 ^ m; omega) (by show 0 + 2 ^ m ≤ 2 ^ m; omega) hp a ha
  · have hlen : 1 >>> 0 = 1 := rfl
    have hsh : oneShl 0 = 1 := by
      rw [oneShl_small 0 (by decide)]
      rfl
    unfold fftAccesses
    rw [_fftHelperRadix2Accesses, hlen, if_neg (by decide), hsh]
    simp
  · show ¬ 1 < 1
    decide

theorem fft_accesses_in_bounds_witness :
    (1 ≤ 3 ∧ 3 ≤ 31) ∧
    (∀ a ∈ fftAccesses (2 ^ 3), a.index < 2 ^ 3) ∧
    FFTAccess.input 1 ∈ fftAccesses 1 ∧ ¬ (FFTAccess.input 1).index < 1 :=
  ⟨⟨by decide, by decide⟩, fft_accesses_in_bounds 3 (by decide) (by decide)⟩

end FFTBounds

/-! ## The vector-fitted S-parameter block: the loops over ports and poles -/

theorem forLoop_sim {σ τ : Type} (W : τ → σ) (body : Nat → σ → σ) (body' : Nat → τ → τ)
    (h : ∀ i t, body i (W t) = W (body' i t)) (lo : Nat) :
    ∀ (k : Nat) (t : τ), forLoop body lo k (W t) = W (forLoop body' lo k t)
  | 0, _ => rfl
  | k + 1, t => by
    show body (lo + k) (forLoop body lo k (W t)) = W (body' (lo + k) (forLoop body' lo k t))
    rw [forLoop_sim W body body' h lo k t, h]

theorem forLoop_preserves {σ : Type} (P : σ → Prop) (body : Nat → σ → σ)
    (h : ∀ i s, P s → P (body i s)) (lo : Nat) :
    ∀ (k : Nat) (s : σ), P s → P (forLoop body lo k s)
  | 0, _, hs => hs
  | k + 1, s, hs => h _ _ (forLoop_preserves P body h lo k s hs)

theorem forLoop_induct {σ : Type} (P : Nat → σ → Prop) (body : Nat → σ → σ) (lo : Nat)
    (s : σ) (h0 : P 0 s) (hs : ∀ i s, P i s → P (i + 1) (body (lo + i) s)) :
    ∀ k, P k (forLoop body lo k s)
  | 0 => h0
  | k + 1 => hs k _ (forLoop_induct P body lo s h0 hs k)

/-- A loop whose passes rewrite the one entry `p`. -/
theorem forLoop_slot {A : Type} (p : Nat) (b : Nat → A → A) (lo : Nat) :
    ∀ (k : Nat) (s : Nat → A),
      forLoop (fun i (s : Nat → A) => Function.update s p (b i (s p))) lo k s =
        Function.update s p (forLoop b lo k (s p))
  | 0, s => by
    show s = Function.update s p (s p)
    rw [Function.update_eq_self]
  | k + 1, s => by
    show Function.update (forLoop (fun i (s : Nat → A) => Function.update s p (b i (s p)))
        lo k s) p (b (lo + k) (forLoop (fun i (s : Nat → A) =>
          Function.update s p (b i (s p))) lo k s p)) =
      Function.update s p (b (lo + k) (forLoop b lo k (s p)))
    rw [forLoop_slot p b lo k s, Function.update_same, Function.update_idem]

theorem forLoop_each {A : Type} (h : Nat → A → A) (m : Nat) (t : Nat → A) :
    forLoop (fun k (t : Nat → A) => Function.update t k (h k (t k))) 0 m t =
      fun p => if p < m then h p (t p) else t p := by
  funext p
  exact forLoop_update_each h m t p

namespace SParameterBlockVF

variable {K : Type} [LinearOrderedField K]

theorem reshape_self (blk : SParameterBlockVF K) :
    blk.reshape blk.firstOrder blk.port blk.froms = blk := rfl

theorem reshape_modifyFrom (blk : SParameterBlockVF K) (fo : Bool)
    (ps : Nat → SParameterPortVF K) (fs : Nat → Nat → SParamVFDataFrom K) (p c : Nat)
    (f : SParamVFDataFrom K → SParamVFDataFrom K) :
    (blk.reshape fo ps fs).modifyFrom p c f =
      blk.reshape fo ps (Function.update fs p (Function.update (fs p) c (f (fs p c)))) := by
  unfold modifyFrom modifyPort reshape
  simp only [SParameterBlockVF.mk.injEq, and_true]
  funext q
  by_cases hq : q = p
  · subst hq
    simp only [Function.update_same]
  · simp only [Function.update_noteq hq]

theorem reshape_setFlag (blk : SParameterBlockVF K) (fo b : Bool)
    (ps : Nat → SParameterPortVF K) (fs : Nat → Nat → SParamVFDataFrom K) :
    { blk.reshape fo ps fs with firstOrder := b } = blk.reshape b ps fs := rfl

theorem reshape_awave_p (sqrt : K → K) (blk : SParameterBlockVF K) (fo : Bool)
    (ps : Nat → SParameterPortVF K) (fs : Nat → Nat → SParamVFDataFrom K) (p : Nat)
    (sol : Matrix K) (n sizeG_A : Nat) :
    (blk.reshape fo ps fs).awave_p sqrt p sol n sizeG_A = blk.awave_p sqrt p sol n sizeG_A :=
  rfl

/-- An assignment to `beta`, `alpha` or `R` of a port keeps the shape of the block. -/
theorem reshape_modifyPort (blk : SParameterBlockVF K) (fo : Bool)
    (ps : Nat → SParameterPortVF K) (fs : Nat → Nat → SParamVFDataFrom K) (p : Nat)
    (g : SParameterPortVF K → SParameterPortVF K)
    (hg : ∀ pt, (g pt).positive = pt.positive ∧ (g pt).negative = pt.negative ∧
      (g pt).current = pt.current ∧ (g pt).from_ = pt.from_) :
    ∃ ps', (blk.reshape fo ps fs).modifyPort p g = blk.reshape fo ps' fs := by
  refine ⟨Function.update ps p (g ((blk.reshape fo ps fs).port p)), ?_⟩
  unfold modifyPort
  show ({ port := _, numPorts := _, firstOrder := _, z_ref := _ } : SParameterBlockVF K) = _
  unfold reshape
  simp only [SParameterBlockVF.mk.injEq, and_true]
  funext q
  by_cases hq : q = p
  · subst hq
    simp only [Function.update_same]
    obtain ⟨h1, h2, h3, h4⟩ := hg
      { positive := (blk.port q).positive, negative := (blk.port q).negative,
        current := (blk.port q).current, beta := (ps q).beta, alpha := (ps q).alpha,
        R := (ps q).R, from_ := fs q }
    generalize g _ = r at h1 h2 h3 h4 ⊢
    obtain ⟨r1, r2, r3, r4, r5, r6, r7⟩ := r
    simp only at h1 h2 h3 h4
    subst h1 h2 h3 h4
    rfl
  · simp only [Function.update_noteq hq]

/-- The method `setConstants` keeps the shape of the block: it writes `beta`, `alpha`
and `R` only. -/
theorem reshape_setConstants (blk : SParameterBlockVF K) (fo : Bool)
    (ps : Nat → SParameterPortVF K) (fs : Nat → Nat → SParamVFDataFrom K) (dt : K) :
    ∃ ps', (blk.reshape fo ps fs).setConstants dt = blk.reshape fo ps' fs := by
  unfold setConstants
  apply forLoop_preserves (fun b => ∃ ps', b = blk.reshape fo ps' fs) _ _ _ _ _ ⟨ps, rfl⟩
  rintro p b ⟨ps1, rfl⟩
  obtain ⟨ps2, h2⟩ := reshape_modifyPort blk fo ps1 fs p
    (fun pt => { pt with
      beta := StdComplex.ofReal 1 - (pt.from_ p).lambda - (pt.from_ p).remainder })
    (fun _ => ⟨rfl, rfl, rfl, rfl⟩)
  obtain ⟨ps3, h3⟩ := reshape_modifyPort blk fo ps2 fs p
    (fun pt => { pt with beta := StdComplex.ofReal 1 / pt.beta })
    (fun _ => ⟨rfl, rfl, rfl, rfl⟩)
  obtain ⟨ps4, h4⟩ := reshape_modifyPort blk fo ps3 fs p
    (fun pt => { pt with
      R := StdComplex.ofReal 1 + (pt.from_ p).lambda + (pt.from_ p).remainder })
    (fun _ => ⟨rfl, rfl, rfl, rfl⟩)
  obtain ⟨ps5, h5⟩ := reshape_modifyPort blk fo ps4 fs p
    (fun pt => { pt with R := StdComplex.ofReal blk.z_ref * pt.R * pt.beta })
    (fun _ => ⟨rfl, rfl, rfl, rfl⟩)
  rw [h2]
  dsimp only []
  rw [h3, h4]
  have h5' : (blk.reshape fo ps4 fs).modifyPort p
      (fun pt => { pt with
        R := StdComplex.ofReal (blk.reshape fo ps4 fs).z_ref * pt.R * pt.beta }) =
      blk.reshape fo ps5 fs := h5
  rw [h5']
  apply forLoop_preserves (fun b => ∃ ps', b = blk.reshape fo ps' fs) _ _ _ _ _ ⟨ps5, rfl⟩
  rintro c b ⟨ps6, rfl⟩
  split_ifs with hcp
  · exact reshape_modifyPort blk fo ps6 fs p _ (fun _ => ⟨rfl, rfl, rfl, rfl⟩)
  · obtain ⟨ps7, h7⟩ := reshape_modifyPort blk fo ps6 fs p
      (fun pt => { pt with
        alpha := Function.update pt.alpha c
          ((pt.from_ c).lambda + (pt.from_ c).remainder) })
      (fun _ => ⟨rfl, rfl, rfl, rfl⟩)
    rw [h7]
    exact reshape_modifyPort blk fo ps7 fs p _ (fun _ => ⟨rfl, rfl, rfl, rfl⟩)

/-- The loop over `rho` of a method that assigns to `port[p].from[c]` in every pass. -/
theorem reshape_poleLoop (blk : SParameterBlockVF K) (fo : Bool)
    (ps : Nat → SParameterPortVF K) (p c : Nat)
    (rbody : Nat → SParameterBlockVF K → SParameterBlockVF K)
    (g : Nat → SParamVFDataFrom K → SParamVFDataFrom K)
    (hr : ∀ rho fs, rbody rho (blk.reshape fo ps fs) =
      blk.reshape fo ps (Function.update fs p (Function.update (fs p) c (g rho (fs p c)))))
    (k : Nat) (fs : Nat → Nat → SParamVFDataFrom K) :
    forLoop rbody 0 k (blk.reshape fo ps fs) =
      blk.reshape fo ps
        (Function.update fs p (Function.update (fs p) c (forLoop g 0 k (fs p c)))) := by
  rw [forLoop_sim (blk.reshape fo ps) rbody
    (fun rho fs => Function.update fs p (Function.update (fs p) c (g rho (fs p c)))) hr]
  congr 1
  rw [forLoop_slot p (fun rho row => Function.update row c (g rho (row c))) 0 k fs,
    forLoop_slot c g 0 k (fs p)]

/-- The loops over `p` and `c` of a method whose body for `(p, c)` replaces the record
`port[p].from[c]` by `G p c` of itself. -/
theorem reshape_portLoops (blk : SParameterBlockVF K) (fo : Bool)
    (ps : Nat → SParameterPortVF K)
    (cbody : Nat → Nat → SParameterBlockVF K → SParameterBlockVF K)
    (G : Nat → Nat → SParamVFDataFrom K → SParamVFDataFrom K)
    (hc : ∀ p c fs, cbody p c (blk.reshape fo ps fs) =
      blk.reshape fo ps (Function.update fs p (Function.update (fs p) c (G p c (fs p c)))))
    (fs : Nat → Nat → SParamVFDataFrom K) :
    forRange (fun p b => forRange (fun c b => cbody p c b) 0 b.numPorts b) 0 blk.numPorts
        (blk.reshape fo ps fs) =
      blk.reshape fo ps (fun p c =>
        if p < blk.numPorts ∧ c < blk.numPorts then G p c (fs p c) else fs p c) := by
  have hrow : ∀ p fs, forRange (fun c b => cbody p c b) 0 (blk.reshape fo ps fs).numPorts
      (blk.reshape fo ps fs) =
      blk.reshape fo ps (Function.update fs p
        (fun c => if c < blk.numPorts then G p c (fs p c) else fs p c)) := by
    intro p fs
    show forLoop (fun c b => cbody p c b) 0 (blk.numPorts - 0) (blk.reshape fo ps fs) = _
    rw [forLoop_sim (blk.reshape fo ps) (fun c b => cbody p c b)
      (fun c fs => Function.update fs p (Function.update (fs p) c (G p c (fs p c))))
      (hc p)]
    congr 1
    rw [forLoop_slot p (fun c row => Function.update row c (G p c (row c))) 0 _ fs,
      forLoop_each (G p), Nat.sub_zero]
  show forLoop (fun p b => forRange (fun c b => cbody p c b) 0 b.numPorts b) 0
    (blk.numPorts - 0) (blk.reshape fo ps fs) = _
  rw [forLoop_sim (blk.reshape fo ps)
    (fun p b => forRange (fun c b => cbody p c b) 0 b.numPorts b)
    (fun p fs => Function.update fs p
      (fun c => if c < blk.numPorts then G p c (fs p c) else fs p c)) hrow]
  congr 1
  rw [forLoop_each (fun p row c => if c < blk.numPorts then G p c (row c) else row c),
    Nat.sub_zero]
  funext p c
  by_cases hp : p < blk.numPorts
  · by_cases hcc : c < blk.numPorts
    · simp only [hp, hcc, if_true, and_self]
    · simp only [hp, hcc, if_true, if_false, and_false]
  · simp only [hp, if_false, false_and]

theorem update_update_slot (fs : Nat → Nat → SParamVFDataFrom K) (p c : Nat)
    (v w : SParamVFDataFrom K) :
    Function.update (Function.update fs p (Function.update (fs p) c v)) p
        (Function.update ((Function.update fs p (Function.update (fs p) c v)) p) c w) =
      Function.update fs p (Function.update (fs p) c w) := by
  rw [Function.update_same, Function.update_idem, Function.update_idem]

/-- The body for `(p, c)` of the loops of `setFirstOrder`. -/
theorem reshape_firstOrderBody (F : CMath K) (dt : K) (blk : SParameterBlockVF K)
    (fo : Bool) (ps : Nat → SParameterPortVF K) (p c : Nat)
    (fs : Nat → Nat → SParamVFDataFrom K) :
    forRange (fun rho b => b.modifyFrom p c (firstOrderPole F dt rho)) 0
        ((((blk.reshape fo ps fs).modifyFrom p c
          (fun fr => { fr with lambda := 0, mu := 0, nu := 0 })).port p).from_ c).numPoles
        ((blk.reshape fo ps fs).modifyFrom p c
          (fun fr => { fr with lambda := 0, mu := 0, nu := 0 })) =
      blk.reshape fo ps
        (Function.update fs p (Function.update (fs p) c (firstOrderFrom F dt (fs p c)))) := by
  rw [reshape_modifyFrom]
  have hn : (((blk.reshape fo ps (Function.update fs p (Function.update (fs p) c
      { fs p c with lambda := 0, mu := 0, nu := 0 }))).port p).from_ c).numPoles =
      (fs p c).numPoles := by
    show ((Function.update fs p (Function.update (fs p) c
      { fs p c with lambda := 0, mu := 0, nu := 0 })) p c).numPoles = _
    rw [Function.update_same, Function.update_same]
  rw [hn]
  show forLoop _ 0 ((fs p c).numPoles - 0) _ = _
  rw [reshape_poleLoop blk fo ps p c _ (firstOrderPole F dt)
    (fun rho fs => reshape_modifyFrom blk fo ps fs p c _), update_update_slot,
    Function.update_same, Function.update_same]
  rfl

/-- The body for `(p, c)` of the loops of `setSecondOrder`. -/
theorem reshape_secondOrderBody (F : CMath K) (dt : K) (blk : SParameterBlockVF K)
    (fo : Bool) (ps : Nat → SParameterPortVF K) (p c : Nat)
    (fs : Nat → Nat → SParamVFDataFrom K) :
    forRange (fun rho b => b.modifyFrom p c (secondOrderPole F dt rho)) 0
        ((((blk.reshape fo ps fs).modifyFrom p c
          (fun fr => { fr with lambda := 0, mu := 0, nu := 0 })).port p).from_ c).numPoles
        ((blk.reshape fo ps fs).modifyFrom p c
          (fun fr => { fr with lambda := 0, mu := 0, nu := 0 })) =
      blk.reshape fo ps
        (Function.update fs p (Function.update (fs p) c (secondOrderFrom F dt (fs p c)))) := by
  rw [reshape_modifyFrom]
  have hn : (((blk.reshape fo ps (Function.update fs p (Function.update (fs p) c
      { fs p c with lambda := 0, mu := 0, nu := 0 }))).port p).from_ c).numPoles =
      (fs p c).numPoles := by
    show ((Function.update fs p (Function.update (fs p) c
      { fs p c with lambda := 0, mu := 0, nu := 0 })) p c).numPoles = _
    rw [Function.update_same, Function.update_same]
  rw [hn]
  show forLoop _ 0 ((fs p c).numPoles - 0) _ = _
  rw [reshape_poleLoop blk fo ps p c _ (secondOrderPole F dt)
    (fun rho fs => reshape_modifyFrom blk fo ps fs p c _), update_update_slot,
    Function.update_same, Function.update_same]
  rfl

/-- The method `setFirstOrder` on a block: the flag is set, every record
`port[p].from[c]` with `p, c < numPorts` gets the first-order weights, and
`setConstants` writes the constants of the ports. -/
theorem setFirstOrder_shape (F : CMath K) (dt : K) (blk : SParameterBlockVF K) :
    ∃ ps', blk.setFirstOrder F dt = blk.reshape true ps' (fun p c =>
      if p < blk.numPorts ∧ c < blk.numPorts then firstOrderFrom F dt (blk.froms p c)
      else blk.froms p c) := by
  have h := reshape_portLoops blk true blk.port
    (fun p c b =>
      forRange (fun rho b => b.modifyFrom p c (firstOrderPole F dt rho)) 0
        (((b.modifyFrom p c
          (fun fr => { fr with lambda := 0, mu := 0, nu := 0 })).port p).from_ c).numPoles
        (b.modifyFrom p c (fun fr => { fr with lambda := 0, mu := 0, nu := 0 })))
    (fun _ _ => firstOrderFrom F dt)
    (fun p c fs => reshape_firstOrderBody F dt blk true blk.port p c fs) blk.froms
  obtain ⟨ps', hps⟩ := reshape_setConstants blk true blk.port (fun p c =>
    if p < blk.numPorts ∧ c < blk.numPorts then firstOrderFrom F dt (blk.froms p c)
    else blk.froms p c) dt
  exact ⟨ps', (congrArg (fun b => b.setConstants dt) h).trans hps⟩

/-- The method `setSecondOrder` on a block. -/
theorem setSecondOrder_shape (F : CMath K) (dt : K) (blk : SParameterBlockVF K) :
    ∃ ps', blk.setSecondOrder F dt = blk.reshape false ps' (fun p c =>
      if p < blk.numPorts ∧ c < blk.numPorts then secondOrderFrom F dt (blk.froms p c)
      else blk.froms p c) := by
  have h := reshape_portLoops blk false blk.port
    (fun p c b =>
      forRange (fun rho b => b.modifyFrom p c (secondOrderPole F dt rho)) 0
        (((b.modifyFrom p c
          (fun fr => { fr with lambda := 0, mu := 0, nu := 0 })).port p).from_ c).numPoles
        (b.modifyFrom p c (fun fr => { fr with lambda := 0, mu := 0, nu := 0 })))
    (fun _ _ => secondOrderFrom F dt)
    (fun p c fs => reshape_secondOrderBody F dt blk false blk.port p c fs) blk.froms
  obtain ⟨ps', hps⟩ := reshape_setConstants blk false blk.port (fun p c =>
    if p < blk.numPorts ∧ c < blk.numPorts then secondOrderFrom F dt (blk.froms p c)
    else blk.froms p c) dt
  exact ⟨ps', (congrArg (fun b => b.setConstants dt) h).trans hps⟩

/-- One pass of the loop over `rho` of `updateStoredState`. -/
theorem reshape_updatePass (sqrt : K → K) (blk : SParameterBlockVF K) (fo : Bool)
    (ps : Nat → SParameterPortVF K) (sol : Matrix K) (n sizeG_A : Nat) (p c rho : Nat)
    (fs : Nat → Nat → SParamVFDataFrom K) :
    updatePass sqrt sol n sizeG_A p c rho (blk.reshape fo ps fs) =
      blk.reshape fo ps (Function.update fs p (Function.update (fs p) c
        (updatePole fo (blk.awave_p sqrt c sol n sizeG_A)
          (blk.awave_p sqrt c sol (n - 1) sizeG_A) (blk.awave_p sqrt c sol (n - 2) sizeG_A)
          rho (fs p c)))) := by
  unfold updatePass
  simp only [reshape_modifyFrom, reshape_awave_p]
  cases fo
  · have e : (blk.reshape false ps (Function.update fs p (Function.update (fs p) c
        { fs p c with
          x := Function.update (fs p c).x rho
            ((fs p c).x rho * (fs p c).exp_alpha rho +
              (fs p c).lambda_p rho * StdComplex.ofReal (blk.awave_p sqrt c sol n sizeG_A) +
              (fs p c).mu_p rho * StdComplex.ofReal
                (blk.awave_p sqrt c sol (n - 1) sizeG_A)) }))).firstOrder = false := rfl
    rw [e]
    simp only [Bool.not_false, if_true, Function.update_idem, Function.update_same,
      updatePole]
  · have e : (blk.reshape true ps (Function.update fs p (Function.update (fs p) c
        { fs p c with
          x := Function.update (fs p c).x rho
            ((fs p c).x rho * (fs p c).exp_alpha rho +
              (fs p c).lambda_p rho * StdComplex.ofReal (blk.awave_p sqrt c sol n sizeG_A) +
              (fs p c).mu_p rho * StdComplex.ofReal
                (blk.awave_p sqrt c sol (n - 1) sizeG_A)) }))).firstOrder = true := rfl
    rw [e]
    simp only [Bool.not_true, Bool.false_eq_true, if_false, updatePole]

/-- The body for `(p, c)` of the loops of `updateStoredState`. -/
theorem reshape_updateBody (sqrt : K → K) (blk : SParameterBlockVF K) (fo : Bool)
    (ps : Nat → SParameterPortVF K) (sol : Matrix K) (n sizeG_A : Nat) (p c : Nat)
    (fs : Nat → Nat → SParamVFDataFrom K) :
    forRange (updatePass sqrt sol n sizeG_A p c)
        0 (((blk.reshape fo ps fs).port p).from_ c).numPoles (blk.reshape fo ps fs) =
      blk.reshape fo ps (Function.update fs p (Function.update (fs p) c
        (updateFrom fo (blk.awave_p sqrt c sol n sizeG_A)
          (blk.awave_p sqrt c sol (n - 1) sizeG_A) (blk.awave_p sqrt c sol (n - 2) sizeG_A)
          (fs p c)))) := by
  show forLoop _ 0 ((fs p c).numPoles - 0) _ = _
  rw [reshape_poleLoop blk fo ps p c _
    (updatePole fo (blk.awave_p sqrt c sol n sizeG_A)
      (blk.awave_p sqrt c sol (n - 1) sizeG_A) (blk.awave_p sqrt c sol (n - 2) sizeG_A))
    (fun rho fs => reshape_updatePass sqrt blk fo ps sol n sizeG_A p c rho fs)]
  rfl

/-- The method `updateStoredState` on a block: every record `port[p].from[c]` with
`p, c < numPorts` is updated, then `setSecondOrder` runs when the block was of first
order and the step is at least 1. -/
theorem updateStoredState_shape (sqrt : K → K) (F : CMath K) (blk : SParameterBlockVF K)
    (sol : Matrix K) (n : Nat) (dt : K) (sizeG_A : Nat) :
    blk.updateStoredState sqrt F sol n dt sizeG_A =
      if (blk.firstOrder && decide (1 ≤ n)) = true then
        (blk.reshape blk.firstOrder blk.port (fun p c =>
          if p < blk.numPorts ∧ c < blk.numPorts then
            updateFrom blk.firstOrder (blk.awave_p sqrt c sol n sizeG_A)
              (blk.awave_p sqrt c sol (n - 1) sizeG_A)
              (blk.awave_p sqrt c sol (n - 2) sizeG_A) (blk.froms p c)
          else blk.froms p c)).setSecondOrder F dt
      else
        blk.reshape blk.firstOrder blk.port (fun p c =>
          if p < blk.numPorts ∧ c < blk.numPorts then
            updateFrom blk.firstOrder (blk.awave_p sqrt c sol n sizeG_A)
              (blk.awave_p sqrt c sol (n - 1) sizeG_A)
              (blk.awave_p sqrt c sol (n - 2) sizeG_A) (blk.froms p c)
          else blk.froms p c) := by
  have h := reshape_portLoops blk blk.firstOrder blk.port
    (fun p c b => forRange (updatePass sqrt sol n sizeG_A p c)
      0 ((b.port p).from_ c).numPoles b)
    (fun _ c => updateFrom blk.firstOrder (blk.awave_p sqrt c sol n sizeG_A)
      (blk.awave_p sqrt c sol (n - 1) sizeG_A) (blk.awave_p sqrt c sol (n - 2) sizeG_A))
    (fun p c fs => reshape_updateBody sqrt blk blk.firstOrder blk.port sol n sizeG_A p c fs)
    blk.froms
  have e : blk.updateStoredState sqrt F sol n dt sizeG_A =
      if ((blk.reshape blk.firstOrder blk.port (fun p c =>
          if p < blk.numPorts ∧ c < blk.numPorts then
            updateFrom blk.firstOrder (blk.awave_p sqrt c sol n sizeG_A)
              (blk.awave_p sqrt c sol (n - 1) sizeG_A)
              (blk.awave_p sqrt c sol (n - 2) sizeG_A) (blk.froms p c)
          else blk.froms p c)).firstOrder && decide (1 ≤ n)) = true then
        (blk.reshape blk.firstOrder blk.port (fun p c =>
          if p < blk.numPorts ∧ c < blk.numPorts then
            updateFrom blk.firstOrder (blk.awave_p sqrt c sol n sizeG_A)
              (blk.awave_p sqrt c sol (n - 1) sizeG_A)
              (blk.awave_p sqrt c sol (n - 2) sizeG_A) (blk.froms p c)
          else blk.froms p c)).setSecondOrder F dt
      else
        blk.reshape blk.firstOrder blk.port (fun p c =>
          if p < blk.numPorts ∧ c < blk.numPorts then
            updateFrom blk.firstOrder (blk.awave_p sqrt c sol n sizeG_A)
              (blk.awave_p sqrt c sol (n - 1) sizeG_A)
              (blk.awave_p sqrt c sol (n - 2) sizeG_A) (blk.froms p c)
          else blk.froms p c) := by
    rw [← h]
    rfl
  exact e

/-! ### The loops over the poles of one record -/

/-- The loop over `rho` of `updateStoredState` on one record: the pole states below
`numPoles` are updated, nothing else changes. -/
theorem updateFrom_spec (fo : Bool) (a0 a1 a2 : K) (fr : SParamVFDataFrom K) :
    (updateFrom fo a0 a1 a2 fr).numPoles = fr.numPoles ∧
    (updateFrom fo a0 a1 a2 fr).pole = fr.pole ∧
    (updateFrom fo a0 a1 a2 fr).residue = fr.residue ∧
    (updateFrom fo a0 a1 a2 fr).lambda_p = fr.lambda_p ∧
    (updateFrom fo a0 a1 a2 fr).mu_p = fr.mu_p ∧
    (updateFrom fo a0 a1 a2 fr).nu_p = fr.nu_p ∧
    (updateFrom fo a0 a1 a2 fr).exp_alpha = fr.exp_alpha ∧
    ∀ rho, (updateFrom fo a0 a1 a2 fr).x rho =
      if rho < fr.numPoles then
        fr.x rho * fr.exp_alpha rho + fr.lambda_p rho * StdComplex.ofReal a0 +
          fr.mu_p rho * StdComplex.ofReal a1 +
          (if fo = true then 0 else fr.nu_p rho * StdComplex.ofReal a2)
      else fr.x rho := by
  have h := forLoop_induct
    (fun k (r : SParamVFDataFrom K) =>
      r.numPoles = fr.numPoles ∧ r.pole = fr.pole ∧ r.residue = fr.residue ∧
      r.lambda_p = fr.lambda_p ∧ r.mu_p = fr.mu_p ∧ r.nu_p = fr.nu_p ∧
      r.exp_alpha = fr.exp_alpha ∧
      ∀ rho, r.x rho =
        if rho < k then
          fr.x rho * fr.exp_alpha rho + fr.lambda_p rho * StdComplex.ofReal a0 +
            fr.mu_p rho * StdComplex.ofReal a1 +
            (if fo = true then 0 else fr.nu_p rho * StdComplex.ofReal a2)
        else fr.x rho)
    (updatePole fo a0 a1 a2) 0 fr
    ⟨rfl, rfl, rfl, rfl, rfl, rfl, rfl, fun rho => by rw [if_neg (Nat.not_lt_zero rho)]⟩
    (by
      rintro i r ⟨h1, h2, h3, h4, h5, h6, h7, h8⟩
      rw [Nat.zero_add]
      have hxi : r.x i = fr.x i := by rw [h8 i, if_neg (lt_irrefl i)]
      cases fo
      · simp only [Bool.false_eq_true, if_false] at h8 ⊢
        refine ⟨h1, h2, h3, h4, h5, h6, h7, fun rho => ?_⟩
        simp only [updatePole, Bool.not_false, if_true, Function.update_idem]
        by_cases hr : rho = i
        · subst hr
          rw [Function.update_same, if_pos (Nat.lt_succ_self rho), hxi, h4, h5, h6, h7,
            Function.update_same]
        · rw [Function.update_noteq hr, h8 rho]
          by_cases hlt : rho < i
          · rw [if_pos hlt, if_pos (show rho < i + 1 by omega)]
          · rw [if_neg hlt, if_neg (show ¬ rho < i + 1 by omega)]
      · simp only [if_true, add_zero] at h8 ⊢
        refine ⟨h1, h2, h3, h4, h5, h6, h7, fun rho => ?_⟩
        simp only [updatePole, Bool.not_true, Bool.false_eq_true, if_false]
        by_cases hr : rho = i
        · subst hr
          rw [Function.update_same, if_pos (Nat.lt_succ_self rho), hxi, h4, h5, h7]
        · rw [Function.update_noteq hr, h8 rho]
          by_cases hlt : rho < i
          · rw [if_pos hlt, if_pos (show rho < i + 1 by omega)]
          · rw [if_neg hlt, if_neg (show ¬ rho < i + 1 by omega)])
    fr.numPoles
  exact h

/-- The loop over `rho` of `setFirstOrder` on one record: the weights of the poles below
`numPoles` are the first-order ones; the poles, the residues, the factors `exp_alpha`
and the pole states are kept. -/
theorem firstOrderFrom_spec (F : CMath K) (dt : K) (fr : SParamVFDataFrom K) :
    (firstOrderFrom F dt fr).numPoles = fr.numPoles ∧
    (firstOrderFrom F dt fr).pole = fr.pole ∧
    (firstOrderFrom F dt fr).residue = fr.residue ∧
    (firstOrderFrom F dt fr).exp_alpha = fr.exp_alpha ∧
    (firstOrderFrom F dt fr).x = fr.x ∧
    ∀ rho, rho < fr.numPoles →
      (firstOrderFrom F dt fr).lambda_p rho =
        firstOrderLambda F (fr.pole rho) (fr.residue rho) dt ∧
      (firstOrderFrom F dt fr).mu_p rho = firstOrderMu F (fr.pole rho) (fr.residue rho) dt ∧
      (firstOrderFrom F dt fr).nu_p rho = 0 := by
  have h := forLoop_induct
    (fun k (r : SParamVFDataFrom K) =>
      r.numPoles = fr.numPoles ∧ r.pole = fr.pole ∧ r.residue = fr.residue ∧
      r.exp_alpha = fr.exp_alpha ∧ r.x = fr.x ∧
      ∀ rho, rho < k →
        r.lambda_p rho = firstOrderLambda F (fr.pole rho) (fr.residue rho) dt ∧
        r.mu_p rho = firstOrderMu F (fr.pole rho) (fr.residue rho) dt ∧
        r.nu_p rho = 0)
    (firstOrderPole F dt) 0 { fr with lambda := 0, mu := 0, nu := 0 }
    ⟨rfl, rfl, rfl, rfl, rfl, fun rho h => absurd h (Nat.not_lt_zero rho)⟩
    (by
      rintro i r ⟨h1, h2, h3, h4, h5, h6⟩
      rw [Nat.zero_add]
      refine ⟨h1, h2, h3, h4, h5, fun rho hrho => ?_⟩
      simp only [firstOrderPole]
      by_cases hr : rho = i
      · subst hr
        simp only [Function.update_same, h2, h3, and_self]
      · simp only [Function.update_noteq hr]
        exact h6 rho (by omega))
    fr.numPoles
  exact h

/-- The loop over `rho` of `setSecondOrder` on one record. -/
theorem secondOrderFrom_spec (F : CMath K) (dt : K) (fr : SParamVFDataFrom K) :
    (secondOrderFrom F dt fr).numPoles = fr.numPoles ∧
    (secondOrderFrom F dt fr).pole = fr.pole ∧
    (secondOrderFrom F dt fr).residue = fr.residue ∧
    (secondOrderFrom F dt fr).exp_alpha = fr.exp_alpha ∧
    (secondOrderFrom F dt fr).x = fr.x ∧
    ∀ rho, rho < fr.numPoles →
      (secondOrderFrom F dt fr).lambda_p rho =
        secondOrderLambda F (fr.pole rho) (fr.residue rho) dt ∧
      (secondOrderFrom F dt fr).mu_p rho =
        secondOrderMu F (fr.pole rho) (fr.residue rho) dt ∧
      (secondOrderFrom F dt fr).nu_p rho =
        secondOrderNu F (fr.pole rho) (fr.residue rho) dt := by
  have h := forLoop_induct
    (fun k (r : SParamVFDataFrom K) =>
      r.numPoles = fr.numPoles ∧ r.pole = fr.pole ∧ r.residue = fr.residue ∧
      r.exp_alpha = fr.exp_alpha ∧ r.x = fr.x ∧
      ∀ rho, rho < k →
        r.lambda_p rho = secondOrderLambda F (fr.pole rho) (fr.residue rho) dt ∧
        r.mu_p rho = secondOrderMu F (fr.pole rho) (fr.residue rho) dt ∧
        r.nu_p rho = secondOrderNu F (fr.pole rho) (fr.residue rho) dt)
    (secondOrderPole F dt) 0 { fr with lambda := 0, mu := 0, nu := 0 }
    ⟨rfl, rfl, rfl, rfl, rfl, fun rho h => absurd h (Nat.not_lt_zero rho)⟩
    (by
      rintro i r ⟨h1, h2, h3, h4, h5, h6⟩
      rw [Nat.zero_add]
      refine ⟨h1, h2, h3, h4, h5, fun rho hrho => ?_⟩
      simp only [secondOrderPole]
      by_cases hr : rho = i
      · subst hr
        simp only [Function.update_same, h2, h3, and_self]
      · simp only [Function.update_noteq hr]
        exact h6 rho (by omega))
    fr.numPoles
  exact h

/-- The loop over `rho` of `setTimestep` on one record. -/
theorem timestepFrom_spec (F : CMath K) (dt : K) (fr : SParamVFDataFrom K) :
    (timestepFrom F dt fr).numPoles = fr.numPoles ∧
    (timestepFrom F dt fr).pole = fr.pole ∧
    (timestepFrom F dt fr).residue = fr.residue ∧
    (timestepFrom F dt fr).x = fr.x ∧
    ∀ rho, rho < fr.numPoles →
      (timestepFrom F dt fr).exp_alpha rho =
        StdComplex.exp F (fr.pole rho * StdComplex.ofReal dt) := by
  have h := forLoop_induct
    (fun k (r : SParamVFDataFrom K) =>
      r.numPoles = fr.numPoles ∧ r.pole = fr.pole ∧ r.residue = fr.residue ∧ r.x = fr.x ∧
      ∀ rho, rho < k →
        r.exp_alpha rho = StdComplex.exp F (fr.pole rho * StdComplex.ofReal dt))
    (fun rho (fr : SParamVFDataFrom K) =>
      { fr with
        exp_alpha := Function.update fr.exp_alpha rho
          (StdComplex.exp F (fr.pole rho * StdComplex.ofReal dt)) }) 0 fr
    ⟨rfl, rfl, rfl, rfl, fun rho h => absurd h (Nat.not_lt_zero rho)⟩
    (by
      rintro i r ⟨h1, h2, h3, h4, h5⟩
      rw [Nat.zero_add]
      refine ⟨h1, h2, h3, h4, fun rho hrho => ?_⟩
      by_cases hr : rho = i
      · subst hr
        simp only [Function.update_same, h2]
      · simp only [Function.update_noteq hr]
        exact h5 rho (by omega))
    fr.numPoles
  exact h

/-- The loop over `c` of a method whose body for `(p, c)` replaces the record
`port[p].from[c]` by `G c` of itself. -/
theorem reshape_rowLoop (blk : SParameterBlockVF K) (fo : Bool)
    (ps : Nat → SParameterPortVF K) (p : Nat)
    (cbody : Nat → SParameterBlockVF K → SParameterBlockVF K)
    (G : Nat → SParamVFDataFrom K → SParamVFDataFrom K)
    (hc : ∀ c fs, cbody c (blk.reshape fo ps fs) =
      blk.reshape fo ps (Function.update fs p (Function.update (fs p) c (G c (fs p c)))))
    (fs : Nat → Nat → SParamVFDataFrom K) :
    forRange cbody 0 (blk.reshape fo ps fs).numPorts (blk.reshape fo ps fs) =
      blk.reshape fo ps (Function.update fs p
        (fun c => if c < blk.numPorts then G c (fs p c) else fs p c)) := by
  show forLoop cbody 0 (blk.numPorts - 0) (blk.reshape fo ps fs) = _
  rw [forLoop_sim (blk.reshape fo ps) cbody
    (fun c fs => Function.update fs p (Function.update (fs p) c (G c (fs p c)))) hc]
  congr 1
  rw [forLoop_slot p (fun c row => Function.update row c (G c (row c))) 0 _ fs,
    forLoop_each G, Nat.sub_zero]

/-- The body for `(p, c)` of the loops of `setTimestep`. -/
theorem reshape_timestepBody (F : CMath K) (dt : K) (blk : SParameterBlockVF K)
    (fo : Bool) (ps : Nat → SParameterPortVF K) (p c : Nat)
    (fs : Nat → Nat → SParamVFDataFrom K) :
    forRange (fun rho b =>
        b.modifyFrom p c (fun fr =>
          { fr with
            exp_alpha := Function.update fr.exp_alpha rho
              (StdComplex.exp F (fr.pole rho * StdComplex.ofReal dt)) }))
        0 (((blk.reshape fo ps fs).port p).from_ c).numPoles (blk.reshape fo ps fs) =
      blk.reshape fo ps
        (Function.update fs p (Function.update (fs p) c (timestepFrom F dt (fs p c)))) := by
  show forLoop _ 0 ((fs p c).numPoles - 0) _ = _
  rw [reshape_poleLoop blk fo ps p c _
    (fun rho (fr : SParamVFDataFrom K) =>
      { fr with
        exp_alpha := Function.update fr.exp_alpha rho
          (StdComplex.exp F (fr.pole rho * StdComplex.ofReal dt)) })
    (fun rho fs => reshape_modifyFrom blk fo ps fs p c _)]
  rfl

/-- The method `setTimestep` on a block of first order: the block stays of first order,
every factor `exp_alpha[rho]` is `exp(pole * timestep)`, the weights are the first-order
ones, and the poles, the residues and the pole states are kept. -/
theorem setTimestep_shape (F : CMath K) (dt : K) (blk : SParameterBlockVF K)
    (hfo : blk.firstOrder = true) :
    ∃ ps fs, blk.setTimestep F dt = blk.reshape true ps fs ∧
      ∀ p c, (fs p c).numPoles = (blk.froms p c).numPoles ∧
        (fs p c).pole = (blk.froms p c).pole ∧
        (fs p c).residue = (blk.froms p c).residue ∧
        (fs p c).x = (blk.froms p c).x ∧
        (p < blk.numPorts → c < blk.numPorts → ∀ rho, rho < (blk.froms p c).numPoles →
          (fs p c).exp_alpha rho =
            StdComplex.exp F ((blk.froms p c).pole rho * StdComplex.ofReal dt) ∧
          (fs p c).lambda_p rho =
            firstOrderLambda F ((blk.froms p c).pole rho) ((blk.froms p c).residue rho) dt ∧
          (fs p c).mu_p rho =
            firstOrderMu F ((blk.froms p c).pole rho) ((blk.froms p c).residue rho) dt ∧
          (fs p c).nu_p rho = 0) := by
  have h := forLoop_induct
    (fun i (b : SParameterBlockVF K) =>
      ∃ ps fs, b = blk.reshape true ps fs ∧
        ∀ p c, (fs p c).numPoles = (blk.froms p c).numPoles ∧
          (fs p c).pole = (blk.froms p c).pole ∧
          (fs p c).residue = (blk.froms p c).residue ∧
          (fs p c).x = (blk.froms p c).x ∧
          (p < i → c < blk.numPorts → ∀ rho, rho < (blk.froms p c).numPoles →
            (fs p c).exp_alpha rho =
              StdComplex.exp F ((blk.froms p c).pole rho * StdComplex.ofReal dt)) ∧
          (0 < i → p < blk.numPorts → c < blk.numPorts →
            ∀ rho, rho < (blk.froms p c).numPoles →
              (fs p c).lambda_p rho = firstOrderLambda F ((blk.froms p c).pole rho)
                ((blk.froms p c).residue rho) dt ∧
              (fs p c).mu_p rho = firstOrderMu F ((blk.froms p c).pole rho)
                ((blk.froms p c).residue rho) dt ∧
              (fs p c).nu_p rho = 0))
    (fun p blk =>
      if (forRange (fun c blk =>
          forRange (fun rho blk =>
              blk.modifyFrom p c (fun fr =>
                { fr with
                  exp_alpha := Function.update fr.exp_alpha rho
                    (StdComplex.exp F (fr.pole rho * StdComplex.ofReal dt)) }))
            0 ((blk.port p).from_ c).numPoles blk)
        0 blk.numPorts blk).firstOrder = true then
        (forRange (fun c blk =>
          forRange (fun rho blk =>
              blk.modifyFrom p c (fun fr =>
                { fr with
                  exp_alpha := Function.update fr.exp_alpha rho
                    (StdComplex.exp F (fr.pole rho * StdComplex.ofReal dt)) }))
            0 ((blk.port p).from_ c).numPoles blk)
        0 blk.numPorts blk).setFirstOrder F dt
      else
        (forRange (fun c blk =>
          forRange (fun rho blk =>
              blk.modifyFrom p c (fun fr =>
                { fr with
                  exp_alpha := Function.update fr.exp_alpha rho
                    (StdComplex.exp F (fr.pole rho * StdComplex.ofReal dt)) }))
            0 ((blk.port p).from_ c).numPoles blk)
        0 blk.numPorts blk).setSecondOrder F dt)
    0 blk
    ⟨blk.port, blk.froms, by rw [← hfo]; rfl, fun p c =>
      ⟨rfl, rfl, rfl, rfl, fun h => absurd h (Nat.not_lt_zero p),
        fun h => absurd h (lt_irrefl 0)⟩⟩
    (by
      rintro i b ⟨ps, fs, rfl, hinv⟩
      rw [Nat.zero_add]
      have hrow := reshape_rowLoop blk true ps i
        (fun c b => forRange (fun rho b =>
            b.modifyFrom i c (fun fr =>
              { fr with
                exp_alpha := Function.update fr.exp_alpha rho
                  (StdComplex.exp F (fr.pole rho * StdComplex.ofReal dt)) }))
          0 ((b.port i).from_ c).numPoles b)
        (fun _ => timestepFrom F dt)
        (fun c fs => reshape_timestepBody F dt blk true ps i c fs) fs
      beta_reduce
      rw [hrow]
      have hflag : (blk.reshape true ps (Function.update fs i
          (fun c => if c < blk.numPorts then timestepFrom F dt (fs i c) else fs i c))).firstOrder
          = true := rfl
      rw [if_pos hflag]
      obtain ⟨ps', hps⟩ := setFirstOrder_shape F dt (blk.reshape true ps (Function.update fs i
        (fun c => if c < blk.numPorts then timestepFrom F dt (fs i c) else fs i c)))
      refine ⟨ps', _, hps, fun p c => ?_⟩
      obtain ⟨g1, g2, g3, g4, g5, g6⟩ := hinv p c
      -- the record (p, c) before `setFirstOrder`
      have hmid : ∀ q d, (q = i ∧ d < blk.numPorts →
          (blk.reshape true ps (Function.update fs i
            (fun c => if c < blk.numPorts then timestepFrom F dt (fs i c) else fs i c))).froms
              q d = timestepFrom F dt (fs q d)) ∧
          (¬ (q = i ∧ d < blk.numPorts) →
          (blk.reshape true ps (Function.update fs i
            (fun c => if c < blk.numPorts then timestepFrom F dt (fs i c) else fs i c))).froms
              q d = fs q d) := by
        intro q d
        constructor
        · rintro ⟨rfl, hd⟩
          show (Function.update fs q _) q d = _
          rw [Function.update_same, if_pos hd]
        · intro hnot
          show (Function.update fs i _) q d = _
          by_cases hq : q = i
          · subst hq
            rw [Function.update_same, if_neg (fun hd => hnot ⟨rfl, hd⟩)]
          · rw [Function.update_noteq hq]
      obtain ⟨t1, t2, t3, t4, t5⟩ := timestepFrom_spec F dt (fs p c)
      have hm : ((blk.reshape true ps (Function.update fs i
            (fun c => if c < blk.numPorts then timestepFrom F dt (fs i c) else fs i c))).froms
              p c).numPoles = (blk.froms p c).numPoles ∧
          ((blk.reshape true ps (Function.update fs i
            (fun c => if c < blk.numPorts then timestepFrom F dt (fs i c) else fs i c))).froms
              p c).pole = (blk.froms p c).pole ∧
          ((blk.reshape true ps (Function.update fs i
            (fun c => if c < blk.numPorts then timestepFrom F dt (fs i c) else fs i c))).froms
              p c).residue = (blk.froms p c).residue ∧
          ((blk.reshape true ps (Function.update fs i
            (fun c => if c < blk.numPorts then timestepFrom F dt (fs i c) else fs i c))).froms
              p c).x = (blk.froms p c).x ∧
          (p < i + 1 → c < blk.numPorts → ∀ rho, rho < (blk.froms p c).numPoles →
            ((blk.reshape true ps (Function.update fs i
              (fun c => if c < blk.numPorts then timestepFrom F dt (fs i c) else fs i c))).froms
                p c).exp_alpha rho =
              StdComplex.exp F ((blk.froms p c).pole rho * StdComplex.ofReal dt)) := by
        by_cases hcase : p = i ∧ c < blk.numPorts
        · rw [(hmid p c).1 hcase]
          refine ⟨t1.trans g1, t2.trans g2, t3.trans g3, t4.trans g4, ?_⟩
          intro _ _ rho hrho
          rw [t5 rho (by rw [g1]; exact hrho), g2]
        · rw [(hmid p c).2 hcase]
          refine ⟨g1, g2, g3, g4, ?_⟩
          intro hpi hcN rho hrho
          have hpi' : p < i := by
            rcases Nat.lt_succ_iff_lt_or_eq.mp hpi with h | h
            · exact h
            · exact absurd ⟨h, hcN⟩ hcase
          exact g5 hpi' hcN rho hrho
      obtain ⟨m1, m2, m3, m4, m5⟩ := hm
      by_cases hpc : p < blk.numPorts ∧ c < blk.numPorts
      · have hpc' : p < (blk.reshape true ps (Function.update fs i
            (fun c => if c < blk.numPorts then timestepFrom F dt (fs i c)
              else fs i c))).numPorts ∧
            c < (blk.reshape true ps (Function.update fs i
              (fun c => if c < blk.numPorts then timestepFrom F dt (fs i c)
                else fs i c))).numPorts := hpc
        simp only [if_pos hpc']
        obtain ⟨f1, f2, f3, f4, f5, f6⟩ := firstOrderFrom_spec F dt
          ((blk.reshape true ps (Function.update fs i
            (fun c => if c < blk.numPorts then timestepFrom F dt (fs i c) else fs i c))).froms
              p c)
        refine ⟨f1.trans m1, f2.trans m2, f3.trans m3, f5.trans m4, ?_, ?_⟩
        · intro hpi hcN rho hrho
          rw [f4]
          exact m5 hpi hcN rho hrho
        · intro _ _ _ rho hrho
          have := f6 rho (by rw [m1]; exact hrho)
          rw [m2, m3] at this
          exact this
      · have hpc' : ¬ (p < (blk.reshape true ps (Function.update fs i
            (fun c => if c < blk.numPorts then timestepFrom F dt (fs i c)
              else fs i c))).numPorts ∧
            c < (blk.reshape true ps (Function.update fs i
              (fun c => if c < blk.numPorts then timestepFrom F dt (fs i c)
                else fs i c))).numPorts) := hpc
        simp only [if_neg hpc']
        refine ⟨m1, m2, m3, m4, m5, ?_⟩
        intro _ hp hc
        exact absurd ⟨hp, hc⟩ hpc)
    blk.numPorts
  obtain ⟨ps, fs, hb, hinv⟩ := h
  refine ⟨ps, fs, hb, fun p c => ?_⟩
  obtain ⟨g1, g2, g3, g4, g5, g6⟩ := hinv p c
  refine ⟨g1, g2, g3, g4, fun hp hc rho hrho => ?_⟩
  obtain ⟨w1, w2, w3⟩ := g6 (by omega) hp hc rho hrho
  exact ⟨g5 hp hc rho hrho, w1, w2, w3⟩

/-- The method `updateStoredState` on a block of the shape of `blk`: the block keeps the
shape; the flag is cleared by a step `n >= 1`; in every record `port[p].from[c]` with
`p, c < numPorts` the pole states below `numPoles` are updated with the weights stored
before the call, and the weights are replaced by the second-order ones when the block
was of first order and `n >= 1`. -/
theorem updateStoredState_state (sqrt : K → K) (F : CMath K) (blk : SParameterBlockVF K)
    (fo : Bool) (ps : Nat → SParameterPortVF K) (fs : Nat → Nat → SParamVFDataFrom K)
    (sol : Matrix K) (n : Nat) (dt : K) (sizeG_A : Nat) :
    ∃ ps' fs', (blk.reshape fo ps fs).updateStoredState sqrt F sol n dt sizeG_A =
        blk.reshape (fo && !decide (1 ≤ n)) ps' fs' ∧
      ∀ p c, p < blk.numPorts → c < blk.numPorts →
        (fs' p c).numPoles = (fs p c).numPoles ∧
        (fs' p c).pole = (fs p c).pole ∧
        (fs' p c).residue = (fs p c).residue ∧
        (fs' p c).exp_alpha = (fs p c).exp_alpha ∧
        (∀ rho, (fs' p c).x rho =
          if rho < (fs p c).numPoles then
            (fs p c).x rho * (fs p c).exp_alpha rho +
              (fs p c).lambda_p rho * StdComplex.ofReal (blk.awave_p sqrt c sol n sizeG_A) +
              (fs p c).mu_p rho *
                StdComplex.ofReal (blk.awave_p sqrt c sol (n - 1) sizeG_A) +
              (if fo = true then 0
                else (fs p c).nu_p rho *
                  StdComplex.ofReal (blk.awave_p sqrt c sol (n - 2) sizeG_A))
          else (fs p c).x rho) ∧
        ((fo && decide (1 ≤ n)) = true → ∀ rho, rho < (fs p c).numPoles →
          (fs' p c).lambda_p rho =
            secondOrderLambda F ((fs p c).pole rho) ((fs p c).residue rho) dt ∧
          (fs' p c).mu_p rho =
            secondOrderMu F ((fs p c).pole rho) ((fs p c).residue rho) dt ∧
          (fs' p c).nu_p rho =
            secondOrderNu F ((fs p c).pole rho) ((fs p c).residue rho) dt) ∧
        (¬ (fo && decide (1 ≤ n)) = true →
          (fs' p c).lambda_p = (fs p c).lambda_p ∧ (fs' p c).mu_p = (fs p c).mu_p ∧
          (fs' p c).nu_p = (fs p c).nu_p) := by
  obtain ⟨U, hU⟩ : ∃ U : Nat → Nat → SParamVFDataFrom K, U = fun p c =>
      if p < blk.numPorts ∧ c < blk.numPorts then
        updateFrom fo (blk.awave_p sqrt c sol n sizeG_A)
          (blk.awave_p sqrt c sol (n - 1) sizeG_A) (blk.awave_p sqrt c sol (n - 2) sizeG_A)
          (fs p c)
      else fs p c := ⟨_, rfl⟩
  have hshape : (blk.reshape fo ps fs).updateStoredState sqrt F sol n dt sizeG_A =
      if (fo && decide (1 ≤ n)) = true then (blk.reshape fo ps U).setSecondOrder F dt
      else blk.reshape fo ps U := by
    rw [hU]
    exact updateStoredState_shape sqrt F (blk.reshape fo ps fs) sol n dt sizeG_A
  have hUpc : ∀ p c, p < blk.numPorts → c < blk.numPorts →
      U p c = updateFrom fo (blk.awave_p sqrt c sol n sizeG_A)
        (blk.awave_p sqrt c sol (n - 1) sizeG_A) (blk.awave_p sqrt c sol (n - 2) sizeG_A)
        (fs p c) := by
    intro p c hp hc
    rw [hU]
    exact if_pos ⟨hp, hc⟩
  by_cases hcond : (fo && decide (1 ≤ n)) = true
  · rw [if_pos hcond] at hshape
    obtain ⟨ps', hps⟩ := setSecondOrder_shape F dt (blk.reshape fo ps U)
    have hflag : (fo && !decide (1 ≤ n)) = false := by
      cases fo
      · rfl
      · simp only [Bool.true_and, decide_eq_true_eq] at hcond
        simp [hcond]
    refine ⟨ps', fun p c => if p < blk.numPorts ∧ c < blk.numPorts then
      secondOrderFrom F dt (U p c) else U p c, ?_, fun p c hp hc => ?_⟩
    · rw [hshape, hps, hflag]
      rfl
    · have hpc : p < blk.numPorts ∧ c < blk.numPorts := ⟨hp, hc⟩
      obtain ⟨u1, u2, u3, u4, u5, u6, u7, u8⟩ := updateFrom_spec fo
        (blk.awave_p sqrt c sol n sizeG_A) (blk.awave_p sqrt c sol (n - 1) sizeG_A)
        (blk.awave_p sqrt c sol (n - 2) sizeG_A) (fs p c)
      obtain ⟨s1, s2, s3, s4, s5, s6⟩ := secondOrderFrom_spec F dt
        (updateFrom fo (blk.awave_p sqrt c sol n sizeG_A)
          (blk.awave_p sqrt c sol (n - 1) sizeG_A)
          (blk.awave_p sqrt c sol (n - 2) sizeG_A) (fs p c))
      simp only [if_pos hpc, hUpc p c hp hc]
      refine ⟨s1.trans u1, s2.trans u2, s3.trans u3, s4.trans u7, ?_, ?_, ?_⟩
      · intro rho
        exact (congrFun s5 rho).trans (u8 rho)
      · intro _ rho hrho
        have hw := s6 rho (by rw [u1]; exact hrho)
        rw [u2, u3] at hw
        exact hw
      · intro hnot
        exact absurd hcond hnot
  · rw [if_neg hcond] at hshape
    have hflag : (fo && !decide (1 ≤ n)) = fo := by
      cases fo
      · rfl
      · simp only [Bool.true_and, decide_eq_true_eq] at hcond
        simp [hcond]
    refine ⟨ps, U, ?_, fun p c hp hc => ?_⟩
    · rw [hshape, hflag]
    · obtain ⟨u1, u2, u3, u4, u5, u6, u7, u8⟩ := updateFrom_spec fo
        (blk.awave_p sqrt c sol n sizeG_A) (blk.awave_p sqrt c sol (n - 1) sizeG_A)
        (blk.awave_p sqrt c sol (n - 2) sizeG_A) (fs p c)
      rw [hUpc p c hp hc]
      exact ⟨u1, u2, u3, u7, u8, fun h => absurd h hcond, fun _ => ⟨u4, u5, u6⟩⟩

end SParameterBlockVF

/-! ## The vector-fitted S-parameter block: the pole states and the weights -/

namespace StdComplex

variable {K : Type} [LinearOrderedField K]

theorem ofReal_two : ofReal (2 : K) = 2 := by
  have h := natCast_eq (K := K) 2
  push_cast at h
  exact h.symm

theorem ofReal_three : ofReal (3 : K) = 3 := by
  have h := natCast_eq (K := K) 3
  push_cast at h
  exact h.symm

theorem ofReal_neg_two : ofReal (-2 : K) = -2 := by
  rw [← ofReal_two]
  ext
  · rfl
  · show (0 : K) = -0
    rw [neg_zero]

end StdComplex

namespace SParameterBlockVF

variable {K : Type} [LinearOrderedField K]

/-- The first-order weights of a pole add up to `-(residue / pole) (1 - exp(a))`. -/
theorem firstOrder_sum (F : CMath K) (pole residue : StdComplex K) (dt : K) :
    firstOrderLambda F pole residue dt + firstOrderMu F pole residue dt =
      -(residue / pole) * (1 - StdComplex.exp F (pole * StdComplex.ofReal dt)) := by
  unfold firstOrderLambda firstOrderMu
  simp only [StdComplex.ofReal_one]
  ring

/-- The second-order weights of a pole add up to `-(residue / pole) (1 - exp(a))`. -/
theorem secondOrder_sum (F : CMath K) (pole residue : StdComplex K) (dt : K) :
    secondOrderLambda F pole residue dt + secondOrderMu F pole residue dt +
        secondOrderNu F pole residue dt =
      -(residue / pole) * (1 - StdComplex.exp F (pole * StdComplex.ofReal dt)) := by
  unfold secondOrderLambda secondOrderMu secondOrderNu
  simp only [StdComplex.ofReal_one, StdComplex.ofReal_two, StdComplex.ofReal_three,
    StdComplex.ofReal_neg_two]
  ring

/-- The states of the block over the time steps: the shape, the flag, the factors
`exp_alpha` and the weights after the steps `1 .. k`. -/
theorem afterSteps_state (sqrt : K → K) (F : CMath K) (blk : SParameterBlockVF K)
    (sol : Matrix K) (dt : K) (sizeG_A : Nat) (hfo : blk.firstOrder = true) :
    ∀ k, ∃ ps fs, afterSteps sqrt F blk sol dt sizeG_A k =
        blk.reshape (decide (k = 0)) ps fs ∧
      ∀ p c, p < blk.numPorts → c < blk.numPorts →
        (fs p c).numPoles = (blk.froms p c).numPoles ∧
        (fs p c).pole = (blk.froms p c).pole ∧
        (fs p c).residue = (blk.froms p c).residue ∧
        ∀ rho, rho < (blk.froms p c).numPoles →
          (fs p c).exp_alpha rho =
            StdComplex.exp F ((blk.froms p c).pole rho * StdComplex.ofReal dt) ∧
          (fs p c).lambda_p rho =
            (if k = 0 then
              firstOrderLambda F ((blk.froms p c).pole rho) ((blk.froms p c).residue rho) dt
            else
              secondOrderLambda F ((blk.froms p c).pole rho) ((blk.froms p c).residue rho)
                dt) ∧
          (fs p c).mu_p rho =
            (if k = 0 then
              firstOrderMu F ((blk.froms p c).pole rho) ((blk.froms p c).residue rho) dt
            else
              secondOrderMu F ((blk.froms p c).pole rho) ((blk.froms p c).residue rho) dt) ∧
          (fs p c).nu_p rho =
            (if k = 0 then 0
            else
              secondOrderNu F ((blk.froms p c).pole rho) ((blk.froms p c).residue rho) dt)
  | 0 => by
    obtain ⟨ps, fs, h, hinv⟩ := setTimestep_shape F dt blk hfo
    refine ⟨ps, fs, h, fun p c hp hc => ?_⟩
    obtain ⟨g1, g2, g3, -, g5⟩ := hinv p c
    refine ⟨g1, g2, g3, fun rho hrho => ?_⟩
    obtain ⟨w1, w2, w3, w4⟩ := g5 hp hc rho hrho
    simp only [if_true]
    exact ⟨w1, w2, w3, w4⟩
  | k + 1 => by
    obtain ⟨ps, fs, h, hinv⟩ := afterSteps_state sqrt F blk sol dt sizeG_A hfo k
    obtain ⟨ps', fs', h', hinv'⟩ := updateStoredState_state sqrt F blk (decide (k = 0)) ps fs
      sol (k + 1) dt sizeG_A
    have hflag : (decide (k = 0) && !decide (1 ≤ k + 1)) = decide (k + 1 = 0) := by
      have h1 : decide (1 ≤ k + 1) = true := decide_eq_true (by omega)
      have h2 : decide (k + 1 = 0) = false := decide_eq_false (by omega)
      rw [h1, h2]
      simp
    refine ⟨ps', fs', ?_, fun p c hp hc => ?_⟩
    · show (afterSteps sqrt F blk sol dt sizeG_A k).updateStoredState sqrt F sol (k + 1) dt
        sizeG_A = _
      rw [h, h', hflag]
    · obtain ⟨g1, g2, g3, g4⟩ := hinv p c hp hc
      obtain ⟨u1, u2, u3, u4, -, u6, u7⟩ := hinv' p c hp hc
      refine ⟨u1.trans g1, u2.trans g2, u3.trans g3, fun rho hrho => ?_⟩
      obtain ⟨w1, w2, w3, w4⟩ := g4 rho hrho
      have hk1 : ¬ k + 1 = 0 := by omega
      simp only [hk1, if_false]
      refine ⟨by rw [u4]; exact w1, ?_⟩
      by_cases hk : k = 0
      · have hcond : (decide (k = 0) && decide (1 ≤ k + 1)) = true := by
          simp [hk]
        have hw := u6 hcond rho (by rw [g1]; exact hrho)
        rw [g2, g3] at hw
        exact hw
      · have hcond : ¬ (decide (k = 0) && decide (1 ≤ k + 1)) = true := by
          simp [hk]
        obtain ⟨v1, v2, v3⟩ := u7 hcond
        rw [v1, v2, v3, w2, w3, w4]
        simp only [hk, if_false, and_self]

/-- The pole state after `updateStoredState`, in terms of the record before. -/
theorem updateStoredState_x (sqrt : K → K) (F : CMath K) (b : SParameterBlockVF K)
    (sol : Matrix K) (m : Nat) (dt : K) (sizeG_A : Nat) (p c rho : Nat)
    (hp : p < b.numPorts) (hc : c < b.numPorts)
    (hrho : rho < ((b.port p).from_ c).numPoles) :
    (((b.updateStoredState sqrt F sol m dt sizeG_A).port p).from_ c).x rho =
      ((b.port p).from_ c).x rho * ((b.port p).from_ c).exp_alpha rho +
        ((b.port p).from_ c).lambda_p rho *
          StdComplex.ofReal (b.awave_p sqrt c sol m sizeG_A) +
        ((b.port p).from_ c).mu_p rho *
          StdComplex.ofReal (b.awave_p sqrt c sol (m - 1) sizeG_A) +
        (if b.firstOrder = true then 0
          else ((b.port p).from_ c).nu_p rho *
            StdComplex.ofReal (b.awave_p sqrt c sol (m - 2) sizeG_A)) := by
  obtain ⟨qs, gs, hb, hb'⟩ := updateStoredState_state sqrt F b b.firstOrder b.port b.froms
    sol m dt sizeG_A
  obtain ⟨-, -, -, -, v5, -, -⟩ := hb' p c hp hc
  have e : b.reshape b.firstOrder b.port b.froms = b := rfl
  rw [e] at hb
  rw [hb]
  show (gs p c).x rho = _
  rw [v5 rho, if_pos (show rho < (b.froms p c).numPoles from hrho)]
  rfl

/-- C31: a block of first order, as the netlist reader leaves it, over the time steps
of `simulate` (`setTimestep` in the constructor, then `updateStoredState` at the end of
every step).  For a step `n >= 1`, two ports `p, c` of the block and a pole `rho` of the
record `port[p].from[c]`: before the update of step `n` the block is of first order
exactly when `n = 1`, the factor `exp_alpha[rho]` is `exp(pole * dt)`, and the stored
weights `lambda_p[rho]`, `mu_p[rho]`, `nu_p[rho]` are those of `setFirstOrder` (with
`nu_p = 0`) when `n = 1` and those of `setSecondOrder` when `n >= 2`; the update sets
the pole state to `x * exp(pole * dt) + lambda * a(n) + mu * a(n - 1)`, plus
`nu * a(n - 2)` when `n >= 2`, where `a(k)` is `awave_p(c, ...)` at column `k`.  And for
any block and any step, `updateStoredState` sets the pole state to
`x * exp_alpha + lambda_p * a(n) + mu_p * a(n - 1)`, plus `nu_p * a(n - 2)` only when
the block is not of first order. -/
theorem vf_pole_state_update (sqrt : K → K) (F : CMath K) (blk : SParameterBlockVF K)
    (sol : Matrix K) (dt : K) (sizeG_A : Nat) (n p c rho : Nat)
    (hfo : blk.firstOrder = true) (hn : 1 ≤ n) (hp : p < blk.numPorts)
    (hc : c < blk.numPorts) (hrho : rho < ((blk.port p).from_ c).numPoles) :
    (afterSteps sqrt F blk sol dt sizeG_A (n - 1)).firstOrder = decide (n = 1) ∧
    (((afterSteps sqrt F blk sol dt sizeG_A (n - 1)).port p).from_ c).exp_alpha rho =
      StdComplex.exp F (((blk.port p).from_ c).pole rho * StdComplex.ofReal dt) ∧
    (((afterSteps sqrt F blk sol dt sizeG_A (n - 1)).port p).from_ c).lambda_p rho =
      (if n = 1 then
        firstOrderLambda F (((blk.port p).from_ c).pole rho)
          (((blk.port p).from_ c).residue rho) dt
      else
        secondOrderLambda F (((blk.port p).from_ c).pole rho)
          (((blk.port p).from_ c).residue rho) dt) ∧
    (((afterSteps sqrt F blk sol dt sizeG_A (n - 1)).port p).from_ c).mu_p rho =
      (if n = 1 then
        firstOrderMu F (((blk.port p).from_ c).pole rho)
          (((blk.port p).from_ c).residue rho) dt
      else
        secondOrderMu F (((blk.port p).from_ c).pole rho)
          (((blk.port p).from_ c).residue rho) dt) ∧
    (((afterSteps sqrt F blk sol dt sizeG_A (n - 1)).port p).from_ c).nu_p rho =
      (if n = 1 then 0
      else
        secondOrderNu F (((blk.port p).from_ c).pole rho)
          (((blk.port p).from_ c).residue rho) dt) ∧
    (((afterSteps sqrt F blk sol dt sizeG_A n).port p).from_ c).x rho =
      (((afterSteps sqrt F blk sol dt sizeG_A (n - 1)).port p).from_ c).x rho *
          StdComplex.exp F (((blk.port p).from_ c).pole rho * StdComplex.ofReal dt) +
        (if n = 1 then
          firstOrderLambda F (((blk.port p).from_ c).pole rho)
            (((blk.port p).from_ c).residue rho) dt
        else
          secondOrderLambda F (((blk.port p).from_ c).pole rho)
            (((blk.port p).from_ c).residue rho) dt) *
          StdComplex.ofReal (blk.awave_p sqrt c sol n sizeG_A) +
        (if n = 1 then
          firstOrderMu F (((blk.port p).from_ c).pole rho)
            (((blk.port p).from_ c).residue rho) dt
        else
          secondOrderMu F (((blk.port p).from_ c).pole rho)
            (((blk.port p).from_ c).residue rho) dt) *
          StdComplex.ofReal (blk.awave_p sqrt c sol (n - 1) sizeG_A) +
        (if n = 1 then 0
        else
          secondOrderNu F (((blk.port p).from_ c).pole rho)
            (((blk.port p).from_ c).residue rho) dt *
            StdComplex.ofReal (blk.awave_p sqrt c sol (n - 2) sizeG_A)) ∧
    (∀ (b : SParameterBlockVF K) (m : Nat), p < b.numPorts → c < b.numPorts →
      rho < ((b.port p).from_ c).numPoles →
      (((b.updateStoredState sqrt F sol m dt sizeG_A).port p).from_ c).x rho =
        ((b.port p).from_ c).x rho * ((b.port p).from_ c).exp_alpha rho +
          ((b.port p).from_ c).lambda_p rho *
            StdComplex.ofReal (b.awave_p sqrt c sol m sizeG_A) +
          ((b.port p).from_ c).mu_p rho *
            StdComplex.ofReal (b.awave_p sqrt c sol (m - 1) sizeG_A) +
          (if b.firstOrder = true then 0
            else ((b.port p).from_ c).nu_p rho *
              StdComplex.ofReal (b.awave_p sqrt c sol (m - 2) sizeG_A))) := by
  obtain ⟨k, rfl⟩ : ∃ k, n = k + 1 := ⟨n - 1, by omega⟩
  rw [Nat.add_sub_cancel]
  obtain ⟨ps, fs, h, hinv⟩ := afterSteps_state sqrt F blk sol dt sizeG_A hfo k
  obtain ⟨g1, g2, g3, g4⟩ := hinv p c hp hc
  obtain ⟨w1, w2, w3, w4⟩ := g4 rho hrho
  obtain ⟨ps', fs', h', hinv'⟩ := updateStoredState_state sqrt F blk (decide (k = 0)) ps fs
    sol (k + 1) dt sizeG_A
  obtain ⟨-, -, -, -, u5, -, -⟩ := hinv' p c hp hc
  have hk : (k + 1 = 1) ↔ k = 0 := by omega
  have hx : (((afterSteps sqrt F blk sol dt sizeG_A (k + 1)).port p).from_ c).x rho =
      (fs' p c).x rho := by
    show ((((afterSteps sqrt F blk sol dt sizeG_A k).updateStoredState sqrt F sol (k + 1) dt
      sizeG_A).port p).from_ c).x rho = _
    rw [h, h']
    rfl
  have hfs : ∀ q d, ((afterSteps sqrt F blk sol dt sizeG_A k).port q).from_ d = fs q d := by
    intro q d
    rw [h]
    rfl
  refine ⟨?_, ?_, ?_, ?_, ?_, ?_, ?_⟩
  · rw [h]
    show decide (k = 0) = decide (k + 1 = 1)
    simp only [hk]
  · rw [hfs]; exact w1
  · rw [hfs, w2]
    simp only [hk]
    rfl
  · rw [hfs, w3]
    simp only [hk]
    rfl
  · rw [hfs, w4]
    simp only [hk]
    rfl
  · rw [hx, u5 rho, if_pos (show rho < (fs p c).numPoles by rw [g1]; exact hrho), hfs, w1,
      w2, w3, w4]
    have e2 : k + 1 - 2 = k - 1 := by omega
    rw [Nat.add_sub_cancel]
    by_cases hk0 : k = 0
    · subst hk0
      simp
      rfl
    · have h1 : ¬ k + 1 = 1 := by omega
      simp only [hk0, h1, if_false, decide_False, Bool.false_eq_true]
      rfl
  · intro b m hbp hbc hbrho
    exact updateStoredState_x sqrt F b sol m dt sizeG_A p c rho hbp hbc hbrho

theorem vf_pole_state_update_witness :
    (exampleVF.firstOrder = true ∧ 1 ≤ 2 ∧ 0 < exampleVF.numPorts ∧
      0 < ((exampleVF.port 0).from_ 0).numPoles) ∧
    (afterSteps id (CMath.mk id id id id id id id id (fun x _ => x)) exampleVF constSol 1 1
      (2 - 1)).firstOrder = decide (2 = 1) ∧
    (((afterSteps id (CMath.mk id id id id id id id id (fun x _ => x)) exampleVF constSol 1 1
      (2 - 1)).port 0).from_ 0).nu_p 0 =
      (if 2 = 1 then 0
      else
        secondOrderNu (CMath.mk id id id id id id id id (fun x _ => x))
          (((exampleVF.port 0).from_ 0).pole 0) (((exampleVF.port 0).from_ 0).residue 0) 1) :=
  ⟨⟨rfl, by decide, Nat.one_pos, Nat.one_pos⟩,
    (vf_pole_state_update id (CMath.mk id id id id id id id id (fun x _ => x)) exampleVF
      constSol 1 1 2 0 0 0 rfl (by decide) Nat.one_pos Nat.one_pos Nat.one_pos).1,
    (vf_pole_state_update id (CMath.mk id id id id id id id id (fun x _ => x)) exampleVF
      constSol 1 1 2 0 0 0 rfl (by decide) Nat.one_pos Nat.one_pos
      Nat.one_pos).2.2.2.2.1⟩

/-- The records of a block after `setFirstOrder` and after `setSecondOrder`. -/
theorem setOrder_froms (F : CMath K) (dt : K) (blk : SParameterBlockVF K) (p c : Nat)
    (hp : p < blk.numPorts) (hc : c < blk.numPorts) :
    ((blk.setFirstOrder F dt).port p).from_ c = firstOrderFrom F dt ((blk.port p).from_ c) ∧
    ((blk.setSecondOrder F dt).port p).from_ c =
      secondOrderFrom F dt ((blk.port p).from_ c) := by
  obtain ⟨ps1, h1⟩ := setFirstOrder_shape F dt blk
  obtain ⟨ps2, h2⟩ := setSecondOrder_shape F dt blk
  rw [h1, h2]
  constructor
  · show (if p < blk.numPorts ∧ c < blk.numPorts then firstOrderFrom F dt (blk.froms p c)
      else blk.froms p c) = _
    rw [if_pos ⟨hp, hc⟩]
    rfl
  · show (if p < blk.numPorts ∧ c < blk.numPorts then secondOrderFrom F dt (blk.froms p c)
      else blk.froms p c) = _
    rw [if_pos ⟨hp, hc⟩]
    rfl

/-- C39: for a pole `rho` of a record `port[p].from[c]` of a block, with `pole` and
`a = pole * dt` not zero: the first-order weights satisfy
`lambda + mu = -(residue / pole) (1 - exp(a))`, the second-order weights satisfy
`lambda + mu + nu = -(residue / pole) (1 - exp(a))`, and these are the weights that
`setFirstOrder` and `setSecondOrder` store; with a constant a-wave `A` at port `c`, a
pole state `-(residue / pole) A` and `exp_alpha = exp(a)`, `updateStoredState` leaves
the pole state at `-(residue / pole) A` after `setFirstOrder` and after
`setSecondOrder`; and when `exp(a)` is not 1 the term
`-(lambda_p + mu_p) / (exp_alpha - 1)` of the DC stamp is `-(residue / pole)`. -/
theorem vf_dc_gain (sqrt : K → K) (F : CMath K) (blk : SParameterBlockVF K) (dt : K)
    (p c rho : Nat) (hp : p < blk.numPorts) (hc : c < blk.numPorts)
    (hrho : rho < ((blk.port p).from_ c).numPoles)
    (hpole : ((blk.port p).from_ c).pole rho ≠ 0)
    (ha : ((blk.port p).from_ c).pole rho * StdComplex.ofReal dt ≠ 0) :
    (firstOrderLambda F (((blk.port p).from_ c).pole rho)
          (((blk.port p).from_ c).residue rho) dt +
        firstOrderMu F (((blk.port p).from_ c).pole rho)
          (((blk.port p).from_ c).residue rho) dt =
      -(((blk.port p).from_ c).residue rho / ((blk.port p).from_ c).pole rho) *
        (1 - StdComplex.exp F (((blk.port p).from_ c).pole rho * StdComplex.ofReal dt))) ∧
    (secondOrderLambda F (((blk.port p).from_ c).pole rho)
          (((blk.port p).from_ c).residue rho) dt +
        secondOrderMu F (((blk.port p).from_ c).pole rho)
          (((blk.port p).from_ c).residue rho) dt +
        secondOrderNu F (((blk.port p).from_ c).pole rho)
          (((blk.port p).from_ c).residue rho) dt =
      -(((blk.port p).from_ c).residue rho / ((blk.port p).from_ c).pole rho) *
        (1 - StdComplex.exp F (((blk.port p).from_ c).pole rho * StdComplex.ofReal dt))) ∧
    ((((blk.setFirstOrder F dt).port p).from_ c).lambda_p rho =
        firstOrderLambda F (((blk.port p).from_ c).pole rho)
          (((blk.port p).from_ c).residue rho) dt ∧
      (((blk.setFirstOrder F dt).port p).from_ c).mu_p rho =
        firstOrderMu F (((blk.port p).from_ c).pole rho)
          (((blk.port p).from_ c).residue rho) dt ∧
      (((blk.setFirstOrder F dt).port p).from_ c).nu_p rho = 0) ∧
    ((((blk.setSecondOrder F dt).port p).from_ c).lambda_p rho =
        secondOrderLambda F (((blk.port p).from_ c).pole rho)
          (((blk.port p).from_ c).residue rho) dt ∧
      (((blk.setSecondOrder F dt).port p).from_ c).mu_p rho =
        secondOrderMu F (((blk.port p).from_ c).pole rho)
          (((blk.port p).from_ c).residue rho) dt ∧
      (((blk.setSecondOrder F dt).port p).from_ c).nu_p rho =
        secondOrderNu F (((blk.port p).from_ c).pole rho)
          (((blk.port p).from_ c).residue rho) dt) ∧
    (∀ (sol : Matrix K) (m sizeG_A : Nat) (A : K),
      blk.awave_p sqrt c sol m sizeG_A = A → blk.awave_p sqrt c sol (m - 1) sizeG_A = A →
      blk.awave_p sqrt c sol (m - 2) sizeG_A = A →
      ((blk.port p).from_ c).x rho =
        -(((blk.port p).from_ c).residue rho / ((blk.port p).from_ c).pole rho) *
          StdComplex.ofReal A →
      ((blk.port p).from_ c).exp_alpha rho =
        StdComplex.exp F (((blk.port p).from_ c).pole rho * StdComplex.ofReal dt) →
      ((((blk.setFirstOrder F dt).updateStoredState sqrt F sol m dt sizeG_A).port p).from_
          c).x rho =
        -(((blk.port p).from_ c).residue rho / ((blk.port p).from_ c).pole rho) *
          StdComplex.ofReal A ∧
      ((((blk.setSecondOrder F dt).updateStoredState sqrt F sol m dt sizeG_A).port p).from_
          c).x rho =
        -(((blk.port p).from_ c).residue rho / ((blk.port p).from_ c).pole rho) *
          StdComplex.ofReal A) ∧
    (StdComplex.exp F (((blk.port p).from_ c).pole rho * StdComplex.ofReal dt) ≠ 1 →
      -((((blk.setFirstOrder F dt).port p).from_ c).lambda_p rho +
          (((blk.setFirstOrder F dt).port p).from_ c).mu_p rho) /
        (StdComplex.exp F (((blk.port p).from_ c).pole rho * StdComplex.ofReal dt) -
          StdComplex.ofReal 1) =
      -(((blk.port p).from_ c).residue rho / ((blk.port p).from_ c).pole rho)) := by
  have hs1 := firstOrder_sum F (((blk.port p).from_ c).pole rho)
    (((blk.port p).from_ c).residue rho) dt
  have hs2 := secondOrder_sum F (((blk.port p).from_ c).pole rho)
    (((blk.port p).from_ c).residue rho) dt
  obtain ⟨e1, e2⟩ := setOrder_froms F dt blk p c hp hc
  obtain ⟨f1, f2, f3, f4, f5, f6⟩ := firstOrderFrom_spec F dt ((blk.port p).from_ c)
  obtain ⟨s1, s2, s3, s4, s5, s6⟩ := secondOrderFrom_spec F dt ((blk.port p).from_ c)
  obtain ⟨w1, w2, w3⟩ := f6 rho hrho
  obtain ⟨v1, v2, v3⟩ := s6 rho hrho
  have hshape1 : (blk.setFirstOrder F dt).numPorts = blk.numPorts ∧
      (blk.setFirstOrder F dt).firstOrder = true ∧
      ∀ sol k sz, (blk.setFirstOrder F dt).awave_p sqrt c sol k sz =
        blk.awave_p sqrt c sol k sz := by
    obtain ⟨ps1, h1⟩ := setFirstOrder_shape F dt blk
    rw [h1]
    exact ⟨rfl, rfl, fun _ _ _ => rfl⟩
  have hshape2 : (blk.setSecondOrder F dt).numPorts = blk.numPorts ∧
      (blk.setSecondOrder F dt).firstOrder = false ∧
      ∀ sol k sz, (blk.setSecondOrder F dt).awave_p sqrt c sol k sz =
        blk.awave_p sqrt c sol k sz := by
    obtain ⟨ps2, h2⟩ := setSecondOrder_shape F dt blk
    rw [h2]
    exact ⟨rfl, rfl, fun _ _ _ => rfl⟩
  refine ⟨hs1, hs2, ?_, ?_, ?_, ?_⟩
  · rw [e1]
    exact ⟨w1, w2, w3⟩
  · rw [e2]
    exact ⟨v1, v2, v3⟩
  · intro sol m sizeG_A A a0 a1 a2 hx hea
    constructor
    · rw [updateStoredState_x sqrt F (blk.setFirstOrder F dt) sol m dt sizeG_A p c rho
        (by rw [hshape1.1]; exact hp) (by rw [hshape1.1]; exact hc)
        (by rw [e1, f1]; exact hrho)]
      rw [if_pos hshape1.2.1, hshape1.2.2, hshape1.2.2, a0, a1, e1, f5, f4, w1, w2, hx, hea]
      linear_combination (StdComplex.ofReal A) * hs1
    · rw [updateStoredState_x sqrt F (blk.setSecondOrder F dt) sol m dt sizeG_A p c rho
        (by rw [hshape2.1]; exact hp) (by rw [hshape2.1]; exact hc)
        (by rw [e2, s1]; exact hrho)]
      have hnot : ¬ (blk.setSecondOrder F dt).firstOrder = true := by
        rw [hshape2.2.1]
        exact Bool.false_ne_true
      rw [if_neg hnot, hshape2.2.2, hshape2.2.2, hshape2.2.2, a0, a1, a2, e2, s5, s4, v1, v2,
        v3, hx, hea]
      linear_combination (StdComplex.ofReal A) * hs2
  · intro hne
    rw [e1, w1, w2, hs1, StdComplex.ofReal_one]
    have hne' : StdComplex.exp F (((blk.port p).from_ c).pole rho * StdComplex.ofReal dt) -
        1 ≠ 0 := sub_ne_zero.mpr hne
    field_simp
    ring

theorem vf_dc_gain_witness :
    (0 < exampleVF.numPorts ∧ 0 < ((exampleVF.port 0).from_ 0).numPoles ∧
      ((exampleVF.port 0).from_ 0).pole 0 ≠ 0 ∧
      ((exampleVF.port 0).from_ 0).pole 0 * StdComplex.ofReal 1 ≠ 0) ∧
    (firstOrderLambda (CMath.mk id id id id id id id id (fun x _ => x))
          (((exampleVF.port 0).from_ 0).pole 0) (((exampleVF.port 0).from_ 0).residue 0) 1 +
        firstOrderMu (CMath.mk id id id id id id id id (fun x _ => x))
          (((exampleVF.port 0).from_ 0).pole 0) (((exampleVF.port 0).from_ 0).residue 0) 1 =
      -(((exampleVF.port 0).from_ 0).residue 0 / ((exampleVF.port 0).from_ 0).pole 0) *
        (1 - StdComplex.exp (CMath.mk id id id id id id id id (fun x _ => x))
          (((exampleVF.port 0).from_ 0).pole 0 * StdComplex.ofReal 1))) := by
  have hpole : ((exampleVF.port 0).from_ 0).pole 0 ≠ 0 := by
    intro h
    have h2 : (-1 : ℚ) = 0 := congrArg StdComplex.re h
    norm_num at h2
  have ha : ((exampleVF.port 0).from_ 0).pole 0 * StdComplex.ofReal 1 ≠ 0 := by
    intro h
    have h2 : (-1 : ℚ) * 1 - 0 * 0 = 0 := congrArg StdComplex.re h
    norm_num at h2
  exact ⟨⟨Nat.one_pos, Nat.one_pos, hpole, ha⟩,
    (vf_dc_gain id (CMath.mk id id id id id id id id (fun x _ => x)) exampleVF 1 0 0 0
      Nat.one_pos Nat.one_pos Nat.one_pos hpole ha).1⟩

end SParameterBlockVF

end CircuitSim
